import Mathlib

/-!
# A shallow embedding of `boxnet.c` (broadphase 2D collision detection)

The C heap is modelled by a list of box cells (`none` = freed), a pointer to a
`Box` is the index of its cell and a pointer to a `Junction` is a `JRef`
(owning box + slot: slots `0..3` are `rayend[0..3]`, slot `4` is `jnc`).
`double` coordinates are rationals.  Every `while` loop takes a fuel argument;
every C `assert`, null dereference and out-of-range array index is an explicit
failure of the state monad `M`, which keeps the state reached at the failure.
-/

set_option linter.unusedTactic false
set_option linter.unreachableTactic false
set_option linter.unusedVariables false

namespace Boxnet

/-! ## Data model (`boxnet.h`) -/

/-- Pointer to a `Junction`: the box that owns it and its slot in the box
(`0..3` = `rayend[slot]`, `4` = `jnc`). -/
structure JRef where
  box : Nat
  slot : Nat
deriving DecidableEq, Repr

/-- A C array of length four. -/
structure Quad (α : Type) where
  e0 : α
  e1 : α
  e2 : α
  e3 : α
deriving DecidableEq, Repr

/-- Read `q[i]`; `none` when `i` is out of range. -/
def Quad.get {α : Type} (q : Quad α) (i : Nat) : Option α :=
  match i with
  | 0 => some q.e0
  | 1 => some q.e1
  | 2 => some q.e2
  | 3 => some q.e3
  | _ => none

/-- Write `q[i] = v` (no change when `i` is out of range; callers check the range). -/
def Quad.set {α : Type} (q : Quad α) (i : Nat) (v : α) : Quad α :=
  match i with
  | 0 => { q with e0 := v }
  | 1 => { q with e1 := v }
  | 2 => { q with e2 := v }
  | 3 => { q with e3 := v }
  | _ => q

/-- The C `struct Junction`. -/
structure Junction where
  nb : Quad (Option JRef)
  pos0 : Option Nat
  pos1 : Option Nat
  dir : Nat
  beamdir : Nat
  enqueued : Nat
deriving DecidableEq, Repr

/-- The C `struct Box`. -/
structure Box where
  jnc : Junction
  rayend : Quad Junction
  posx : ℚ
  posy : ℚ
  right : ℚ
  top : ℚ
  usrdata : Nat
  marked : Option Nat
deriving DecidableEq

/-- The C `struct Connection` (an entry of a repair queue). -/
structure Connection where
  jnc : JRef
  tdir : Nat
deriving DecidableEq, Repr

/-- One invocation of the collision callback: the two boxes and the user data
pointers handed to `func`. -/
structure Call where
  box : Nat
  other : Nat
  obj1 : Nat
  obj2 : Nat
deriving DecidableEq, Repr

/-- Which of the two static repair queues a `RepairQueue*` points to. -/
inductive QId where
  | q1
  | q2
deriving DecidableEq, Repr

/-- Program state: the heap of boxes, the container `net->boxes[0..boxes_size)`,
the two static repair queues of `Boxnet_repair` (as stacks, last appended entry
first) and the log of callback invocations (most recent first). -/
structure St where
  heap : List (Option Box)
  boxes : List Nat
  queue1 : List Connection
  queue2 : List Connection
  calls : List Call
deriving DecidableEq

/-- Ways a run can fail. -/
inductive Err where
  | assertion
  | nullDeref
  | badIndex
  | freed
  | fuel
deriving DecidableEq, Repr

/-- Outcome of a computation: a value or a failure, with the state reached. -/
inductive Res (α : Type) where
  | ok : α → St → Res α
  | err : Err → St → Res α
deriving DecidableEq

/-- The state reached by a run, whether it succeeded or failed. -/
def Res.state {α : Type} : Res α → St
  | .ok _ s => s
  | .err _ s => s

/-- The value returned by a run, if it succeeded. -/
def Res.val? {α : Type} : Res α → Option α
  | .ok a _ => some a
  | .err _ _ => none

/-- The failure of a run, if it failed. -/
def Res.err? {α : Type} : Res α → Option Err
  | .ok _ _ => none
  | .err e _ => some e

/-- State-and-failure monad of the embedding. -/
def M (α : Type) : Type := St → Res α

/-- Return a value. -/
def M.pure {α : Type} (a : α) : M α := fun s => .ok a s

/-- Sequencing: a failure stops the run. -/
def M.bind {α β : Type} (m : M α) (f : α → M β) : M β := fun s =>
  match m s with
  | .ok a s1 => f a s1
  | .err e s1 => .err e s1

instance : Monad M where
  pure := M.pure
  bind := M.bind

/-- Abort the run. -/
def fail {α : Type} (e : Err) : M α := fun s => .err e s

/-- The C `assert`. -/
def assert (c : Bool) : M Unit := fun s => if c then .ok () s else .err .assertion s

/-- Dereference a junction pointer that may be `NULL`. -/
def nonNull {α : Type} (o : Option α) : M α := fun s =>
  match o with
  | some a => .ok a s
  | none => .err .nullDeref s

/-- An array read that must be in range. -/
def inRange {α : Type} (o : Option α) : M α := fun s =>
  match o with
  | some a => .ok a s
  | none => .err .badIndex s

/-! ## Heap access -/

/-- Read `*p` for a box pointer. -/
def getBox (p : Nat) : M Box := fun s =>
  match s.heap[p]? with
  | some (some b) => .ok b s
  | _ => .err .freed s

/-- Overwrite `*p` for a live box pointer. -/
def setBox (p : Nat) (b : Box) : M Unit := fun s =>
  match s.heap[p]? with
  | some (some _) => .ok () { s with heap := s.heap.set p (some b) }
  | _ => .err .freed s

/-- The junction of a box stored in a slot. -/
def Box.getJ (b : Box) (slot : Nat) : Option Junction :=
  if slot = 4 then some b.jnc else b.rayend.get slot

/-- Store a junction in a slot of a box. -/
def Box.setJ (b : Box) (slot : Nat) (j : Junction) : Box :=
  if slot = 4 then { b with jnc := j } else { b with rayend := b.rayend.set slot j }

/-- Read `*r` for a junction pointer. -/
def getJ (r : JRef) : M Junction := do
  let b ← getBox r.box
  inRange (b.getJ r.slot)

/-- Update `*r` for a junction pointer. -/
def modJ (r : JRef) (f : Junction → Junction) : M Unit := do
  let b ← getBox r.box
  let j ← inRange (b.getJ r.slot)
  setBox r.box (b.setJ r.slot (f j))

/-- The pointer `&box->jnc`. -/
def jncRef (box : Nat) : JRef := ⟨box, 4⟩

/-- The pointer `&p->rayend[k]` for a box pointer `p` read from a `pos[]` field. -/
def rayendRef (p : Option Nat) (k : Nat) : M JRef := do
  let b ← nonNull p
  if k < 4 then pure ⟨b, k⟩ else fail .badIndex

/-- Read `r->nb[d]`. -/
def nbOf (r : JRef) (d : Nat) : M (Option JRef) := do
  let j ← getJ r
  inRange (j.nb.get d)

/-- Read `r->dir`. -/
def dirOf (r : JRef) : M Nat := do
  let j ← getJ r
  pure j.dir

/-- Read `r->beamdir`. -/
def beamOf (r : JRef) : M Nat := do
  let j ← getJ r
  pure j.beamdir

/-- Read `r->pos[i]`. -/
def posOf (r : JRef) (i : Nat) : M (Option Nat) := do
  let j ← getJ r
  if i = 0 then pure j.pos0 else if i = 1 then pure j.pos1 else fail .badIndex

/-- Write `r->nb[d] = v`. -/
def setNb (r : JRef) (d : Nat) (v : Option JRef) : M Unit := do
  if d < 4 then modJ r (fun j => { j with nb := j.nb.set d v }) else fail .badIndex

/-- Write `r->dir = v`. -/
def setDir (r : JRef) (v : Nat) : M Unit :=
  modJ r (fun j => { j with dir := v })

/-- Write `r->beamdir = v`. -/
def setBeam (r : JRef) (v : Nat) : M Unit :=
  modJ r (fun j => { j with beamdir := v })

/-- Write `r->pos[i] = v`. -/
def setPos (r : JRef) (i : Nat) (v : Option Nat) : M Unit := do
  if i = 0 then modJ r (fun j => { j with pos0 := v })
  else if i = 1 then modJ r (fun j => { j with pos1 := v })
  else fail .badIndex

/-- Read `r->pos[0]->posx`. -/
def xOf (r : JRef) : M ℚ := do
  let p ← nonNull (← posOf r 0)
  let b ← getBox p
  pure b.posx

/-- Read `r->pos[1]->posy`. -/
def yOf (r : JRef) : M ℚ := do
  let p ← nonNull (← posOf r 1)
  let b ← getBox p
  pure b.posy

/-- Read the container `net->boxes[0..boxes_size)`. -/
def getBoxes : M (List Nat) := fun s => .ok s.boxes s

/-- Replace the container contents. -/
def setBoxes (bs : List Nat) : M Unit := fun s => .ok () { s with boxes := bs }

/-- Run a loop body for each element of a list, in order. -/
def forEach {α : Type} : List α → (α → M Unit) → M Unit
  | [], _ => pure ()
  | a :: as, body => do
    body a
    forEach as body

/-! ## `Box_new`, `RepairQueue_append`, `Boxnet_new` -/

/-- A junction as `malloc` leaves it (pointers null, numbers zero). -/
def Junction.blank : Junction :=
  { nb := ⟨none, none, none, none⟩, pos0 := none, pos1 := none,
    dir := 0, beamdir := 0, enqueued := 0 }

/-- The ray-end `rayend[d]` as `Box_new` initialises it for the box at address `p`. -/
def Box_new.rayend (p d : Nat) : Junction :=
  if d % 2 = 0 then { Junction.blank with pos0 := some p, enqueued := 0, dir := 5 }
  else { Junction.blank with pos1 := some p, enqueued := 0, dir := 5 }

/-- The C `Box_new`: allocate a box cell; returns its address. -/
def Box_new : M Nat := fun s =>
  let p := s.heap.length
  let b : Box :=
    { jnc := { Junction.blank with dir := 4, pos0 := some p, pos1 := some p, enqueued := 0 }
      rayend := ⟨Box_new.rayend p 0, Box_new.rayend p 1, Box_new.rayend p 2, Box_new.rayend p 3⟩
      posx := 0, posy := 0, right := 0, top := 0, usrdata := 0, marked := none }
  .ok p { s with heap := s.heap ++ [some b] }

/-- The C `free(box)`. -/
def freeBox (p : Nat) : M Unit := fun s =>
  match s.heap[p]? with
  | some (some _) => .ok () { s with heap := s.heap.set p none }
  | _ => .err .freed s

/-- The C `vector_append` on one of the two repair queues. -/
def pushQ (q : QId) (c : Connection) : M Unit := fun s =>
  match q with
  | .q1 => .ok () { s with queue1 := c :: s.queue1 }
  | .q2 => .ok () { s with queue2 := c :: s.queue2 }

/-- The C `RepairQueue_append`. -/
def RepairQueue_append (jnc : JRef) (tdir : Nat) (q : QId) : M Unit := do
  let j ← getJ jnc
  if (j.enqueued &&& (1 <<< tdir)) = 0 then
    pushQ q ⟨jnc, tdir⟩
    modJ jnc (fun j => { j with enqueued := (j.enqueued ^^^ (1 <<< tdir)) % 256 })
  else pure ()

/-- The statement `if(queue!=NULL) RepairQueue_append(next->nb[next->beamdir^2],
next->beamdir, queue)` of `Junction_flipone`. -/
def appendIf (next : JRef) (queue : Option QId) : M Unit :=
  match queue with
  | none => pure ()
  | some q => do
    let r ← nonNull (← nbOf next ((← beamOf next) ^^^ 2))
    RepairQueue_append r (← beamOf next) q

/-- The C `Boxnet_new`: the empty container (and nothing allocated). -/
def Boxnet_new : St :=
  { heap := [], boxes := [], queue1 := [], queue2 := [], calls := [] }

/-! ## `Junction_insert` -/

/-- The nested procedure `insert()` of `Junction_insert`. -/
def Junction_insert.insert (jnc cur : JRef) (curdir cwccw : Nat) (next : Option JRef) :
    M Unit := do
  let newjnc ← rayendRef (← posOf jnc 0) ((curdir + cwccw) % 4)
  setDir newjnc ((curdir + cwccw) % 4)
  let cdir ← dirOf cur
  (if cdir = 4 then setBeam newjnc curdir
   else if curdir = cdir then setBeam newjnc (curdir ^^^ 2)
   else do setBeam newjnc (← beamOf cur))
  (if curdir % 2 = 0 then do setPos newjnc 0 (← posOf cur 0)
   else do setPos newjnc 1 (← posOf cur 1))
  setNb newjnc (curdir ^^^ 2) (some cur)
  setNb cur curdir (some newjnc)
  setNb newjnc curdir next
  (match next with
   | some nx => setNb nx (curdir ^^^ 2) (some newjnc)
   | none => pure ())
  setNb newjnc ((curdir + cwccw) % 4) (some jnc)
  setNb jnc ((curdir + cwccw + 2) % 4) (some newjnc)

/-- The loop `while(inserted!=4)` of `Junction_insert`; returns `inserted`. -/
def Junction_insert.loop : Nat → JRef → JRef → Nat → Nat → Nat → M Nat
  | 0, _, _, _, _, _ => fail .fuel
  | fuel + 1, jnc, cur, curdir, cwccw, inserted => do
    if inserted = 4 then pure inserted
    else
      let next ← nbOf cur curdir
      match next with
      | none =>
        Junction_insert.insert jnc cur curdir cwccw next
        pure (inserted + 1)
      | some nx =>
        let ndir ← dirOf nx
        if (curdir + cwccw + 2) % 4 ≠ ndir then
          Junction_insert.insert jnc cur curdir cwccw next
          Junction_insert.loop fuel jnc nx ((curdir + cwccw) % 4) cwccw (inserted + 1)
        else
          Junction_insert.loop fuel jnc nx curdir cwccw inserted

/-- The C `Junction_insert`; returns the final value of `inserted`. -/
def Junction_insert (fuel : Nat) (jnc start : JRef) : M Nat := do
  assert ((← dirOf jnc) = 4)
  assert ((← posOf jnc 0) = (← posOf jnc 1))
  let sdir ← dirOf start
  assert (sdir ≤ 4)
  setNb jnc 0 none
  setNb jnc 1 none
  setNb jnc 2 none
  setNb jnc 3 none
  let initdir := if sdir = 4 then 0 else sdir
  let inserted ← Junction_insert.loop fuel jnc start initdir 1 0
  Junction_insert.loop fuel jnc start ((initdir + 1) % 4) 3 inserted

/-! ## `detach`, `Junction_flip`, `Junction_flipone` -/

/-- The C `detach`. -/
def detach (jnc : JRef) : M Unit := do
  assert ((← dirOf jnc) < 4)
  let next ← nbOf jnc (← beamOf jnc)
  let prev ← nbOf jnc ((← beamOf jnc) ^^^ 2)
  let pv ← nonNull prev
  setNb pv (← beamOf jnc) next
  (match next with
   | some nx => do setNb nx ((← beamOf jnc) ^^^ 2) prev
   | none => pure ())
  setDir jnc 5

/-- First loop of `Junction_flipone`: `while(cur->dir==(flipped->beamdir^2))
cur = cur->nb[flipped->dir]`. -/
def Junction_flipone.back : Nat → JRef → Nat → Nat → M JRef
  | 0, _, _, _ => fail .fuel
  | fuel + 1, cur, fdir, fbeam => do
    if (← dirOf cur) = (fbeam ^^^ 2) then
      let nx ← nonNull (← nbOf cur fdir)
      Junction_flipone.back fuel nx fdir fbeam
    else pure cur

/-- Second loop of `Junction_flipone`: `do { cur = cur->nb[flipped->beamdir]; if(cur==NULL)
... } while(cur->dir == flipped->dir)`; `none` when the walk ran off the net. -/
def Junction_flipone.side : Nat → JRef → Nat → Nat → M (Option JRef)
  | 0, _, _, _ => fail .fuel
  | fuel + 1, cur, fdir, fbeam => do
    match (← nbOf cur fbeam) with
    | none => pure none
    | some c =>
      if (← dirOf c) = fdir then Junction_flipone.side fuel c fdir fbeam
      else pure (some c)

/-- The `break` tests inside the third loop of `Junction_flipone`. -/
def Junction_flipone.stop (flipped next : JRef) (fdir : Nat) : M Bool := do
  if fdir = 0 then pure (decide ((← yOf flipped) > (← yOf next)))
  else if fdir = 1 then pure (decide ((← xOf flipped) < (← xOf next)))
  else if fdir = 2 then pure (decide ((← yOf flipped) < (← yOf next)))
  else if fdir = 3 then pure (decide ((← xOf flipped) > (← xOf next)))
  else pure false

/-- Third loop of `Junction_flipone`: `while(next != NULL && next->dir == flipped->beamdir)`;
returns the final `(cur, next)`. -/
def Junction_flipone.find : Nat → JRef → JRef → Option JRef → Nat → Nat →
    M (JRef × Option JRef)
  | 0, _, _, _, _, _ => fail .fuel
  | fuel + 1, flipped, cur, next, fdir, fbeam => do
    match next with
    | none => pure (cur, next)
    | some nx =>
      if (← dirOf nx) = fbeam then
        if (← Junction_flipone.stop flipped nx fdir) then pure (cur, next)
        else
          let next2 ← nbOf nx (fdir ^^^ 2)
          Junction_flipone.find fuel flipped nx next2 fdir fbeam
      else pure (cur, next)

/-- The C `Junction_flipone`. -/
def Junction_flipone (fuel : Nat) (jnc : JRef) (queue : Option QId) : M JRef := do
  let next ← nbOf jnc (← beamOf jnc)
  (match next with
   | some nx => do
     appendIf nx queue
     detach nx
   | none => pure ())
  -- flip
  let flipped ←
    if (← dirOf jnc) % 2 = 0 then do
      let flipped ← rayendRef (← posOf jnc 1) ((← beamOf jnc) ^^^ 2)
      assert ((← posOf flipped 1) = (← posOf jnc 1))
      setPos flipped 0 (← posOf jnc 0)
      pure flipped
    else do
      let flipped ← rayendRef (← posOf jnc 0) ((← beamOf jnc) ^^^ 2)
      assert ((← posOf flipped 0) = (← posOf jnc 0))
      setPos flipped 1 (← posOf jnc 1)
      pure flipped
  setDir flipped ((← beamOf jnc) ^^^ 2)
  setBeam flipped ((← dirOf jnc) ^^^ 2)
  setNb flipped (← dirOf flipped) (← nbOf jnc (← dirOf flipped))
  let a ← nonNull (← nbOf jnc (← dirOf flipped))
  setNb a ((← dirOf flipped) ^^^ 2) (some flipped)
  setNb flipped (← dirOf jnc) (← nbOf jnc (← dirOf jnc))
  let b ← nonNull (← nbOf jnc (← dirOf jnc))
  setNb b (← beamOf flipped) (some flipped)
  setDir jnc 5
  -- reconnect loose end
  let fdir ← dirOf flipped
  let fbeam ← beamOf flipped
  let cur0 ← nonNull (← nbOf flipped fdir)
  let cur1 ← Junction_flipone.back fuel cur0 fdir fbeam
  -- search in direction of new beamdir
  match (← Junction_flipone.side fuel cur1 fdir fbeam) with
  | none =>
    setNb flipped fbeam none
    pure flipped
  | some cur2 =>
    -- find new Junction
    let next0 ← nbOf cur2 (fdir ^^^ 2)
    let (cur, next) ← Junction_flipone.find fuel flipped cur2 next0 fdir fbeam
    -- insert new intersection and connect it
    let newjnc ←
      if fbeam % 2 = 0 then do
        let newjnc ← rayendRef (← posOf flipped 0) (fbeam ^^^ 2)
        assert ((← posOf newjnc 0) = (← posOf flipped 0))
        setPos newjnc 1 (← posOf cur 1)
        pure newjnc
      else do
        let newjnc ← rayendRef (← posOf flipped 1) (fbeam ^^^ 2)
        assert ((← posOf newjnc 1) = (← posOf flipped 1))
        setPos newjnc 0 (← posOf cur 0)
        pure newjnc
    setDir newjnc ((← beamOf flipped) ^^^ 2)
    let cdir ← dirOf cur
    (if cdir = 4 then do setBeam newjnc ((← dirOf flipped) ^^^ 2)
     else do
       if cdir = ((← dirOf flipped) ^^^ 2) then setBeam newjnc (← dirOf flipped)
       else setBeam newjnc (← beamOf cur))
    setNb newjnc ((← beamOf flipped) ^^^ 2) (some flipped)
    setNb flipped (← beamOf flipped) (some newjnc)
    setNb newjnc ((← dirOf flipped) ^^^ 2) next
    (match next with
     | some nx => do setNb nx (← dirOf flipped) (some newjnc)
     | none => pure ())
    setNb newjnc (← dirOf flipped) (some cur)
    setNb cur ((← dirOf flipped) ^^^ 2) (some newjnc)
    (match queue with
     | some q => do
       RepairQueue_append newjnc (← beamOf newjnc) q
       RepairQueue_append flipped (← beamOf flipped) q
       let c ← nonNull (← nbOf newjnc ((← beamOf newjnc) ^^^ 2))
       RepairQueue_append c (← beamOf newjnc) q
     | none => pure ())
    pure flipped

/-- First loop of `Junction_flip`: walk along `jnc->beamdir` to the last junction
before the end of the crossing ray. -/
def Junction_flip.seek : Nat → JRef → JRef → M JRef
  | 0, _, _ => fail .fuel
  | fuel + 1, jnc, cur => do
    match (← nbOf cur (← beamOf jnc)) with
    | none => pure cur
    | some nx =>
      if (← dirOf nx) ≠ ((← beamOf jnc) ^^^ 2) then Junction_flip.seek fuel jnc nx
      else pure cur

/-- Second loop of `Junction_flip`: flip the junctions on the way back to `jnc`. -/
def Junction_flip.unwind : Nat → Nat → JRef → Option JRef → Option QId → M JRef
  | 0, _, _, _, _ => fail .fuel
  | fuel + 1, f, jnc, cur, queue => do
    if cur = some jnc then Junction_flipone f jnc queue
    else
      let c ← nonNull cur
      let c2 ← Junction_flipone f c queue
      let cur2 ← nbOf c2 ((← beamOf jnc) ^^^ 2)
      Junction_flip.unwind fuel f jnc cur2 queue

/-- The C `Junction_flip`. -/
def Junction_flip (fuel : Nat) (jnc : JRef) (queue : Option QId) : M JRef := do
  let cur ← Junction_flip.seek fuel jnc jnc
  Junction_flip.unwind fuel fuel jnc (some cur) queue

/-! ## `needsflip`, `reconnect_linear`, `Junction_slide`, `Junction_slide_T` -/

/-- The C `needsflip`. -/
def needsflip (jnc : JRef) (d : Nat) : M Bool := do
  let nb ← nonNull (← nbOf jnc d)
  let nbpos ← if (d + 1) % 2 ≠ 0 then yOf nb else xOf nb
  let jncpos ← if (d + 1) % 2 ≠ 0 then yOf jnc else xOf jnc
  -- needed for some reason to avoid wrong conclusions
  if nbpos = jncpos then pure false
  else pure (decide ((if nbpos < jncpos then 1 else 0) ≠ ((d + 1) % 4) / 2))

/-- The C `reconnect_linear`. -/
def reconnect_linear (start next : JRef) (d : Nat) : M Unit := do
  setNb start d (← nbOf next d)
  let a ← nbOf next d
  (match a with
   | some n => setNb n (d ^^^ 2) (some start)
   | none => pure ())
  setNb next (d ^^^ 2) (← nbOf start (d ^^^ 2))
  let b ← nbOf start (d ^^^ 2)
  (match b with
   | some n => setNb n d (some next)
   | none => pure ())
  setNb start (d ^^^ 2) (some next)
  setNb next d (some start)

/-- The loop `while(next->dir==(tdir^2)) next = next->nb[ndir]` of `Junction_slide`. -/
def Junction_slide.walk : Nat → JRef → Nat → Nat → M JRef
  | 0, _, _, _ => fail .fuel
  | fuel + 1, next, tdir, ndir => do
    if (← dirOf next) = (tdir ^^^ 2) then
      let nx ← nonNull (← nbOf next ndir)
      Junction_slide.walk fuel nx tdir ndir
    else pure next

/-- The C `Junction_slide`. -/
def Junction_slide (fuel : Nat) (jnc : JRef) (tdir : Nat) (queue : QId) : M Unit := do
  assert ((← dirOf jnc) = 4)
  assert (← needsflip jnc tdir)
  let bar0 ← nonNull (← nbOf jnc tdir)
  let bar ← if (← dirOf bar0) = (tdir ^^^ 2) then Junction_flip fuel bar0 (some queue)
    else pure bar0
  let ndir ← dirOf bar
  let next0 ← nonNull (← nbOf jnc ndir)
  -- Note: next can not be NULL
  let next1 ← if (← dirOf next0) ≠ (ndir ^^^ 2) then Junction_flip fuel next0 (some queue)
    else pure next0
  -- remove ray
  let pv ← nonNull (← nbOf next1 ((← beamOf next1) ^^^ 2))
  RepairQueue_append pv (← beamOf next1) queue
  detach next1
  -- swap isc and bar
  reconnect_linear jnc bar tdir
  setBeam bar (tdir ^^^ 2)
  -- append to queue...
  RepairQueue_append jnc tdir queue
  RepairQueue_append bar (tdir ^^^ 2) queue
  -- reinsert ray
  let next2 ← nonNull (← nbOf bar ndir)
  let next ← Junction_slide.walk fuel next2 tdir ndir
  let newjnc ← rayendRef (← posOf jnc 0) (ndir ^^^ 2)
  let nxdir ← dirOf next
  (if nxdir = 4 then setBeam newjnc tdir
   else if nxdir = tdir then setBeam newjnc (tdir ^^^ 2)
   else do setBeam newjnc (← beamOf next))
  (if tdir % 2 = 0 then do
     assert ((← posOf newjnc 1) = (← posOf jnc 1))
     setPos newjnc 0 (← posOf next 0)
   else do
     assert ((← posOf newjnc 0) = (← posOf jnc 0))
     setPos newjnc 1 (← posOf next 1))
  setDir newjnc (ndir ^^^ 2)
  -- set neighbors
  setNb newjnc (ndir ^^^ 2) (some jnc)
  setNb jnc ndir (some newjnc)
  setNb newjnc tdir (← nbOf next tdir)
  let a ← nbOf newjnc tdir
  (match a with
   | some n => setNb n (tdir ^^^ 2) (some newjnc)
   | none => pure ())
  setNb newjnc (tdir ^^^ 2) (some next)
  setNb next tdir (some newjnc)
  -- append new connections to queue
  RepairQueue_append newjnc (← beamOf newjnc) queue
  let c ← nonNull (← nbOf newjnc ((← beamOf newjnc) ^^^ 2))
  RepairQueue_append c (← beamOf newjnc) queue
  RepairQueue_append jnc ndir queue

/-- The C `Junction_slide_T`. -/
def Junction_slide_T (fuel : Nat) (jnc : JRef) (queue : QId) : M Unit := do
  assert ((← dirOf jnc) < 4)
  assert (← needsflip jnc (← beamOf jnc))
  let next0 ← nonNull (← nbOf jnc (← beamOf jnc))
  if (← dirOf next0) = (← dirOf jnc) || (← beamOf next0) = ((← dirOf jnc) ^^^ 2) then
    pure ()
  else
    let next ← if (← beamOf jnc) ≠ (← beamOf next0) then Junction_flip fuel next0 (some queue)
      else pure next0
    assert ((← beamOf jnc) = (← beamOf next))
    assert ((← dirOf jnc) = ((← dirOf next) ^^^ 2))
    reconnect_linear jnc next (← beamOf jnc)
    -- append to queue
    RepairQueue_append jnc (← beamOf jnc) queue
    match (← nbOf next ((← beamOf jnc) ^^^ 2)) with
    | some n => RepairQueue_append n (← beamOf jnc) queue
    | none => pure ()

/-! ## `Box_free`, `Boxnet_addbox`, `Boxnet_delbox`, `Boxnet_delbox_byusrdata` -/

/-- First loop body of `Box_free`. -/
def Box_free.unlink (fuel : Nat) (box : Nat) (d : Nat) : M Unit := do
  match (← nbOf (jncRef box) d) with
  | some jnc =>
    if (← dirOf jnc) ≠ (d ^^^ 2) then
      let _ ← Junction_flip fuel jnc none
      pure ()
    else pure ()
  | none => pure ()

/-- Second loop body of `Box_free`. -/
def Box_free.drop (box : Nat) (d : Nat) : M Unit := do
  if (← dirOf ⟨box, d⟩) ≠ 5 then detach ⟨box, d⟩ else pure ()

/-- The C `Box_free`. -/
def Box_free (fuel : Nat) (box : Nat) : M Unit := do
  -- disconnect the associated junction from the net
  forEach [0, 1, 2, 3] (Box_free.unlink fuel box)
  forEach [0, 1, 2, 3] (Box_free.drop box)
  freeBox box

/-- Update the scalar fields of a box. -/
def modBox (p : Nat) (f : Box → Box) : M Unit := do
  let b ← getBox p
  setBox p (f b)

/-- The C `Boxnet_addbox`; returns the address of the new box. -/
def Boxnet_addbox (fuel : Nat) (x y right top : ℚ) (near : Option Nat) (usrdata : Nat) :
    M Nat := do
  let new ← Box_new
  modBox new (fun b => { b with usrdata := usrdata })
  assert (decide (right ≥ x) && decide (top ≥ y))
  modBox new (fun b => { b with posx := x, posy := y })
  modBox new (fun b => { b with right := right, top := top })
  let bs ← getBoxes
  let near := if near = none ∧ bs.length ≠ 0 then bs.head? else near
  (match near with
   | some nr => do
     let _ ← Junction_insert fuel (jncRef new) (jncRef nr)
     pure ()
   | none =>
     forEach [0, 1, 2, 3] (fun d => setNb (jncRef new) d none))
  setBoxes ((← getBoxes) ++ [new])
  pure new

/-- The slot update of the deletion routines: `boxes_size--; boxes[n] = boxes[boxes_size]`. -/
def swapRemove (bs : List Nat) (n : Nat) : List Nat :=
  match bs.getLast? with
  | some l => (bs.set n l).dropLast
  | none => bs

/-- The C `Boxnet_delbox`. -/
def Boxnet_delbox (fuel : Nat) (box : Nat) : M Unit := do
  let bs ← getBoxes
  match bs.findIdx? (fun b => b = box) with
  | some n =>
    Box_free fuel box
    setBoxes (swapRemove (← getBoxes) n)
  | none => assert false

/-- The search loop of `Boxnet_delbox_byusrdata`: the first index `n` with
`boxes[n]->usrdata == usrdata`, reading every box on the way. -/
def Boxnet_delbox_byusrdata.search (usrdata : Nat) : List Nat → Nat → M (Option Nat)
  | [], _ => pure none
  | p :: ps, n => do
    let b ← getBox p
    if b.usrdata = usrdata then pure (some n)
    else Boxnet_delbox_byusrdata.search usrdata ps (n + 1)

/-- The C `Boxnet_delbox_byusrdata`. -/
def Boxnet_delbox_byusrdata (fuel : Nat) (usrdata : Nat) : M Unit := do
  let bs ← getBoxes
  match (← Boxnet_delbox_byusrdata.search usrdata bs 0) with
  | some n =>
    let p ← inRange bs[n]?
    Box_free fuel p
    setBoxes (swapRemove (← getBoxes) n)
  | none => assert false

/-! ## `Boxnet_repair` -/

/-- The nested procedure `solve_conn` of `Boxnet_repair`. -/
def solve_conn (fuel : Nat) (jnc : JRef) (tdir : Nat) (q : QId) : M Unit := do
  assert (decide ((← getJ jnc).enqueued ≠ 0))
  modJ jnc (fun j => { j with enqueued := (j.enqueued ^^^ (1 <<< tdir)) % 256 })
  assert (decide (((← getJ jnc).enqueued &&& (1 <<< tdir)) = 0))
  if (← dirOf jnc) = 5 then pure ()
  else
    match (← nbOf jnc tdir) with
    | none => pure ()
    | some _ =>
      if !(← needsflip jnc tdir) then pure ()
      else
        if (← dirOf jnc) = 4 then Junction_slide fuel jnc tdir q
        else
          if (← beamOf jnc) ≠ tdir then pure ()
          else Junction_slide_T fuel jnc q

/-- Pop the last entry of a repair queue (`size--` and read `queue[size]`). -/
def popQ (q : QId) : M (Option Connection) := fun s =>
  match q with
  | .q1 =>
    match s.queue1 with
    | [] => .ok none s
    | c :: cs => .ok (some c) { s with queue1 := cs }
  | .q2 =>
    match s.queue2 with
    | [] => .ok none s
    | c :: cs => .ok (some c) { s with queue2 := cs }

/-- The other queue. -/
def QId.other : QId → QId
  | .q1 => .q2
  | .q2 => .q1

/-- An inner loop of `Boxnet_repair`: `while(qin.size>0)` pop an entry and run
`solve_conn` on it, appending to the other queue. -/
def Boxnet_repair.drain : Nat → Nat → QId → M Unit
  | 0, _, _ => fail .fuel
  | fuel + 1, f, qin => do
    match (← popQ qin) with
    | none => pure ()
    | some c =>
      solve_conn f c.jnc c.tdir qin.other
      Boxnet_repair.drain fuel f qin

/-- Whether `queue1.size > 0`. -/
def queue1Nonempty : M Bool := fun s => .ok (!s.queue1.isEmpty) s

/-- The outer loop `while(queue1.size>0)` of `Boxnet_repair`. -/
def Boxnet_repair.alternate : Nat → Nat → M Unit
  | 0, _ => fail .fuel
  | fuel + 1, f => do
    if (← queue1Nonempty) then
      Boxnet_repair.drain f f .q1
      Boxnet_repair.drain f f .q2
      Boxnet_repair.alternate fuel f
    else pure ()

/-- The enqueueing of one direction of one box in `Boxnet_repair`. -/
def Boxnet_repair.enqueue (box : Nat) (tdir : Nat) : M Unit := do
  RepairQueue_append (jncRef box) tdir .q1
  let jnc : JRef := ⟨box, tdir⟩
  if (← dirOf jnc) ≠ 5 then RepairQueue_append jnc (← beamOf jnc) .q1 else pure ()

/-- Reset both queues (`queue1.size=0; queue2.size=0`). -/
def clearQueues : M Unit := fun s => .ok () { s with queue1 := [], queue2 := [] }

/-- The C `Boxnet_repair`. -/
def Boxnet_repair (fuel : Nat) : M Unit := do
  clearQueues
  forEach (← getBoxes) (fun box => do
    forEach [0, 1, 2, 3] (Boxnet_repair.enqueue box)
    Boxnet_repair.alternate fuel fuel)

/-! ## `boxcollisions`, `Boxnet_collide` -/

/-- Append an entry to the callback log. -/
def logCall (c : Call) : M Unit := fun s => .ok () { s with calls := c :: s.calls }

/-- The invocation `func(box->usrdata, append->usrdata, data)` of the user callback,
which is logged. -/
def callback (box append : Nat) : M Unit := do
  let b ← getBox box
  let a ← getBox append
  logCall ⟨box, append, b.usrdata, a.usrdata⟩

/-- The nested procedure `queue_append` of `boxcollisions`; the work list is a stack
with the last appended box first. -/
def queue_append (box : Nat) (append : Option Nat) (queue : List Nat) : M (List Nat) := do
  let ap ← nonNull append
  if (← getBox ap).marked = some box then pure queue
  else
    modBox ap (fun b => { b with marked := some box })
    -- add to overlap regions
    assert (decide ((← getBox ap).posy ≤ (← getBox box).top))
    assert (decide ((← getBox ap).top ≥ (← getBox box).posy))
    assert (decide (box ≠ ap))
    let a ← getBox ap
    let b ← getBox box
    (if a.posx ≤ b.right ∧ a.right ≥ b.posx then callback box ap else pure ())
    pure (ap :: queue)

/-- The loop "go upwards until we can go forward" of `boxcollisions`; `skip` is the
`dir` that is passed over (3 in the left scan, 1 in the right scan). -/
def boxcollisions.up : Nat → Nat → Nat → Option JRef → List Nat → M (List Nat)
  | 0, _, _, _, _ => fail .fuel
  | fuel + 1, box, skip, next, queue => do
    match next with
    | none => pure queue
    | some nx =>
      if (← yOf nx) ≤ (← getBox box).top then
        if (← dirOf nx) ≠ skip then queue_append box (← posOf nx 1) queue
        else boxcollisions.up fuel box skip (← nbOf nx 0) queue
      else pure queue

/-- The "go left" loop of `boxcollisions`. -/
def boxcollisions.left : Nat → Nat → Option JRef → List Nat → M (List Nat)
  | 0, _, _, _ => fail .fuel
  | fuel + 1, box, root, queue => do
    match root with
    | none => pure queue
    | some rt =>
      if (← dirOf rt) = 3 then pure queue
      else
        if (← xOf rt) > (← getBox box).posx then
          let queue1 ← if (← dirOf rt) ≠ 2 then
              boxcollisions.up fuel box 3 (← nbOf rt 0) queue
            else pure queue
          boxcollisions.left fuel box (← nbOf rt 1) queue1
        else pure queue

/-- The "go right" loop of `boxcollisions`. -/
def boxcollisions.right : Nat → Nat → Option JRef → List Nat → M (List Nat)
  | 0, _, _, _ => fail .fuel
  | fuel + 1, box, root, queue => do
    match root with
    | none => pure queue
    | some rt =>
      if (← dirOf rt) = 1 then pure queue
      else
        if (← xOf rt) ≤ (← getBox box).right then
          let queue1 ← if (← dirOf rt) ≠ 2 then
              boxcollisions.up fuel box 1 (← nbOf rt 0) queue
            else pure queue
          boxcollisions.right fuel box (← nbOf rt 3) queue1
        else pure queue

/-- The work-list loop `for(queue_size = 1;queue_size>0;)` of `boxcollisions`. -/
def boxcollisions.work : Nat → Nat → Nat → List Nat → M Unit
  | 0, _, _, _ => fail .fuel
  | fuel + 1, f, box, queue =>
    match queue with
    | [] => pure ()
    | top :: rest => do
      let jnc := jncRef top
      let queue1 ← boxcollisions.left f box (some jnc) rest
      let queue2 ← boxcollisions.right f box (some jnc) queue1
      boxcollisions.work fuel f box queue2

/-- The C `boxcollisions`. -/
def boxcollisions (fuel : Nat) (box : Nat) : M Unit :=
  boxcollisions.work fuel fuel box [box]

/-- The inner loop of the preparation phase of `Boxnet_collide`. -/
def Boxnet_collide.prepare : Nat → Nat → Nat → Option JRef → M Unit
  | 0, _, _, _ => fail .fuel
  | fuel + 1, f, box, next => do
    match next with
    | none => pure ()
    | some nx =>
      if (← xOf nx) ≤ (← getBox box).right then
        let nx2 ← if (← dirOf nx) = 1 then Junction_flip f nx none else pure nx
        Boxnet_collide.prepare fuel f box (← nbOf nx2 3)
      else pure ()

/-- The C `Boxnet_collide`. -/
def Boxnet_collide (fuel : Nat) : M Unit := do
  Boxnet_repair fuel
  -- prepare net for collisions
  forEach (← getBoxes) (fun box => do
    modBox box (fun b => { b with marked := none })
    Boxnet_collide.prepare fuel fuel box (← nbOf (jncRef box) 3))
  -- find collisions
  forEach (← getBoxes) (fun box => boxcollisions fuel box)

/-! ## Debugging functions: `repair_check` -/

/-- One iteration of the inner loop of `repair_check`; `true` means "return 0". -/
def repair_check.bad (box : Nat) (tdir : Nat) : M Bool := do
  let viol ← match (← nbOf (jncRef box) tdir) with
    | some next => needsflip next (tdir ^^^ 2)
    | none => pure false
  if viol then pure true
  else
    let jnc : JRef := ⟨box, tdir⟩
    if (← dirOf jnc) ≠ 5 then
      match (← nbOf jnc (← beamOf jnc)) with
      | some _ => needsflip jnc (← beamOf jnc)
      | none => pure false
    else pure false

/-- Search a list of loop iterations for the first that returns. -/
def anyM {α : Type} : List α → (α → M Bool) → M Bool
  | [], _ => pure false
  | a :: as, p => do
    if (← p a) then pure true else anyM as p

/-- The C `repair_check`: `true` for the return value 1. -/
def repair_check : M Bool := do
  let bad ← anyM (← getBoxes) (fun box => anyM [0, 1, 2, 3] (repair_check.bad box))
  pure (!bad)

/-! ## Specification vocabulary -/

/-- The user-visible part of a box: its coordinates and its user data. -/
structure Geo where
  posx : ℚ
  posy : ℚ
  right : ℚ
  top : ℚ
  usrdata : Nat
deriving DecidableEq

/-- The coordinates and user data of a box. -/
def Box.geo (b : Box) : Geo := ⟨b.posx, b.posy, b.right, b.top, b.usrdata⟩

/-- The coordinates and user data of every heap cell. -/
def St.geo (s : St) : List (Option Geo) := s.heap.map (Option.map Box.geo)

/-- The part of the state that the junction graph surgery never touches: which cells
are allocated, the coordinates and user data of the boxes, the container and the
callback log. -/
def St.frame (s : St) : List (Option Geo) × List Nat × List Call :=
  (s.geo, s.boxes, s.calls)

/-- A computation leaves the projection `π` of the state as it found it, whether it
returns or fails. -/
@[irreducible] def Keeps {X α : Type} (π : St → X) (m : M α) : Prop :=
  ∀ s, π (m s).state = π s

/-- The closed-interval AABB test of `collide_control` on two boxes. -/
def Geo.overlaps (a b : Geo) : Prop :=
  a.posx ≤ b.right ∧ a.right ≥ b.posx ∧ a.posy ≤ b.top ∧ a.top ≥ b.posy

instance (a b : Geo) : Decidable (a.overlaps b) := by
  unfold Geo.overlaps
  exact inferInstance

/-- The box stored at an address, if the cell is allocated. -/
def St.box? (s : St) (p : Nat) : Option Box := (s.heap[p]?).join

/-- Lookup in a table of box geometries. -/
def geoAt (G : List (Option Geo)) (p : Nat) : Option Geo := (G[p]?).join

/-- A logged callback invocation is genuine for a table of box geometries: both boxes
are allocated, the callback got their user data, and `other` passes the closed-interval
AABB test against `box` (`other.posx <= box.right`, `other.right >= box.posx`,
`other.posy <= box.top`, `other.top >= box.posy`). -/
def Call.genuineG (G : List (Option Geo)) (c : Call) : Prop :=
  ∃ b o, geoAt G c.box = some b ∧ geoAt G c.other = some o ∧
    c.obj1 = b.usrdata ∧ c.obj2 = o.usrdata ∧ o.overlaps b

/-- A logged callback invocation is genuine in a state. -/
def Call.genuine (s : St) (c : Call) : Prop := c.genuineG s.geo

/-- The callback log grew from `s` to `t` by genuine calls only, and the geometry `G`
and the container stayed as they were. -/
def Grow (G : List (Option Geo)) (s t : St) : Prop :=
  t.geo = G ∧ t.boxes = s.boxes ∧
    ∃ new, t.calls = new ++ s.calls ∧ ∀ c ∈ new, c.genuineG G

/-- Hoare-style judgement for the enumeration phase: started in a state with geometry
`G`, the computation only logs genuine calls (also when it fails) and a returned value
satisfies `Q`. -/
@[irreducible] def Logs {α : Type} (G : List (Option Geo)) (m : M α) (Q : α → Prop) : Prop :=
  ∀ s, s.geo = G → Grow G s (m s).state ∧ ∀ a t, m s = .ok a t → Q a

/-- The calls of the public API, and the direct coordinate edit through a box handle. -/
inductive Op where
  | addbox (x y right top : ℚ) (near : Option Nat) (usrdata : Nat)
  | delbox (box : Nat)
  | delbox_byusrdata (usrdata : Nat)
  | collide
  | edit (box : Nat) (x y right top : ℚ)

/-- Run one API call. -/
def Op.run (fuel : Nat) : Op → M Unit
  | .addbox x y right top near usrdata => do
    let _ ← Boxnet_addbox fuel x y right top near usrdata
    pure ()
  | .delbox box => Boxnet_delbox fuel box
  | .delbox_byusrdata usrdata => Boxnet_delbox_byusrdata fuel usrdata
  | .collide => Boxnet_collide fuel
  | .edit box x y right top =>
    modBox box (fun b => { b with posx := x, posy := y, right := right, top := top })

/-- Run a sequence of API calls. -/
def runOps (fuel : Nat) (ops : List Op) : M Unit := forEach ops (Op.run fuel)

/-- Scenario S1, the documented usage example: three boxes added to a fresh net with
`near` absent, then one `Boxnet_collide`; returns the three box handles. -/
def scenarioS1 (fuel : Nat) : M (Nat × Nat × Nat) := do
  let a ← Boxnet_addbox fuel (-5.5) (-1.5) (-2.5) 1.5 none 1
  let b ← Boxnet_addbox fuel 1 (-3) 7 3 none 2
  let c ← Boxnet_addbox fuel (-5) 1 5 11 none 3
  Boxnet_collide fuel
  pure (a, b, c)

/-- The box that `Boxnet_addbox` has built at address `p` before it links the center
junction into the net: coordinates and user data as passed, center junction of `dir` 4
anchored at the box itself with all four neighbours null, all four ray-ends detached
(`dir` 5). -/
def freshBox (p : Nat) (x y right top : ℚ) (usrdata : Nat) : Box :=
  { jnc := { Junction.blank with dir := 4, pos0 := some p, pos1 := some p, enqueued := 0 }
    rayend := ⟨Box_new.rayend p 0, Box_new.rayend p 1, Box_new.rayend p 2, Box_new.rayend p 3⟩
    posx := x, posy := y, right := right, top := top, usrdata := usrdata, marked := none }

/-- The state in which `Boxnet_addbox` links the new box: the new cell is allocated at
the end of the heap, the container is not yet extended. -/
def St.alloc (s : St) (x y right top : ℚ) (usrdata : Nat) : St :=
  { s with heap := s.heap ++ [some (freshBox s.heap.length x y right top usrdata)] }

/-- The starting box of the insertion chosen by `Boxnet_addbox`: `near`, or the first
contained box when `near` is absent and the net is not empty. -/
def addboxNear (s : St) (near : Option Nat) : Option Nat :=
  if near = none ∧ s.boxes.length ≠ 0 then s.boxes.head? else near

/-- The `dir` and the two anchors of the center junction of every allocated box. -/
def St.centers (s : St) : List (Option (Nat × Option Nat × Option Nat)) :=
  s.heap.map (Option.map (fun b => (b.jnc.dir, b.jnc.pos0, b.jnc.pos1)))

/-- The container `t` is the container `bs` after the slot `n` was removed by
swap-with-last: one entry fewer, slot `n` holds the former last entry, every other
remaining slot is unchanged, and every entry other than the one in slot `n` is kept. -/
def SwapRemoved (bs t : List Nat) (n : Nat) : Prop :=
  t.length + 1 = bs.length ∧
  (∀ i, i < t.length → t[i]? = if i = n then bs.getLast? else bs[i]?) ∧
  (∀ m q, m ≠ n → bs[m]? = some q → q ∈ t)

/-- The user data of the box at an address, if the cell is allocated. -/
def St.usrdata? (s : St) (p : Nat) : Option Nat := (s.box? p).map Box.usrdata

/-- The net of scenario S1 after its `Boxnet_collide`. -/
def netS1 : St := (scenarioS1 100 Boxnet_new).state

/-- The net holding the single box `(0, 0, 1, 1)` with user data 7. -/
def netOne : St := (Boxnet_addbox 100 0 0 1 1 none 7 Boxnet_new).state


/-- The junction behind a junction pointer, if its box is allocated. -/
def St.junction? (s : St) (r : JRef) : Option Junction :=
  (s.box? r.box).bind (fun b => b.getJ r.slot)

/-- Two boxes A = (0, 0, 1, 1) and B = (2, 2, 3, 3) added to a fresh net (handles 0
and 1), then A deleted by handle. -/
def scenarioDelete (fuel : Nat) : M Unit := do
  let a ← Boxnet_addbox fuel 0 0 1 1 none 1
  let _ ← Boxnet_addbox fuel 2 2 3 3 none 2
  Boxnet_delbox fuel a

/-! ## Vocabulary of the second group of claims -/

/-- Scenario S2: scenario S1, then the coordinates of A are set to
(-1.5, -1.5, 1.5, 1.5) through its handle and `Boxnet_collide` is called again. -/
def scenarioS2 (fuel : Nat) : M Unit := do
  let (a, _, _) ← scenarioS1 fuel
  modBox a (fun b => { b with posx := -1.5, posy := -1.5, right := 1.5, top := 1.5 })
  Boxnet_collide fuel

/-- Every value that the computation can return satisfies `Q`. -/
@[irreducible] def Ret {α : Type} (m : M α) (Q : α → Prop) : Prop :=
  ∀ s a t, m s = .ok a t → Q a

/-- The second box of `scenarioDelete`, as `Boxnet_addbox` hands it to `Junction_insert`:
the net of the single box A with the cell of B allocated. -/
def netInsert : St := netOne.alloc 2 2 3 3 2

/-- The net of scenario S1 after its `Boxnet_collide`, with A moved to
(-1.5, -1.5, 1.5, 1.5) and not yet repaired. -/
def netMoved : St :=
  (modBox 0 (fun b => { b with posx := -1.5, posy := -1.5, right := 1.5, top := 1.5 }) netS1).state

/-! ## Vocabulary of the repair queue -/

/-- The entries of the two repair queues. -/
def St.pending (s : St) : List Connection := s.queue1 ++ s.queue2

/-- The one-byte fields of a junction hold values that the shifts `1<<tdir` of the
repair queue can take: `dir` and `beamdir` are below 8, and `enqueued` fits a byte. -/
def Junction.bounded (j : Junction) : Prop := j.dir < 8 ∧ j.beamdir < 8 ∧ j.enqueued < 256

instance (j : Junction) : Decidable j.bounded := by
  unfold Junction.bounded
  exact inferInstance

/-- The five junctions of a box. -/
def Box.junctions (b : Box) : List Junction :=
  [b.jnc, b.rayend.e0, b.rayend.e1, b.rayend.e2, b.rayend.e3]

/-- A net whose junctions all have `dir` and `beamdir` below 8 and `enqueued == 0`. -/
def Tidy (s : St) : Prop :=
  ∀ ob ∈ s.heap, ∀ b, ob = some b → ∀ j ∈ b.junctions, j.bounded ∧ j.enqueued = 0

instance (s : St) : Decidable (Tidy s) := by
  unfold Tidy
  exact inferInstance

/-- Enqueued cleanliness, with `o` the entries that have been popped and not yet
dispatched: every junction is bounded; every entry of `o` and of the two queues names
a junction of an allocated box and a direction below 8; bit `t` of `j.enqueued` is
set exactly when the pair `(j, t)` is among these entries; and no pair is among them
twice. -/
def Enq (o : List Connection) (s : St) : Prop :=
  (∀ r j, s.junction? r = some j → j.bounded) ∧
  (∀ c ∈ o ++ s.pending, c.tdir < 8 ∧ ∃ j, s.junction? c.jnc = some j) ∧
  (∀ r j t, s.junction? r = some j → t < 8 →
    (j.enqueued.testBit t = true ↔ (⟨r, t⟩ : Connection) ∈ o ++ s.pending)) ∧
  (o ++ s.pending).Nodup

/-- Hoare judgement for an invariant `I` of the state: started in a state satisfying
`I`, the computation ends, whether it returns or fails, in a state satisfying `I`, and
a returned value satisfies `Q`. -/
@[irreducible] def Tri {α : Type} (I : St → Prop) (m : M α) (Q : α → Prop) : Prop :=
  ∀ s, I s → I (m s).state ∧ ∀ a t, m s = .ok a t → Q a

/-- The first three statements of `solve_conn`: the two assertions and the toggle of
the bit between them. -/
def solve_conn.guard (jnc : JRef) (tdir : Nat) : M Unit := do
  assert (decide ((← getJ jnc).enqueued ≠ 0))
  modJ jnc (fun j => { j with enqueued := (j.enqueued ^^^ (1 <<< tdir)) % 256 })
  assert (decide (((← getJ jnc).enqueued &&& (1 <<< tdir)) = 0))

/-- The statements of `solve_conn` after its second assertion. -/
def solve_conn.dispatch (fuel : Nat) (jnc : JRef) (tdir : Nat) (q : QId) : M Unit := do
  if (← dirOf jnc) = 5 then pure ()
  else
    match (← nbOf jnc tdir) with
    | none => pure ()
    | some _ =>
      if !(← needsflip jnc tdir) then pure ()
      else
        if (← dirOf jnc) = 4 then Junction_slide fuel jnc tdir q
        else
          if (← beamOf jnc) ≠ tdir then pure ()
          else Junction_slide_T fuel jnc q

/-- The state with the junction behind `r` replaced by `j` (no change when `r` is not
a junction of an allocated box). -/
def St.updJ (s : St) (r : JRef) (j : Junction) : St :=
  match s.box? r.box with
  | some b => if (b.getJ r.slot).isSome then
      { s with heap := s.heap.set r.box (some (b.setJ r.slot j)) } else s
  | none => s

/-- An invariant that every junction update which keeps `enqueued` and stores bounded
values preserves, and under which every junction is bounded. -/
def Stable (I : St → Prop) : Prop :=
  (∀ s r j, I s → s.junction? r = some j → j.bounded) ∧
  (∀ s r j j2, I s → s.junction? r = some j → j2.enqueued = j.enqueued → j2.bounded →
    I (s.updJ r j2))

/-- An invariant that `RepairQueue_append` on the given queue preserves (nothing is
asked when the queue pointer is null). -/
def Appends (I : St → Prop) (queue : Option QId) : Prop :=
  ∀ q, queue = some q → ∀ (r : JRef) (t : Nat), t < 8 →
    Tri I (RepairQueue_append r t q) (fun _ => True)

/-! ## Vocabulary of the tie scenario -/

/-- Scenario S5: two boxes with the identical coordinates `(x, y, r, t)` added to a
fresh net with `near` absent (handles 0 and 1, user data 1 and 2), then one
`Boxnet_collide`. -/
def scenarioS5 (fuel : Nat) (x y r t : ℚ) : M Unit := do
  let _ ← Boxnet_addbox fuel x y r t none 1
  let _ ← Boxnet_addbox fuel x y r t none 2
  Boxnet_collide fuel

/-- A change of coordinates: one map for the x axis and one for the y axis. -/
structure Cmap where
  fx : ℚ → ℚ
  fy : ℚ → ℚ

/-- Both maps of a change of coordinates keep the strict order. -/
def Cmap.mono (φ : Cmap) : Prop := StrictMono φ.fx ∧ StrictMono φ.fy

/-- The affine change of coordinates `a ↦ x + a * w`, `b ↦ y + b * h`. -/
def Cmap.affine (x w y h : ℚ) : Cmap := ⟨fun a => x + a * w, fun b => y + b * h⟩

/-- A box in the new coordinates. -/
def Box.mapC (φ : Cmap) (b : Box) : Box :=
  { b with posx := φ.fx b.posx, posy := φ.fy b.posy, right := φ.fx b.right, top := φ.fy b.top }

/-- A state in the new coordinates. -/
def St.mapC (φ : Cmap) (s : St) : St :=
  { s with heap := s.heap.map (Option.map (Box.mapC φ)) }

/-- Two computations simulate each other across a change of coordinates: run from a
state and from the same state in the new coordinates, both return, in states that
again differ by the change of coordinates and with values related by `R`, or both
fail in the same way, in such states. -/
@[irreducible] def Sim {α : Type} (φ : Cmap) (m m2 : M α) (R : α → α → Prop) : Prop :=
  ∀ s, match m s, m2 (s.mapC φ) with
    | .ok a t, .ok a2 t2 => t2 = t.mapC φ ∧ R a a2
    | .err e t, .err e2 t2 => e2 = e ∧ t2 = t.mapC φ
    | _, _ => False

/-! ## Debugging functions: `validate` -/

/-- The `while(next!=NULL)` loop of `validate` for one box and one direction, with the
check `if(next==NULL) assert(box->rayend[tdir^2].dir==5)` that follows it. -/
def validate.walk : Nat → Nat → Nat → JRef → Option JRef → M Unit
  | 0, _, _, _, _ => fail .fuel
  | fuel + 1, box, tdir, prev, next => do
    match next with
    | none => assert ((← dirOf ⟨box, tdir ^^^ 2⟩) = 5)
    | some nx =>
      -- check connection to previous
      assert ((← nbOf nx (tdir ^^^ 2)) = some prev)
      -- check enqueued flag
      assert ((← getJ nx).enqueued = 0)
      assert ((← dirOf nx) < 4)
      -- posx and posy need to be from different boxes
      assert ((← posOf nx 0) ≠ (← posOf nx 1))
      -- main position needs to be from originating box
      assert ((← posOf nx (tdir % 2)) = some box)
      -- end junction needs to be one of rayend[]
      if (← dirOf nx) = (tdir ^^^ 2) then
        assert (nx = ⟨box, tdir ^^^ 2⟩)
      else
        assert ((← beamOf nx) = tdir)
        validate.walk fuel box tdir nx (← nbOf nx tdir)

/-- The loop over all boxes and directions of `validate` ("find simple errors like
wrong beamdirs and wrong links"), before its call of `find_inconsistencies`. -/
def validate.rays (fuel : Nat) : M Unit := do
  forEach (← getBoxes) (fun box =>
    forEach [0, 1, 2, 3] (fun tdir => do
      validate.walk fuel box tdir (jncRef box) (← nbOf (jncRef box) tdir)))
/-! ## Vocabulary of the third group of claims -/
/-- The net of the two boxes `(0, 0, 1, 1)` and `(2, 2, 3, 3)`. -/
def netTwo : St := (Boxnet_addbox 100 2 2 3 3 none 8 netOne).state

/-- A third box `(4, 4, 5, 5)` as `Boxnet_addbox` hands it to `Junction_insert` in the
net of two boxes, after the first T-junction of the clockwise sweep was created:
`netTwo` with the cell of the new box allocated and one `insert()` step from the center
junction of the first box in direction 0. -/
def netInsert2 : St :=
  (Junction_insert.insert (jncRef 2) (jncRef 0) 0 1 (some ⟨1, 1⟩)
    (netTwo.alloc 4 4 5 5 9)).state
/-- The fields of a junction other than the neighbour links and the queue mask. -/
def Junction.anchor (j : Junction) : Option Nat × Option Nat × Nat × Nat :=
  (j.pos0, j.pos1, j.dir, j.beamdir)
/-- Three boxes added to a fresh net and not yet repaired: A = (7, 3, 9, 6),
B = (10, 0, 11, 2) and C = (3, 10, 6, 11), each with `near` absent. -/
def netGuard : St :=
  ((do
    let _ ← Boxnet_addbox 100 7 3 9 6 none 0
    let _ ← Boxnet_addbox 100 10 0 11 2 none 1
    let _ ← Boxnet_addbox 100 3 10 6 11 none 2
    pure ()) Boxnet_new).state

/-- Two boxes A = (10, 11, 13, 12) and B = (7, 4, 8, 6) added to a fresh net, one
`Boxnet_collide`, then a third box C = (0, 7, 3, 10) added near B and not yet
repaired. -/
def netSwap : St :=
  ((do
    let a ← Boxnet_addbox 100 10 11 13 12 none 0
    let b ← Boxnet_addbox 100 7 4 8 6 (some a) 1
    Boxnet_collide 100
    let _ ← Boxnet_addbox 100 0 7 3 10 (some b) 3
    pure ()) Boxnet_new).state
/-- The junction pointers into the allocated cells of the heap. -/
def St.refs (s : St) : List JRef :=
  (List.range s.heap.length).flatMap (fun p => (List.range 5).map (fun k => (⟨p, k⟩ : JRef)))

/-- Whether the link leaving `r` in direction `d` is violating: `r->nb[d]` is non-null
and `needsflip(r, d)` returns true. -/
def St.violating (s : St) (r : JRef) (d : Nat) : Bool :=
  match nbOf r d s with
  | .ok (some _) _ =>
    (match needsflip r d s with
     | .ok true _ => true
     | _ => false)
  | _ => false

/-- The violating links of a net: the pairs `(j, d)` of a junction `j` in the net (a
center junction or a ray-end in use, `dir != 5`) and a direction `d < 4` whose link is
violating. -/
def St.violations (s : St) : List (JRef × Nat) :=
  ((s.refs.filter (fun r => match s.junction? r with
    | some j => j.dir ≠ 5
    | none => false)).flatMap (fun r => ([0, 1, 2, 3].filter (s.violating r)).map (fun d => (r, d))))

/-- Three boxes in general position added to a fresh net, A = (10, 2, 13, 3),
B = (0, 11, 1, 12) and C = (11, 7, 14, 10) near B, not yet repaired. -/
def netThree : St :=
  ((do
    let _ ← Boxnet_addbox 100 10 2 13 3 none 0
    let b ← Boxnet_addbox 100 0 11 1 12 none 1
    let _ ← Boxnet_addbox 100 11 7 14 10 (some b) 2
    pure ()) Boxnet_new).state
/-- The state reached by `Boxnet_repair` on `netThree` when the fourth work item of the
round of box B is about to be popped: the round of box A has left the net as it was,
the items of B were enqueued and three of them were popped and dispatched. -/
def netThreeWork : St :=
  (Boxnet_repair.drain 3 100 .q1
    (forEach [0, 1, 2, 3] (Boxnet_repair.enqueue 1) netThree).state).state
/-- A box with its collision mark erased. -/
def Box.unmarked (b : Box) : Box := { b with marked := none }

/-- The heap without the collision marks: the junction graph, the coordinates and the
user data of every allocated box. -/
def St.unmarked (s : St) : List (Option Box) := s.heap.map (Option.map Box.unmarked)
/-- The addresses of the allocated boxes. -/
def St.allocated (s : St) : List Nat :=
  (List.range s.heap.length).filter (fun p => (s.box? p).isSome)

/-- The state `t` is the state `s` after a collision walk from box `b` has accepted the
boxes `acc`: these are pairwise distinct, differ from `b` and did not carry the mark `b`
in `s`; in `t` exactly they have got the mark `b` and every box is otherwise as in `s`;
and the callback log has grown by calls with first argument `b`, at most one for each
accepted box. -/
def Accepts (b : Nat) (acc : List Nat) (s t : St) : Prop :=
  acc.Nodup ∧ b ∉ acc ∧
  (∀ p ∈ acc, ∃ box, s.box? p = some box ∧ box.marked ≠ some b) ∧
  (∀ p, t.box? p =
    (s.box? p).map (fun box => if p ∈ acc then { box with marked := some b } else box)) ∧
  ∃ new, t.calls = new ++ s.calls ∧ (∀ c ∈ new, c.box = b ∧ c.other ∈ acc) ∧
    (new.map Call.other).Nodup

/-- Judgement for the collision walk from box `b`: every returning run accepts some list
of boxes, and this list and the returned value satisfy `Q`. -/
@[irreducible] def Walk {α : Type} (b : Nat) (m : M α) (Q : List Nat → α → Prop) : Prop :=
  ∀ s a t, m s = .ok a t → ∃ acc, Accepts b acc s t ∧ Q acc a
/-- A junction with its queue mask erased. -/
def Junction.core (j : Junction) : Junction := { j with enqueued := 0 }

/-- A box with the queue masks of its five junctions erased. -/
def Box.core (b : Box) : Box :=
  { b with
    jnc := b.jnc.core
    rayend := ⟨b.rayend.e0.core, b.rayend.e1.core, b.rayend.e2.core, b.rayend.e3.core⟩ }

/-- The heap without the queue masks: the neighbour links, anchors, `dir` and `beamdir`
of every junction, and the coordinates, user data and collision mark of every box. -/
def St.core (s : St) : List (Option Box) := s.heap.map (Option.map Box.core)

/-- A work item that `solve_conn` dispatches to no rewrite in the net `s`: its junction
is detached, or its neighbour in the direction of the item is null, or `needsflip`
returns false for the link. -/
def Quiet (s : St) (c : Connection) : Prop :=
  ∃ j, s.junction? c.jnc = some j ∧
    (j.dir = 5 ∨ ∃ v, j.nb.get c.tdir = some v ∧
      (v = none ∨ (needsflip c.jnc c.tdir s).val? = some false))

/-- A consistent net: every contained box is allocated, no link leaving a center
junction of a contained box needs a flip, and every ray-end in use of a contained box
has a `beamdir` below 4 and a link along it that does not need a flip. -/
def Consistent (s : St) : Prop :=
  ∀ box ∈ s.boxes,
    (∃ j, s.junction? (jncRef box) = some j ∧
      ∀ d, d < 4 → ∀ n, j.nb.get d = some (some n) →
        (needsflip (jncRef box) d s).val? = some false) ∧
    (∀ k, k < 4 → ∃ j, s.junction? ⟨box, k⟩ = some j ∧
      (j.dir ≠ 5 → j.beamdir < 4 ∧ ∀ n, j.nb.get j.beamdir = some (some n) →
        (needsflip ⟨box, k⟩ j.beamdir s).val? = some false))
/-- A state `u` inside a run of `Boxnet_repair` on a consistent net `s` that has made
no rewrite: `u` agrees with `s` up to queue masks, enqueued cleanliness holds, the
second queue is empty and the first queue holds quiet work items only. -/
def Repairing (s u : St) : Prop :=
  u.core = s.core ∧ u.frame = s.frame ∧ Enq [] u ∧ u.queue2 = [] ∧
    ∀ c ∈ u.queue1, Quiet s c
/-- Executable check of `Consistent`. -/
def St.consistent (s : St) : Bool :=
  s.boxes.all fun box =>
    (match s.junction? (jncRef box) with
     | some j => [0, 1, 2, 3].all fun d =>
        match j.nb.get d with
        | some (some _) => decide ((needsflip (jncRef box) d s).val? = some false)
        | _ => true
     | none => false) &&
    [0, 1, 2, 3].all fun k =>
      match s.junction? ⟨box, k⟩ with
      | some j => decide (j.dir = 5) ||
          (decide (j.beamdir < 4) &&
            match j.nb.get j.beamdir with
            | some (some _) => decide ((needsflip ⟨box, k⟩ j.beamdir s).val? = some false)
            | _ => true)
      | none => false

/-! ## Vocabulary of the insertion -/

/-- Whether side `d` of the junction behind `r` is linked: `r->nb[d]` is non-null. -/
def St.linked (s : St) (r : JRef) (d : Nat) : Bool :=
  match s.junction? r with
  | some j =>
    (match j.nb.get d with
     | some (some _) => true
     | _ => false)
  | none => false

/-- The number of linked sides of the junction behind `r`. -/
def St.linkedSides (s : St) (r : JRef) : Nat :=
  (if s.linked r 0 then 1 else 0) + (if s.linked r 1 then 1 else 0) +
  (if s.linked r 2 then 1 else 0) + (if s.linked r 3 then 1 else 0)

/-- Abstract coordinates of the junctions: a drawing of the net in the plane. -/
structure Layout where
  px : JRef → ℚ
  py : JRef → ℚ

/-- The coordinate of a junction measured along direction `d`, growing in that
direction: `0` is up, `1` left, `2` down, `3` right. -/
def Layout.along (L : Layout) (d : Nat) (r : JRef) : ℚ :=
  match d with
  | 0 => L.py r
  | 1 => - L.px r
  | 2 => - L.py r
  | _ => L.px r

/-- The layout with the junction `r` moved so that its coordinate along `d` is `a`. -/
def Layout.place (L : Layout) (r : JRef) (d : Nat) (a : ℚ) : Layout :=
  match d with
  | 0 => { L with py := fun x => if x = r then a else L.py x }
  | 1 => { L with px := fun x => if x = r then - a else L.px x }
  | 2 => { L with py := fun x => if x = r then - a else L.py x }
  | _ => { L with px := fun x => if x = r then a else L.px x }

/-- A junction in use: the pointer leads to a junction of an allocated box that is not
detached (`dir <= 4`). -/
def St.live (s : St) (r : JRef) : Prop := ∃ j, s.junction? r = some j ∧ j.dir ≤ 4

/-- The links of the net respect the layout `L`: every link that leaves a junction in
use, other than through the side `dir ^ 2` of a T-junction (the side on which its own
ray has ended), leads to a junction in use that lies strictly ahead in the direction of
the link. -/
def Lay (s : St) (L : Layout) : Prop :=
  ∀ r j d y, s.junction? r = some j → j.dir ≤ 4 → d < 4 → j.dir ≠ d ^^^ 2 →
    j.nb.get d = some (some y) → s.live y ∧ L.along d r < L.along d y

/-- A net that can be drawn: its links respect some layout, and every contained box is
allocated and has a center junction of `dir` 4. -/
def Net (s : St) : Prop :=
  (∃ L, Lay s L) ∧ ∀ p ∈ s.boxes, ∃ j, s.junction? (jncRef p) = some j ∧ j.dir = 4

/-- Executable form of `Lay`, over the junction pointers into the heap. -/
def St.layCheck (s : St) (L : Layout) : Bool :=
  s.refs.all (fun r =>
    match s.junction? r with
    | none => true
    | some j => decide (4 < j.dir) || (List.range 4).all (fun d =>
        decide (j.dir = d ^^^ 2) ||
          (match j.nb.get d with
           | some (some y) =>
             (match s.junction? y with
              | some jy => decide (jy.dir ≤ 4) && decide (L.along d r < L.along d y)
              | none => false)
           | _ => true)))

/-- The number of junction pointers that lie strictly ahead of `r` in direction `d`. -/
def St.ahead (s : St) (L : Layout) (d : Nat) (r : JRef) : Nat :=
  (s.refs.filter (fun x => decide (L.along d r < L.along d x))).length

/-- The state `t` arises from `s` by rewriting each junction `j` behind a pointer `r`
to `f r j`; nothing is allocated or freed. -/
def Maps (f : JRef → Junction → Junction) (s t : St) : Prop :=
  t.heap.length = s.heap.length ∧ ∀ r, t.junction? r = (s.junction? r).map (f r)

/-- Total correctness from a given state: the computation returns, with a value and a
final state that satisfy `Q`. -/
def Runs {α : Type} (s : St) (m : M α) (Q : α → St → Prop) : Prop :=
  ∃ a t, m s = .ok a t ∧ Q a t

/-- Rewriting of the junction behind `r0` alone. -/
def upd (r0 : JRef) (g : Junction → Junction) (r : JRef) (j : Junction) : Junction :=
  if r = r0 then g j else j

/-- The assignment `j.nb[d] = v`. -/
def Junction.link (d : Nat) (v : Option JRef) (j : Junction) : Junction :=
  { j with nb := j.nb.set d v }

/-- The state `t` is the state `s` with the T-junction `new` spliced into the link from
`cur` in direction `c` to `next` and tied to the side `side` of the center junction
`jnc`: `new` has `dir == tdir` and the links `nb[c ^ 2] = cur`, `nb[c] = next`,
`nb[tdir] = jnc`; of the other junctions only the links `cur.nb[c]`, `next.nb[c ^ 2]` and
`jnc.nb[side]` have changed, and they lead to `new`. -/
def Spliced (s t : St) (jnc cur : JRef) (c tdir side : Nat) (next : Option JRef)
    (new : JRef) : Prop :=
  t.heap.length = s.heap.length ∧
  (∀ r, r ≠ new → t.junction? r = (s.junction? r).map (fun j =>
    upd jnc (Junction.link side (some new)) r
      ((fun j => if some r = next then Junction.link (c ^^^ 2) (some new) j else j)
        (upd cur (Junction.link c (some new)) r j)))) ∧
  ∃ j, t.junction? new = some j ∧ j.dir = tdir ∧ j.nb.get (c ^^^ 2) = some (some cur) ∧
    j.nb.get c = some next ∧ j.nb.get tdir = some (some jnc)

/-- Nothing is allocated or freed between `s` and `t`, and every junction in use keeps
its `dir` and its anchor `pos[0]`. -/
def Kept (s t : St) : Prop :=
  t.heap.length = s.heap.length ∧
  ∀ r j, s.junction? r = some j → j.dir ≤ 4 →
    ∃ j2, t.junction? r = some j2 ∧ j2.dir = j.dir ∧ j2.pos0 = j.pos0

/-- The layout that places every junction at the coordinates of its anchors: the
`posx` of `pos[0]` and the `posy` of `pos[1]`. -/
def St.coords (s : St) : Layout :=
  ⟨fun r => ((xOf r s).val?).getD 0, fun r => ((yOf r s).val?).getD 0⟩

/-- Executable form of `Net` for a given layout. -/
def St.netCheck (s : St) (L : Layout) : Bool :=
  s.layCheck L && s.boxes.all (fun p =>
    match s.junction? (jncRef p) with
    | some j => decide (j.dir = 4)
    | none => false)

/-- The link that the code may follow from `r` in direction `d`: `r->nb[d]` of a junction
in use, other than through the ended side `dir ^ 2` of a T-junction. -/
def St.step (s : St) (d : Nat) (r : JRef) : Option JRef :=
  match s.junction? r with
  | some j => if j.dir ≤ 4 ∧ j.dir ≠ d ^^^ 2 then (j.nb.get d).join else none
  | none => none

/-- The number of links that can be followed from `r` in direction `d`, if the chain
ends within `n` links. -/
def St.run (s : St) (d : Nat) : Nat → JRef → Option Nat
  | 0, _ => none
  | n + 1, r =>
    match s.step d r with
    | none => some 0
    | some y => (St.run s d n y).map (fun k => k + 1)

/-- Executable structural check of a net: link symmetry (every link that can be followed
leads to a junction from which the link back can be followed and leads back), every
chain of links in one direction ends, and every contained box is allocated and has a
center junction of `dir` 4. -/
def St.linksCheck (s : St) : Bool :=
  s.refs.all (fun r => (List.range 4).all (fun d =>
    (match s.step d r with
     | some y => decide (s.step (d ^^^ 2) y = some r)
     | none => true) && (s.run d (s.refs.length + 1) r).isSome)) &&
  s.boxes.all (fun p =>
    match s.junction? (jncRef p) with
    | some j => decide (j.dir = 4)
    | none => false)

/-- The layout that places every junction by the lengths of the chains of links that
leave it: `n` links behind it and `m` links ahead of it put it at `n - m`. -/
def St.chains (s : St) : Layout :=
  ⟨fun r => (((s.run 1 (s.refs.length + 1) r).getD 0 : Nat) : ℚ) -
      (((s.run 3 (s.refs.length + 1) r).getD 0 : Nat) : ℚ),
   fun r => (((s.run 2 (s.refs.length + 1) r).getD 0 : Nat) : ℚ) -
      (((s.run 0 (s.refs.length + 1) r).getD 0 : Nat) : ℚ)⟩

/-! # Theorems -/

/-! ## The monad -/

theorem bind_eq {α β : Type} (m : M α) (f : α → M β) (s : St) :
    (m >>= f) s = match m s with
      | .ok a s1 => f a s1
      | .err e s1 => .err e s1 := rfl

theorem pure_eq {α : Type} (a : α) (s : St) : (pure a : M α) s = .ok a s := rfl

/-! ## Frame rules -/

section Frame

variable {X : Type} {π : St → X}

theorem keeps_iff {α : Type} (m : M α) : Keeps π m ↔ ∀ s, π (m s).state = π s := by
  unfold Keeps; rfl

theorem keeps_pure {α : Type} (a : α) : Keeps π (pure a : M α) :=
  (keeps_iff _).2 fun _ => rfl

theorem keeps_fail {α : Type} (e : Err) : Keeps π (fail e : M α) :=
  (keeps_iff _).2 fun _ => rfl

theorem keeps_bind {α β : Type} {m : M α} {f : α → M β} (hm : Keeps π m)
    (hf : ∀ a, Keeps π (f a)) : Keeps π (m >>= f) := by
  rw [keeps_iff] at hm ⊢
  intro s
  have h1 := hm s
  rw [bind_eq]
  cases h : m s with
  | ok a s1 =>
    rw [h] at h1
    simp only
    rw [(keeps_iff _).1 (hf a) s1]
    exact h1
  | err e s1 =>
    rw [h] at h1
    exact h1

theorem keeps_assert (c : Bool) : Keeps π (assert c) := by
  rw [keeps_iff]; intro s; unfold Boxnet.assert; split <;> rfl

theorem keeps_nonNull {α : Type} (o : Option α) : Keeps π (nonNull o) := by
  rw [keeps_iff]; intro s; unfold Boxnet.nonNull; split <;> rfl

theorem keeps_inRange {α : Type} (o : Option α) : Keeps π (inRange o) := by
  rw [keeps_iff]; intro s; unfold Boxnet.inRange; split <;> rfl

theorem keeps_getBox (p : Nat) : Keeps π (getBox p) := by
  rw [keeps_iff]; intro s; unfold Boxnet.getBox; split <;> rfl

theorem keeps_getBoxes : Keeps π getBoxes :=
  (keeps_iff _).2 fun _ => rfl

theorem keeps_queue1Nonempty : Keeps π queue1Nonempty :=
  (keeps_iff _).2 fun _ => rfl

theorem keeps_ite {α : Type} (c : Prop) [Decidable c] {a b : M α} (ha : Keeps π a)
    (hb : Keeps π b) : Keeps π (if c then a else b) := by
  split <;> assumption

theorem keeps_getJ (r : JRef) : Keeps π (getJ r) := by
  unfold Boxnet.getJ
  exact keeps_bind (keeps_getBox _) (fun _ => keeps_inRange _)

theorem keeps_dirOf (r : JRef) : Keeps π (dirOf r) := by
  unfold Boxnet.dirOf
  exact keeps_bind (keeps_getJ _) (fun _ => keeps_pure _)

theorem keeps_beamOf (r : JRef) : Keeps π (beamOf r) := by
  unfold Boxnet.beamOf
  exact keeps_bind (keeps_getJ _) (fun _ => keeps_pure _)

theorem keeps_nbOf (r : JRef) (d : Nat) : Keeps π (nbOf r d) := by
  unfold Boxnet.nbOf
  exact keeps_bind (keeps_getJ _) (fun _ => keeps_inRange _)

theorem keeps_posOf (r : JRef) (i : Nat) : Keeps π (posOf r i) := by
  unfold Boxnet.posOf
  refine keeps_bind (keeps_getJ _) (fun _ => ?_)
  exact keeps_ite _ (keeps_pure _) (keeps_ite _ (keeps_pure _) (keeps_fail _))

theorem keeps_rayendRef (p : Option Nat) (k : Nat) : Keeps π (rayendRef p k) := by
  unfold Boxnet.rayendRef
  refine keeps_bind (keeps_nonNull _) (fun _ => ?_)
  exact keeps_ite _ (keeps_pure _) (keeps_fail _)

theorem keeps_xOf (r : JRef) : Keeps π (xOf r) := by
  unfold Boxnet.xOf
  refine keeps_bind (keeps_posOf _ _) (fun _ => ?_)
  refine keeps_bind (keeps_nonNull _) (fun _ => ?_)
  exact keeps_bind (keeps_getBox _) (fun _ => keeps_pure _)

theorem keeps_yOf (r : JRef) : Keeps π (yOf r) := by
  unfold Boxnet.yOf
  refine keeps_bind (keeps_posOf _ _) (fun _ => ?_)
  refine keeps_bind (keeps_nonNull _) (fun _ => ?_)
  exact keeps_bind (keeps_getBox _) (fun _ => keeps_pure _)

theorem keeps_forEach {α : Type} (l : List α) (body : α → M Unit)
    (h : ∀ a, Keeps π (body a)) : Keeps π (forEach l body) := by
  induction l with
  | nil => exact keeps_pure _
  | cons a as ih =>
    unfold Boxnet.forEach
    exact keeps_bind (h a) (fun _ => ih)

theorem keeps_anyM {α : Type} (l : List α) (p : α → M Bool)
    (h : ∀ a, Keeps π (p a)) : Keeps π (anyM l p) := by
  induction l with
  | nil => exact keeps_pure _
  | cons a as ih =>
    unfold Boxnet.anyM
    refine keeps_bind (h a) (fun b => ?_)
    exact keeps_ite _ (keeps_pure _) ih

theorem keeps_comp {Y α : Type} (g : X → Y) {m : M α} (h : Keeps π m) :
    Keeps (fun s => g (π s)) m := by
  rw [keeps_iff] at h ⊢
  intro s
  rw [h s]

end Frame

/-! ## The junction graph surgery leaves the frame alone -/

theorem map_set_same {α β : Type} (g : α → β) (l : List α) (i : Nat) (a b : α)
    (h : l[i]? = some a) (hg : g b = g a) : (l.set i b).map g = l.map g := by
  apply List.ext_getElem?
  intro n
  simp only [List.getElem?_map, List.getElem?_set]
  by_cases hn : i = n
  · subst hn
    have hlt : i < l.length := by
      by_contra hc
      rw [List.getElem?_eq_none (by omega)] at h
      cases h
    simp [hlt, h, hg]
  · simp [hn]

theorem Box.setJ_geo (b : Box) (slot : Nat) (j : Junction) : (b.setJ slot j).geo = b.geo := by
  unfold Box.setJ
  split <;> rfl

theorem setBox_frame (p : Nat) (b : Box) (s : St) (b0 : Box) (h0 : s.heap[p]? = some (some b0))
    (hg : b.geo = b0.geo) : (setBox p b s).state.frame = s.frame := by
  unfold setBox
  rw [h0]
  simp only [Res.state, St.frame, St.geo]
  rw [map_set_same _ _ _ (some b0) _ h0 (by simp [hg])]

theorem keeps_modBox (p : Nat) (f : Box → Box) (hf : ∀ b, (f b).geo = b.geo) :
    Keeps St.frame (modBox p f) := by
  rw [keeps_iff]
  intro s
  unfold Boxnet.modBox
  rw [bind_eq]
  cases h : s.heap[p]? with
  | none => simp [Boxnet.getBox, h, Res.state]
  | some ob =>
    cases ob with
    | none => simp [Boxnet.getBox, h, Res.state]
    | some b =>
      simp only [Boxnet.getBox, h]
      exact setBox_frame _ _ _ b h (hf b)

theorem keeps_modJ (r : JRef) (f : Junction → Junction) : Keeps St.frame (modJ r f) := by
  rw [keeps_iff]
  intro s
  unfold Boxnet.modJ
  rw [bind_eq]
  cases h : s.heap[r.box]? with
  | none => simp [Boxnet.getBox, h, Res.state]
  | some ob =>
    cases ob with
    | none => simp [Boxnet.getBox, h, Res.state]
    | some b =>
      simp only [Boxnet.getBox, h]
      rw [bind_eq]
      cases hj : b.getJ r.slot with
      | none => simp [Boxnet.inRange, Res.state]
      | some j =>
        simp only [Boxnet.inRange]
        exact setBox_frame _ _ _ b h (Box.setJ_geo _ _ _)

theorem keeps_setNb (r : JRef) (d : Nat) (v : Option JRef) : Keeps St.frame (setNb r d v) := by
  unfold Boxnet.setNb
  exact keeps_ite _ (keeps_modJ _ _) (keeps_fail _)

theorem keeps_setDir (r : JRef) (v : Nat) : Keeps St.frame (setDir r v) := keeps_modJ _ _

theorem keeps_setBeam (r : JRef) (v : Nat) : Keeps St.frame (setBeam r v) := keeps_modJ _ _

theorem keeps_setPos (r : JRef) (i : Nat) (v : Option Nat) : Keeps St.frame (setPos r i v) := by
  unfold Boxnet.setPos
  exact keeps_ite _ (keeps_modJ _ _) (keeps_ite _ (keeps_modJ _ _) (keeps_fail _))

theorem keeps_pushQ (q : QId) (c : Connection) : Keeps St.frame (pushQ q c) := by
  rw [keeps_iff]; intro s; unfold Boxnet.pushQ; split <;> rfl

theorem keeps_popQ (q : QId) : Keeps St.frame (popQ q) := by
  rw [keeps_iff]; intro s; unfold Boxnet.popQ; split <;> split <;> rfl

theorem keeps_clearQueues : Keeps St.frame clearQueues :=
  (keeps_iff _).2 fun _ => rfl

theorem keeps_RepairQueue_append (jnc : JRef) (tdir : Nat) (q : QId) :
    Keeps St.frame (RepairQueue_append jnc tdir q) := by
  unfold Boxnet.RepairQueue_append
  refine keeps_bind (keeps_getJ _) (fun _ => ?_)
  refine keeps_ite _ (keeps_bind (keeps_pushQ _ _) (fun _ => keeps_modJ _ _)) (keeps_pure _)

theorem keeps_appendIf (next : JRef) (queue : Option QId) :
    Keeps St.frame (appendIf next queue) := by
  unfold Boxnet.appendIf
  split
  · exact keeps_pure _
  · refine keeps_bind (keeps_beamOf _) (fun _ => ?_)
    refine keeps_bind (keeps_nbOf _ _) (fun _ => ?_)
    refine keeps_bind (keeps_nonNull _) (fun _ => ?_)
    exact keeps_bind (keeps_beamOf _) (fun _ => keeps_RepairQueue_append _ _ _)

theorem keeps_detach (jnc : JRef) : Keeps St.frame (detach jnc) := by
  unfold Boxnet.detach
  repeat' (first | with_reducible (first
    | apply keeps_pure | apply keeps_fail | apply keeps_assert | apply keeps_nonNull
    | apply keeps_dirOf | apply keeps_beamOf | apply keeps_nbOf | apply keeps_posOf
    | apply keeps_setNb | apply keeps_setDir | apply keeps_setBeam | apply keeps_setPos
    | apply keeps_ite | apply keeps_bind | intro _) | split | dsimp only)

theorem keeps_insert (jnc cur : JRef) (curdir cwccw : Nat) (next : Option JRef) :
    Keeps St.frame (Junction_insert.insert jnc cur curdir cwccw next) := by
  unfold Junction_insert.insert
  repeat' (first | with_reducible (first
    | apply keeps_pure | apply keeps_fail | apply keeps_assert | apply keeps_nonNull
    | apply keeps_dirOf | apply keeps_beamOf | apply keeps_nbOf | apply keeps_posOf
    | apply keeps_rayendRef
    | apply keeps_setNb | apply keeps_setDir | apply keeps_setBeam | apply keeps_setPos
    | apply keeps_ite | apply keeps_bind | intro _) | split | dsimp only)

theorem keeps_insert_loop (fuel : Nat) (jnc cur : JRef) (curdir cwccw inserted : Nat) :
    Keeps St.frame (Junction_insert.loop fuel jnc cur curdir cwccw inserted) := by
  induction fuel generalizing cur curdir inserted with
  | zero => exact keeps_fail _
  | succ n ih =>
    unfold Junction_insert.loop
    repeat' (first | with_reducible (first
      | apply ih
      | apply keeps_pure | apply keeps_fail | apply keeps_assert | apply keeps_nonNull
      | apply keeps_dirOf | apply keeps_beamOf | apply keeps_nbOf | apply keeps_posOf
      | apply keeps_insert
      | apply keeps_ite | apply keeps_bind | intro _) | split | dsimp only)

theorem keeps_Junction_insert (fuel : Nat) (jnc start : JRef) :
    Keeps St.frame (Junction_insert fuel jnc start) := by
  unfold Boxnet.Junction_insert
  repeat' (first | with_reducible (first
    | apply keeps_pure | apply keeps_fail | apply keeps_assert | apply keeps_nonNull
    | apply keeps_dirOf | apply keeps_beamOf | apply keeps_nbOf | apply keeps_posOf
    | apply keeps_setNb | apply keeps_insert_loop
    | apply keeps_ite | apply keeps_bind | intro _) | split | dsimp only)

/-! ### Flips, slides and repair -/

theorem keeps_flipone_back (fuel : Nat) (cur : JRef) (fdir fbeam : Nat) :
    Keeps St.frame (Junction_flipone.back fuel cur fdir fbeam) := by
  induction fuel generalizing cur with
  | zero => exact keeps_fail _
  | succ n ih =>
    unfold Junction_flipone.back
    repeat' (first | with_reducible (first
        | apply keeps_pure | apply keeps_fail | apply keeps_assert | apply keeps_nonNull
        | apply keeps_dirOf | apply keeps_beamOf | apply keeps_nbOf | apply keeps_posOf
        | apply keeps_xOf | apply keeps_yOf | apply keeps_getJ | apply keeps_getBox
        | apply keeps_rayendRef | apply keeps_getBoxes
        | apply keeps_setNb | apply keeps_setDir | apply keeps_setBeam | apply keeps_setPos
        | apply keeps_modJ | apply keeps_RepairQueue_append | apply keeps_appendIf
        | apply ih
        | apply keeps_ite | apply keeps_bind | intro _) | split | dsimp only)

theorem keeps_flipone_side (fuel : Nat) (cur : JRef) (fdir fbeam : Nat) :
    Keeps St.frame (Junction_flipone.side fuel cur fdir fbeam) := by
  induction fuel generalizing cur with
  | zero => exact keeps_fail _
  | succ n ih =>
    unfold Junction_flipone.side
    repeat' (first | with_reducible (first
        | apply keeps_pure | apply keeps_fail | apply keeps_assert | apply keeps_nonNull
        | apply keeps_dirOf | apply keeps_beamOf | apply keeps_nbOf | apply keeps_posOf
        | apply keeps_xOf | apply keeps_yOf | apply keeps_getJ | apply keeps_getBox
        | apply keeps_rayendRef | apply keeps_getBoxes
        | apply keeps_setNb | apply keeps_setDir | apply keeps_setBeam | apply keeps_setPos
        | apply keeps_modJ | apply keeps_RepairQueue_append | apply keeps_appendIf
        | apply ih
        | apply keeps_ite | apply keeps_bind | intro _) | split | dsimp only)

theorem keeps_flipone_stop (flipped next : JRef) (fdir : Nat) :
    Keeps St.frame (Junction_flipone.stop flipped next fdir) := by
  unfold Junction_flipone.stop
  repeat' (first | with_reducible (first
      | apply keeps_pure | apply keeps_fail | apply keeps_assert | apply keeps_nonNull
      | apply keeps_dirOf | apply keeps_beamOf | apply keeps_nbOf | apply keeps_posOf
      | apply keeps_xOf | apply keeps_yOf | apply keeps_getJ | apply keeps_getBox
      | apply keeps_rayendRef | apply keeps_getBoxes
      | apply keeps_setNb | apply keeps_setDir | apply keeps_setBeam | apply keeps_setPos
      | apply keeps_modJ | apply keeps_RepairQueue_append | apply keeps_appendIf
      | apply keeps_ite | apply keeps_bind | intro _) | split | dsimp only)

theorem keeps_flipone_find (fuel : Nat) (flipped cur : JRef) (next : Option JRef) (fdir fbeam : Nat) :
    Keeps St.frame (Junction_flipone.find fuel flipped cur next fdir fbeam) := by
  induction fuel generalizing cur next with
  | zero => exact keeps_fail _
  | succ n ih =>
    unfold Junction_flipone.find
    repeat' (first | with_reducible (first
        | apply keeps_pure | apply keeps_fail | apply keeps_assert | apply keeps_nonNull
        | apply keeps_dirOf | apply keeps_beamOf | apply keeps_nbOf | apply keeps_posOf
        | apply keeps_xOf | apply keeps_yOf | apply keeps_getJ | apply keeps_getBox
        | apply keeps_rayendRef | apply keeps_getBoxes
        | apply keeps_setNb | apply keeps_setDir | apply keeps_setBeam | apply keeps_setPos
        | apply keeps_modJ | apply keeps_RepairQueue_append | apply keeps_appendIf
        | apply ih | apply keeps_flipone_stop
        | apply keeps_ite | apply keeps_bind | intro _) | split | dsimp only)

theorem keeps_Junction_flipone (fuel : Nat) (jnc : JRef) (queue : Option QId) :
    Keeps St.frame (Junction_flipone fuel jnc queue) := by
  unfold Boxnet.Junction_flipone
  repeat' (first | with_reducible (first
      | apply keeps_pure | apply keeps_fail | apply keeps_assert | apply keeps_nonNull
      | apply keeps_dirOf | apply keeps_beamOf | apply keeps_nbOf | apply keeps_posOf
      | apply keeps_xOf | apply keeps_yOf | apply keeps_getJ | apply keeps_getBox
      | apply keeps_rayendRef | apply keeps_getBoxes
      | apply keeps_setNb | apply keeps_setDir | apply keeps_setBeam | apply keeps_setPos
      | apply keeps_modJ | apply keeps_RepairQueue_append | apply keeps_appendIf
      | apply keeps_detach | apply keeps_flipone_back | apply keeps_flipone_side | apply keeps_flipone_find
      | apply keeps_ite | apply keeps_bind | intro _) | split | dsimp only)

theorem keeps_flip_seek (fuel : Nat) (jnc cur : JRef) :
    Keeps St.frame (Junction_flip.seek fuel jnc cur) := by
  induction fuel generalizing cur with
  | zero => exact keeps_fail _
  | succ n ih =>
    unfold Junction_flip.seek
    repeat' (first | with_reducible (first
        | apply keeps_pure | apply keeps_fail | apply keeps_assert | apply keeps_nonNull
        | apply keeps_dirOf | apply keeps_beamOf | apply keeps_nbOf | apply keeps_posOf
        | apply keeps_xOf | apply keeps_yOf | apply keeps_getJ | apply keeps_getBox
        | apply keeps_rayendRef | apply keeps_getBoxes
        | apply keeps_setNb | apply keeps_setDir | apply keeps_setBeam | apply keeps_setPos
        | apply keeps_modJ | apply keeps_RepairQueue_append | apply keeps_appendIf
        | apply ih
        | apply keeps_ite | apply keeps_bind | intro _) | split | dsimp only)

theorem keeps_flip_unwind (fuel : Nat) (f : Nat) (jnc : JRef) (cur : Option JRef) (queue : Option QId) :
    Keeps St.frame (Junction_flip.unwind fuel f jnc cur queue) := by
  induction fuel generalizing cur with
  | zero => exact keeps_fail _
  | succ n ih =>
    unfold Junction_flip.unwind
    repeat' (first | with_reducible (first
        | apply keeps_pure | apply keeps_fail | apply keeps_assert | apply keeps_nonNull
        | apply keeps_dirOf | apply keeps_beamOf | apply keeps_nbOf | apply keeps_posOf
        | apply keeps_xOf | apply keeps_yOf | apply keeps_getJ | apply keeps_getBox
        | apply keeps_rayendRef | apply keeps_getBoxes
        | apply keeps_setNb | apply keeps_setDir | apply keeps_setBeam | apply keeps_setPos
        | apply keeps_modJ | apply keeps_RepairQueue_append | apply keeps_appendIf
        | apply ih | apply keeps_Junction_flipone
        | apply keeps_ite | apply keeps_bind | intro _) | split | dsimp only)

theorem keeps_Junction_flip (fuel : Nat) (jnc : JRef) (queue : Option QId) :
    Keeps St.frame (Junction_flip fuel jnc queue) := by
  unfold Boxnet.Junction_flip
  repeat' (first | with_reducible (first
      | apply keeps_pure | apply keeps_fail | apply keeps_assert | apply keeps_nonNull
      | apply keeps_dirOf | apply keeps_beamOf | apply keeps_nbOf | apply keeps_posOf
      | apply keeps_xOf | apply keeps_yOf | apply keeps_getJ | apply keeps_getBox
      | apply keeps_rayendRef | apply keeps_getBoxes
      | apply keeps_setNb | apply keeps_setDir | apply keeps_setBeam | apply keeps_setPos
      | apply keeps_modJ | apply keeps_RepairQueue_append | apply keeps_appendIf
      | apply keeps_flip_seek | apply keeps_flip_unwind
      | apply keeps_ite | apply keeps_bind | intro _) | split | dsimp only)

theorem keeps_needsflip (jnc : JRef) (d : Nat) :
    Keeps St.frame (needsflip jnc d) := by
  unfold Boxnet.needsflip
  repeat' (first | with_reducible (first
      | apply keeps_pure | apply keeps_fail | apply keeps_assert | apply keeps_nonNull
      | apply keeps_dirOf | apply keeps_beamOf | apply keeps_nbOf | apply keeps_posOf
      | apply keeps_xOf | apply keeps_yOf | apply keeps_getJ | apply keeps_getBox
      | apply keeps_rayendRef | apply keeps_getBoxes
      | apply keeps_setNb | apply keeps_setDir | apply keeps_setBeam | apply keeps_setPos
      | apply keeps_modJ | apply keeps_RepairQueue_append | apply keeps_appendIf
      | apply keeps_ite | apply keeps_bind | intro _) | split | dsimp only)

theorem keeps_reconnect_linear (start next : JRef) (d : Nat) :
    Keeps St.frame (reconnect_linear start next d) := by
  unfold Boxnet.reconnect_linear
  repeat' (first | with_reducible (first
      | apply keeps_pure | apply keeps_fail | apply keeps_assert | apply keeps_nonNull
      | apply keeps_dirOf | apply keeps_beamOf | apply keeps_nbOf | apply keeps_posOf
      | apply keeps_xOf | apply keeps_yOf | apply keeps_getJ | apply keeps_getBox
      | apply keeps_rayendRef | apply keeps_getBoxes
      | apply keeps_setNb | apply keeps_setDir | apply keeps_setBeam | apply keeps_setPos
      | apply keeps_modJ | apply keeps_RepairQueue_append | apply keeps_appendIf
      | apply keeps_ite | apply keeps_bind | intro _) | split | dsimp only)

theorem keeps_slide_walk (fuel : Nat) (next : JRef) (tdir ndir : Nat) :
    Keeps St.frame (Junction_slide.walk fuel next tdir ndir) := by
  induction fuel generalizing next with
  | zero => exact keeps_fail _
  | succ n ih =>
    unfold Junction_slide.walk
    repeat' (first | with_reducible (first
        | apply keeps_pure | apply keeps_fail | apply keeps_assert | apply keeps_nonNull
        | apply keeps_dirOf | apply keeps_beamOf | apply keeps_nbOf | apply keeps_posOf
        | apply keeps_xOf | apply keeps_yOf | apply keeps_getJ | apply keeps_getBox
        | apply keeps_rayendRef | apply keeps_getBoxes
        | apply keeps_setNb | apply keeps_setDir | apply keeps_setBeam | apply keeps_setPos
        | apply keeps_modJ | apply keeps_RepairQueue_append | apply keeps_appendIf
        | apply ih
        | apply keeps_ite | apply keeps_bind | intro _) | split | dsimp only)

theorem keeps_Junction_slide (fuel : Nat) (jnc : JRef) (tdir : Nat) (queue : QId) :
    Keeps St.frame (Junction_slide fuel jnc tdir queue) := by
  unfold Boxnet.Junction_slide
  repeat' (first | with_reducible (first
      | apply keeps_pure | apply keeps_fail | apply keeps_assert | apply keeps_nonNull
      | apply keeps_dirOf | apply keeps_beamOf | apply keeps_nbOf | apply keeps_posOf
      | apply keeps_xOf | apply keeps_yOf | apply keeps_getJ | apply keeps_getBox
      | apply keeps_rayendRef | apply keeps_getBoxes
      | apply keeps_setNb | apply keeps_setDir | apply keeps_setBeam | apply keeps_setPos
      | apply keeps_modJ | apply keeps_RepairQueue_append | apply keeps_appendIf
      | apply keeps_detach | apply keeps_Junction_flip | apply keeps_needsflip | apply keeps_reconnect_linear | apply keeps_slide_walk
      | apply keeps_ite | apply keeps_bind | intro _) | split | dsimp only)

theorem keeps_Junction_slide_T (fuel : Nat) (jnc : JRef) (queue : QId) :
    Keeps St.frame (Junction_slide_T fuel jnc queue) := by
  unfold Boxnet.Junction_slide_T
  repeat' (first | with_reducible (first
      | apply keeps_pure | apply keeps_fail | apply keeps_assert | apply keeps_nonNull
      | apply keeps_dirOf | apply keeps_beamOf | apply keeps_nbOf | apply keeps_posOf
      | apply keeps_xOf | apply keeps_yOf | apply keeps_getJ | apply keeps_getBox
      | apply keeps_rayendRef | apply keeps_getBoxes
      | apply keeps_setNb | apply keeps_setDir | apply keeps_setBeam | apply keeps_setPos
      | apply keeps_modJ | apply keeps_RepairQueue_append | apply keeps_appendIf
      | apply keeps_Junction_flip | apply keeps_needsflip | apply keeps_reconnect_linear
      | apply keeps_ite | apply keeps_bind | intro _) | split | dsimp only)

theorem keeps_solve_conn (fuel : Nat) (jnc : JRef) (tdir : Nat) (q : QId) :
    Keeps St.frame (solve_conn fuel jnc tdir q) := by
  unfold Boxnet.solve_conn
  repeat' (first | with_reducible (first
      | apply keeps_pure | apply keeps_fail | apply keeps_assert | apply keeps_nonNull
      | apply keeps_dirOf | apply keeps_beamOf | apply keeps_nbOf | apply keeps_posOf
      | apply keeps_xOf | apply keeps_yOf | apply keeps_getJ | apply keeps_getBox
      | apply keeps_rayendRef | apply keeps_getBoxes
      | apply keeps_setNb | apply keeps_setDir | apply keeps_setBeam | apply keeps_setPos
      | apply keeps_modJ | apply keeps_RepairQueue_append | apply keeps_appendIf
      | apply keeps_needsflip | apply keeps_Junction_slide | apply keeps_Junction_slide_T
      | apply keeps_ite | apply keeps_bind | intro _) | split | dsimp only)

theorem keeps_repair_drain (fuel : Nat) (f : Nat) (qin : QId) :
    Keeps St.frame (Boxnet_repair.drain fuel f qin) := by
  induction fuel with
  | zero => exact keeps_fail _
  | succ n ih =>
    unfold Boxnet_repair.drain
    repeat' (first | with_reducible (first
        | apply keeps_pure | apply keeps_fail | apply keeps_assert | apply keeps_nonNull
        | apply keeps_dirOf | apply keeps_beamOf | apply keeps_nbOf | apply keeps_posOf
        | apply keeps_xOf | apply keeps_yOf | apply keeps_getJ | apply keeps_getBox
        | apply keeps_rayendRef | apply keeps_getBoxes
        | apply keeps_setNb | apply keeps_setDir | apply keeps_setBeam | apply keeps_setPos
        | apply keeps_modJ | apply keeps_RepairQueue_append | apply keeps_appendIf
        | apply ih | apply keeps_popQ | apply keeps_solve_conn
        | apply keeps_ite | apply keeps_bind | intro _) | split | dsimp only)

theorem keeps_repair_alternate (fuel : Nat) (f : Nat) :
    Keeps St.frame (Boxnet_repair.alternate fuel f) := by
  induction fuel with
  | zero => exact keeps_fail _
  | succ n ih =>
    unfold Boxnet_repair.alternate
    repeat' (first | with_reducible (first
        | apply keeps_pure | apply keeps_fail | apply keeps_assert | apply keeps_nonNull
        | apply keeps_dirOf | apply keeps_beamOf | apply keeps_nbOf | apply keeps_posOf
        | apply keeps_xOf | apply keeps_yOf | apply keeps_getJ | apply keeps_getBox
        | apply keeps_rayendRef | apply keeps_getBoxes
        | apply keeps_setNb | apply keeps_setDir | apply keeps_setBeam | apply keeps_setPos
        | apply keeps_modJ | apply keeps_RepairQueue_append | apply keeps_appendIf
        | apply ih | apply keeps_queue1Nonempty | apply keeps_repair_drain
        | apply keeps_ite | apply keeps_bind | intro _) | split | dsimp only)

theorem keeps_repair_enqueue (box tdir : Nat) :
    Keeps St.frame (Boxnet_repair.enqueue box tdir) := by
  unfold Boxnet_repair.enqueue
  repeat' (first | with_reducible (first
      | apply keeps_pure | apply keeps_fail | apply keeps_assert | apply keeps_nonNull
      | apply keeps_dirOf | apply keeps_beamOf | apply keeps_nbOf | apply keeps_posOf
      | apply keeps_xOf | apply keeps_yOf | apply keeps_getJ | apply keeps_getBox
      | apply keeps_rayendRef | apply keeps_getBoxes
      | apply keeps_setNb | apply keeps_setDir | apply keeps_setBeam | apply keeps_setPos
      | apply keeps_modJ | apply keeps_RepairQueue_append | apply keeps_appendIf
      | apply keeps_ite | apply keeps_bind | intro _) | split | dsimp only)

theorem keeps_Boxnet_repair (fuel : Nat) :
    Keeps St.frame (Boxnet_repair fuel) := by
  unfold Boxnet.Boxnet_repair
  repeat' (first | with_reducible (first
      | apply keeps_pure | apply keeps_fail | apply keeps_assert | apply keeps_nonNull
      | apply keeps_dirOf | apply keeps_beamOf | apply keeps_nbOf | apply keeps_posOf
      | apply keeps_xOf | apply keeps_yOf | apply keeps_getJ | apply keeps_getBox
      | apply keeps_rayendRef | apply keeps_getBoxes
      | apply keeps_setNb | apply keeps_setDir | apply keeps_setBeam | apply keeps_setPos
      | apply keeps_modJ | apply keeps_RepairQueue_append | apply keeps_appendIf
      | apply keeps_clearQueues | apply keeps_forEach | apply keeps_repair_enqueue | apply keeps_repair_alternate
      | apply keeps_ite | apply keeps_bind | intro _) | split | dsimp only)

theorem keeps_collide_prepare (fuel : Nat) (f box : Nat) (next : Option JRef) :
    Keeps St.frame (Boxnet_collide.prepare fuel f box next) := by
  induction fuel generalizing next with
  | zero => exact keeps_fail _
  | succ n ih =>
    unfold Boxnet_collide.prepare
    repeat' (first | with_reducible (first
        | apply keeps_pure | apply keeps_fail | apply keeps_assert | apply keeps_nonNull
        | apply keeps_dirOf | apply keeps_beamOf | apply keeps_nbOf | apply keeps_posOf
        | apply keeps_xOf | apply keeps_yOf | apply keeps_getJ | apply keeps_getBox
        | apply keeps_rayendRef | apply keeps_getBoxes
        | apply keeps_setNb | apply keeps_setDir | apply keeps_setBeam | apply keeps_setPos
        | apply keeps_modJ | apply keeps_RepairQueue_append | apply keeps_appendIf
        | apply ih | apply keeps_Junction_flip
        | apply keeps_ite | apply keeps_bind | intro _) | split | dsimp only)

theorem keeps_Box_free_unlink (fuel box d : Nat) :
    Keeps St.frame (Box_free.unlink fuel box d) := by
  unfold Box_free.unlink
  repeat' (first | with_reducible (first
      | apply keeps_pure | apply keeps_fail | apply keeps_assert | apply keeps_nonNull
      | apply keeps_dirOf | apply keeps_beamOf | apply keeps_nbOf | apply keeps_posOf
      | apply keeps_xOf | apply keeps_yOf | apply keeps_getJ | apply keeps_getBox
      | apply keeps_rayendRef | apply keeps_getBoxes
      | apply keeps_setNb | apply keeps_setDir | apply keeps_setBeam | apply keeps_setPos
      | apply keeps_modJ | apply keeps_RepairQueue_append | apply keeps_appendIf
      | apply keeps_Junction_flip
      | apply keeps_ite | apply keeps_bind | intro _) | split | dsimp only)

theorem keeps_Box_free_drop (box d : Nat) :
    Keeps St.frame (Box_free.drop box d) := by
  unfold Box_free.drop
  repeat' (first | with_reducible (first
      | apply keeps_pure | apply keeps_fail | apply keeps_assert | apply keeps_nonNull
      | apply keeps_dirOf | apply keeps_beamOf | apply keeps_nbOf | apply keeps_posOf
      | apply keeps_xOf | apply keeps_yOf | apply keeps_getJ | apply keeps_getBox
      | apply keeps_rayendRef | apply keeps_getBoxes
      | apply keeps_setNb | apply keeps_setDir | apply keeps_setBeam | apply keeps_setPos
      | apply keeps_modJ | apply keeps_RepairQueue_append | apply keeps_appendIf
      | apply keeps_detach
      | apply keeps_ite | apply keeps_bind | intro _) | split | dsimp only)

theorem keeps_repair_check_bad (box tdir : Nat) :
    Keeps St.frame (repair_check.bad box tdir) := by
  unfold repair_check.bad
  repeat' (first | with_reducible (first
      | apply keeps_pure | apply keeps_fail | apply keeps_assert | apply keeps_nonNull
      | apply keeps_dirOf | apply keeps_beamOf | apply keeps_nbOf | apply keeps_posOf
      | apply keeps_xOf | apply keeps_yOf | apply keeps_getJ | apply keeps_getBox
      | apply keeps_rayendRef | apply keeps_getBoxes
      | apply keeps_setNb | apply keeps_setDir | apply keeps_setBeam | apply keeps_setPos
      | apply keeps_modJ | apply keeps_RepairQueue_append | apply keeps_appendIf
      | apply keeps_needsflip
      | apply keeps_ite | apply keeps_bind | intro _) | split | dsimp only)

theorem keeps_repair_check :
    Keeps St.frame (repair_check) := by
  unfold Boxnet.repair_check
  repeat' (first | with_reducible (first
      | apply keeps_pure | apply keeps_fail | apply keeps_assert | apply keeps_nonNull
      | apply keeps_dirOf | apply keeps_beamOf | apply keeps_nbOf | apply keeps_posOf
      | apply keeps_xOf | apply keeps_yOf | apply keeps_getJ | apply keeps_getBox
      | apply keeps_rayendRef | apply keeps_getBoxes
      | apply keeps_setNb | apply keeps_setDir | apply keeps_setBeam | apply keeps_setPos
      | apply keeps_modJ | apply keeps_RepairQueue_append | apply keeps_appendIf
      | apply keeps_anyM | apply keeps_repair_check_bad
      | apply keeps_ite | apply keeps_bind | intro _) | split | dsimp only)


/-! ## The enumeration phase only logs genuine calls -/

theorem logs_iff {α : Type} (G : List (Option Geo)) (m : M α) (Q : α → Prop) :
    Logs G m Q ↔ ∀ s, s.geo = G → Grow G s (m s).state ∧ ∀ a t, m s = .ok a t → Q a := by
  unfold Logs; rfl

theorem Grow.refl {G : List (Option Geo)} {s : St} (h : s.geo = G) : Grow G s s :=
  ⟨h, rfl, [], rfl, by simp⟩

theorem Grow.trans {G : List (Option Geo)} {s t u : St} (h1 : Grow G s t) (h2 : Grow G t u) :
    Grow G s u := by
  obtain ⟨_, hb1, n1, hc1, hg1⟩ := h1
  obtain ⟨hgeo, hb2, n2, hc2, hg2⟩ := h2
  refine ⟨hgeo, hb2.trans hb1, n2 ++ n1, ?_, ?_⟩
  · rw [hc2, hc1, List.append_assoc]
  · intro c hc
    rcases List.mem_append.1 hc with h | h
    · exact hg2 c h
    · exact hg1 c h

theorem logs_weaken {α : Type} {G : List (Option Geo)} {m : M α} {Q R : α → Prop}
    (h : Logs G m Q) (hqr : ∀ a, Q a → R a) : Logs G m R := by
  rw [logs_iff] at h ⊢
  intro s hs
  exact ⟨(h s hs).1, fun a t hat => hqr a ((h s hs).2 a t hat)⟩

theorem logs_triv {α : Type} {G : List (Option Geo)} {m : M α} {Q : α → Prop}
    (h : Logs G m Q) : Logs G m (fun _ => True) :=
  logs_weaken h (fun _ _ => trivial)

theorem logs_of_keeps {α : Type} {G : List (Option Geo)} {m : M α}
    (h : Keeps St.frame m) : Logs G m (fun _ => True) := by
  rw [logs_iff]
  rw [keeps_iff] at h
  intro s hs
  have hf := h s
  simp only [St.frame, Prod.mk.injEq] at hf
  exact ⟨⟨hf.1.trans hs, hf.2.1, [], by simp [hf.2.2], by simp⟩, fun _ _ _ => trivial⟩

theorem logs_pure {α : Type} {G : List (Option Geo)} (a : α) (Q : α → Prop) (h : Q a) :
    Logs G (pure a : M α) Q := by
  rw [logs_iff]
  intro s hs
  refine ⟨Grow.refl hs, ?_⟩
  intro b t hbt
  rw [pure_eq] at hbt
  cases hbt
  exact h

theorem logs_bind {α β : Type} {G : List (Option Geo)} {m : M α} {f : α → M β}
    {Q : α → Prop} {R : β → Prop} (hm : Logs G m Q) (hf : ∀ a, Q a → Logs G (f a) R) :
    Logs G (m >>= f) R := by
  rw [logs_iff] at hm ⊢
  intro s hs
  obtain ⟨hg, hq⟩ := hm s hs
  rw [bind_eq]
  cases h : m s with
  | ok a s1 =>
    rw [h] at hg
    have hfa := (logs_iff _ _ _).1 (hf a (hq a s1 h)) s1 hg.1
    simp only
    exact ⟨hg.trans hfa.1, hfa.2⟩
  | err e s1 =>
    rw [h] at hg
    simp only
    exact ⟨hg, fun a t hat => by cases hat⟩

theorem logs_ite {α : Type} {G : List (Option Geo)} (c : Prop) [Decidable c] {a b : M α}
    {Q : α → Prop} (ha : c → Logs G a Q) (hb : ¬c → Logs G b Q) :
    Logs G (if c then a else b) Q := by
  split
  · exact ha ‹_›
  · exact hb ‹_›

theorem geoAt_geo (s : St) (p : Nat) : geoAt s.geo p = (s.box? p).map Box.geo := by
  unfold geoAt St.geo St.box?
  rw [List.getElem?_map]
  cases s.heap[p]? with
  | none => rfl
  | some o => cases o <;> rfl

theorem logs_getBox {G : List (Option Geo)} (p : Nat) :
    Logs G (getBox p) (fun b => geoAt G p = some b.geo) := by
  rw [logs_iff]
  intro s hs
  refine ⟨?_, ?_⟩
  · have := (keeps_iff (π := St.frame) _).1 (keeps_getBox p) s
    have h2 := (logs_iff _ _ _).1 (logs_of_keeps (G := G) (keeps_getBox p)) s hs
    exact h2.1
  · intro b t hbt
    subst hs
    rw [geoAt_geo]
    unfold Boxnet.getBox at hbt
    unfold St.box?
    cases h : s.heap[p]? with
    | none => rw [h] at hbt; cases hbt
    | some o =>
      cases o with
      | none => rw [h] at hbt; cases hbt
      | some b0 =>
        rw [h] at hbt
        cases hbt
        rfl

theorem logs_assert {G : List (Option Geo)} (c : Bool) :
    Logs G (assert c) (fun _ => c = true) := by
  rw [logs_iff]
  intro s hs
  refine ⟨((logs_iff _ _ _).1 (logs_of_keeps (G := G) (keeps_assert c)) s hs).1, ?_⟩
  intro a t hat
  unfold Boxnet.assert at hat
  cases c with
  | true => rfl
  | false => simp at hat

theorem logs_logCall {G : List (Option Geo)} (c : Call) (h : c.genuineG G) :
    Logs G (logCall c) (fun _ => True) := by
  rw [logs_iff]
  intro s hs
  refine ⟨⟨hs, rfl, [c], rfl, ?_⟩, fun _ _ _ => trivial⟩
  intro c1 hc1
  simp only [List.mem_singleton] at hc1
  subst hc1
  exact h

theorem logs_callback {G : List (Option Geo)} (box ap : Nat)
    (h : ∀ gb ga, geoAt G box = some gb → geoAt G ap = some ga → ga.overlaps gb) :
    Logs G (callback box ap) (fun _ => True) := by
  unfold Boxnet.callback
  refine logs_bind (logs_getBox box) (fun b hb => ?_)
  refine logs_bind (logs_getBox ap) (fun a ha => ?_)
  exact logs_logCall _ ⟨b.geo, a.geo, hb, ha, rfl, rfl, h _ _ hb ha⟩

theorem logs_queue_append {G : List (Option Geo)} (box : Nat) (append : Option Nat)
    (queue : List Nat) : Logs G (queue_append box append queue) (fun _ => True) := by
  unfold Boxnet.queue_append
  refine logs_bind (logs_of_keeps (keeps_nonNull _)) (fun ap _ => ?_)
  refine logs_bind (logs_getBox ap) (fun _ _ => ?_)
  refine logs_ite _ (fun _ => logs_pure _ _ trivial) (fun _ => ?_)
  refine logs_bind (logs_of_keeps (keeps_modBox _ _ (fun _ => rfl))) (fun _ _ => ?_)
  refine logs_bind (logs_getBox ap) (fun a1 ha1 => ?_)
  refine logs_bind (logs_getBox box) (fun b1 hb1 => ?_)
  refine logs_bind (logs_assert _) (fun _ h1 => ?_)
  refine logs_bind (logs_getBox ap) (fun a2 ha2 => ?_)
  refine logs_bind (logs_getBox box) (fun b2 hb2 => ?_)
  refine logs_bind (logs_assert _) (fun _ h2 => ?_)
  refine logs_bind (logs_assert _) (fun _ _ => ?_)
  refine logs_bind (logs_getBox ap) (fun a ha => ?_)
  refine logs_bind (logs_getBox box) (fun b hb => ?_)
  refine logs_bind (Q := fun _ => True) ?_ (fun _ _ => logs_pure _ _ trivial)
  refine logs_ite _ (fun hc => ?_) (fun _ => logs_pure _ _ trivial)
  apply logs_callback
  intro gb ga hgb hga
  rw [hb] at hgb
  rw [ha] at hga
  cases hgb
  cases hga
  have e1 : a1.geo = a.geo := Option.some.inj (ha1.symm.trans ha)
  have e2 : b1.geo = b.geo := Option.some.inj (hb1.symm.trans hb)
  have e3 : a2.geo = a.geo := Option.some.inj (ha2.symm.trans ha)
  have e4 : b2.geo = b.geo := Option.some.inj (hb2.symm.trans hb)
  simp only [Box.geo, Geo.mk.injEq] at e1 e2 e3 e4
  simp only [decide_eq_true_eq] at h1 h2
  refine ⟨hc.1, hc.2, ?_, ?_⟩
  · show a.posy ≤ b.top
    rw [← e1.2.1, ← e2.2.2.2.1]; exact h1
  · show a.top ≥ b.posy
    rw [← e3.2.2.2.1, ← e4.2.1]; exact h2

theorem logs_pure_triv {α : Type} {G : List (Option Geo)} (a : α) :
    Logs G (pure a : M α) (fun _ => True) := logs_pure _ _ trivial

theorem logs_queue_append_triv {G : List (Option Geo)} (box : Nat) (append : Option Nat)
    (queue : List Nat) : Logs G (queue_append box append queue) (fun _ => True) :=
  logs_queue_append box append queue

theorem logs_forEach {α : Type} {G : List (Option Geo)} (l : List α) (body : α → M Unit)
    (h : ∀ a, Logs G (body a) (fun _ => True)) : Logs G (forEach l body) (fun _ => True) := by
  induction l with
  | nil => exact logs_pure_triv _
  | cons a as ih =>
    unfold Boxnet.forEach
    exact logs_bind (h a) (fun _ _ => ih)

theorem logs_up {G : List (Option Geo)} (fuel box skip : Nat) (next : Option JRef)
    (queue : List Nat) : Logs G (boxcollisions.up fuel box skip next queue) (fun _ => True) := by
  induction fuel generalizing next queue with
  | zero => exact logs_of_keeps (keeps_fail _)
  | succ n ih =>
    unfold boxcollisions.up
    repeat' (first | with_reducible (first
      | apply ih | apply logs_queue_append_triv | apply logs_pure_triv
      | (apply logs_of_keeps; first
          | apply keeps_dirOf | apply keeps_nbOf | apply keeps_posOf | apply keeps_xOf
          | apply keeps_yOf | apply keeps_getBox | apply keeps_fail)
      | apply logs_ite | apply logs_bind | intro _) | split)

theorem logs_left {G : List (Option Geo)} (fuel box : Nat) (root : Option JRef)
    (queue : List Nat) : Logs G (boxcollisions.left fuel box root queue) (fun _ => True) := by
  induction fuel generalizing root queue with
  | zero => exact logs_of_keeps (keeps_fail _)
  | succ n ih =>
    unfold boxcollisions.left
    repeat' (first | with_reducible (first
      | apply ih | apply logs_up | apply logs_pure_triv
      | (apply logs_of_keeps; first
          | apply keeps_dirOf | apply keeps_nbOf | apply keeps_posOf | apply keeps_xOf
          | apply keeps_yOf | apply keeps_getBox | apply keeps_fail)
      | apply logs_ite | apply logs_bind | intro _) | split)

theorem logs_right {G : List (Option Geo)} (fuel box : Nat) (root : Option JRef)
    (queue : List Nat) : Logs G (boxcollisions.right fuel box root queue) (fun _ => True) := by
  induction fuel generalizing root queue with
  | zero => exact logs_of_keeps (keeps_fail _)
  | succ n ih =>
    unfold boxcollisions.right
    repeat' (first | with_reducible (first
      | apply ih | apply logs_up | apply logs_pure_triv
      | (apply logs_of_keeps; first
          | apply keeps_dirOf | apply keeps_nbOf | apply keeps_posOf | apply keeps_xOf
          | apply keeps_yOf | apply keeps_getBox | apply keeps_fail)
      | apply logs_ite | apply logs_bind | intro _) | split)

theorem logs_work {G : List (Option Geo)} (fuel f box : Nat) (queue : List Nat) :
    Logs G (boxcollisions.work fuel f box queue) (fun _ => True) := by
  induction fuel generalizing queue with
  | zero => exact logs_of_keeps (keeps_fail _)
  | succ n ih =>
    unfold boxcollisions.work
    repeat' (first | with_reducible (first
      | apply ih | apply logs_left | apply logs_right | apply logs_pure_triv
      | apply logs_ite | apply logs_bind | intro _) | split)

theorem logs_boxcollisions {G : List (Option Geo)} (fuel box : Nat) :
    Logs G (boxcollisions fuel box) (fun _ => True) :=
  logs_work _ _ _ _

theorem keeps_collide_prepare_all (fuel : Nat) (box : Nat) :
    Keeps St.frame (do
      modBox box (fun b => { b with marked := none })
      Boxnet_collide.prepare fuel fuel box (← nbOf (jncRef box) 3)) := by
  refine keeps_bind (keeps_modBox _ _ (fun _ => rfl)) (fun _ => ?_)
  exact keeps_bind (keeps_nbOf _ _) (fun _ => keeps_collide_prepare _ _ _ _)

theorem logs_Boxnet_collide {G : List (Option Geo)} (fuel : Nat) :
    Logs G (Boxnet_collide fuel) (fun _ => True) := by
  unfold Boxnet.Boxnet_collide
  refine logs_bind (logs_of_keeps (keeps_Boxnet_repair fuel)) (fun _ _ => ?_)
  refine logs_bind (logs_of_keeps keeps_getBoxes) (fun _ _ => ?_)
  refine logs_bind (logs_of_keeps (keeps_forEach _ _ (fun box => keeps_collide_prepare_all fuel box)))
    (fun _ _ => ?_)
  refine logs_bind (logs_of_keeps keeps_getBoxes) (fun _ _ => ?_)
  exact logs_forEach _ _ (fun box => logs_boxcollisions fuel box)

/-- C2 (no false positives): whatever the net, and whether the run returns or fails,
a call of `Boxnet_collide` leaves the box coordinates as they were and only adds to
the callback log invocations `(box, other)` that pass the closed-interval AABB test
`other.posx <= box.right`, `other.right >= box.posx`, `other.posy <= box.top`,
`other.top >= box.posy` (and that hand the user data of these two boxes to the
callback). -/
theorem C2_no_false_positives (fuel : Nat) (s : St) :
    (Boxnet_collide fuel s).state.geo = s.geo ∧
    ∃ new, (Boxnet_collide fuel s).state.calls = new ++ s.calls ∧
      ∀ c ∈ new, c.genuine s ∧ c.genuine (Boxnet_collide fuel s).state := by
  have h := ((logs_iff _ _ _).1 (logs_Boxnet_collide (G := s.geo) fuel) s rfl).1
  obtain ⟨hg, _, new, hc, hn⟩ := h
  refine ⟨hg, new, hc, fun c hcn => ⟨hn c hcn, ?_⟩⟩
  unfold Call.genuine
  rw [hg]
  exact hn c hcn

/-- Witness for C2: a second `Boxnet_collide` on the net of scenario S1. -/
theorem C2_no_false_positives_witness :
    (Boxnet_collide 100 netS1).state.geo = netS1.geo ∧
    ∃ new, (Boxnet_collide 100 netS1).state.calls = new ++ netS1.calls ∧
      ∀ c ∈ new, c.genuine netS1 ∧ c.genuine (Boxnet_collide 100 netS1).state :=
  C2_no_false_positives 100 netS1

/-! ## Scenario S1 -/

/-- C10 (scenario S1, the documented usage example): in a fresh net, adding
A = (-5.5, -1.5, -2.5, 1.5), B = (1, -3, 7, 3), C = (-5, 1, 5, 11) in this order with
`near` absent (handles 0, 1, 2, user data 1, 2, 3) and calling `Boxnet_collide` once
returns, and the callback log is exactly the invocation for (B, C) and the invocation
for (A, C), each once (most recent first); there is no invocation for A and B. -/
theorem C10_scenario_S1 :
    (scenarioS1 100 Boxnet_new).val? = some (0, 1, 2) ∧
    (scenarioS1 100 Boxnet_new).state.calls = [⟨1, 2, 2, 3⟩, ⟨0, 2, 1, 3⟩] := by
  decide!

/-! ## `Boxnet_addbox` -/

theorem getElem?_append_self {α : Type} (l : List α) (a : α) : (l ++ [a])[l.length]? = some a := by
  simp

theorem set_append_self {α : Type} (l : List α) (a b : α) :
    (l ++ [a]).set l.length b = l ++ [b] := by
  induction l with
  | nil => rfl
  | cons x xs ih => simp [ih]

theorem modBox_last (s : St) (b : Box) (h : List (Option Box)) (f : Box → Box)
    (hs : s.heap = h ++ [some b]) :
    modBox h.length f s = .ok () { s with heap := h ++ [some (f b)] } := by
  obtain ⟨heap, boxes, q1, q2, calls⟩ := s
  simp only at hs
  subst hs
  unfold modBox
  rw [bind_eq]
  simp only [getBox, getElem?_append_self]
  simp only [setBox, getElem?_append_self, set_append_self]

/-- The first half of `Boxnet_addbox`, up to the linking of the center junction. -/
theorem addbox_alloc (fuel : Nat) (x y right top : ℚ) (near : Option Nat) (usrdata : Nat)
    (s : St) (hv : right ≥ x ∧ top ≥ y) :
    Boxnet_addbox fuel x y right top near usrdata s =
      (do
        (match addboxNear s near with
         | some nr => do
           let _ ← Junction_insert fuel (jncRef s.heap.length) (jncRef nr)
           pure ()
         | none => forEach [0, 1, 2, 3] (fun d => setNb (jncRef s.heap.length) d none))
        setBoxes ((← getBoxes) ++ [s.heap.length])
        pure s.heap.length : M Nat) (s.alloc x y right top usrdata) := by
  unfold Boxnet_addbox
  show (Box_new >>= fun new => _) s = _
  rw [bind_eq]
  simp only [Box_new]
  show (modBox s.heap.length _ >>= fun _ => _) _ = _
  rw [bind_eq, modBox_last _ _ s.heap _ rfl]
  simp only
  show (Boxnet.assert _ >>= fun _ => _) _ = _
  rw [bind_eq]
  have hd : (decide (right ≥ x) && decide (top ≥ y)) = true := by simp [hv.1, hv.2]
  simp only [Boxnet.assert, hd, if_true]
  show (modBox s.heap.length _ >>= fun _ => _) _ = _
  rw [bind_eq, modBox_last _ _ s.heap _ rfl]
  simp only
  show (modBox s.heap.length _ >>= fun _ => _) _ = _
  rw [bind_eq, modBox_last _ _ s.heap _ rfl]
  simp only
  show (getBoxes >>= fun bs => _) _ = _
  rw [bind_eq]
  simp only [getBoxes]
  rfl

theorem addbox_assert (fuel : Nat) (x y right top : ℚ) (near : Option Nat) (usrdata : Nat)
    (s : St) (hv : ¬ (right ≥ x ∧ top ≥ y)) :
    (Boxnet_addbox fuel x y right top near usrdata s).err? = some .assertion ∧
    (Boxnet_addbox fuel x y right top near usrdata s).state.boxes = s.boxes := by
  unfold Boxnet_addbox
  show ((Box_new >>= fun new => _) s).err? = _ ∧ ((Box_new >>= fun new => _) s).state.boxes = _
  rw [bind_eq]
  simp only [Box_new]
  show ((modBox s.heap.length _ >>= fun _ => _) _).err? = _ ∧
    ((modBox s.heap.length _ >>= fun _ => _) _).state.boxes = _
  rw [bind_eq, modBox_last _ _ s.heap _ rfl]
  simp only
  show ((Boxnet.assert _ >>= fun _ => _) _).err? = _ ∧ ((Boxnet.assert _ >>= fun _ => _) _).state.boxes = _
  rw [bind_eq]
  have hd : (decide (right ≥ x) && decide (top ≥ y)) = false := by
    simp only [Bool.and_eq_false_imp, decide_eq_true_eq, decide_eq_false_iff_not]
    exact fun h1 h2 => hv ⟨h1, h2⟩
  simp only [Boxnet.assert, hd]
  exact ⟨rfl, rfl⟩

theorem modJ_last (s : St) (b : Box) (h : List (Option Box)) (slot : Nat) (j : Junction)
    (f : Junction → Junction) (hs : s.heap = h ++ [some b]) (hj : b.getJ slot = some j) :
    modJ ⟨h.length, slot⟩ f s = .ok () { s with heap := h ++ [some (b.setJ slot (f j))] } := by
  obtain ⟨heap, boxes, q1, q2, calls⟩ := s
  simp only at hs
  subst hs
  unfold modJ
  rw [bind_eq]
  simp only [getBox, getElem?_append_self]
  rw [bind_eq]
  simp only [inRange, hj]
  simp only [setBox, getElem?_append_self, set_append_self]

/-- In an empty net with `near` absent the new box becomes a singleton. -/
theorem addbox_singleton (fuel : Nat) (x y right top : ℚ) (usrdata : Nat) (s : St)
    (hv : right ≥ x ∧ top ≥ y) (he : s.boxes = []) :
    Boxnet_addbox fuel x y right top none usrdata s =
      .ok s.heap.length
        { s with heap := s.heap ++ [some (freshBox s.heap.length x y right top usrdata)],
                 boxes := [s.heap.length] } := by
  rw [addbox_alloc fuel x y right top none usrdata s hv]
  have hn : addboxNear s none = none := by simp [addboxNear, he]
  rw [hn]
  have hset : ∀ d, d < 4 → setNb (jncRef s.heap.length) d none (s.alloc x y right top usrdata) =
      .ok () (s.alloc x y right top usrdata) := by
    intro d hd
    unfold setNb
    simp only [hd, if_true]
    unfold jncRef
    rw [modJ_last (s.alloc x y right top usrdata) (freshBox s.heap.length x y right top usrdata)
      s.heap 4 _ _ rfl rfl]
    have h4 : d = 0 ∨ d = 1 ∨ d = 2 ∨ d = 3 := by omega
    rcases h4 with h | h | h | h <;> subst h <;> rfl
  simp only [forEach]
  rw [bind_eq, bind_eq, hset 0 (by omega)]
  simp only
  rw [bind_eq, hset 1 (by omega)]
  simp only
  rw [bind_eq, hset 2 (by omega)]
  simp only
  rw [bind_eq, hset 3 (by omega)]
  simp only [pure_eq]
  rw [bind_eq]
  simp only [getBoxes]
  rw [bind_eq]
  simp only [setBoxes, pure_eq, St.alloc, he, List.nil_append]

/-! ### `Junction_insert` leaves the center junctions' `dir` and anchors alone -/

theorem keeps_modJ_centers (r : JRef) (f : Junction → Junction)
    (hf : r.slot = 4 → ∀ j, (f j).dir = j.dir ∧ (f j).pos0 = j.pos0 ∧ (f j).pos1 = j.pos1) :
    Keeps St.centers (modJ r f) := by
  rw [keeps_iff]
  intro s
  unfold Boxnet.modJ
  rw [bind_eq]
  cases h : s.heap[r.box]? with
  | none => simp [Boxnet.getBox, h, Res.state]
  | some ob =>
    cases ob with
    | none => simp [Boxnet.getBox, h, Res.state]
    | some b =>
      simp only [Boxnet.getBox, h]
      rw [bind_eq]
      cases hj : b.getJ r.slot with
      | none => simp [Boxnet.inRange, Res.state]
      | some j =>
        simp only [Boxnet.inRange, setBox, h, Res.state, St.centers]
        apply map_set_same _ _ _ (some b) _ h
        simp only [Option.map_some', Option.some.injEq]
        unfold Box.setJ
        by_cases h4 : r.slot = 4
        · simp only [h4, if_true]
          have hb : b.jnc = j := by
            unfold Box.getJ at hj
            simp only [h4, if_true, Option.some.injEq] at hj
            exact hj
          rw [hb]
          obtain ⟨h1, h2, h3⟩ := hf h4 j
          simp [h1, h2, h3]
        · simp only [h4, if_false]

theorem keeps_setNb_centers (r : JRef) (d : Nat) (v : Option JRef) :
    Keeps St.centers (setNb r d v) := by
  unfold Boxnet.setNb
  exact keeps_ite _ (keeps_modJ_centers _ _ (fun _ _ => ⟨rfl, rfl, rfl⟩)) (keeps_fail _)

theorem keeps_setDir_centers (r : JRef) (v : Nat) (h : r.slot < 4) :
    Keeps St.centers (setDir r v) :=
  keeps_modJ_centers _ _ (fun h4 => by omega)

theorem keeps_setBeam_centers (r : JRef) (v : Nat) (h : r.slot < 4) :
    Keeps St.centers (setBeam r v) :=
  keeps_modJ_centers _ _ (fun h4 => by omega)

theorem keeps_setPos_centers (r : JRef) (i : Nat) (v : Option Nat) (h : r.slot < 4) :
    Keeps St.centers (setPos r i v) := by
  unfold Boxnet.setPos
  exact keeps_ite _ (keeps_modJ_centers _ _ (fun h4 => by omega))
    (keeps_ite _ (keeps_modJ_centers _ _ (fun h4 => by omega)) (keeps_fail _))

theorem keeps_bind_rayendRef {X β : Type} {π : St → X} (p : Option Nat) (k : Nat)
    (f : JRef → M β) (hf : ∀ r : JRef, r.slot < 4 → Keeps π (f r)) :
    Keeps π (rayendRef p k >>= f) := by
  rw [keeps_iff]
  intro s
  rw [bind_eq]
  unfold rayendRef
  rw [bind_eq]
  cases p with
  | none => rfl
  | some b =>
    simp only [nonNull]
    by_cases hk : k < 4
    · simp only [hk, if_true, pure_eq]
      exact (keeps_iff _).1 (hf ⟨b, k⟩ hk) s
    · simp only [hk, if_false]
      rfl

theorem keeps_insert_centers (jnc cur : JRef) (curdir cwccw : Nat) (next : Option JRef) :
    Keeps St.centers (Junction_insert.insert jnc cur curdir cwccw next) := by
  unfold Junction_insert.insert
  refine keeps_bind (keeps_posOf _ _) (fun p => ?_)
  refine keeps_bind_rayendRef _ _ _ (fun newjnc hnew => ?_)
  repeat' (first | with_reducible (first
    | apply keeps_pure | apply keeps_fail | apply keeps_assert | apply keeps_nonNull
    | apply keeps_dirOf | apply keeps_beamOf | apply keeps_nbOf | apply keeps_posOf
    | apply keeps_setNb_centers
    | (apply keeps_setDir_centers; assumption)
    | (apply keeps_setBeam_centers; assumption)
    | (apply keeps_setPos_centers; assumption)
    | apply keeps_ite | apply keeps_bind | intro _) | split | dsimp only)

theorem keeps_insert_loop_centers (fuel : Nat) (jnc cur : JRef) (curdir cwccw inserted : Nat) :
    Keeps St.centers (Junction_insert.loop fuel jnc cur curdir cwccw inserted) := by
  induction fuel generalizing cur curdir inserted with
  | zero => exact keeps_fail _
  | succ n ih =>
    unfold Junction_insert.loop
    repeat' (first | with_reducible (first
      | apply ih
      | apply keeps_pure | apply keeps_fail | apply keeps_assert | apply keeps_nonNull
      | apply keeps_dirOf | apply keeps_beamOf | apply keeps_nbOf | apply keeps_posOf
      | apply keeps_insert_centers
      | apply keeps_ite | apply keeps_bind | intro _) | split | dsimp only)

theorem keeps_Junction_insert_centers (fuel : Nat) (jnc start : JRef) :
    Keeps St.centers (Junction_insert fuel jnc start) := by
  unfold Boxnet.Junction_insert
  repeat' (first | with_reducible (first
    | apply keeps_pure | apply keeps_fail | apply keeps_assert | apply keeps_nonNull
    | apply keeps_dirOf | apply keeps_beamOf | apply keeps_nbOf | apply keeps_posOf
    | apply keeps_setNb_centers | apply keeps_insert_loop_centers
    | apply keeps_ite | apply keeps_bind | intro _) | split | dsimp only)

theorem centers_at (s : St) (p : Nat) :
    (s.centers[p]?).join = (s.box? p).map (fun b => (b.jnc.dir, b.jnc.pos0, b.jnc.pos1)) := by
  unfold St.centers St.box?
  rw [List.getElem?_map]
  cases s.heap[p]? with
  | none => rfl
  | some o => cases o <;> rfl

theorem alloc_box (s : St) (x y right top : ℚ) (usrdata : Nat) :
    (s.alloc x y right top usrdata).box? s.heap.length =
      some (freshBox s.heap.length x y right top usrdata) := by
  unfold St.box? St.alloc
  simp

/-- The second half of `Boxnet_addbox` when there is a starting box: it returns exactly
when `Junction_insert` does, with the new box appended to the container and its
coordinates, user data and center junction typing as built. -/
theorem addbox_linked (fuel : Nat) (x y right top : ℚ) (near : Option Nat) (usrdata : Nat)
    (s : St) (hv : right ≥ x ∧ top ≥ y) (nr : Nat) (hnr : addboxNear s near = some nr) :
    ((Junction_insert fuel (jncRef s.heap.length) (jncRef nr)
        (s.alloc x y right top usrdata)).err? = none →
      ∃ t b, Boxnet_addbox fuel x y right top near usrdata s = .ok s.heap.length t ∧
        t.boxes = s.boxes ++ [s.heap.length] ∧ t.box? s.heap.length = some b ∧
        b.posx = x ∧ b.posy = y ∧ b.right = right ∧ b.top = top ∧ b.usrdata = usrdata ∧
        b.jnc.dir = 4 ∧ b.jnc.pos0 = some s.heap.length ∧ b.jnc.pos1 = some s.heap.length) ∧
    (∀ e, (Junction_insert fuel (jncRef s.heap.length) (jncRef nr)
        (s.alloc x y right top usrdata)).err? = some e →
      (Boxnet_addbox fuel x y right top near usrdata s).err? = some e ∧
      (Boxnet_addbox fuel x y right top near usrdata s).state.boxes = s.boxes) := by
  rw [addbox_alloc fuel x y right top near usrdata s hv, hnr]
  have hf := (keeps_iff (π := St.frame) _).1
    (keeps_Junction_insert fuel (jncRef s.heap.length) (jncRef nr)) (s.alloc x y right top usrdata)
  have hc := (keeps_iff (π := St.centers) _).1
    (keeps_Junction_insert_centers fuel (jncRef s.heap.length) (jncRef nr))
    (s.alloc x y right top usrdata)
  simp only
  rw [bind_eq, bind_eq]
  cases hr : Junction_insert fuel (jncRef s.heap.length) (jncRef nr)
      (s.alloc x y right top usrdata) with
  | ok v t1 =>
    rw [hr] at hf hc
    simp only [Res.state, St.frame, Prod.mk.injEq] at hf hc
    obtain ⟨hgeo, hboxes, _⟩ := hf
    have hb1 : geoAt t1.geo s.heap.length =
        some (freshBox s.heap.length x y right top usrdata).geo := by
      rw [hgeo, geoAt_geo, alloc_box]; rfl
    have hc1 : (t1.centers[s.heap.length]?).join =
        some (4, some s.heap.length, some s.heap.length) := by
      rw [hc, centers_at, alloc_box]; rfl
    rw [geoAt_geo] at hb1
    rw [centers_at] at hc1
    cases hb : t1.box? s.heap.length with
    | none => rw [hb] at hb1; cases hb1
    | some b =>
      rw [hb] at hb1 hc1
      simp only [Option.map_some', Option.some.injEq, Box.geo, freshBox, Geo.mk.injEq,
        Prod.mk.injEq] at hb1 hc1
      refine ⟨fun _ => ⟨{ t1 with boxes := s.boxes ++ [s.heap.length] }, b, ?_, rfl, ?_,
        hb1.1, hb1.2.1, hb1.2.2.1, hb1.2.2.2.1, hb1.2.2.2.2, hc1.1, hc1.2.1, hc1.2.2⟩,
        fun e he => by simp [Res.err?] at he⟩
      · simp only [pure_eq]
        rw [bind_eq]
        simp only [getBoxes]
        rw [bind_eq]
        simp only [setBoxes, pure_eq, hboxes, St.alloc]
      · exact hb
  | err e t1 =>
    rw [hr] at hf
    simp only [Res.state, St.frame, Prod.mk.injEq] at hf
    refine ⟨fun he => by simp [Res.err?] at he, fun e2 he => ?_⟩
    simp only [Res.err?, Option.some.injEq] at he
    subst he
    exact ⟨rfl, hf.2.1⟩

/-! ## Deletion from the container -/

theorem swapRemove_spec (bs : List Nat) (n : Nat) (hn : n < bs.length) :
    SwapRemoved bs (swapRemove bs n) n := by
  unfold swapRemove
  have hlast : bs.getLast? = bs[bs.length - 1]? := List.getLast?_eq_getElem? bs
  have hl : bs[bs.length - 1]? = some (bs[bs.length - 1]) :=
    List.getElem?_eq_getElem (by omega)
  rw [hlast, hl]
  simp only
  have hget : ∀ i, i < bs.length - 1 →
      ((bs.set n bs[bs.length - 1]).dropLast)[i]? =
        if i = n then some bs[bs.length - 1] else bs[i]? := by
    intro i hi
    rw [List.dropLast_eq_take, List.getElem?_take_of_lt (by simpa using hi),
      List.getElem?_set]
    by_cases h : n = i
    · subst h; simp [hn]
    · have h2 : ¬ i = n := fun e => h e.symm
      simp [h, h2]
  refine ⟨by simp; omega, ?_, ?_⟩
  · intro i hi
    have hi2 : i < bs.length - 1 := by simpa using hi
    rw [hlast, hl]
    exact hget i hi2
  · intro m q hmn hq
    have hm : m < bs.length := by
      by_contra hc
      rw [List.getElem?_eq_none (by omega)] at hq
      cases hq
    by_cases hml : m = bs.length - 1
    · -- the last entry moved to slot n
      have h1 := hget n (by omega)
      simp only [if_true] at h1
      have hq2 : bs[bs.length - 1]? = some q := by rw [← hml]; exact hq
      rw [hl] at hq2
      rw [hq2] at h1
      exact List.mem_iff_getElem?.2 ⟨_, h1⟩
    · have h1 := hget m (by omega)
      simp only [hmn, if_false] at h1
      rw [hq] at h1
      exact List.mem_iff_getElem?.2 ⟨_, h1⟩

theorem keeps_boxes_of_frame {α : Type} {m : M α} (h : Keeps St.frame m) :
    Keeps St.boxes m := by
  rw [keeps_iff] at h ⊢
  intro s
  have := h s
  simp only [St.frame, Prod.mk.injEq] at this
  exact this.2.1

theorem keeps_freeBox (p : Nat) : Keeps St.boxes (freeBox p) := by
  rw [keeps_iff]; intro s; unfold freeBox; split <;> rfl

theorem keeps_Box_free (fuel box : Nat) : Keeps St.boxes (Box_free fuel box) := by
  unfold Box_free
  refine keeps_bind (keeps_forEach _ _ (fun d => keeps_boxes_of_frame (keeps_Box_free_unlink _ _ _)))
    (fun _ => ?_)
  refine keeps_bind (keeps_forEach _ _ (fun d => keeps_boxes_of_frame (keeps_Box_free_drop _ _)))
    (fun _ => ?_)
  exact keeps_freeBox _

/-- What both deletion routines do once the slot `n` of the box `p` is found: `Box_free`
on the box, then the swap-with-last; they return exactly when `Box_free` does. -/
theorem delete_tail (fuel p n : Nat) (s : St) (hn : n < s.boxes.length) :
    let r := (do Box_free fuel p; setBoxes (swapRemove (← getBoxes) n) : M Unit) s
    ((Box_free fuel p s).err? = none → r.err? = none ∧ SwapRemoved s.boxes r.state.boxes n) ∧
    (∀ e, (Box_free fuel p s).err? = some e → r.err? = some e ∧ r.state.boxes = s.boxes) := by
  intro r
  have hk := (keeps_iff (π := St.boxes) _).1 (keeps_Box_free fuel p) s
  have hr : r = match Box_free fuel p s with
      | .ok _ s1 => .ok () { s1 with boxes := swapRemove s1.boxes n }
      | .err e s1 => .err e s1 := by
    show (Box_free fuel p >>= fun _ => getBoxes >>= fun bs => setBoxes (swapRemove bs n)) s = _
    rw [bind_eq]
    cases Box_free fuel p s <;> rfl
  cases h : Box_free fuel p s with
  | ok u s1 =>
    rw [h] at hr hk
    simp only [Res.state] at hk
    rw [hr]
    refine ⟨fun _ => ⟨rfl, ?_⟩, fun e he => by simp [Res.err?] at he⟩
    simp only [Res.state]
    rw [hk]
    exact swapRemove_spec _ _ hn
  | err e s1 =>
    rw [h] at hr hk
    simp only [Res.state] at hk
    rw [hr]
    refine ⟨fun he => by simp [Res.err?] at he, fun e2 he => ?_⟩
    simp only [Res.err?, Option.some.injEq] at he
    subst he
    exact ⟨rfl, hk⟩

theorem lt_of_getElem?_some {α : Type} {l : List α} {n : Nat} {a : α} (h : l[n]? = some a) :
    n < l.length := by
  by_contra hc
  rw [List.getElem?_eq_none (by omega)] at h
  cases h

theorem search_found (h : Nat) (s : St) (bs : List Nat) (k n p : Nat)
    (hp : bs[n]? = some p) (hb : ∃ b, s.box? p = some b ∧ b.usrdata = h)
    (hlow : ∀ i q, i < n → bs[i]? = some q → ∃ c, s.box? q = some c ∧ c.usrdata ≠ h) :
    Boxnet_delbox_byusrdata.search h bs k s = .ok (some (k + n)) s := by
  induction bs generalizing k n with
  | nil => simp at hp
  | cons q qs ih =>
    unfold Boxnet_delbox_byusrdata.search
    rw [bind_eq]
    cases n with
    | zero =>
      simp only [List.getElem?_cons_zero, Option.some.injEq] at hp
      subst hp
      obtain ⟨b, hb1, hb2⟩ := hb
      unfold St.box? at hb1
      unfold getBox
      cases hh : s.heap[q]? with
      | none => rw [hh] at hb1; cases hb1
      | some o =>
        rw [hh] at hb1
        simp only [Option.join] at hb1
        subst hb1
        simp [hb2, pure_eq]
    | succ n =>
      obtain ⟨c, hc1, hc2⟩ := hlow 0 q (by omega) (by simp)
      unfold St.box? at hc1
      unfold getBox
      cases hh : s.heap[q]? with
      | none => rw [hh] at hc1; cases hc1
      | some o =>
        rw [hh] at hc1
        simp only [Option.join] at hc1
        subst hc1
        simp only [hc2, if_false]
        have := ih (k + 1) n (by simpa using hp) (fun i q2 hi hq2 => hlow (i + 1) q2 (by omega) (by simpa using hq2))
        rw [this]
        congr 2
        omega

theorem search_none (h : Nat) (s : St) (bs : List Nat) (k : Nat)
    (hall : ∀ q ∈ bs, ∃ c, s.box? q = some c ∧ c.usrdata ≠ h) :
    Boxnet_delbox_byusrdata.search h bs k s = .ok none s := by
  induction bs generalizing k with
  | nil => rfl
  | cons q qs ih =>
    unfold Boxnet_delbox_byusrdata.search
    rw [bind_eq]
    obtain ⟨c, hc1, hc2⟩ := hall q (by simp)
    unfold St.box? at hc1
    unfold getBox
    cases hh : s.heap[q]? with
    | none => rw [hh] at hc1; cases hc1
    | some o =>
      rw [hh] at hc1
      simp only [Option.join] at hc1
      subst hc1
      simp only [hc2, if_false]
      exact ih (k + 1) (fun q2 hq2 => hall q2 (by simp [hq2]))

theorem usrdata?_eq_some (s : St) (p h : Nat) :
    s.usrdata? p = some h ↔ ∃ b, s.box? p = some b ∧ b.usrdata = h := by
  unfold St.usrdata?
  cases s.box? p <;> simp

theorem usrdata?_ne (s : St) (p h : Nat) :
    (∃ u, s.usrdata? p = some u ∧ u ≠ h) ↔ ∃ c, s.box? p = some c ∧ c.usrdata ≠ h := by
  unfold St.usrdata?
  cases s.box? p <;> simp

/-- C8 (deletion from the container is swap-with-last on the first match).  For
`Boxnet_delbox` (match: same box) and `Boxnet_delbox_byusrdata` (match: `usrdata`
equals the handle): if `n` is the lowest index whose box matches, the routine runs
`Box_free` on that box and returns exactly when `Box_free` returns; afterwards the
container has one entry fewer, slot `n` holds the former last entry, every other
remaining slot is unchanged, and every entry that was not in slot `n` (in particular
further boxes with the same user data) is still contained; if `Box_free` fails, the
routine fails in the same way with the container unchanged.  If no contained box
matches, the routine fails on `assert(0)` with the state, hence the container,
unchanged. -/
theorem C8_delete_swaps_with_last (fuel : Nat) (s : St) :
    (∀ box n, s.boxes[n]? = some box → (∀ i, i < n → s.boxes[i]? ≠ some box) →
      ((Box_free fuel box s).err? = none →
        (Boxnet_delbox fuel box s).err? = none ∧
        SwapRemoved s.boxes (Boxnet_delbox fuel box s).state.boxes n) ∧
      (∀ e, (Box_free fuel box s).err? = some e →
        (Boxnet_delbox fuel box s).err? = some e ∧
        (Boxnet_delbox fuel box s).state.boxes = s.boxes)) ∧
    (∀ box, box ∉ s.boxes → Boxnet_delbox fuel box s = .err .assertion s) ∧
    (∀ h n p, s.boxes[n]? = some p → s.usrdata? p = some h →
      (∀ i q, i < n → s.boxes[i]? = some q → ∃ u, s.usrdata? q = some u ∧ u ≠ h) →
      ((Box_free fuel p s).err? = none →
        (Boxnet_delbox_byusrdata fuel h s).err? = none ∧
        SwapRemoved s.boxes (Boxnet_delbox_byusrdata fuel h s).state.boxes n) ∧
      (∀ e, (Box_free fuel p s).err? = some e →
        (Boxnet_delbox_byusrdata fuel h s).err? = some e ∧
        (Boxnet_delbox_byusrdata fuel h s).state.boxes = s.boxes)) ∧
    (∀ h, (∀ q ∈ s.boxes, ∃ u, s.usrdata? q = some u ∧ u ≠ h) →
      Boxnet_delbox_byusrdata fuel h s = .err .assertion s) := by
  refine ⟨?_, ?_, ?_, ?_⟩
  · intro box n hn hlow
    have hlt := lt_of_getElem?_some hn
    have hfind : s.boxes.findIdx? (fun b => decide (b = box)) = some n := by
      rw [List.findIdx?_eq_some_iff_getElem]
      refine ⟨hlt, ?_, ?_⟩
      · have := List.getElem?_eq_getElem hlt
        rw [this] at hn
        simpa using hn
      · intro j hj
        have hj2 : j < s.boxes.length := by omega
        have := hlow j hj
        rw [List.getElem?_eq_getElem hj2] at this
        simpa using this
    have heq : Boxnet_delbox fuel box s =
        (do Box_free fuel box; setBoxes (swapRemove (← getBoxes) n) : M Unit) s := by
      unfold Boxnet_delbox
      show (getBoxes >>= fun bs => _) s = _
      rw [bind_eq]
      simp only [getBoxes]
      rw [hfind]
    rw [heq]
    exact delete_tail fuel box n s hlt
  · intro box hbox
    have hfind : s.boxes.findIdx? (fun b => decide (b = box)) = none := by
      rw [List.findIdx?_eq_none_iff]
      intro x hx
      simp only [decide_eq_false_iff_not]
      intro e
      subst e
      exact hbox hx
    unfold Boxnet_delbox
    show (getBoxes >>= fun bs => _) s = _
    rw [bind_eq]
    simp only [getBoxes]
    rw [hfind]
    rfl
  · intro h n p hn hb hlow
    have hlt := lt_of_getElem?_some hn
    have hs := search_found h s s.boxes 0 n p hn ((usrdata?_eq_some s p h).1 hb)
      (fun i q hi hq => (usrdata?_ne s q h).1 (hlow i q hi hq))
    have heq : Boxnet_delbox_byusrdata fuel h s =
        (do Box_free fuel p; setBoxes (swapRemove (← getBoxes) n) : M Unit) s := by
      unfold Boxnet_delbox_byusrdata
      show (getBoxes >>= fun bs => _) s = _
      rw [bind_eq]
      simp only [getBoxes]
      rw [bind_eq, hs]
      simp only [Nat.zero_add]
      rw [bind_eq]
      simp only [inRange, hn]
    rw [heq]
    exact delete_tail fuel p n s hlt
  · intro h hall
    have hs := search_none h s s.boxes 0 (fun q hq => (usrdata?_ne s q h).1 (hall q hq))
    unfold Boxnet_delbox_byusrdata
    show (getBoxes >>= fun bs => _) s = _
    rw [bind_eq]
    simp only [getBoxes]
    rw [bind_eq, hs]
    rfl

/-- Witness for C8 on the net of scenario S1 (container `[0, 1, 2]`, user data 1, 2, 3):
deleting box 0 by handle, a box that is not contained, the box with user data 2 and a
user data that no box carries. -/
theorem C8_delete_swaps_with_last_witness :
    (netS1.boxes[0]? = some 0 ∧ (∀ i, i < 0 → netS1.boxes[i]? ≠ some 0) ∧
      (Box_free 100 0 netS1).err? = none ∧
      (Boxnet_delbox 100 0 netS1).err? = none ∧
      SwapRemoved netS1.boxes (Boxnet_delbox 100 0 netS1).state.boxes 0) ∧
    (5 ∉ netS1.boxes ∧ Boxnet_delbox 100 5 netS1 = .err .assertion netS1) ∧
    (netS1.boxes[1]? = some 1 ∧ netS1.usrdata? 1 = some 2 ∧
      (∀ i q, i < 1 → netS1.boxes[i]? = some q → ∃ u, netS1.usrdata? q = some u ∧ u ≠ 2) ∧
      (Box_free 100 1 netS1).err? = none ∧
      (Boxnet_delbox_byusrdata 100 2 netS1).err? = none ∧
      SwapRemoved netS1.boxes (Boxnet_delbox_byusrdata 100 2 netS1).state.boxes 1) ∧
    ((∀ q ∈ netS1.boxes, ∃ u, netS1.usrdata? q = some u ∧ u ≠ 9) ∧
      Boxnet_delbox_byusrdata 100 9 netS1 = .err .assertion netS1) := by
  have hb : netS1.boxes = [0, 1, 2] := by decide!
  have h0 : netS1.boxes[0]? = some 0 := by decide!
  have h1 : netS1.boxes[1]? = some 1 := by decide!
  have hlow0 : ∀ i, i < 0 → netS1.boxes[i]? ≠ some 0 := fun i hi => absurd hi (Nat.not_lt_zero i)
  have hf0 : (Box_free 100 0 netS1).err? = none := by decide!
  have hf1 : (Box_free 100 1 netS1).err? = none := by decide!
  have hu0 : netS1.usrdata? 0 = some 1 := by decide!
  have hu1 : netS1.usrdata? 1 = some 2 := by decide!
  have hu2 : netS1.usrdata? 2 = some 3 := by decide!
  have hlow1 : ∀ i q, i < 1 → netS1.boxes[i]? = some q →
      ∃ u, netS1.usrdata? q = some u ∧ u ≠ 2 := by
    intro i q hi hq
    have hi0 : i = 0 := by omega
    subst hi0
    rw [h0] at hq
    cases hq
    exact ⟨1, hu0, by decide⟩
  have h5 : 5 ∉ netS1.boxes := by rw [hb]; decide
  have hall : ∀ q ∈ netS1.boxes, ∃ u, netS1.usrdata? q = some u ∧ u ≠ 9 := by
    intro q hq
    rw [hb] at hq
    simp only [List.mem_cons, List.mem_singleton, List.not_mem_nil, or_false] at hq
    rcases hq with h | h | h
    · subst h; exact ⟨1, hu0, by decide⟩
    · subst h; exact ⟨2, hu1, by decide⟩
    · subst h; exact ⟨3, hu2, by decide⟩
  have hC := C8_delete_swaps_with_last 100 netS1
  exact ⟨⟨h0, hlow0, hf0, (hC.1 0 0 h0 hlow0).1 hf0⟩, ⟨h5, hC.2.1 5 h5⟩,
    ⟨h1, hu1, hlow1, hf1, (hC.2.2.1 2 1 1 h1 hu1 hlow1).1 hf1⟩, ⟨hall, hC.2.2.2 9 hall⟩⟩

/-! ## Box removal: what stays behind -/

/-- After `scenarioDelete` the deleted box A is released and B is the only contained
box; the center junction of B has all four neighbours null; but the detached ray-ends
`rayend[1]` and `rayend[0]` of B (`dir` 5) still hold their old neighbour links to the
center junction of A. -/
theorem stale_link_after_delbox :
    (scenarioDelete 100 Boxnet_new).err? = none ∧
    (scenarioDelete 100 Boxnet_new).state.boxes = [1] ∧
    (scenarioDelete 100 Boxnet_new).state.box? 0 = none ∧
    ((scenarioDelete 100 Boxnet_new).state.junction? ⟨1, 4⟩).map (fun j => j.nb) =
      some ⟨none, none, none, none⟩ ∧
    ((scenarioDelete 100 Boxnet_new).state.junction? ⟨1, 1⟩).map (fun j => (j.dir, j.nb.get 2)) =
      some (5, some (some ⟨0, 4⟩)) ∧
    ((scenarioDelete 100 Boxnet_new).state.junction? ⟨1, 0⟩).map (fun j => (j.dir, j.nb.get 3)) =
      some (5, some (some ⟨0, 4⟩)) := by
  decide!

/-! ## Scenario S2 -/

/-- C11, amended: scenario S2 returns, and its second `Boxnet_collide` invokes the
callback exactly three times, for (B, C), for (B, A) and for (A, C) (most recent
first, ahead of the two invocations logged by scenario S1): the moved box
A = (-1.5, -1.5, 1.5, 1.5) overlaps B = (1, -3, 7, 3) as well as C, and B still
overlaps C. -/
theorem C11_scenario_S2 :
    (scenarioS2 100 Boxnet_new).err? = none ∧
    (scenarioS2 100 Boxnet_new).state.calls =
      [⟨1, 2, 2, 3⟩, ⟨1, 0, 2, 1⟩, ⟨0, 2, 1, 3⟩] ++ netS1.calls ∧
    (scenarioS2 100 Boxnet_new).state.geo =
      [some ⟨-1.5, -1.5, 1.5, 1.5, 1⟩, some ⟨1, -3, 7, 3, 2⟩, some ⟨-5, 1, 5, 11, 3⟩] := by
  decide!

/-- C11 as stated fails: the second `Boxnet_collide` of scenario S2 also invokes the
callback for the pair (B, C) and for the pair (B, A), so not every invocation it adds
to the log of scenario S1 is for the pair of A (handle 0) and C (handle 2). -/
theorem C11_counterexample :
    ¬ ∃ new, (scenarioS2 100 Boxnet_new).state.calls = new ++ netS1.calls ∧
      ∀ c ∈ new, (c.box = 0 ∧ c.other = 2) ∨ (c.box = 2 ∧ c.other = 0) := by
  intro ⟨new, h, hall⟩
  have e : (scenarioS2 100 Boxnet_new).state.calls =
      [⟨1, 2, 2, 3⟩, ⟨1, 0, 2, 1⟩, ⟨0, 2, 1, 3⟩] ++ netS1.calls := by decide!
  rw [e] at h
  have := List.append_cancel_right h
  subst this
  have := hall ⟨1, 2, 2, 3⟩ (by simp)
  revert this
  decide

/-! ## `needsflip` -/

/-- A computation that keeps the whole state and returns `a` runs to `.ok a s`. -/
theorem ok_of_val? {α : Type} {m : M α} (hk : Keeps (fun s : St => s) m) {s : St} {a : α}
    (h : (m s).val? = some a) : m s = .ok a s := by
  have hs := (keeps_iff (π := fun s : St => s) m).1 hk s
  cases hm : m s with
  | ok b t =>
    rw [hm] at h hs
    cases h
    cases hs
    rfl
  | err e t =>
    rw [hm] at h
    cases h

/-- C13: for a junction `j` whose neighbour `n` in direction `d < 4` is non-null,
with `cn` and `cj` the compared coordinates of `n` and `j` (the y of `pos[1]` when
`d` is even, the x of `pos[0]` when `d` is odd), `needsflip j d` returns, without
changing the state, true exactly when `d = 0` and `cn < cj`, or `d = 1` and
`cn > cj`, or `d = 2` and `cn > cj`, or `d = 3` and `cn < cj`; in particular it
returns false when the two coordinates are equal. -/
theorem C13_needsflip (s : St) (j n : JRef) (d : Nat) (cn cj : ℚ) (hd : d < 4)
    (hnb : (nbOf j d s).val? = some (some n))
    (hn : ((if d % 2 = 0 then yOf n else xOf n) s).val? = some cn)
    (hj : ((if d % 2 = 0 then yOf j else xOf j) s).val? = some cj) :
    needsflip j d s = .ok (decide ((d = 0 ∧ cn < cj) ∨ (d = 1 ∧ cn > cj) ∨
        (d = 2 ∧ cn > cj) ∨ (d = 3 ∧ cn < cj))) s ∧
    (cn = cj → needsflip j d s = .ok false s) := by
  have hnb1 := ok_of_val? (keeps_nbOf j d) hnb
  have key : needsflip j d s = .ok (decide ((d = 0 ∧ cn < cj) ∨ (d = 1 ∧ cn > cj) ∨
        (d = 2 ∧ cn > cj) ∨ (d = 3 ∧ cn < cj))) s := by
    have hn1 : (if (d + 1) % 2 ≠ 0 then yOf n else xOf n) s = .ok cn s := by
      have e : (if (d + 1) % 2 ≠ 0 then yOf n else xOf n) =
          (if d % 2 = 0 then yOf n else xOf n) := by
        interval_cases d <;> rfl
      rw [e]
      refine ok_of_val? ?_ hn
      split
      · exact keeps_yOf _
      · exact keeps_xOf _
    have hj1 : (if (d + 1) % 2 ≠ 0 then yOf j else xOf j) s = .ok cj s := by
      have e : (if (d + 1) % 2 ≠ 0 then yOf j else xOf j) =
          (if d % 2 = 0 then yOf j else xOf j) := by
        interval_cases d <;> rfl
      rw [e]
      refine ok_of_val? ?_ hj
      split
      · exact keeps_yOf _
      · exact keeps_xOf _
    have c1 : (if cn = cj then (pure false : M Bool)
        else pure (decide ((if cn < cj then 1 else 0) ≠ (d + 1) % 4 / 2))) s =
        .ok (decide ((d = 0 ∧ cn < cj) ∨ (d = 1 ∧ cn > cj) ∨
          (d = 2 ∧ cn > cj) ∨ (d = 3 ∧ cn < cj))) s := by
      by_cases hc : cn = cj
      · subst hc
        simp [pure_eq]
      · rw [if_neg hc, pure_eq]
        congr 1
        rcases lt_or_gt_of_ne hc with hlt | hgt
        · have h2 : ¬ cj < cn := not_lt.2 (le_of_lt hlt)
          interval_cases d <;> simp [hlt, h2]
        · have h2 : ¬ cn < cj := not_lt.2 (le_of_lt hgt)
          interval_cases d <;> simp [hgt, h2]
    unfold Boxnet.needsflip
    rw [bind_eq, hnb1]
    simp only
    rw [bind_eq]
    simp only [nonNull, pure_eq]
    by_cases hp : (d + 1) % 2 ≠ 0
    · rw [if_pos hp] at hn1 hj1 ⊢
      rw [bind_eq, hn1]
      simp only
      rw [if_pos hp, bind_eq, hj1]
      exact c1
    · rw [if_neg hp] at hn1 hj1 ⊢
      rw [bind_eq, hn1]
      simp only
      rw [if_neg hp, bind_eq, hj1]
      exact c1
  refine ⟨key, fun h => ?_⟩
  rw [key]
  subst h
  simp

/-- Witness for C13 in the net of scenario S1 with A moved to (-1.5, -1.5, 1.5, 1.5): the
right neighbour (direction 3) of the center junction of A is the upper ray-end of C,
anchored at x = -5, left of A at x = -1.5, so the link needs a flip. -/
theorem C13_needsflip_witness :
    (nbOf (jncRef 0) 3 netMoved).val? = some (some ⟨2, 0⟩) ∧
    (xOf ⟨2, 0⟩ netMoved).val? = some (-5) ∧
    (xOf (jncRef 0) netMoved).val? = some (-1.5) ∧
    needsflip (jncRef 0) 3 netMoved = .ok true netMoved := by
  have h1 : (nbOf (jncRef 0) 3 netMoved).val? = some (some ⟨2, 0⟩) := by decide!
  have h2 : (xOf ⟨2, 0⟩ netMoved).val? = some (-5) := by decide!
  have h3 : (xOf (jncRef 0) netMoved).val? = some (-1.5) := by decide!
  refine ⟨h1, h2, h3, ?_⟩
  have h := (C13_needsflip netMoved (jncRef 0) ⟨2, 0⟩ 3 (-5) (-1.5) (by decide)
    h1 h2 h3).1
  rw [h]
  congr 1
  rw [decide_eq_true_iff]
  refine Or.inr (Or.inr (Or.inr ⟨rfl, ?_⟩))
  norm_num

/-! ## Returned values -/

theorem ret_iff {α : Type} (m : M α) (Q : α → Prop) :
    Ret m Q ↔ ∀ s a t, m s = .ok a t → Q a := by
  unfold Ret; rfl

theorem ret_pure {α : Type} (a : α) (Q : α → Prop) (h : Q a) : Ret (pure a : M α) Q := by
  rw [ret_iff]
  intro s b t hb
  rw [pure_eq] at hb
  cases hb
  exact h

theorem ret_fail {α : Type} (e : Err) (Q : α → Prop) : Ret (fail e : M α) Q := by
  rw [ret_iff]
  intro s b t hb
  cases hb

theorem ret_bind {α β : Type} {m : M α} {f : α → M β} {Q : β → Prop}
    (hf : ∀ a, Ret (f a) Q) : Ret (m >>= f) Q := by
  rw [ret_iff]
  intro s b t hb
  rw [bind_eq] at hb
  cases h : m s with
  | ok a s1 =>
    rw [h] at hb
    exact (ret_iff _ _).1 (hf a) s1 b t hb
  | err e s1 =>
    rw [h] at hb
    cases hb

theorem ret_ite {α : Type} (c : Prop) [Decidable c] {a b : M α} {Q : α → Prop}
    (ha : c → Ret a Q) (hb : ¬ c → Ret b Q) : Ret (if c then a else b) Q := by
  split
  · exact ha ‹_›
  · exact hb ‹_›

/-! ## The counter of `Junction_insert` -/

/-- A sweep of `Junction_insert` started with the counter at `inserted <= 4` returns a
counter that is at most 4 and, unless it started at 4, larger than at the start. -/
theorem insert_loop_counter (fuel : Nat) (jnc cur : JRef) (curdir cwccw inserted : Nat)
    (h4 : inserted ≤ 4) :
    Ret (Junction_insert.loop fuel jnc cur curdir cwccw inserted)
      (fun v => v ≤ 4 ∧ (inserted < 4 → inserted + 1 ≤ v) ∧ (inserted = 4 → v = 4)) := by
  induction fuel generalizing cur curdir inserted with
  | zero => exact ret_fail _ _
  | succ n ih =>
    unfold Junction_insert.loop
    refine ret_ite _ (fun h => ret_pure _ _ ?_) (fun h => ?_)
    · subst h
      exact ⟨le_refl _, fun h => absurd h (by omega), fun _ => rfl⟩
    · refine ret_bind (fun next => ?_)
      split
      · refine ret_bind (fun _ => ret_pure _ _ ?_)
        exact ⟨by omega, fun _ => le_refl _, fun h' => absurd h' h⟩
      · refine ret_bind (fun ndir => ?_)
        refine ret_ite _ (fun _ => ?_) (fun _ => ?_)
        · refine ret_bind (fun _ => ?_)
          have := ih ‹JRef› ((curdir + cwccw) % 4) (inserted + 1) (by omega)
          rw [ret_iff] at this ⊢
          intro s a t hat
          obtain ⟨h1, h2, h3⟩ := this s a t hat
          refine ⟨h1, fun _ => ?_, fun h' => absurd h' h⟩
          by_cases h5 : inserted + 1 < 4
          · have := h2 h5; omega
          · have := h3 (by omega); omega
        · have := ih ‹JRef› curdir inserted h4
          exact this

/-- C20 as stated fails: inserting the center junction of a second box next to the
center junction of the only box of a net returns with `inserted = 2`, and the
neighbours `nb[0]` and `nb[1]` of the new center junction are null. -/
theorem C20_counterexample :
    (Junction_insert 100 (jncRef 1) (jncRef 0) netInsert).val? = some 2 ∧
    ((Junction_insert 100 (jncRef 1) (jncRef 0) netInsert).state.junction? (jncRef 1)).map
      (fun j => j.nb) = some ⟨none, none, some ⟨1, 0⟩, some ⟨1, 1⟩⟩ := by
  decide!

/-! ## Junction updates -/

theorem bind_assoc_eq {α β γ : Type} (m : M α) (f : α → M β) (g : β → M γ) :
    (m >>= f) >>= g = m >>= fun a => f a >>= g := by
  funext s
  rw [bind_eq, bind_eq, bind_eq]
  cases m s <;> rfl

theorem solve_conn_eq (fuel : Nat) (jnc : JRef) (tdir : Nat) (q : QId) :
    solve_conn fuel jnc tdir q =
      (solve_conn.guard jnc tdir >>= fun _ => solve_conn.dispatch fuel jnc tdir q) := by
  unfold Boxnet.solve_conn solve_conn.guard solve_conn.dispatch
  simp only [bind_assoc_eq] <;> rfl

theorem box?_eq (s : St) (p : Nat) :
    s.box? p = match s.heap[p]? with
      | some (some b) => some b
      | _ => none := by
  unfold St.box?
  cases h : s.heap[p]? with
  | none => rfl
  | some ob => cases ob <;> rfl

theorem junction?_eq (s : St) (r : JRef) :
    s.junction? r = match s.heap[r.box]? with
      | some (some b) => b.getJ r.slot
      | _ => none := by
  unfold St.junction?
  rw [box?_eq]
  cases h : s.heap[r.box]? with
  | none => rfl
  | some ob => cases ob <;> rfl

theorem getJ_eq (r : JRef) (s : St) :
    getJ r s = match s.junction? r with
      | some j => .ok j s
      | none => if (s.box? r.box).isSome then .err .badIndex s else .err .freed s := by
  rw [junction?_eq, box?_eq]
  unfold Boxnet.getJ
  rw [bind_eq]
  unfold getBox
  cases h : s.heap[r.box]? with
  | none => rfl
  | some ob =>
    cases ob with
    | none => rfl
    | some b =>
      simp only
      unfold inRange
      cases hj : b.getJ r.slot <;> rfl

theorem getJ_some {r : JRef} {s : St} {j : Junction} (h : s.junction? r = some j) :
    getJ r s = .ok j s := by
  rw [getJ_eq, h]

theorem getJ_ok {r : JRef} {s t : St} {j : Junction} (h : getJ r s = .ok j t) :
    s.junction? r = some j ∧ t = s := by
  rw [getJ_eq] at h
  cases hj : s.junction? r with
  | none =>
    rw [hj] at h
    simp only at h
    split at h <;> cases h
  | some j0 =>
    rw [hj] at h
    cases h
    exact ⟨rfl, rfl⟩

theorem modJ_eq (r : JRef) (f : Junction → Junction) (s : St) :
    modJ r f s = match s.junction? r with
      | some j => .ok () (s.updJ r (f j))
      | none => if (s.box? r.box).isSome then .err .badIndex s else .err .freed s := by
  unfold St.updJ
  rw [junction?_eq, box?_eq]
  unfold Boxnet.modJ
  rw [bind_eq]
  unfold getBox
  cases h : s.heap[r.box]? with
  | none => rfl
  | some ob =>
    cases ob with
    | none => rfl
    | some b =>
      simp only
      rw [bind_eq]
      unfold inRange
      cases hj : b.getJ r.slot with
      | none => rfl
      | some j => simp [setBox, h]

theorem getJ_none {r : JRef} {s : St} (h : s.junction? r = none) :
    ∃ e, getJ r s = .err e s := by
  rw [getJ_eq, h]
  simp only
  split
  · exact ⟨_, rfl⟩
  · exact ⟨_, rfl⟩

theorem modJ_none {r : JRef} {f : Junction → Junction} {s : St} (h : s.junction? r = none) :
    ∃ e, modJ r f s = .err e s := by
  rw [modJ_eq, h]
  simp only
  split
  · exact ⟨_, rfl⟩
  · exact ⟨_, rfl⟩

theorem modJ_some {r : JRef} {f : Junction → Junction} {s : St} {j : Junction}
    (h : s.junction? r = some j) : modJ r f s = .ok () (s.updJ r (f j)) := by
  rw [modJ_eq, h]

theorem Box.getJ_setJ (b : Box) (slot slot2 : Nat) (j j0 : Junction)
    (h : b.getJ slot = some j0) :
    (b.setJ slot j).getJ slot2 = if slot2 = slot then some j else b.getJ slot2 := by
  unfold Box.getJ Box.setJ at *
  by_cases h4 : slot = 4
  · subst h4
    by_cases h5 : slot2 = 4
    · subst h5; simp
    · simp [h5]
  · simp only [h4, if_false] at h ⊢
    by_cases h5 : slot2 = 4
    · subst h5
      simp [Ne.symm h4]
    · simp only [h5, if_false]
      have hs : slot < 4 := by
        unfold Quad.get at h
        split at h <;> first | omega | cases h
      have hs2 : slot2 < 4 ∨ 4 < slot2 := by omega
      rcases hs2 with hs2 | hs2
      · interval_cases slot <;> interval_cases slot2 <;> simp [Quad.get, Quad.set]
      · have e1 : ∀ q : Quad Junction, q.get slot2 = none := by
          intro q
          unfold Quad.get
          split <;> first | omega | rfl
        rw [e1, e1]
        have : slot2 ≠ slot := by omega
        simp [this]

theorem junction?_updJ (s : St) (r r2 : JRef) (j j0 : Junction)
    (h : s.junction? r = some j0) :
    (s.updJ r j).junction? r2 = if r2 = r then some j else s.junction? r2 := by
  rw [junction?_eq] at h
  cases hb : s.heap[r.box]? with
  | none => rw [hb] at h; cases h
  | some ob =>
    cases ob with
    | none => rw [hb] at h; cases h
    | some b =>
      rw [hb] at h
      simp only at h
      have hbox : s.box? r.box = some b := by rw [box?_eq, hb]
      have hu : s.updJ r j = { s with heap := s.heap.set r.box (some (b.setJ r.slot j)) } := by
        unfold St.updJ
        rw [hbox]
        simp [h]
      rw [hu, junction?_eq, junction?_eq]
      simp only [List.getElem?_set]
      have hlt : r.box < s.heap.length := by
        by_contra hc
        rw [List.getElem?_eq_none (by omega)] at hb
        cases hb
      by_cases hbx : r.box = r2.box
      · rw [if_pos hbx, ← hbx, if_pos hlt, hb]
        simp only
        rw [Box.getJ_setJ b r.slot r2.slot j j0 h]
        by_cases hsl : r2.slot = r.slot
        · have : r2 = r := by
            cases r; cases r2; simp_all
          simp [this]
        · have : r2 ≠ r := by
            intro e; exact hsl (by rw [e])
          simp [hsl, this]
      · rw [if_neg hbx]
        have : r2 ≠ r := by
          intro e; exact hbx (by rw [e])
        simp [this]

theorem updJ_queues (s : St) (r : JRef) (j : Junction) :
    (s.updJ r j).queue1 = s.queue1 ∧ (s.updJ r j).queue2 = s.queue2 := by
  unfold St.updJ
  split
  · split <;> exact ⟨rfl, rfl⟩
  · exact ⟨rfl, rfl⟩

theorem updJ_pending (s : St) (r : JRef) (j : Junction) :
    (s.updJ r j).pending = s.pending := by
  unfold St.pending
  rw [(updJ_queues s r j).1, (updJ_queues s r j).2]

/-! ## The invariant calculus -/

section Calculus

variable {I : St → Prop}

theorem tri_iff {α : Type} (m : M α) (Q : α → Prop) :
    Tri I m Q ↔ ∀ s, I s → I (m s).state ∧ ∀ a t, m s = .ok a t → Q a := by
  unfold Tri; rfl

theorem tri_pure {α : Type} {a : α} {Q : α → Prop} (h : Q a) : Tri I (pure a : M α) Q := by
  rw [tri_iff]
  intro s hs
  refine ⟨hs, fun b t hb => ?_⟩
  rw [pure_eq] at hb
  cases hb
  exact h

theorem tri_fail {α : Type} {e : Err} {Q : α → Prop} : Tri I (fail e : M α) Q := by
  rw [tri_iff]
  intro s hs
  exact ⟨hs, fun b t hb => by cases hb⟩

theorem tri_bind {α β : Type} {m : M α} {f : α → M β} {Q : β → Prop}
    (h : Tri I m (fun a => Tri I (f a) Q)) : Tri I (m >>= f) Q := by
  rw [tri_iff] at h ⊢
  intro s hs
  obtain ⟨h1, h2⟩ := h s hs
  rw [bind_eq]
  cases hm : m s with
  | ok a s1 =>
    rw [hm] at h1
    exact (tri_iff _ _).1 (h2 a s1 hm) s1 h1
  | err e s1 =>
    rw [hm] at h1
    exact ⟨h1, fun b t hb => by cases hb⟩

theorem tri_ite {α : Type} {c : Prop} [Decidable c] {a b : M α} {Q : α → Prop}
    (ha : Tri I a Q) (hb : Tri I b Q) : Tri I (if c then a else b) Q := by
  split
  · exact ha
  · exact hb

theorem tri_weaken {α : Type} {m : M α} {P Q : α → Prop} (h : Tri I m P)
    (hpq : ∀ a, P a → Q a) : Tri I m Q := by
  rw [tri_iff] at h ⊢
  intro s hs
  exact ⟨(h s hs).1, fun a t hat => hpq a ((h s hs).2 a t hat)⟩

theorem tri_keeps {α : Type} {m : M α} {Q : α → Prop} (hk : Keeps (fun s : St => s) m)
    (h : ∀ a, Q a) : Tri I m Q := by
  rw [tri_iff]
  intro s hs
  have := (keeps_iff (π := fun s : St => s) m).1 hk s
  simp only at this
  rw [this]
  exact ⟨hs, fun a _ _ => h a⟩

theorem tri_assert {c : Bool} {Q : Unit → Prop} (h : Q ()) : Tri I (assert c) Q :=
  tri_keeps (keeps_assert _) (fun _ => h)

theorem tri_nonNull {α : Type} {o : Option α} {Q : α → Prop} (h : ∀ a, Q a) :
    Tri I (nonNull o) Q :=
  tri_keeps (keeps_nonNull _) h

theorem tri_inRange {α : Type} {o : Option α} {Q : α → Prop} (h : ∀ a, Q a) :
    Tri I (inRange o) Q :=
  tri_keeps (keeps_inRange _) h

theorem tri_nbOf {r : JRef} {d : Nat} {Q : Option JRef → Prop} (h : ∀ a, Q a) :
    Tri I (nbOf r d) Q :=
  tri_keeps (keeps_nbOf _ _) h

theorem tri_posOf {r : JRef} {i : Nat} {Q : Option Nat → Prop} (h : ∀ a, Q a) :
    Tri I (posOf r i) Q :=
  tri_keeps (keeps_posOf _ _) h

theorem tri_xOf {r : JRef} {Q : ℚ → Prop} (h : ∀ a, Q a) : Tri I (xOf r) Q :=
  tri_keeps (keeps_xOf _) h

theorem tri_yOf {r : JRef} {Q : ℚ → Prop} (h : ∀ a, Q a) : Tri I (yOf r) Q :=
  tri_keeps (keeps_yOf _) h

theorem tri_rayendRef {p : Option Nat} {k : Nat} {Q : JRef → Prop} (h : ∀ a, Q a) :
    Tri I (rayendRef p k) Q :=
  tri_keeps (keeps_rayendRef _ _) h

theorem tri_getBoxes {Q : List Nat → Prop} (h : ∀ a, Q a) : Tri I getBoxes Q :=
  tri_keeps keeps_getBoxes h

theorem tri_queue1Nonempty {Q : Bool → Prop} (h : ∀ a, Q a) : Tri I queue1Nonempty Q :=
  tri_keeps keeps_queue1Nonempty h

theorem tri_forEach {α : Type} (l : List α) {body : α → M Unit} {Q : Unit → Prop}
    (hb : ∀ a, a ∈ l → Tri I (body a) (fun _ => True)) (h : Q ()) :
    Tri I (forEach l body) Q := by
  induction l with
  | nil => exact tri_pure h
  | cons a as ih =>
    unfold forEach
    refine tri_bind (tri_weaken (hb a (by simp)) (fun _ _ => ?_))
    exact ih (fun b hb2 => hb b (by simp [hb2]))

end Calculus

/-! ## Enqueued cleanliness: the primitive steps -/

theorem enq_updJ {o : List Connection} {s : St} {r : JRef} {j j2 : Junction}
    (h : Enq o s) (hj : s.junction? r = some j) (he : j2.enqueued = j.enqueued)
    (hb : j2.bounded) : Enq o (s.updJ r j2) := by
  obtain ⟨h1, h2, h3, h4⟩ := h
  unfold Enq
  rw [updJ_pending]
  refine ⟨?_, ?_, ?_, h4⟩
  · intro r2 j3 hj3
    rw [junction?_updJ s r r2 j2 j hj] at hj3
    split at hj3
    · cases hj3; exact hb
    · exact h1 r2 j3 hj3
  · intro c hc
    refine ⟨(h2 c hc).1, ?_⟩
    rw [junction?_updJ s r c.jnc j2 j hj]
    split
    · exact ⟨_, rfl⟩
    · exact (h2 c hc).2
  · intro r2 j3 t hj3 ht
    rw [junction?_updJ s r r2 j2 j hj] at hj3
    split at hj3
    · cases hj3
      rename_i e
      rw [he, e]
      exact h3 r j t hj ht
    · exact h3 r2 j3 t hj3 ht

theorem stable_enq (o : List Connection) : Stable (Enq o) :=
  ⟨fun s r j h hj => h.1 r j hj, fun s r j j2 h hj he hb => enq_updJ h hj he hb⟩

section Surgery

variable {I : St → Prop}

theorem tri_getJ (hI : Stable I) {r : JRef} {Q : Junction → Prop}
    (h : ∀ j, j.bounded → Q j) : Tri I (getJ r) Q := by
  rw [tri_iff]
  intro s hs
  have hk := (keeps_iff (π := fun s : St => s) _).1 (keeps_getJ r) s
  simp only at hk
  rw [hk]
  refine ⟨hs, fun a t hat => ?_⟩
  exact h a (hI.1 s r a hs (getJ_ok hat).1)

theorem tri_dirOf (hI : Stable I) {r : JRef} {Q : Nat → Prop}
    (h : ∀ v, v < 8 → Q v) : Tri I (dirOf r) Q := by
  unfold Boxnet.dirOf
  exact tri_bind (tri_getJ hI (fun j hj => tri_pure (h _ hj.1)))

theorem tri_beamOf (hI : Stable I) {r : JRef} {Q : Nat → Prop}
    (h : ∀ v, v < 8 → Q v) : Tri I (beamOf r) Q := by
  unfold Boxnet.beamOf
  exact tri_bind (tri_getJ hI (fun j hj => tri_pure (h _ hj.2.1)))

theorem tri_modJ (hI : Stable I) {r : JRef} {f : Junction → Junction}
    {Q : Unit → Prop} (he : ∀ j, (f j).enqueued = j.enqueued)
    (hb : ∀ j, j.bounded → (f j).bounded) (h : Q ()) : Tri I (modJ r f) Q := by
  rw [tri_iff]
  intro s hs
  cases hj : s.junction? r with
  | none =>
    obtain ⟨e, he⟩ := modJ_none (f := f) hj
    rw [he]
    exact ⟨hs, fun a t hat => by cases hat⟩
  | some j =>
    rw [modJ_some hj]
    exact ⟨hI.2 s r j _ hs hj (he j) (hb j (hI.1 s r j hs hj)), fun _ _ _ => h⟩

theorem tri_setNb (hI : Stable I) {r : JRef} {d : Nat} {v : Option JRef}
    {Q : Unit → Prop} (h : Q ()) : Tri I (setNb r d v) Q := by
  unfold Boxnet.setNb
  exact tri_ite (tri_modJ hI (fun _ => rfl) (fun _ hj => hj) h) tri_fail

theorem tri_setPos (hI : Stable I) {r : JRef} {i : Nat} {v : Option Nat}
    {Q : Unit → Prop} (h : Q ()) : Tri I (setPos r i v) Q := by
  unfold Boxnet.setPos
  exact tri_ite (tri_modJ hI (fun _ => rfl) (fun _ hj => hj) h)
    (tri_ite (tri_modJ hI (fun _ => rfl) (fun _ hj => hj) h) tri_fail)

theorem tri_setDir (hI : Stable I) {r : JRef} {v : Nat} {Q : Unit → Prop}
    (hv : v < 8) (h : Q ()) : Tri I (setDir r v) Q := by
  unfold Boxnet.setDir
  exact tri_modJ hI (fun _ => rfl) (fun _ hj => ⟨hv, hj.2.1, hj.2.2⟩) h

theorem tri_setBeam (hI : Stable I) {r : JRef} {v : Nat} {Q : Unit → Prop}
    (hv : v < 8) (h : Q ()) : Tri I (setBeam r v) Q := by
  unfold Boxnet.setBeam
  exact tri_modJ hI (fun _ => rfl) (fun _ hj => ⟨hj.1, hv, hj.2.2⟩) h

theorem tri_append {q : QId} (hq : Appends I (some q)) {r : JRef} {t : Nat}
    {Q : Unit → Prop} (ht : t < 8) (h : Q ()) : Tri I (RepairQueue_append r t q) Q :=
  tri_weaken (hq q rfl r t ht) (fun _ _ => h)

theorem appends_none : Appends I none := by
  intro q hq
  cases hq

end Surgery

/-! ## Enqueued cleanliness: the bit arithmetic -/

theorem testBit_toggle (e t u : Nat) (he : e < 256) (ht : t < 8) (hu : u < 8) :
    ((e ^^^ (1 <<< t)) % 256).testBit u = (e.testBit u ^^ decide (t = u)) := by
  have h256 : (256 : Nat) = 2 ^ 8 := by norm_num
  rw [h256, Nat.testBit_mod_two_pow, Nat.testBit_xor, Nat.one_shiftLeft, Nat.testBit_two_pow]
  simp [hu]

theorem and_shift_eq_zero (e t : Nat) : (e &&& (1 <<< t)) = 0 ↔ e.testBit t = false := by
  rw [Nat.one_shiftLeft]
  constructor
  · intro h
    have := congrArg (fun n => n.testBit t) h
    simp only [Nat.testBit_and, Nat.testBit_two_pow, Nat.zero_testBit] at this
    simpa using this
  · intro h
    apply Nat.eq_of_testBit_eq
    intro i
    rw [Nat.testBit_and, Nat.testBit_two_pow, Nat.zero_testBit]
    by_cases hi : t = i
    · subst hi; simp [h]
    · simp [hi]

theorem toggle_lt (e t : Nat) : (e ^^^ (1 <<< t)) % 256 < 256 := Nat.mod_lt _ (by norm_num)

theorem eq_zero_of_bits (e : Nat) (he : e < 256) (h : ∀ t, t < 8 → e.testBit t = false) :
    e = 0 := by
  apply Nat.eq_of_testBit_eq
  intro i
  rw [Nat.zero_testBit]
  by_cases hi : i < 8
  · exact h i hi
  · apply Nat.testBit_lt_two_pow
    calc e < 256 := he
      _ = 2 ^ 8 := by norm_num
      _ ≤ 2 ^ i := Nat.pow_le_pow_right (by norm_num) (by omega)

/-! ## Enqueued cleanliness: appending and popping -/

/-- Toggling bit `t` of the junction `r` while the pair `(r, t)` enters (`push`) or
leaves (`¬ push`) the entries keeps the invariant. -/
theorem enq_toggle {o o2 : List Connection} {s s2 : St} {r : JRef} {t : Nat} {j : Junction}
    (push : Bool) (h : Enq o s) (hj : s.junction? r = some j) (ht : t < 8)
    (hJ : ∀ r2, s2.junction? r2 = if r2 = r then
      some { j with enqueued := (j.enqueued ^^^ (1 <<< t)) % 256 } else s.junction? r2)
    (hL : if push then (o2 ++ s2.pending).Perm (⟨r, t⟩ :: (o ++ s.pending)) ∧
        j.enqueued.testBit t = false
      else (o ++ s.pending).Perm (⟨r, t⟩ :: (o2 ++ s2.pending))) :
    Enq o2 s2 := by
  obtain ⟨h1, h2, h3, h4⟩ := h
  have hjb := h1 r j hj
  have hmem : ∀ c : Connection, c ∈ o2 ++ s2.pending ↔
      (c ∈ o ++ s.pending ∧ (push = false → c ≠ ⟨r, t⟩)) ∨ (push = true ∧ c = ⟨r, t⟩) := by
    intro c
    cases push with
    | true =>
      simp only [if_true] at hL
      rw [hL.1.mem_iff]
      simp only [List.mem_cons]
      constructor
      · rintro (e | e)
        · exact Or.inr ⟨trivial, e⟩
        · exact Or.inl ⟨e, fun h => by cases h⟩
      · rintro (⟨e, _⟩ | ⟨_, e⟩)
        · exact Or.inr e
        · exact Or.inl e
    | false =>
      simp only [Bool.false_eq_true, if_false] at hL
      have hnd : (⟨r, t⟩ :: (o2 ++ s2.pending)).Nodup := hL.nodup_iff.1 h4
      rw [List.nodup_cons] at hnd
      constructor
      · intro e
        refine Or.inl ⟨hL.mem_iff.2 (List.mem_cons_of_mem _ e), fun _ hc => ?_⟩
        rw [hc] at e
        exact hnd.1 e
      · rintro (⟨e, hne⟩ | ⟨e, _⟩)
        · have := hL.mem_iff.1 e
          rw [List.mem_cons] at this
          rcases this with e2 | e2
          · exact absurd e2 (hne rfl)
          · exact e2
        · cases e
  have hbit : push = false → j.enqueued.testBit t = true := by
    intro hp
    subst hp
    simp only [Bool.false_eq_true, if_false] at hL
    exact (h3 r j t hj ht).2 (hL.mem_iff.2 (List.mem_cons_self _ _))
  have hbit2 : push = true → j.enqueued.testBit t = false := by
    intro hp
    subst hp
    simp only [if_true] at hL
    exact hL.2
  refine ⟨?_, ?_, ?_, ?_⟩
  · intro r2 j3 hj3
    rw [hJ r2] at hj3
    split at hj3
    · cases hj3
      exact ⟨hjb.1, hjb.2.1, toggle_lt _ _⟩
    · exact h1 r2 j3 hj3
  · intro c hc
    have hex : ∀ r2, (∃ j0, s.junction? r2 = some j0) → ∃ j0, s2.junction? r2 = some j0 := by
      intro r2 ⟨j0, hj0⟩
      rw [hJ r2]
      split
      · exact ⟨_, rfl⟩
      · exact ⟨j0, hj0⟩
    rcases (hmem c).1 hc with ⟨e, _⟩ | ⟨_, e⟩
    · exact ⟨(h2 c e).1, hex _ (h2 c e).2⟩
    · subst e
      exact ⟨ht, hex _ ⟨j, hj⟩⟩
  · intro r2 j3 u hj3 hu
    rw [hmem]
    rw [hJ r2] at hj3
    split at hj3
    · rename_i e
      subst e
      cases hj3
      simp only
      rw [testBit_toggle _ _ _ hjb.2.2 ht hu]
      by_cases htu : t = u
      · subst htu
        cases push with
        | true => simp [hbit2 rfl]
        | false => simp [hbit rfl]
      · have hne : (⟨r2, u⟩ : Connection) ≠ ⟨r2, t⟩ := by
          intro e
          cases e
          exact htu rfl
        simp only [htu, decide_False, Bool.xor_false]
        rw [h3 r2 j u hj hu]
        simp [hne]
    · rename_i e
      have hne : (⟨r2, u⟩ : Connection) ≠ ⟨r, t⟩ := by
        intro e2
        cases e2
        exact e rfl
      rw [h3 r2 j3 u hj3 hu]
      simp [hne]
  · cases push with
    | true =>
      simp only [if_true] at hL
      rw [hL.1.nodup_iff, List.nodup_cons]
      refine ⟨fun hc => ?_, h4⟩
      have := (h3 r j t hj ht).2 hc
      rw [hL.2] at this
      cases this
    | false =>
      simp only [Bool.false_eq_true, if_false] at hL
      have hnd : (⟨r, t⟩ :: (o2 ++ s2.pending)).Nodup := hL.nodup_iff.1 h4
      exact (List.nodup_cons.1 hnd).2

theorem pushQ_eq (q : QId) (c : Connection) (s : St) :
    ∃ s1, pushQ q c s = .ok () s1 ∧ (∀ r, s1.junction? r = s.junction? r) ∧
      s1.pending.Perm (c :: s.pending) := by
  cases q with
  | q1 => exact ⟨_, rfl, fun _ => rfl, List.Perm.refl _⟩
  | q2 =>
    refine ⟨_, rfl, fun _ => rfl, ?_⟩
    show (s.queue1 ++ c :: s.queue2).Perm (c :: (s.queue1 ++ s.queue2))
    exact List.perm_middle

theorem tri_RepairQueue_append {o : List Connection} {r : JRef} {t : Nat} {q : QId}
    {Q : Unit → Prop} (ht : t < 8) (h : Q ()) :
    Tri (Enq o) (RepairQueue_append r t q) Q := by
  rw [tri_iff]
  intro s hs
  unfold RepairQueue_append
  rw [bind_eq]
  cases hj : s.junction? r with
  | none =>
    obtain ⟨e, he⟩ := getJ_none hj
    rw [he]
    exact ⟨hs, fun a t hat => by cases hat⟩
  | some j =>
    rw [getJ_some hj]
    simp only
    by_cases hbit : (j.enqueued &&& (1 <<< t)) = 0
    · rw [if_pos hbit]
      rw [and_shift_eq_zero] at hbit
      obtain ⟨s1, e1, e2, e3⟩ := pushQ_eq q ⟨r, t⟩ s
      rw [bind_eq, e1]
      simp only
      rw [modJ_some (j := j) (by rw [e2, hj])]
      simp only [Res.state]
      refine ⟨?_, fun _ _ _ => h⟩
      refine enq_toggle true hs hj ht (fun r2 => ?_) ?_
      · rw [junction?_updJ _ r r2 _ j (by rw [e2, hj]), e2]
      · simp only [if_true]
        rw [updJ_pending]
        refine ⟨?_, hbit⟩
        exact (List.Perm.append_left o e3).trans List.perm_middle
    · rw [if_neg hbit]
      exact ⟨hs, fun _ _ _ => h⟩

theorem appends_enq (o : List Connection) (queue : Option QId) : Appends (Enq o) queue :=
  fun _ _ _ _ ht => tri_RepairQueue_append ht trivial

theorem popQ_eq {q : QId} {c : Connection} {s t : St} (h : popQ q s = .ok (some c) t) :
    (∀ r, t.junction? r = s.junction? r) ∧ s.pending.Perm (c :: t.pending) := by
  unfold popQ at h
  cases q with
  | q1 =>
    simp only at h
    cases h1 : s.queue1 with
    | nil => rw [h1] at h; cases h
    | cons a as =>
      rw [h1] at h
      cases h
      refine ⟨fun _ => rfl, ?_⟩
      show (s.queue1 ++ s.queue2).Perm (c :: (as ++ s.queue2))
      rw [h1]
      exact List.Perm.refl _
  | q2 =>
    simp only at h
    cases h1 : s.queue2 with
    | nil => rw [h1] at h; cases h
    | cons a as =>
      rw [h1] at h
      cases h
      refine ⟨fun _ => rfl, ?_⟩
      show (s.queue1 ++ s.queue2).Perm (c :: (s.queue1 ++ as))
      rw [h1]
      exact List.perm_middle

theorem popQ_none {q : QId} {s t : St} (h : popQ q s = .ok none t) :
    t = s ∧ (match q with | .q1 => s.queue1 | .q2 => s.queue2) = [] := by
  unfold popQ at h
  cases q with
  | q1 =>
    simp only at h ⊢
    cases h1 : s.queue1 with
    | nil => rw [h1] at h; cases h; exact ⟨rfl, rfl⟩
    | cons a as => rw [h1] at h; cases h
  | q2 =>
    simp only at h ⊢
    cases h1 : s.queue2 with
    | nil => rw [h1] at h; cases h; exact ⟨rfl, rfl⟩
    | cons a as => rw [h1] at h; cases h

theorem popQ_total (q : QId) (s : St) : ∃ oc t, popQ q s = .ok oc t := by
  unfold popQ
  cases q with
  | q1 =>
    cases h1 : s.queue1 with
    | nil => exact ⟨_, _, rfl⟩
    | cons a as => exact ⟨_, _, rfl⟩
  | q2 =>
    cases h1 : s.queue2 with
    | nil => exact ⟨_, _, rfl⟩
    | cons a as => exact ⟨_, _, rfl⟩

/-- After an entry has been popped in a state satisfying the invariant, the two
assertions of `solve_conn` hold and the toggle between them restores the invariant. -/
theorem guard_ok {s t : St} {q : QId} {c : Connection} (hs : Enq [] s)
    (hp : popQ q s = .ok (some c) t) :
    ∃ t2, solve_conn.guard c.jnc c.tdir t = .ok () t2 ∧ Enq [] t2 := by
  obtain ⟨e1, e2⟩ := popQ_eq hp
  have hc : c ∈ [] ++ s.pending := by
    rw [List.nil_append, e2.mem_iff]
    exact List.mem_cons_self _ _
  obtain ⟨ht, j, hj⟩ := hs.2.1 c hc
  have hbit : j.enqueued.testBit c.tdir = true := (hs.2.2.1 c.jnc j c.tdir hj ht).2 hc
  have hjb := hs.1 _ _ hj
  have hjt : t.junction? c.jnc = some j := by rw [e1, hj]
  have hne : j.enqueued ≠ 0 := by
    intro h0
    rw [h0, Nat.zero_testBit] at hbit
    cases hbit
  refine ⟨t.updJ c.jnc { j with enqueued := (j.enqueued ^^^ (1 <<< c.tdir)) % 256 }, ?_, ?_⟩
  · unfold solve_conn.guard
    rw [bind_eq, getJ_some hjt]
    simp only
    rw [bind_eq]
    simp only [assert, hne, ne_eq, not_false_eq_true, decide_True, if_true]
    rw [bind_eq, modJ_some hjt]
    simp only
    rw [bind_eq, getJ_some (j := { j with enqueued := (j.enqueued ^^^ (1 <<< c.tdir)) % 256 })
      (by rw [junction?_updJ _ _ _ _ j hjt, if_pos rfl])]
    simp only
    have : ((j.enqueued ^^^ (1 <<< c.tdir)) % 256 &&& (1 <<< c.tdir)) = 0 := by
      rw [and_shift_eq_zero, testBit_toggle _ _ _ hjb.2.2 ht ht, hbit]
      simp
    simp only [this, decide_True]
    rfl
  · refine enq_toggle false hs hj ht (fun r2 => ?_) ?_
    · rw [junction?_updJ _ _ r2 _ j hjt, e1]
    · simp only [Bool.false_eq_true, if_false, List.nil_append]
      rw [updJ_pending]
      exact e2

/-! ## Enqueued cleanliness: the graph surgery -/

theorem xor_two_lt {v : Nat} (h : v < 8) : v ^^^ 2 < 8 := by
  interval_cases v <;> decide

theorem tri_appendIf {I : St → Prop} (hI : Stable I) {queue : Option QId} (hq : Appends I queue) (next : JRef)
    {Q : Unit → Prop} (h : Q ()) : Tri I (appendIf next queue) Q := by
  unfold appendIf
  repeat' (first | with_reducible (first
      | apply tri_bind | apply tri_pure | apply tri_fail | apply tri_ite
      | apply tri_assert | apply tri_nonNull | apply tri_inRange
      | apply tri_nbOf | apply tri_posOf | apply tri_xOf | apply tri_yOf
      | apply tri_rayendRef | apply tri_getBoxes | apply tri_queue1Nonempty
      | apply tri_dirOf hI | apply tri_beamOf hI | apply tri_getJ hI
      | apply tri_setNb hI | apply tri_setPos hI | apply tri_setDir hI | apply tri_setBeam hI
      | apply tri_append hq
      | intro _) | assumption | exact h _ | split | dsimp only | omega | exact xor_two_lt ‹_›)

theorem tri_detach {I : St → Prop} (hI : Stable I) (jnc : JRef)
    {Q : Unit → Prop} (h : Q ()) : Tri I (detach jnc) Q := by
  unfold detach
  repeat' (first | with_reducible (first
      | apply tri_bind | apply tri_pure | apply tri_fail | apply tri_ite
      | apply tri_assert | apply tri_nonNull | apply tri_inRange
      | apply tri_nbOf | apply tri_posOf | apply tri_xOf | apply tri_yOf
      | apply tri_rayendRef | apply tri_getBoxes | apply tri_queue1Nonempty
      | apply tri_dirOf hI | apply tri_beamOf hI | apply tri_getJ hI
      | apply tri_setNb hI | apply tri_setPos hI | apply tri_setDir hI | apply tri_setBeam hI
      | apply tri_append hq
      | intro _) | assumption | exact h _ | split | dsimp only | omega | exact xor_two_lt ‹_›)

theorem tri_flipone_back {I : St → Prop} (hI : Stable I) (fuel : Nat) (cur : JRef) (fdir fbeam : Nat)
    {Q : JRef → Prop} (h : ∀ a, Q a) : Tri I (Junction_flipone.back fuel cur fdir fbeam) Q := by
  induction fuel generalizing cur Q with
  | zero => exact tri_fail
  | succ n ih =>
    unfold Junction_flipone.back
    repeat' (first | with_reducible (first
        | apply tri_bind | apply tri_pure | apply tri_fail | apply tri_ite
        | apply tri_assert | apply tri_nonNull | apply tri_inRange
        | apply tri_nbOf | apply tri_posOf | apply tri_xOf | apply tri_yOf
        | apply tri_rayendRef | apply tri_getBoxes | apply tri_queue1Nonempty
        | apply tri_dirOf hI | apply tri_beamOf hI | apply tri_getJ hI
        | apply tri_setNb hI | apply tri_setPos hI | apply tri_setDir hI | apply tri_setBeam hI
        | apply tri_append hq
        | apply ih
        | intro _) | assumption | exact h _ | split | dsimp only | omega | exact xor_two_lt ‹_›)

theorem tri_flipone_side {I : St → Prop} (hI : Stable I) (fuel : Nat) (cur : JRef) (fdir fbeam : Nat)
    {Q : Option JRef → Prop} (h : ∀ a, Q a) : Tri I (Junction_flipone.side fuel cur fdir fbeam) Q := by
  induction fuel generalizing cur Q with
  | zero => exact tri_fail
  | succ n ih =>
    unfold Junction_flipone.side
    repeat' (first | with_reducible (first
        | apply tri_bind | apply tri_pure | apply tri_fail | apply tri_ite
        | apply tri_assert | apply tri_nonNull | apply tri_inRange
        | apply tri_nbOf | apply tri_posOf | apply tri_xOf | apply tri_yOf
        | apply tri_rayendRef | apply tri_getBoxes | apply tri_queue1Nonempty
        | apply tri_dirOf hI | apply tri_beamOf hI | apply tri_getJ hI
        | apply tri_setNb hI | apply tri_setPos hI | apply tri_setDir hI | apply tri_setBeam hI
        | apply tri_append hq
        | apply ih
        | intro _) | assumption | exact h _ | split | dsimp only | omega | exact xor_two_lt ‹_›)

theorem tri_flipone_stop {I : St → Prop} (hI : Stable I) (flipped next : JRef) (fdir : Nat)
    {Q : Bool → Prop} (h : ∀ a, Q a) : Tri I (Junction_flipone.stop flipped next fdir) Q := by
  unfold Junction_flipone.stop
  repeat' (first | with_reducible (first
      | apply tri_bind | apply tri_pure | apply tri_fail | apply tri_ite
      | apply tri_assert | apply tri_nonNull | apply tri_inRange
      | apply tri_nbOf | apply tri_posOf | apply tri_xOf | apply tri_yOf
      | apply tri_rayendRef | apply tri_getBoxes | apply tri_queue1Nonempty
      | apply tri_dirOf hI | apply tri_beamOf hI | apply tri_getJ hI
      | apply tri_setNb hI | apply tri_setPos hI | apply tri_setDir hI | apply tri_setBeam hI
      | apply tri_append hq
      | intro _) | assumption | exact h _ | split | dsimp only | omega | exact xor_two_lt ‹_›)

theorem tri_flipone_find {I : St → Prop} (hI : Stable I) (fuel : Nat) (flipped cur : JRef) (next : Option JRef) (fdir fbeam : Nat)
    {Q : JRef × Option JRef → Prop} (h : ∀ a, Q a) : Tri I (Junction_flipone.find fuel flipped cur next fdir fbeam) Q := by
  induction fuel generalizing cur next Q with
  | zero => exact tri_fail
  | succ n ih =>
    unfold Junction_flipone.find
    repeat' (first | with_reducible (first
        | apply tri_bind | apply tri_pure | apply tri_fail | apply tri_ite
        | apply tri_assert | apply tri_nonNull | apply tri_inRange
        | apply tri_nbOf | apply tri_posOf | apply tri_xOf | apply tri_yOf
        | apply tri_rayendRef | apply tri_getBoxes | apply tri_queue1Nonempty
        | apply tri_dirOf hI | apply tri_beamOf hI | apply tri_getJ hI
        | apply tri_setNb hI | apply tri_setPos hI | apply tri_setDir hI | apply tri_setBeam hI
        | apply tri_append hq
        | apply ih | apply tri_flipone_stop hI
        | intro _) | assumption | exact h _ | split | dsimp only | omega | exact xor_two_lt ‹_›)

set_option maxHeartbeats 1000000 in
theorem tri_Junction_flipone {I : St → Prop} (hI : Stable I) {queue : Option QId} (hq : Appends I queue) (fuel : Nat) (jnc : JRef)
    {Q : JRef → Prop} (h : ∀ a, Q a) : Tri I (Junction_flipone fuel jnc queue) Q := by
  unfold Junction_flipone
  repeat' (first | with_reducible (first
      | apply tri_bind | apply tri_pure | apply tri_fail | apply tri_ite
      | apply tri_assert | apply tri_nonNull | apply tri_inRange
      | apply tri_nbOf | apply tri_posOf | apply tri_xOf | apply tri_yOf
      | apply tri_rayendRef | apply tri_getBoxes | apply tri_queue1Nonempty
      | apply tri_dirOf hI | apply tri_beamOf hI | apply tri_getJ hI
      | apply tri_setNb hI | apply tri_setPos hI | apply tri_setDir hI | apply tri_setBeam hI
      | apply tri_append hq
      | apply tri_appendIf hI hq | apply tri_detach hI | apply tri_flipone_back hI | apply tri_flipone_side hI | apply tri_flipone_find hI
      | intro _) | assumption | exact h _ | split | dsimp only | omega | exact xor_two_lt ‹_›)

theorem tri_flip_seek {I : St → Prop} (hI : Stable I) (fuel : Nat) (jnc cur : JRef)
    {Q : JRef → Prop} (h : ∀ a, Q a) : Tri I (Junction_flip.seek fuel jnc cur) Q := by
  induction fuel generalizing cur Q with
  | zero => exact tri_fail
  | succ n ih =>
    unfold Junction_flip.seek
    repeat' (first | with_reducible (first
        | apply tri_bind | apply tri_pure | apply tri_fail | apply tri_ite
        | apply tri_assert | apply tri_nonNull | apply tri_inRange
        | apply tri_nbOf | apply tri_posOf | apply tri_xOf | apply tri_yOf
        | apply tri_rayendRef | apply tri_getBoxes | apply tri_queue1Nonempty
        | apply tri_dirOf hI | apply tri_beamOf hI | apply tri_getJ hI
        | apply tri_setNb hI | apply tri_setPos hI | apply tri_setDir hI | apply tri_setBeam hI
        | apply tri_append hq
        | apply ih
        | intro _) | assumption | exact h _ | split | dsimp only | omega | exact xor_two_lt ‹_›)

theorem tri_flip_unwind {I : St → Prop} (hI : Stable I) {queue : Option QId} (hq : Appends I queue) (fuel : Nat) (f : Nat) (jnc : JRef) (cur : Option JRef)
    {Q : JRef → Prop} (h : ∀ a, Q a) : Tri I (Junction_flip.unwind fuel f jnc cur queue) Q := by
  induction fuel generalizing cur Q with
  | zero => exact tri_fail
  | succ n ih =>
    unfold Junction_flip.unwind
    repeat' (first | with_reducible (first
        | apply tri_bind | apply tri_pure | apply tri_fail | apply tri_ite
        | apply tri_assert | apply tri_nonNull | apply tri_inRange
        | apply tri_nbOf | apply tri_posOf | apply tri_xOf | apply tri_yOf
        | apply tri_rayendRef | apply tri_getBoxes | apply tri_queue1Nonempty
        | apply tri_dirOf hI | apply tri_beamOf hI | apply tri_getJ hI
        | apply tri_setNb hI | apply tri_setPos hI | apply tri_setDir hI | apply tri_setBeam hI
        | apply tri_append hq
        | apply ih | apply tri_Junction_flipone hI hq
        | intro _) | assumption | exact h _ | split | dsimp only | omega | exact xor_two_lt ‹_›)

theorem tri_Junction_flip {I : St → Prop} (hI : Stable I) {queue : Option QId} (hq : Appends I queue) (fuel : Nat) (jnc : JRef)
    {Q : JRef → Prop} (h : ∀ a, Q a) : Tri I (Junction_flip fuel jnc queue) Q := by
  unfold Junction_flip
  repeat' (first | with_reducible (first
      | apply tri_bind | apply tri_pure | apply tri_fail | apply tri_ite
      | apply tri_assert | apply tri_nonNull | apply tri_inRange
      | apply tri_nbOf | apply tri_posOf | apply tri_xOf | apply tri_yOf
      | apply tri_rayendRef | apply tri_getBoxes | apply tri_queue1Nonempty
      | apply tri_dirOf hI | apply tri_beamOf hI | apply tri_getJ hI
      | apply tri_setNb hI | apply tri_setPos hI | apply tri_setDir hI | apply tri_setBeam hI
      | apply tri_append hq
      | apply tri_flip_seek hI | apply tri_flip_unwind hI hq
      | intro _) | assumption | exact h _ | split | dsimp only | omega | exact xor_two_lt ‹_›)

theorem tri_needsflip {I : St → Prop} (hI : Stable I) (jnc : JRef) (d : Nat)
    {Q : Bool → Prop} (h : ∀ a, Q a) : Tri I (needsflip jnc d) Q := by
  unfold needsflip
  repeat' (first | with_reducible (first
      | apply tri_bind | apply tri_pure | apply tri_fail | apply tri_ite
      | apply tri_assert | apply tri_nonNull | apply tri_inRange
      | apply tri_nbOf | apply tri_posOf | apply tri_xOf | apply tri_yOf
      | apply tri_rayendRef | apply tri_getBoxes | apply tri_queue1Nonempty
      | apply tri_dirOf hI | apply tri_beamOf hI | apply tri_getJ hI
      | apply tri_setNb hI | apply tri_setPos hI | apply tri_setDir hI | apply tri_setBeam hI
      | apply tri_append hq
      | intro _) | assumption | exact h _ | split | dsimp only | omega | exact xor_two_lt ‹_›)

theorem tri_reconnect_linear {I : St → Prop} (hI : Stable I) (start next : JRef) (d : Nat)
    {Q : Unit → Prop} (h : Q ()) : Tri I (reconnect_linear start next d) Q := by
  unfold reconnect_linear
  repeat' (first | with_reducible (first
      | apply tri_bind | apply tri_pure | apply tri_fail | apply tri_ite
      | apply tri_assert | apply tri_nonNull | apply tri_inRange
      | apply tri_nbOf | apply tri_posOf | apply tri_xOf | apply tri_yOf
      | apply tri_rayendRef | apply tri_getBoxes | apply tri_queue1Nonempty
      | apply tri_dirOf hI | apply tri_beamOf hI | apply tri_getJ hI
      | apply tri_setNb hI | apply tri_setPos hI | apply tri_setDir hI | apply tri_setBeam hI
      | apply tri_append hq
      | intro _) | assumption | exact h _ | split | dsimp only | omega | exact xor_two_lt ‹_›)

theorem tri_slide_walk {I : St → Prop} (hI : Stable I) (fuel : Nat) (next : JRef) (tdir ndir : Nat)
    {Q : JRef → Prop} (h : ∀ a, Q a) : Tri I (Junction_slide.walk fuel next tdir ndir) Q := by
  induction fuel generalizing next Q with
  | zero => exact tri_fail
  | succ n ih =>
    unfold Junction_slide.walk
    repeat' (first | with_reducible (first
        | apply tri_bind | apply tri_pure | apply tri_fail | apply tri_ite
        | apply tri_assert | apply tri_nonNull | apply tri_inRange
        | apply tri_nbOf | apply tri_posOf | apply tri_xOf | apply tri_yOf
        | apply tri_rayendRef | apply tri_getBoxes | apply tri_queue1Nonempty
        | apply tri_dirOf hI | apply tri_beamOf hI | apply tri_getJ hI
        | apply tri_setNb hI | apply tri_setPos hI | apply tri_setDir hI | apply tri_setBeam hI
        | apply tri_append hq
        | apply ih
        | intro _) | assumption | exact h _ | split | dsimp only | omega | exact xor_two_lt ‹_›)

set_option maxHeartbeats 1000000 in
theorem tri_Junction_slide {I : St → Prop} (hI : Stable I) {queue : QId} (hq : Appends I (some queue)) (fuel : Nat) (jnc : JRef) (tdir : Nat)
    {Q : Unit → Prop} (ht : tdir < 8) (h : Q ()) : Tri I (Junction_slide fuel jnc tdir queue) Q := by
  unfold Junction_slide
  repeat' (first | with_reducible (first
      | apply tri_bind | apply tri_pure | apply tri_fail | apply tri_ite
      | apply tri_assert | apply tri_nonNull | apply tri_inRange
      | apply tri_nbOf | apply tri_posOf | apply tri_xOf | apply tri_yOf
      | apply tri_rayendRef | apply tri_getBoxes | apply tri_queue1Nonempty
      | apply tri_dirOf hI | apply tri_beamOf hI | apply tri_getJ hI
      | apply tri_setNb hI | apply tri_setPos hI | apply tri_setDir hI | apply tri_setBeam hI
      | apply tri_append hq
      | apply tri_needsflip hI | apply tri_Junction_flip hI hq | apply tri_detach hI | apply tri_reconnect_linear hI | apply tri_slide_walk hI
      | intro _) | assumption | exact h _ | split | dsimp only | omega | exact xor_two_lt ‹_›)

theorem tri_Junction_slide_T {I : St → Prop} (hI : Stable I) {queue : QId} (hq : Appends I (some queue)) (fuel : Nat) (jnc : JRef)
    {Q : Unit → Prop} (h : Q ()) : Tri I (Junction_slide_T fuel jnc queue) Q := by
  unfold Junction_slide_T
  repeat' (first | with_reducible (first
      | apply tri_bind | apply tri_pure | apply tri_fail | apply tri_ite
      | apply tri_assert | apply tri_nonNull | apply tri_inRange
      | apply tri_nbOf | apply tri_posOf | apply tri_xOf | apply tri_yOf
      | apply tri_rayendRef | apply tri_getBoxes | apply tri_queue1Nonempty
      | apply tri_dirOf hI | apply tri_beamOf hI | apply tri_getJ hI
      | apply tri_setNb hI | apply tri_setPos hI | apply tri_setDir hI | apply tri_setBeam hI
      | apply tri_append hq
      | apply tri_needsflip hI | apply tri_Junction_flip hI hq | apply tri_reconnect_linear hI
      | intro _) | assumption | exact h _ | split | dsimp only | omega | exact xor_two_lt ‹_›)

theorem tri_dispatch {I : St → Prop} (hI : Stable I) {queue : QId} (hq : Appends I (some queue)) (fuel : Nat) (jnc : JRef) (tdir : Nat)
    {Q : Unit → Prop} (ht : tdir < 8) (h : Q ()) : Tri I (solve_conn.dispatch fuel jnc tdir queue) Q := by
  unfold solve_conn.dispatch
  repeat' (first | with_reducible (first
      | apply tri_bind | apply tri_pure | apply tri_fail | apply tri_ite
      | apply tri_assert | apply tri_nonNull | apply tri_inRange
      | apply tri_nbOf | apply tri_posOf | apply tri_xOf | apply tri_yOf
      | apply tri_rayendRef | apply tri_getBoxes | apply tri_queue1Nonempty
      | apply tri_dirOf hI | apply tri_beamOf hI | apply tri_getJ hI
      | apply tri_setNb hI | apply tri_setPos hI | apply tri_setDir hI | apply tri_setBeam hI
      | apply tri_append hq
      | apply tri_needsflip hI | apply tri_Junction_slide hI hq | apply tri_Junction_slide_T hI hq
      | intro _) | assumption | exact h _ | split | dsimp only | omega | exact xor_two_lt ‹_›)

/-! ## Enqueued cleanliness: the loops of `Boxnet_repair` -/

theorem tri_repair_drain (fuel f : Nat) (qin : QId) {Q : Unit → Prop} (h : Q ()) :
    Tri (Enq []) (Boxnet_repair.drain fuel f qin) Q := by
  induction fuel with
  | zero => exact tri_fail
  | succ n ih =>
    rw [tri_iff]
    intro s hs
    unfold Boxnet_repair.drain
    rw [bind_eq]
    obtain ⟨oc, t, hp⟩ := popQ_total qin s
    rw [hp]
    cases oc with
    | none =>
      obtain ⟨e, _⟩ := popQ_none hp
      subst e
      exact ⟨hs, fun _ _ _ => h⟩
    | some c =>
      simp only
      obtain ⟨t2, hg, ht2⟩ := guard_ok hs hp
      have hc : c ∈ [] ++ s.pending := by
        rw [List.nil_append, (popQ_eq hp).2.mem_iff]
        exact List.mem_cons_self _ _
      have ht := (hs.2.1 c hc).1
      rw [solve_conn_eq, bind_assoc_eq, bind_eq, hg]
      simp only
      have key : Tri (Enq []) (solve_conn.dispatch f c.jnc c.tdir qin.other >>=
          fun _ => Boxnet_repair.drain n f qin) Q :=
        tri_bind (tri_dispatch (stable_enq []) (appends_enq [] _) f c.jnc c.tdir ht ih)
      exact (tri_iff _ _).1 key t2 ht2

theorem tri_repair_alternate (fuel f : Nat) {Q : Unit → Prop} (h : Q ()) :
    Tri (Enq []) (Boxnet_repair.alternate fuel f) Q := by
  induction fuel with
  | zero => exact tri_fail
  | succ n ih =>
    unfold Boxnet_repair.alternate
    refine tri_bind (tri_queue1Nonempty (fun b => ?_))
    refine tri_ite ?_ (tri_pure h)
    exact tri_bind (tri_repair_drain f f .q1 (tri_bind (tri_repair_drain f f .q2 ih)))

theorem tri_repair_boxes (fuel : Nat) (bs : List Nat) {Q : Unit → Prop} (h : Q ()) :
    Tri (Enq []) (forEach bs (fun box => do
      forEach [0, 1, 2, 3] (Boxnet_repair.enqueue box)
      Boxnet_repair.alternate fuel fuel)) Q := by
  refine tri_forEach bs (fun box _ => ?_) h
  refine tri_bind (tri_forEach _ (fun d hd => ?_) ?_)
  · have hd8 : d < 8 := by
      simp only [List.mem_cons, List.mem_singleton, List.not_mem_nil, or_false] at hd
      omega
    unfold Boxnet_repair.enqueue
    refine tri_bind (tri_RepairQueue_append hd8 ?_)
    refine tri_bind (tri_dirOf (stable_enq []) (fun v _ => tri_ite ?_ (tri_pure trivial)))
    exact tri_bind (tri_beamOf (stable_enq []) 
      (fun b hb => tri_RepairQueue_append hb trivial))
  · exact tri_repair_alternate fuel fuel trivial

/-! ## Both queues are empty when `Boxnet_repair` returns -/

theorem drain_post (fuel f : Nat) (qin : QId) (s t : St)
    (h : Boxnet_repair.drain fuel f qin s = .ok () t) :
    (match qin with | .q1 => t.queue1 | .q2 => t.queue2) = [] := by
  induction fuel generalizing s with
  | zero => cases h
  | succ n ih =>
    unfold Boxnet_repair.drain at h
    rw [bind_eq] at h
    obtain ⟨oc, s1, hp⟩ := popQ_total qin s
    rw [hp] at h
    cases oc with
    | none =>
      obtain ⟨e, hq⟩ := popQ_none hp
      subst e
      simp only at h
      cases h
      exact hq
    | some c =>
      simp only at h
      rw [bind_eq] at h
      cases hsc : solve_conn f c.jnc c.tdir qin.other s1 with
      | err e s2 => rw [hsc] at h; cases h
      | ok u s2 =>
        rw [hsc] at h
        exact ih s2 h

theorem alternate_post (fuel f : Nat) (s t : St) (h2 : s.queue2 = [])
    (h : Boxnet_repair.alternate fuel f s = .ok () t) : t.queue1 = [] ∧ t.queue2 = [] := by
  induction fuel generalizing s with
  | zero => cases h
  | succ n ih =>
    unfold Boxnet_repair.alternate at h
    rw [bind_eq] at h
    simp only [queue1Nonempty] at h
    by_cases hq : s.queue1.isEmpty = true
    · simp only [hq, Bool.not_true, Bool.false_eq_true, if_false] at h
      cases h
      exact ⟨List.isEmpty_iff.1 hq, h2⟩
    · simp only [hq, Bool.not_false, if_true] at h
      rw [bind_eq] at h
      cases h1 : Boxnet_repair.drain f f .q1 s with
      | err e s1 => rw [h1] at h; cases h
      | ok u s1 =>
        rw [h1] at h
        simp only at h
        rw [bind_eq] at h
        cases h3 : Boxnet_repair.drain f f .q2 s1 with
        | err e s2 => rw [h3] at h; cases h
        | ok u2 s2 =>
          rw [h3] at h
          exact ih s2 (drain_post f f .q2 s1 s2 h3) h

theorem keeps_queue2_modJ (r : JRef) (f : Junction → Junction) :
    Keeps (fun s : St => s.queue2) (modJ r f) := by
  rw [keeps_iff]
  intro s
  rw [modJ_eq]
  cases s.junction? r with
  | none =>
    simp only
    split <;> rfl
  | some j => exact (updJ_queues s r (f j)).2

theorem keeps_queue2_append (r : JRef) (t : Nat) :
    Keeps (fun s : St => s.queue2) (RepairQueue_append r t .q1) := by
  unfold RepairQueue_append
  refine keeps_bind (keeps_getJ _) (fun j => keeps_ite _ ?_ (keeps_pure _))
  refine keeps_bind ?_ (fun _ => keeps_queue2_modJ _ _)
  rw [keeps_iff]
  intro s
  rfl

theorem keeps_queue2_enqueue (box tdir : Nat) :
    Keeps (fun s : St => s.queue2) (Boxnet_repair.enqueue box tdir) := by
  unfold Boxnet_repair.enqueue
  refine keeps_bind (keeps_queue2_append _ _) (fun _ => ?_)
  refine keeps_bind (keeps_dirOf _) (fun _ => keeps_ite _ ?_ (keeps_pure _))
  exact keeps_bind (keeps_beamOf _) (fun _ => keeps_queue2_append _ _)

theorem repair_boxes_post (fuel : Nat) (bs : List Nat) (s t : St)
    (hq : s.queue1 = [] ∧ s.queue2 = [])
    (h : forEach bs (fun box => do
      forEach [0, 1, 2, 3] (Boxnet_repair.enqueue box)
      Boxnet_repair.alternate fuel fuel) s = .ok () t) : t.queue1 = [] ∧ t.queue2 = [] := by
  induction bs generalizing s with
  | nil =>
    cases h
    exact hq
  | cons b bs ih =>
    unfold forEach at h
    rw [bind_eq] at h
    simp only at h
    rw [bind_eq] at h
    have hk := (keeps_iff (π := fun s : St => s.queue2) _).1
      (keeps_forEach [0, 1, 2, 3] (Boxnet_repair.enqueue b)
        (fun d => keeps_queue2_enqueue b d)) s
    cases h1 : forEach [0, 1, 2, 3] (Boxnet_repair.enqueue b) s with
    | err e s1 => rw [h1] at h; cases h
    | ok u s1 =>
      rw [h1] at h hk
      simp only [Res.state] at hk
      simp only at h
      cases h2 : Boxnet_repair.alternate fuel fuel s1 with
      | err e s2 => rw [h2] at h; cases h
      | ok u2 s2 =>
        rw [h2] at h
        exact ih s2 (alternate_post fuel fuel s1 s2 (by rw [hk, hq.2]) h2) h

theorem Boxnet_repair_eq (fuel : Nat) (s : St) :
    Boxnet_repair fuel s = forEach s.boxes (fun box => do
      forEach [0, 1, 2, 3] (Boxnet_repair.enqueue box)
      Boxnet_repair.alternate fuel fuel) { s with queue1 := [], queue2 := [] } := rfl

theorem tidy_iff (s : St) :
    Tidy s ↔ ∀ r j, s.junction? r = some j → j.bounded ∧ j.enqueued = 0 := by
  unfold Tidy
  constructor
  · intro h r j hj
    rw [junction?_eq] at hj
    cases hb : s.heap[r.box]? with
    | none => rw [hb] at hj; cases hj
    | some ob =>
      cases ob with
      | none => rw [hb] at hj; cases hj
      | some b =>
        rw [hb] at hj
        simp only at hj
        refine h (some b) (List.mem_iff_getElem?.2 ⟨_, hb⟩) b rfl j ?_
        unfold Box.getJ at hj
        unfold Box.junctions
        split at hj
        · cases hj; simp
        · unfold Quad.get at hj
          split at hj <;> first | (cases hj; simp) | cases hj
  · intro h ob hob b hb j hj
    subst hb
    obtain ⟨p, hp⟩ := List.mem_iff_getElem?.1 hob
    unfold Box.junctions at hj
    simp only [List.mem_cons, List.mem_singleton, List.not_mem_nil, or_false] at hj
    have key : ∀ slot, b.getJ slot = some j → j.bounded ∧ j.enqueued = 0 := by
      intro slot hs
      apply h ⟨p, slot⟩ j
      rw [junction?_eq, hp]
      exact hs
    rcases hj with e | e | e | e | e
    · exact key 4 (by rw [e]; rfl)
    · exact key 0 (by rw [e]; rfl)
    · exact key 1 (by rw [e]; rfl)
    · exact key 2 (by rw [e]; rfl)
    · exact key 3 (by rw [e]; rfl)

theorem enq_of_tidy (s : St) (h : Tidy s) : Enq [] { s with queue1 := [], queue2 := [] } := by
  rw [tidy_iff] at h
  refine ⟨fun r j hj => (h r j hj).1, ?_, ?_, ?_⟩
  · intro c hc
    cases hc
  · intro r j t hj ht
    have : j.enqueued = 0 := (h r j hj).2
    rw [this, Nat.zero_testBit]
    constructor
    · intro e; cases e
    · intro e; cases e
  · exact List.nodup_nil

/-- C18: in a run of `Boxnet_repair` that starts with all `enqueued` masks 0 (in a net
whose `dir` and `beamdir` bytes are below 8, as in every net built through the API,
`tidy_of_api`), enqueued cleanliness `Enq []` holds in
the state in which the run ends, whether it returns, fails or is cut off by the fuel
at a loop head: bit `tdir` of `j.enqueued` is set exactly when the pair `(j, tdir)`
is in one of the two queues, and no pair is in them twice. When the run returns, both
queues are empty and every junction of every allocated box has `enqueued == 0`.
The two assertions of `solve_conn` hold whenever an entry is popped in a state with
enqueued cleanliness: the first three statements `solve_conn.guard` of `solve_conn`
return, and re-establish enqueued cleanliness for the rest `solve_conn.dispatch`. -/
theorem C18_enqueued_cleanliness (s : St) (hs : Tidy s) :
    (∀ fuel, Enq [] (Boxnet_repair fuel s).state) ∧
    (∀ fuel t, Boxnet_repair fuel s = .ok () t →
      t.queue1 = [] ∧ t.queue2 = [] ∧ ∀ r j, t.junction? r = some j → j.enqueued = 0) ∧
    (∀ u q c t, Enq [] u → popQ q u = .ok (some c) t →
      ∃ t2, solve_conn.guard c.jnc c.tdir t = .ok () t2 ∧ Enq [] t2) ∧
    (∀ fuel jnc tdir q, solve_conn fuel jnc tdir q =
      (solve_conn.guard jnc tdir >>= fun _ => solve_conn.dispatch fuel jnc tdir q)) := by
  have h1 : ∀ fuel, Enq [] (Boxnet_repair fuel s).state := by
    intro fuel
    rw [Boxnet_repair_eq]
    exact ((tri_iff _ _).1 (tri_repair_boxes fuel s.boxes (Q := fun _ => True) trivial) _
      (enq_of_tidy s hs)).1
  refine ⟨h1, fun fuel t ht => ?_, fun u q c t hu hp => guard_ok hu hp, solve_conn_eq⟩
  have hq : t.queue1 = [] ∧ t.queue2 = [] := by
    rw [Boxnet_repair_eq] at ht
    exact repair_boxes_post fuel s.boxes _ t ⟨rfl, rfl⟩ ht
  refine ⟨hq.1, hq.2, fun r j hj => ?_⟩
  have he := h1 fuel
  rw [ht] at he
  simp only [Res.state] at he
  apply eq_zero_of_bits _ (he.1 r j hj).2.2
  intro u hu
  cases hb : j.enqueued.testBit u with
  | false => rfl
  | true =>
    have := (he.2.2.1 r j u hj hu).1 hb
    simp only [St.pending, hq.1, hq.2, List.append_nil, List.not_mem_nil] at this

/-- Witness for C18: the net of scenario S1 with A moved, which `Boxnet_repair` has to
repair; the run returns. -/
theorem C18_enqueued_cleanliness_witness :
    Tidy netMoved ∧ (Boxnet_repair 100 netMoved).err? = none ∧
    (∀ fuel, Enq [] (Boxnet_repair fuel netMoved).state) ∧
    (∀ fuel t, Boxnet_repair fuel netMoved = .ok () t →
      t.queue1 = [] ∧ t.queue2 = [] ∧ ∀ r j, t.junction? r = some j → j.enqueued = 0) :=
  ⟨by decide!, by decide!, (C18_enqueued_cleanliness netMoved (by decide!)).1,
    (C18_enqueued_cleanliness netMoved (by decide!)).2.1⟩

/-! ## Simulation across a change of coordinates -/

section Simulation

variable {φ : Cmap}

theorem sim_iff {α : Type} (m m2 : M α) (R : α → α → Prop) :
    Sim φ m m2 R ↔ ∀ s, match m s, m2 (s.mapC φ) with
      | .ok a t, .ok a2 t2 => t2 = t.mapC φ ∧ R a a2
      | .err e t, .err e2 t2 => e2 = e ∧ t2 = t.mapC φ
      | _, _ => False := by
  unfold Sim; rfl

theorem sim_pure {α : Type} {a a2 : α} {R : α → α → Prop} (h : R a a2) :
    Sim φ (pure a : M α) (pure a2) R := by
  rw [sim_iff]
  intro s
  exact ⟨rfl, h⟩

theorem sim_fail {α : Type} {e : Err} {R : α → α → Prop} :
    Sim φ (fail e : M α) (fail e) R := by
  rw [sim_iff]
  intro s
  exact ⟨rfl, rfl⟩

theorem sim_bind {α β : Type} {m m2 : M α} {f f2 : α → M β} {R : β → β → Prop}
    (h : Sim φ m m2 (fun a a2 => Sim φ (f a) (f2 a2) R)) :
    Sim φ (m >>= f) (m2 >>= f2) R := by
  rw [sim_iff] at h ⊢
  intro s
  have hs := h s
  rw [bind_eq, bind_eq]
  cases h1 : m s with
  | ok a t =>
    cases h2 : m2 (s.mapC φ) with
    | ok a2 t2 =>
      rw [h1, h2] at hs
      simp only at hs ⊢
      obtain ⟨e, hr⟩ := hs
      subst e
      exact (sim_iff _ _ _).1 hr t
    | err e2 t2 =>
      rw [h1, h2] at hs
      exact hs.elim
  | err e t =>
    cases h2 : m2 (s.mapC φ) with
    | ok a2 t2 =>
      rw [h1, h2] at hs
      exact hs.elim
    | err e2 t2 =>
      rw [h1, h2] at hs
      exact hs

theorem sim_ite {α : Type} {c c2 : Prop} [Decidable c] [Decidable c2] {a b a2 b2 : M α}
    {R : α → α → Prop} (hc : c2 ↔ c) (ha : Sim φ a a2 R) (hb : Sim φ b b2 R) :
    Sim φ (if c then a else b) (if c2 then a2 else b2) R := by
  by_cases h : c
  · rw [if_pos h, if_pos (hc.2 h)]
    exact ha
  · rw [if_neg h, if_neg (fun h2 => h (hc.1 h2))]
    exact hb

theorem sim_same {α : Type} {m : M α} {R : α → α → Prop}
    (h : ∀ s, m (s.mapC φ) = match m s with
      | .ok a t => .ok a (t.mapC φ)
      | .err e t => .err e (t.mapC φ))
    (hr : ∀ a, R a a) : Sim φ m m R := by
  rw [sim_iff]
  intro s
  rw [h s]
  cases m s with
  | ok a t => exact ⟨rfl, hr a⟩
  | err e t => exact ⟨rfl, rfl⟩

theorem sim_assert {c c2 : Bool} {R : Unit → Unit → Prop} (hc : c2 = c) (h : R () ()) :
    Sim φ (assert c) (assert c2) R := by
  subst hc
  refine sim_same (fun s => ?_) (fun _ => h)
  unfold assert
  cases c2 <;> rfl

theorem sim_nonNull {α : Type} {o : Option α} {R : α → α → Prop} (h : ∀ a, R a a) :
    Sim φ (nonNull o) (nonNull o) R := by
  refine sim_same (fun s => ?_) h
  unfold nonNull
  cases o <;> rfl

theorem sim_inRange {α : Type} {o : Option α} {R : α → α → Prop} (h : ∀ a, R a a) :
    Sim φ (inRange o) (inRange o) R := by
  refine sim_same (fun s => ?_) h
  unfold inRange
  cases o <;> rfl

theorem mapC_heap_get (s : St) (p : Nat) :
    (s.mapC φ).heap[p]? = (s.heap[p]?).map (Option.map (Box.mapC φ)) := by
  unfold St.mapC
  simp only [List.getElem?_map]

theorem sim_getBox {p : Nat} {R : Box → Box → Prop} (h : ∀ b, R b (b.mapC φ)) :
    Sim φ (getBox p) (getBox p) R := by
  rw [sim_iff]
  intro s
  unfold getBox
  rw [mapC_heap_get]
  cases hp : s.heap[p]? with
  | none => exact ⟨rfl, rfl⟩
  | some ob =>
    cases ob with
    | none => exact ⟨rfl, rfl⟩
    | some b => exact ⟨rfl, h b⟩

theorem mapC_set (s : St) (p : Nat) (b : Box) :
    ({ s with heap := s.heap.set p (some b) } : St).mapC φ =
      { s.mapC φ with heap := (s.mapC φ).heap.set p (some (b.mapC φ)) } := by
  unfold St.mapC
  simp only [List.map_set, Option.map]

theorem sim_setBox {p : Nat} {b b2 : Box} {R : Unit → Unit → Prop} (hb : b2 = b.mapC φ)
    (h : R () ()) : Sim φ (setBox p b) (setBox p b2) R := by
  subst hb
  rw [sim_iff]
  intro s
  unfold setBox
  rw [mapC_heap_get]
  cases hp : s.heap[p]? with
  | none => exact ⟨rfl, rfl⟩
  | some ob =>
    cases ob with
    | none => exact ⟨rfl, rfl⟩
    | some b0 => exact ⟨(mapC_set s p b).symm, h⟩

theorem sim_modBox {p : Nat} {f f2 : Box → Box} {R : Unit → Unit → Prop}
    (hf : ∀ b, f2 (b.mapC φ) = (f b).mapC φ) (h : R () ()) :
    Sim φ (modBox p f) (modBox p f2) R := by
  unfold modBox
  refine sim_bind (sim_getBox (fun b => ?_))
  exact sim_setBox (hf b) h

theorem mapC_getJ (b : Box) (slot : Nat) : (b.mapC φ).getJ slot = b.getJ slot := rfl

theorem mapC_setJ (b : Box) (slot : Nat) (j : Junction) :
    (b.mapC φ).setJ slot j = (b.setJ slot j).mapC φ := by
  unfold Box.setJ
  split <;> rfl

theorem sim_getJ {r : JRef} {R : Junction → Junction → Prop} (h : ∀ j, R j j) :
    Sim φ (getJ r) (getJ r) R := by
  unfold getJ
  refine sim_bind (sim_getBox (fun b => ?_))
  rw [mapC_getJ]
  exact sim_inRange h

theorem sim_modJ {r : JRef} {f : Junction → Junction} {R : Unit → Unit → Prop}
    (h : R () ()) : Sim φ (modJ r f) (modJ r f) R := by
  unfold modJ
  refine sim_bind (sim_getBox (fun b => ?_))
  rw [mapC_getJ]
  refine sim_bind (sim_inRange (fun j => ?_))
  exact sim_setBox (mapC_setJ _ _ _) h

end Simulation

section SimulationReads

variable {φ : Cmap}

theorem sim_nbOf {r : JRef} {d : Nat} {R : Option JRef → Option JRef → Prop}
    (h : ∀ a, R a a) : Sim φ (nbOf r d) (nbOf r d) R := by
  unfold nbOf
  exact sim_bind (sim_getJ (fun j => sim_inRange h))

theorem sim_dirOf {r : JRef} {R : Nat → Nat → Prop} (h : ∀ a, R a a) :
    Sim φ (dirOf r) (dirOf r) R := by
  unfold dirOf
  exact sim_bind (sim_getJ (fun j => sim_pure (h _)))

theorem sim_beamOf {r : JRef} {R : Nat → Nat → Prop} (h : ∀ a, R a a) :
    Sim φ (beamOf r) (beamOf r) R := by
  unfold beamOf
  exact sim_bind (sim_getJ (fun j => sim_pure (h _)))

theorem sim_posOf {r : JRef} {i : Nat} {R : Option Nat → Option Nat → Prop}
    (h : ∀ a, R a a) : Sim φ (posOf r i) (posOf r i) R := by
  unfold posOf
  refine sim_bind (sim_getJ (fun j => ?_))
  exact sim_ite Iff.rfl (sim_pure (h _)) (sim_ite Iff.rfl (sim_pure (h _)) sim_fail)

theorem sim_setNb {r : JRef} {d : Nat} {v : Option JRef} {R : Unit → Unit → Prop}
    (h : R () ()) : Sim φ (setNb r d v) (setNb r d v) R := by
  unfold setNb
  exact sim_ite Iff.rfl (sim_modJ h) sim_fail

theorem sim_setDir {r : JRef} {v : Nat} {R : Unit → Unit → Prop}
    (h : R () ()) : Sim φ (setDir r v) (setDir r v) R := sim_modJ h

theorem sim_setBeam {r : JRef} {v : Nat} {R : Unit → Unit → Prop}
    (h : R () ()) : Sim φ (setBeam r v) (setBeam r v) R := sim_modJ h

theorem sim_setPos {r : JRef} {i : Nat} {v : Option Nat} {R : Unit → Unit → Prop}
    (h : R () ()) : Sim φ (setPos r i v) (setPos r i v) R := by
  unfold setPos
  exact sim_ite Iff.rfl (sim_modJ h) (sim_ite Iff.rfl (sim_modJ h) sim_fail)

theorem sim_xOf {r : JRef} {R : ℚ → ℚ → Prop} (h : ∀ a, R a (φ.fx a)) :
    Sim φ (xOf r) (xOf r) R := by
  unfold xOf
  refine sim_bind (sim_posOf (fun p => sim_bind (sim_nonNull (fun q => ?_))))
  exact sim_bind (sim_getBox (fun b => sim_pure (h _)))

theorem sim_yOf {r : JRef} {R : ℚ → ℚ → Prop} (h : ∀ a, R a (φ.fy a)) :
    Sim φ (yOf r) (yOf r) R := by
  unfold yOf
  refine sim_bind (sim_posOf (fun p => sim_bind (sim_nonNull (fun q => ?_))))
  exact sim_bind (sim_getBox (fun b => sim_pure (h _)))

theorem sim_rayendRef {p : Option Nat} {k : Nat} {R : JRef → JRef → Prop}
    (h : ∀ a, R a a) : Sim φ (rayendRef p k) (rayendRef p k) R := by
  unfold rayendRef
  refine sim_bind (sim_nonNull (fun b => ?_))
  exact sim_ite Iff.rfl (sim_pure (h _)) sim_fail

theorem sim_getBoxes {R : List Nat → List Nat → Prop} (h : ∀ a, R a a) :
    Sim φ getBoxes getBoxes R :=
  sim_same (fun _ => rfl) h

theorem sim_setBoxes {bs : List Nat} {R : Unit → Unit → Prop} (h : R () ()) :
    Sim φ (setBoxes bs) (setBoxes bs) R :=
  sim_same (fun _ => rfl) (fun _ => h)

theorem sim_queue1Nonempty {R : Bool → Bool → Prop} (h : ∀ a, R a a) :
    Sim φ queue1Nonempty queue1Nonempty R :=
  sim_same (fun _ => rfl) h

theorem sim_clearQueues {R : Unit → Unit → Prop} (h : R () ()) :
    Sim φ clearQueues clearQueues R :=
  sim_same (fun _ => rfl) (fun _ => h)

theorem sim_logCall {c : Call} {R : Unit → Unit → Prop} (h : R () ()) :
    Sim φ (logCall c) (logCall c) R :=
  sim_same (fun _ => rfl) (fun _ => h)

theorem sim_pushQ {q : QId} {c : Connection} {R : Unit → Unit → Prop} (h : R () ()) :
    Sim φ (pushQ q c) (pushQ q c) R := by
  refine sim_same (fun s => ?_) (fun _ => h)
  cases q <;> rfl

theorem sim_popQ {q : QId} {R : Option Connection → Option Connection → Prop}
    (h : ∀ a, R a a) : Sim φ (popQ q) (popQ q) R := by
  refine sim_same (fun s => ?_) h
  unfold popQ
  cases q with
  | q1 =>
    show (match s.queue1 with
      | [] => Res.ok none (s.mapC φ)
      | c :: cs => Res.ok (some c) { s.mapC φ with queue1 := cs }) = _
    cases s.queue1 <;> rfl
  | q2 =>
    show (match s.queue2 with
      | [] => Res.ok none (s.mapC φ)
      | c :: cs => Res.ok (some c) { s.mapC φ with queue2 := cs }) = _
    cases s.queue2 <;> rfl

theorem sim_forEach {α : Type} (l : List α) {body : α → M Unit} {R : Unit → Unit → Prop}
    (hb : ∀ a, a ∈ l → Sim φ (body a) (body a) (fun _ _ => True)) (h : R () ()) :
    Sim φ (forEach l body) (forEach l body) R := by
  induction l with
  | nil => exact sim_pure h
  | cons a as ih =>
    unfold forEach
    refine sim_bind ?_
    have h1 := hb a (by simp)
    rw [sim_iff] at h1 ⊢
    intro s
    have h2 := h1 s
    cases e1 : body a s with
    | ok u t =>
      cases e2 : body a (s.mapC φ) with
      | ok u2 t2 =>
        rw [e1, e2] at h2
        exact ⟨h2.1, ih (fun b hb2 => hb b (by simp [hb2]))⟩
      | err e t2 =>
        rw [e1, e2] at h2
        exact h2.elim
    | err e t =>
      cases e2 : body a (s.mapC φ) with
      | ok u2 t2 =>
        rw [e1, e2] at h2
        exact h2.elim
      | err e3 t2 =>
        rw [e1, e2] at h2
        exact h2

end SimulationReads

/-! ## Simulation: the graph surgery, the repair and the collision walk -/

theorem sim_RepairQueue_append {φ : Cmap} (hφ : φ.mono) (r : JRef) (t : Nat) (q : QId)
    {R : Unit → Unit → Prop} (h : R () ()) : Sim φ (RepairQueue_append r t q) (RepairQueue_append r t q) R := by
  unfold RepairQueue_append
  repeat' (first
    | with_reducible (first
      | apply sim_bind | apply sim_pure | apply sim_fail | apply sim_ite
      | apply sim_assert | apply sim_nonNull | apply sim_inRange
      | apply sim_nbOf | apply sim_posOf | apply sim_xOf | apply sim_yOf
      | apply sim_rayendRef | apply sim_getBoxes | apply sim_queue1Nonempty
      | apply sim_dirOf | apply sim_beamOf | apply sim_getJ | apply sim_getBox
      | apply sim_setNb | apply sim_setPos | apply sim_setDir | apply sim_setBeam
      | apply sim_modJ | apply sim_pushQ | apply sim_popQ | apply sim_logCall
      | apply sim_clearQueues | apply sim_setBoxes
      | intro _)
    | exact Iff.rfl | rfl | exact h _ | assumption
    | (simp only [Box.mapC, hφ.1.lt_iff_lt, hφ.1.le_iff_le, hφ.2.lt_iff_lt, hφ.2.le_iff_le,
        hφ.1.injective.eq_iff, hφ.2.injective.eq_iff, gt_iff_lt, ge_iff_le]; done)
    | (simp only [Box.mapC, hφ.1.lt_iff_lt, hφ.1.le_iff_le, hφ.2.lt_iff_lt, hφ.2.le_iff_le,
        hφ.1.injective.eq_iff, hφ.2.injective.eq_iff, gt_iff_lt, ge_iff_le]; exact h _)
    | split | dsimp only | simp only [Box.mapC])

theorem sim_appendIf {φ : Cmap} (hφ : φ.mono) (next : JRef) (queue : Option QId)
    {R : Unit → Unit → Prop} (h : R () ()) : Sim φ (appendIf next queue) (appendIf next queue) R := by
  unfold appendIf
  repeat' (first
    | with_reducible (first
      | apply sim_bind | apply sim_pure | apply sim_fail | apply sim_ite
      | apply sim_assert | apply sim_nonNull | apply sim_inRange
      | apply sim_nbOf | apply sim_posOf | apply sim_xOf | apply sim_yOf
      | apply sim_rayendRef | apply sim_getBoxes | apply sim_queue1Nonempty
      | apply sim_dirOf | apply sim_beamOf | apply sim_getJ | apply sim_getBox
      | apply sim_setNb | apply sim_setPos | apply sim_setDir | apply sim_setBeam
      | apply sim_modJ | apply sim_pushQ | apply sim_popQ | apply sim_logCall
      | apply sim_clearQueues | apply sim_setBoxes
      | apply sim_RepairQueue_append hφ
      | intro _)
    | exact Iff.rfl | rfl | exact h _ | assumption
    | (simp only [Box.mapC, hφ.1.lt_iff_lt, hφ.1.le_iff_le, hφ.2.lt_iff_lt, hφ.2.le_iff_le,
        hφ.1.injective.eq_iff, hφ.2.injective.eq_iff, gt_iff_lt, ge_iff_le]; done)
    | (simp only [Box.mapC, hφ.1.lt_iff_lt, hφ.1.le_iff_le, hφ.2.lt_iff_lt, hφ.2.le_iff_le,
        hφ.1.injective.eq_iff, hφ.2.injective.eq_iff, gt_iff_lt, ge_iff_le]; exact h _)
    | split | dsimp only | simp only [Box.mapC])

theorem sim_insert {φ : Cmap} (hφ : φ.mono) (jnc cur : JRef) (curdir cwccw : Nat) (next : Option JRef)
    {R : Unit → Unit → Prop} (h : R () ()) : Sim φ (Junction_insert.insert jnc cur curdir cwccw next) (Junction_insert.insert jnc cur curdir cwccw next) R := by
  unfold Junction_insert.insert
  repeat' (first
    | with_reducible (first
      | apply sim_bind | apply sim_pure | apply sim_fail | apply sim_ite
      | apply sim_assert | apply sim_nonNull | apply sim_inRange
      | apply sim_nbOf | apply sim_posOf | apply sim_xOf | apply sim_yOf
      | apply sim_rayendRef | apply sim_getBoxes | apply sim_queue1Nonempty
      | apply sim_dirOf | apply sim_beamOf | apply sim_getJ | apply sim_getBox
      | apply sim_setNb | apply sim_setPos | apply sim_setDir | apply sim_setBeam
      | apply sim_modJ | apply sim_pushQ | apply sim_popQ | apply sim_logCall
      | apply sim_clearQueues | apply sim_setBoxes
      | intro _)
    | exact Iff.rfl | rfl | exact h _ | assumption
    | (simp only [Box.mapC, hφ.1.lt_iff_lt, hφ.1.le_iff_le, hφ.2.lt_iff_lt, hφ.2.le_iff_le,
        hφ.1.injective.eq_iff, hφ.2.injective.eq_iff, gt_iff_lt, ge_iff_le]; done)
    | (simp only [Box.mapC, hφ.1.lt_iff_lt, hφ.1.le_iff_le, hφ.2.lt_iff_lt, hφ.2.le_iff_le,
        hφ.1.injective.eq_iff, hφ.2.injective.eq_iff, gt_iff_lt, ge_iff_le]; exact h _)
    | split | dsimp only | simp only [Box.mapC])

theorem sim_insert_loop {φ : Cmap} (hφ : φ.mono) (fuel : Nat) (jnc cur : JRef) (curdir cwccw inserted : Nat)
    {R : Nat → Nat → Prop} (h : ∀ a, R a a) : Sim φ (Junction_insert.loop fuel jnc cur curdir cwccw inserted) (Junction_insert.loop fuel jnc cur curdir cwccw inserted) R := by
  induction fuel generalizing cur curdir inserted R with
  | zero => exact sim_fail
  | succ n ih =>
    unfold Junction_insert.loop
    repeat' (first
      | with_reducible (first
        | apply sim_bind | apply sim_pure | apply sim_fail | apply sim_ite
        | apply sim_assert | apply sim_nonNull | apply sim_inRange
        | apply sim_nbOf | apply sim_posOf | apply sim_xOf | apply sim_yOf
        | apply sim_rayendRef | apply sim_getBoxes | apply sim_queue1Nonempty
        | apply sim_dirOf | apply sim_beamOf | apply sim_getJ | apply sim_getBox
        | apply sim_setNb | apply sim_setPos | apply sim_setDir | apply sim_setBeam
        | apply sim_modJ | apply sim_pushQ | apply sim_popQ | apply sim_logCall
        | apply sim_clearQueues | apply sim_setBoxes
        | apply ih | apply sim_insert hφ
        | intro _)
      | exact Iff.rfl | rfl | exact h _ | assumption
      | (simp only [Box.mapC, hφ.1.lt_iff_lt, hφ.1.le_iff_le, hφ.2.lt_iff_lt, hφ.2.le_iff_le,
          hφ.1.injective.eq_iff, hφ.2.injective.eq_iff, gt_iff_lt, ge_iff_le]; done)
      | (simp only [Box.mapC, hφ.1.lt_iff_lt, hφ.1.le_iff_le, hφ.2.lt_iff_lt, hφ.2.le_iff_le,
          hφ.1.injective.eq_iff, hφ.2.injective.eq_iff, gt_iff_lt, ge_iff_le]; exact h _)
      | split | dsimp only | simp only [Box.mapC])

theorem sim_Junction_insert {φ : Cmap} (hφ : φ.mono) (fuel : Nat) (jnc start : JRef)
    {R : Nat → Nat → Prop} (h : ∀ a, R a a) : Sim φ (Junction_insert fuel jnc start) (Junction_insert fuel jnc start) R := by
  unfold Junction_insert
  repeat' (first
    | with_reducible (first
      | apply sim_bind | apply sim_pure | apply sim_fail | apply sim_ite
      | apply sim_assert | apply sim_nonNull | apply sim_inRange
      | apply sim_nbOf | apply sim_posOf | apply sim_xOf | apply sim_yOf
      | apply sim_rayendRef | apply sim_getBoxes | apply sim_queue1Nonempty
      | apply sim_dirOf | apply sim_beamOf | apply sim_getJ | apply sim_getBox
      | apply sim_setNb | apply sim_setPos | apply sim_setDir | apply sim_setBeam
      | apply sim_modJ | apply sim_pushQ | apply sim_popQ | apply sim_logCall
      | apply sim_clearQueues | apply sim_setBoxes
      | apply sim_insert_loop hφ
      | intro _)
    | exact Iff.rfl | rfl | exact h _ | assumption
    | (simp only [Box.mapC, hφ.1.lt_iff_lt, hφ.1.le_iff_le, hφ.2.lt_iff_lt, hφ.2.le_iff_le,
        hφ.1.injective.eq_iff, hφ.2.injective.eq_iff, gt_iff_lt, ge_iff_le]; done)
    | (simp only [Box.mapC, hφ.1.lt_iff_lt, hφ.1.le_iff_le, hφ.2.lt_iff_lt, hφ.2.le_iff_le,
        hφ.1.injective.eq_iff, hφ.2.injective.eq_iff, gt_iff_lt, ge_iff_le]; exact h _)
    | split | dsimp only | simp only [Box.mapC])

theorem sim_detach {φ : Cmap} (hφ : φ.mono) (jnc : JRef)
    {R : Unit → Unit → Prop} (h : R () ()) : Sim φ (detach jnc) (detach jnc) R := by
  unfold detach
  repeat' (first
    | with_reducible (first
      | apply sim_bind | apply sim_pure | apply sim_fail | apply sim_ite
      | apply sim_assert | apply sim_nonNull | apply sim_inRange
      | apply sim_nbOf | apply sim_posOf | apply sim_xOf | apply sim_yOf
      | apply sim_rayendRef | apply sim_getBoxes | apply sim_queue1Nonempty
      | apply sim_dirOf | apply sim_beamOf | apply sim_getJ | apply sim_getBox
      | apply sim_setNb | apply sim_setPos | apply sim_setDir | apply sim_setBeam
      | apply sim_modJ | apply sim_pushQ | apply sim_popQ | apply sim_logCall
      | apply sim_clearQueues | apply sim_setBoxes
      | intro _)
    | exact Iff.rfl | rfl | exact h _ | assumption
    | (simp only [Box.mapC, hφ.1.lt_iff_lt, hφ.1.le_iff_le, hφ.2.lt_iff_lt, hφ.2.le_iff_le,
        hφ.1.injective.eq_iff, hφ.2.injective.eq_iff, gt_iff_lt, ge_iff_le]; done)
    | (simp only [Box.mapC, hφ.1.lt_iff_lt, hφ.1.le_iff_le, hφ.2.lt_iff_lt, hφ.2.le_iff_le,
        hφ.1.injective.eq_iff, hφ.2.injective.eq_iff, gt_iff_lt, ge_iff_le]; exact h _)
    | split | dsimp only | simp only [Box.mapC])

theorem sim_flipone_back {φ : Cmap} (hφ : φ.mono) (fuel : Nat) (cur : JRef) (fdir fbeam : Nat)
    {R : JRef → JRef → Prop} (h : ∀ a, R a a) : Sim φ (Junction_flipone.back fuel cur fdir fbeam) (Junction_flipone.back fuel cur fdir fbeam) R := by
  induction fuel generalizing cur R with
  | zero => exact sim_fail
  | succ n ih =>
    unfold Junction_flipone.back
    repeat' (first
      | with_reducible (first
        | apply sim_bind | apply sim_pure | apply sim_fail | apply sim_ite
        | apply sim_assert | apply sim_nonNull | apply sim_inRange
        | apply sim_nbOf | apply sim_posOf | apply sim_xOf | apply sim_yOf
        | apply sim_rayendRef | apply sim_getBoxes | apply sim_queue1Nonempty
        | apply sim_dirOf | apply sim_beamOf | apply sim_getJ | apply sim_getBox
        | apply sim_setNb | apply sim_setPos | apply sim_setDir | apply sim_setBeam
        | apply sim_modJ | apply sim_pushQ | apply sim_popQ | apply sim_logCall
        | apply sim_clearQueues | apply sim_setBoxes
        | apply ih
        | intro _)
      | exact Iff.rfl | rfl | exact h _ | assumption
      | (simp only [Box.mapC, hφ.1.lt_iff_lt, hφ.1.le_iff_le, hφ.2.lt_iff_lt, hφ.2.le_iff_le,
          hφ.1.injective.eq_iff, hφ.2.injective.eq_iff, gt_iff_lt, ge_iff_le]; done)
      | (simp only [Box.mapC, hφ.1.lt_iff_lt, hφ.1.le_iff_le, hφ.2.lt_iff_lt, hφ.2.le_iff_le,
          hφ.1.injective.eq_iff, hφ.2.injective.eq_iff, gt_iff_lt, ge_iff_le]; exact h _)
      | split | dsimp only | simp only [Box.mapC])

theorem sim_flipone_side {φ : Cmap} (hφ : φ.mono) (fuel : Nat) (cur : JRef) (fdir fbeam : Nat)
    {R : Option JRef → Option JRef → Prop} (h : ∀ a, R a a) : Sim φ (Junction_flipone.side fuel cur fdir fbeam) (Junction_flipone.side fuel cur fdir fbeam) R := by
  induction fuel generalizing cur R with
  | zero => exact sim_fail
  | succ n ih =>
    unfold Junction_flipone.side
    repeat' (first
      | with_reducible (first
        | apply sim_bind | apply sim_pure | apply sim_fail | apply sim_ite
        | apply sim_assert | apply sim_nonNull | apply sim_inRange
        | apply sim_nbOf | apply sim_posOf | apply sim_xOf | apply sim_yOf
        | apply sim_rayendRef | apply sim_getBoxes | apply sim_queue1Nonempty
        | apply sim_dirOf | apply sim_beamOf | apply sim_getJ | apply sim_getBox
        | apply sim_setNb | apply sim_setPos | apply sim_setDir | apply sim_setBeam
        | apply sim_modJ | apply sim_pushQ | apply sim_popQ | apply sim_logCall
        | apply sim_clearQueues | apply sim_setBoxes
        | apply ih
        | intro _)
      | exact Iff.rfl | rfl | exact h _ | assumption
      | (simp only [Box.mapC, hφ.1.lt_iff_lt, hφ.1.le_iff_le, hφ.2.lt_iff_lt, hφ.2.le_iff_le,
          hφ.1.injective.eq_iff, hφ.2.injective.eq_iff, gt_iff_lt, ge_iff_le]; done)
      | (simp only [Box.mapC, hφ.1.lt_iff_lt, hφ.1.le_iff_le, hφ.2.lt_iff_lt, hφ.2.le_iff_le,
          hφ.1.injective.eq_iff, hφ.2.injective.eq_iff, gt_iff_lt, ge_iff_le]; exact h _)
      | split | dsimp only | simp only [Box.mapC])

theorem sim_flipone_stop {φ : Cmap} (hφ : φ.mono) (flipped next : JRef) (fdir : Nat)
    {R : Bool → Bool → Prop} (h : ∀ a, R a a) : Sim φ (Junction_flipone.stop flipped next fdir) (Junction_flipone.stop flipped next fdir) R := by
  unfold Junction_flipone.stop
  repeat' (first
    | with_reducible (first
      | apply sim_bind | apply sim_pure | apply sim_fail | apply sim_ite
      | apply sim_assert | apply sim_nonNull | apply sim_inRange
      | apply sim_nbOf | apply sim_posOf | apply sim_xOf | apply sim_yOf
      | apply sim_rayendRef | apply sim_getBoxes | apply sim_queue1Nonempty
      | apply sim_dirOf | apply sim_beamOf | apply sim_getJ | apply sim_getBox
      | apply sim_setNb | apply sim_setPos | apply sim_setDir | apply sim_setBeam
      | apply sim_modJ | apply sim_pushQ | apply sim_popQ | apply sim_logCall
      | apply sim_clearQueues | apply sim_setBoxes
      | intro _)
    | exact Iff.rfl | rfl | exact h _ | assumption
    | (simp only [Box.mapC, hφ.1.lt_iff_lt, hφ.1.le_iff_le, hφ.2.lt_iff_lt, hφ.2.le_iff_le,
        hφ.1.injective.eq_iff, hφ.2.injective.eq_iff, gt_iff_lt, ge_iff_le]; done)
    | (simp only [Box.mapC, hφ.1.lt_iff_lt, hφ.1.le_iff_le, hφ.2.lt_iff_lt, hφ.2.le_iff_le,
        hφ.1.injective.eq_iff, hφ.2.injective.eq_iff, gt_iff_lt, ge_iff_le]; exact h _)
    | split | dsimp only | simp only [Box.mapC])

theorem sim_flipone_find {φ : Cmap} (hφ : φ.mono) (fuel : Nat) (flipped cur : JRef) (next : Option JRef) (fdir fbeam : Nat)
    {R : JRef × Option JRef → JRef × Option JRef → Prop} (h : ∀ a, R a a) : Sim φ (Junction_flipone.find fuel flipped cur next fdir fbeam) (Junction_flipone.find fuel flipped cur next fdir fbeam) R := by
  induction fuel generalizing cur next R with
  | zero => exact sim_fail
  | succ n ih =>
    unfold Junction_flipone.find
    repeat' (first
      | with_reducible (first
        | apply sim_bind | apply sim_pure | apply sim_fail | apply sim_ite
        | apply sim_assert | apply sim_nonNull | apply sim_inRange
        | apply sim_nbOf | apply sim_posOf | apply sim_xOf | apply sim_yOf
        | apply sim_rayendRef | apply sim_getBoxes | apply sim_queue1Nonempty
        | apply sim_dirOf | apply sim_beamOf | apply sim_getJ | apply sim_getBox
        | apply sim_setNb | apply sim_setPos | apply sim_setDir | apply sim_setBeam
        | apply sim_modJ | apply sim_pushQ | apply sim_popQ | apply sim_logCall
        | apply sim_clearQueues | apply sim_setBoxes
        | apply ih | apply sim_flipone_stop hφ
        | intro _)
      | exact Iff.rfl | rfl | exact h _ | assumption
      | (simp only [Box.mapC, hφ.1.lt_iff_lt, hφ.1.le_iff_le, hφ.2.lt_iff_lt, hφ.2.le_iff_le,
          hφ.1.injective.eq_iff, hφ.2.injective.eq_iff, gt_iff_lt, ge_iff_le]; done)
      | (simp only [Box.mapC, hφ.1.lt_iff_lt, hφ.1.le_iff_le, hφ.2.lt_iff_lt, hφ.2.le_iff_le,
          hφ.1.injective.eq_iff, hφ.2.injective.eq_iff, gt_iff_lt, ge_iff_le]; exact h _)
      | split | dsimp only | simp only [Box.mapC])

set_option maxHeartbeats 2000000 in
theorem sim_Junction_flipone {φ : Cmap} (hφ : φ.mono) (fuel : Nat) (jnc : JRef) (queue : Option QId)
    {R : JRef → JRef → Prop} (h : ∀ a, R a a) : Sim φ (Junction_flipone fuel jnc queue) (Junction_flipone fuel jnc queue) R := by
  unfold Junction_flipone
  repeat' (first
    | with_reducible (first
      | apply sim_bind | apply sim_pure | apply sim_fail | apply sim_ite
      | apply sim_assert | apply sim_nonNull | apply sim_inRange
      | apply sim_nbOf | apply sim_posOf | apply sim_xOf | apply sim_yOf
      | apply sim_rayendRef | apply sim_getBoxes | apply sim_queue1Nonempty
      | apply sim_dirOf | apply sim_beamOf | apply sim_getJ | apply sim_getBox
      | apply sim_setNb | apply sim_setPos | apply sim_setDir | apply sim_setBeam
      | apply sim_modJ | apply sim_pushQ | apply sim_popQ | apply sim_logCall
      | apply sim_clearQueues | apply sim_setBoxes
      | apply sim_RepairQueue_append hφ | apply sim_appendIf hφ | apply sim_detach hφ | apply sim_flipone_back hφ | apply sim_flipone_side hφ | apply sim_flipone_find hφ
      | intro _)
    | exact Iff.rfl | rfl | exact h _ | assumption
    | (simp only [Box.mapC, hφ.1.lt_iff_lt, hφ.1.le_iff_le, hφ.2.lt_iff_lt, hφ.2.le_iff_le,
        hφ.1.injective.eq_iff, hφ.2.injective.eq_iff, gt_iff_lt, ge_iff_le]; done)
    | (simp only [Box.mapC, hφ.1.lt_iff_lt, hφ.1.le_iff_le, hφ.2.lt_iff_lt, hφ.2.le_iff_le,
        hφ.1.injective.eq_iff, hφ.2.injective.eq_iff, gt_iff_lt, ge_iff_le]; exact h _)
    | split | dsimp only | simp only [Box.mapC])

theorem sim_flip_seek {φ : Cmap} (hφ : φ.mono) (fuel : Nat) (jnc cur : JRef)
    {R : JRef → JRef → Prop} (h : ∀ a, R a a) : Sim φ (Junction_flip.seek fuel jnc cur) (Junction_flip.seek fuel jnc cur) R := by
  induction fuel generalizing cur R with
  | zero => exact sim_fail
  | succ n ih =>
    unfold Junction_flip.seek
    repeat' (first
      | with_reducible (first
        | apply sim_bind | apply sim_pure | apply sim_fail | apply sim_ite
        | apply sim_assert | apply sim_nonNull | apply sim_inRange
        | apply sim_nbOf | apply sim_posOf | apply sim_xOf | apply sim_yOf
        | apply sim_rayendRef | apply sim_getBoxes | apply sim_queue1Nonempty
        | apply sim_dirOf | apply sim_beamOf | apply sim_getJ | apply sim_getBox
        | apply sim_setNb | apply sim_setPos | apply sim_setDir | apply sim_setBeam
        | apply sim_modJ | apply sim_pushQ | apply sim_popQ | apply sim_logCall
        | apply sim_clearQueues | apply sim_setBoxes
        | apply ih
        | intro _)
      | exact Iff.rfl | rfl | exact h _ | assumption
      | (simp only [Box.mapC, hφ.1.lt_iff_lt, hφ.1.le_iff_le, hφ.2.lt_iff_lt, hφ.2.le_iff_le,
          hφ.1.injective.eq_iff, hφ.2.injective.eq_iff, gt_iff_lt, ge_iff_le]; done)
      | (simp only [Box.mapC, hφ.1.lt_iff_lt, hφ.1.le_iff_le, hφ.2.lt_iff_lt, hφ.2.le_iff_le,
          hφ.1.injective.eq_iff, hφ.2.injective.eq_iff, gt_iff_lt, ge_iff_le]; exact h _)
      | split | dsimp only | simp only [Box.mapC])

theorem sim_flip_unwind {φ : Cmap} (hφ : φ.mono) (fuel : Nat) (f : Nat) (jnc : JRef) (cur : Option JRef) (queue : Option QId)
    {R : JRef → JRef → Prop} (h : ∀ a, R a a) : Sim φ (Junction_flip.unwind fuel f jnc cur queue) (Junction_flip.unwind fuel f jnc cur queue) R := by
  induction fuel generalizing cur R with
  | zero => exact sim_fail
  | succ n ih =>
    unfold Junction_flip.unwind
    repeat' (first
      | with_reducible (first
        | apply sim_bind | apply sim_pure | apply sim_fail | apply sim_ite
        | apply sim_assert | apply sim_nonNull | apply sim_inRange
        | apply sim_nbOf | apply sim_posOf | apply sim_xOf | apply sim_yOf
        | apply sim_rayendRef | apply sim_getBoxes | apply sim_queue1Nonempty
        | apply sim_dirOf | apply sim_beamOf | apply sim_getJ | apply sim_getBox
        | apply sim_setNb | apply sim_setPos | apply sim_setDir | apply sim_setBeam
        | apply sim_modJ | apply sim_pushQ | apply sim_popQ | apply sim_logCall
        | apply sim_clearQueues | apply sim_setBoxes
        | apply ih | apply sim_Junction_flipone hφ
        | intro _)
      | exact Iff.rfl | rfl | exact h _ | assumption
      | (simp only [Box.mapC, hφ.1.lt_iff_lt, hφ.1.le_iff_le, hφ.2.lt_iff_lt, hφ.2.le_iff_le,
          hφ.1.injective.eq_iff, hφ.2.injective.eq_iff, gt_iff_lt, ge_iff_le]; done)
      | (simp only [Box.mapC, hφ.1.lt_iff_lt, hφ.1.le_iff_le, hφ.2.lt_iff_lt, hφ.2.le_iff_le,
          hφ.1.injective.eq_iff, hφ.2.injective.eq_iff, gt_iff_lt, ge_iff_le]; exact h _)
      | split | dsimp only | simp only [Box.mapC])

theorem sim_Junction_flip {φ : Cmap} (hφ : φ.mono) (fuel : Nat) (jnc : JRef) (queue : Option QId)
    {R : JRef → JRef → Prop} (h : ∀ a, R a a) : Sim φ (Junction_flip fuel jnc queue) (Junction_flip fuel jnc queue) R := by
  unfold Junction_flip
  repeat' (first
    | with_reducible (first
      | apply sim_bind | apply sim_pure | apply sim_fail | apply sim_ite
      | apply sim_assert | apply sim_nonNull | apply sim_inRange
      | apply sim_nbOf | apply sim_posOf | apply sim_xOf | apply sim_yOf
      | apply sim_rayendRef | apply sim_getBoxes | apply sim_queue1Nonempty
      | apply sim_dirOf | apply sim_beamOf | apply sim_getJ | apply sim_getBox
      | apply sim_setNb | apply sim_setPos | apply sim_setDir | apply sim_setBeam
      | apply sim_modJ | apply sim_pushQ | apply sim_popQ | apply sim_logCall
      | apply sim_clearQueues | apply sim_setBoxes
      | apply sim_flip_seek hφ | apply sim_flip_unwind hφ
      | intro _)
    | exact Iff.rfl | rfl | exact h _ | assumption
    | (simp only [Box.mapC, hφ.1.lt_iff_lt, hφ.1.le_iff_le, hφ.2.lt_iff_lt, hφ.2.le_iff_le,
        hφ.1.injective.eq_iff, hφ.2.injective.eq_iff, gt_iff_lt, ge_iff_le]; done)
    | (simp only [Box.mapC, hφ.1.lt_iff_lt, hφ.1.le_iff_le, hφ.2.lt_iff_lt, hφ.2.le_iff_le,
        hφ.1.injective.eq_iff, hφ.2.injective.eq_iff, gt_iff_lt, ge_iff_le]; exact h _)
    | split | dsimp only | simp only [Box.mapC])

theorem sim_needsflip {φ : Cmap} (hφ : φ.mono) (jnc : JRef) (d : Nat)
    {R : Bool → Bool → Prop} (h : ∀ a, R a a) : Sim φ (needsflip jnc d) (needsflip jnc d) R := by
  unfold needsflip
  by_cases hp : (d + 1) % 2 ≠ 0
  · simp only [if_pos hp]
    repeat' (first
      | with_reducible (first
        | apply sim_bind | apply sim_pure | apply sim_fail | apply sim_ite
        | apply sim_assert | apply sim_nonNull | apply sim_inRange
        | apply sim_nbOf | apply sim_posOf | apply sim_xOf | apply sim_yOf
        | apply sim_rayendRef | apply sim_getBoxes | apply sim_queue1Nonempty
        | apply sim_dirOf | apply sim_beamOf | apply sim_getJ | apply sim_getBox
        | apply sim_setNb | apply sim_setPos | apply sim_setDir | apply sim_setBeam
        | apply sim_modJ | apply sim_pushQ | apply sim_popQ | apply sim_logCall
        | apply sim_clearQueues | apply sim_setBoxes
        | intro _)
      | exact Iff.rfl | rfl | exact h _ | assumption
      | (simp only [Box.mapC, hφ.1.lt_iff_lt, hφ.1.le_iff_le, hφ.2.lt_iff_lt, hφ.2.le_iff_le,
          hφ.1.injective.eq_iff, hφ.2.injective.eq_iff, gt_iff_lt, ge_iff_le]; done)
      | (simp only [Box.mapC, hφ.1.lt_iff_lt, hφ.1.le_iff_le, hφ.2.lt_iff_lt, hφ.2.le_iff_le,
          hφ.1.injective.eq_iff, hφ.2.injective.eq_iff, gt_iff_lt, ge_iff_le]; exact h _)
      | split | dsimp only | simp only [Box.mapC])
  · simp only [if_neg hp]
    repeat' (first
      | with_reducible (first
        | apply sim_bind | apply sim_pure | apply sim_fail | apply sim_ite
        | apply sim_assert | apply sim_nonNull | apply sim_inRange
        | apply sim_nbOf | apply sim_posOf | apply sim_xOf | apply sim_yOf
        | apply sim_rayendRef | apply sim_getBoxes | apply sim_queue1Nonempty
        | apply sim_dirOf | apply sim_beamOf | apply sim_getJ | apply sim_getBox
        | apply sim_setNb | apply sim_setPos | apply sim_setDir | apply sim_setBeam
        | apply sim_modJ | apply sim_pushQ | apply sim_popQ | apply sim_logCall
        | apply sim_clearQueues | apply sim_setBoxes
        | intro _)
      | exact Iff.rfl | rfl | exact h _ | assumption
      | (simp only [Box.mapC, hφ.1.lt_iff_lt, hφ.1.le_iff_le, hφ.2.lt_iff_lt, hφ.2.le_iff_le,
          hφ.1.injective.eq_iff, hφ.2.injective.eq_iff, gt_iff_lt, ge_iff_le]; done)
      | (simp only [Box.mapC, hφ.1.lt_iff_lt, hφ.1.le_iff_le, hφ.2.lt_iff_lt, hφ.2.le_iff_le,
          hφ.1.injective.eq_iff, hφ.2.injective.eq_iff, gt_iff_lt, ge_iff_le]; exact h _)
      | split | dsimp only | simp only [Box.mapC])

theorem sim_reconnect_linear {φ : Cmap} (hφ : φ.mono) (start next : JRef) (d : Nat)
    {R : Unit → Unit → Prop} (h : R () ()) : Sim φ (reconnect_linear start next d) (reconnect_linear start next d) R := by
  unfold reconnect_linear
  repeat' (first
    | with_reducible (first
      | apply sim_bind | apply sim_pure | apply sim_fail | apply sim_ite
      | apply sim_assert | apply sim_nonNull | apply sim_inRange
      | apply sim_nbOf | apply sim_posOf | apply sim_xOf | apply sim_yOf
      | apply sim_rayendRef | apply sim_getBoxes | apply sim_queue1Nonempty
      | apply sim_dirOf | apply sim_beamOf | apply sim_getJ | apply sim_getBox
      | apply sim_setNb | apply sim_setPos | apply sim_setDir | apply sim_setBeam
      | apply sim_modJ | apply sim_pushQ | apply sim_popQ | apply sim_logCall
      | apply sim_clearQueues | apply sim_setBoxes
      | intro _)
    | exact Iff.rfl | rfl | exact h _ | assumption
    | (simp only [Box.mapC, hφ.1.lt_iff_lt, hφ.1.le_iff_le, hφ.2.lt_iff_lt, hφ.2.le_iff_le,
        hφ.1.injective.eq_iff, hφ.2.injective.eq_iff, gt_iff_lt, ge_iff_le]; done)
    | (simp only [Box.mapC, hφ.1.lt_iff_lt, hφ.1.le_iff_le, hφ.2.lt_iff_lt, hφ.2.le_iff_le,
        hφ.1.injective.eq_iff, hφ.2.injective.eq_iff, gt_iff_lt, ge_iff_le]; exact h _)
    | split | dsimp only | simp only [Box.mapC])

theorem sim_slide_walk {φ : Cmap} (hφ : φ.mono) (fuel : Nat) (next : JRef) (tdir ndir : Nat)
    {R : JRef → JRef → Prop} (h : ∀ a, R a a) : Sim φ (Junction_slide.walk fuel next tdir ndir) (Junction_slide.walk fuel next tdir ndir) R := by
  induction fuel generalizing next R with
  | zero => exact sim_fail
  | succ n ih =>
    unfold Junction_slide.walk
    repeat' (first
      | with_reducible (first
        | apply sim_bind | apply sim_pure | apply sim_fail | apply sim_ite
        | apply sim_assert | apply sim_nonNull | apply sim_inRange
        | apply sim_nbOf | apply sim_posOf | apply sim_xOf | apply sim_yOf
        | apply sim_rayendRef | apply sim_getBoxes | apply sim_queue1Nonempty
        | apply sim_dirOf | apply sim_beamOf | apply sim_getJ | apply sim_getBox
        | apply sim_setNb | apply sim_setPos | apply sim_setDir | apply sim_setBeam
        | apply sim_modJ | apply sim_pushQ | apply sim_popQ | apply sim_logCall
        | apply sim_clearQueues | apply sim_setBoxes
        | apply ih
        | intro _)
      | exact Iff.rfl | rfl | exact h _ | assumption
      | (simp only [Box.mapC, hφ.1.lt_iff_lt, hφ.1.le_iff_le, hφ.2.lt_iff_lt, hφ.2.le_iff_le,
          hφ.1.injective.eq_iff, hφ.2.injective.eq_iff, gt_iff_lt, ge_iff_le]; done)
      | (simp only [Box.mapC, hφ.1.lt_iff_lt, hφ.1.le_iff_le, hφ.2.lt_iff_lt, hφ.2.le_iff_le,
          hφ.1.injective.eq_iff, hφ.2.injective.eq_iff, gt_iff_lt, ge_iff_le]; exact h _)
      | split | dsimp only | simp only [Box.mapC])

set_option maxHeartbeats 2000000 in
theorem sim_Junction_slide {φ : Cmap} (hφ : φ.mono) (fuel : Nat) (jnc : JRef) (tdir : Nat) (queue : QId)
    {R : Unit → Unit → Prop} (h : R () ()) : Sim φ (Junction_slide fuel jnc tdir queue) (Junction_slide fuel jnc tdir queue) R := by
  unfold Junction_slide
  repeat' (first
    | with_reducible (first
      | apply sim_bind | apply sim_pure | apply sim_fail | apply sim_ite
      | apply sim_assert | apply sim_nonNull | apply sim_inRange
      | apply sim_nbOf | apply sim_posOf | apply sim_xOf | apply sim_yOf
      | apply sim_rayendRef | apply sim_getBoxes | apply sim_queue1Nonempty
      | apply sim_dirOf | apply sim_beamOf | apply sim_getJ | apply sim_getBox
      | apply sim_setNb | apply sim_setPos | apply sim_setDir | apply sim_setBeam
      | apply sim_modJ | apply sim_pushQ | apply sim_popQ | apply sim_logCall
      | apply sim_clearQueues | apply sim_setBoxes
      | apply sim_RepairQueue_append hφ | apply sim_needsflip hφ | apply sim_Junction_flip hφ | apply sim_detach hφ | apply sim_reconnect_linear hφ | apply sim_slide_walk hφ
      | intro _)
    | exact Iff.rfl | rfl | exact h _ | assumption
    | (simp only [Box.mapC, hφ.1.lt_iff_lt, hφ.1.le_iff_le, hφ.2.lt_iff_lt, hφ.2.le_iff_le,
        hφ.1.injective.eq_iff, hφ.2.injective.eq_iff, gt_iff_lt, ge_iff_le]; done)
    | (simp only [Box.mapC, hφ.1.lt_iff_lt, hφ.1.le_iff_le, hφ.2.lt_iff_lt, hφ.2.le_iff_le,
        hφ.1.injective.eq_iff, hφ.2.injective.eq_iff, gt_iff_lt, ge_iff_le]; exact h _)
    | split | dsimp only | simp only [Box.mapC])

theorem sim_Junction_slide_T {φ : Cmap} (hφ : φ.mono) (fuel : Nat) (jnc : JRef) (queue : QId)
    {R : Unit → Unit → Prop} (h : R () ()) : Sim φ (Junction_slide_T fuel jnc queue) (Junction_slide_T fuel jnc queue) R := by
  unfold Junction_slide_T
  repeat' (first
    | with_reducible (first
      | apply sim_bind | apply sim_pure | apply sim_fail | apply sim_ite
      | apply sim_assert | apply sim_nonNull | apply sim_inRange
      | apply sim_nbOf | apply sim_posOf | apply sim_xOf | apply sim_yOf
      | apply sim_rayendRef | apply sim_getBoxes | apply sim_queue1Nonempty
      | apply sim_dirOf | apply sim_beamOf | apply sim_getJ | apply sim_getBox
      | apply sim_setNb | apply sim_setPos | apply sim_setDir | apply sim_setBeam
      | apply sim_modJ | apply sim_pushQ | apply sim_popQ | apply sim_logCall
      | apply sim_clearQueues | apply sim_setBoxes
      | apply sim_RepairQueue_append hφ | apply sim_needsflip hφ | apply sim_Junction_flip hφ | apply sim_reconnect_linear hφ
      | intro _)
    | exact Iff.rfl | rfl | exact h _ | assumption
    | (simp only [Box.mapC, hφ.1.lt_iff_lt, hφ.1.le_iff_le, hφ.2.lt_iff_lt, hφ.2.le_iff_le,
        hφ.1.injective.eq_iff, hφ.2.injective.eq_iff, gt_iff_lt, ge_iff_le]; done)
    | (simp only [Box.mapC, hφ.1.lt_iff_lt, hφ.1.le_iff_le, hφ.2.lt_iff_lt, hφ.2.le_iff_le,
        hφ.1.injective.eq_iff, hφ.2.injective.eq_iff, gt_iff_lt, ge_iff_le]; exact h _)
    | split | dsimp only | simp only [Box.mapC])

theorem sim_solve_conn {φ : Cmap} (hφ : φ.mono) (fuel : Nat) (jnc : JRef) (tdir : Nat) (q : QId)
    {R : Unit → Unit → Prop} (h : R () ()) : Sim φ (solve_conn fuel jnc tdir q) (solve_conn fuel jnc tdir q) R := by
  unfold solve_conn
  repeat' (first
    | with_reducible (first
      | apply sim_bind | apply sim_pure | apply sim_fail | apply sim_ite
      | apply sim_assert | apply sim_nonNull | apply sim_inRange
      | apply sim_nbOf | apply sim_posOf | apply sim_xOf | apply sim_yOf
      | apply sim_rayendRef | apply sim_getBoxes | apply sim_queue1Nonempty
      | apply sim_dirOf | apply sim_beamOf | apply sim_getJ | apply sim_getBox
      | apply sim_setNb | apply sim_setPos | apply sim_setDir | apply sim_setBeam
      | apply sim_modJ | apply sim_pushQ | apply sim_popQ | apply sim_logCall
      | apply sim_clearQueues | apply sim_setBoxes
      | apply sim_needsflip hφ | apply sim_Junction_slide hφ | apply sim_Junction_slide_T hφ
      | intro _)
    | exact Iff.rfl | rfl | exact h _ | assumption
    | (simp only [Box.mapC, hφ.1.lt_iff_lt, hφ.1.le_iff_le, hφ.2.lt_iff_lt, hφ.2.le_iff_le,
        hφ.1.injective.eq_iff, hφ.2.injective.eq_iff, gt_iff_lt, ge_iff_le]; done)
    | (simp only [Box.mapC, hφ.1.lt_iff_lt, hφ.1.le_iff_le, hφ.2.lt_iff_lt, hφ.2.le_iff_le,
        hφ.1.injective.eq_iff, hφ.2.injective.eq_iff, gt_iff_lt, ge_iff_le]; exact h _)
    | split | dsimp only | simp only [Box.mapC])

theorem sim_repair_drain {φ : Cmap} (hφ : φ.mono) (fuel : Nat) (f : Nat) (qin : QId)
    {R : Unit → Unit → Prop} (h : R () ()) : Sim φ (Boxnet_repair.drain fuel f qin) (Boxnet_repair.drain fuel f qin) R := by
  induction fuel generalizing  R with
  | zero => exact sim_fail
  | succ n ih =>
    unfold Boxnet_repair.drain
    repeat' (first
      | with_reducible (first
        | apply sim_bind | apply sim_pure | apply sim_fail | apply sim_ite
        | apply sim_assert | apply sim_nonNull | apply sim_inRange
        | apply sim_nbOf | apply sim_posOf | apply sim_xOf | apply sim_yOf
        | apply sim_rayendRef | apply sim_getBoxes | apply sim_queue1Nonempty
        | apply sim_dirOf | apply sim_beamOf | apply sim_getJ | apply sim_getBox
        | apply sim_setNb | apply sim_setPos | apply sim_setDir | apply sim_setBeam
        | apply sim_modJ | apply sim_pushQ | apply sim_popQ | apply sim_logCall
        | apply sim_clearQueues | apply sim_setBoxes
        | apply ih | apply sim_solve_conn hφ
        | intro _)
      | exact Iff.rfl | rfl | exact h _ | assumption
      | (simp only [Box.mapC, hφ.1.lt_iff_lt, hφ.1.le_iff_le, hφ.2.lt_iff_lt, hφ.2.le_iff_le,
          hφ.1.injective.eq_iff, hφ.2.injective.eq_iff, gt_iff_lt, ge_iff_le]; done)
      | (simp only [Box.mapC, hφ.1.lt_iff_lt, hφ.1.le_iff_le, hφ.2.lt_iff_lt, hφ.2.le_iff_le,
          hφ.1.injective.eq_iff, hφ.2.injective.eq_iff, gt_iff_lt, ge_iff_le]; exact h _)
      | split | dsimp only | simp only [Box.mapC])

theorem sim_repair_alternate {φ : Cmap} (hφ : φ.mono) (fuel : Nat) (f : Nat)
    {R : Unit → Unit → Prop} (h : R () ()) : Sim φ (Boxnet_repair.alternate fuel f) (Boxnet_repair.alternate fuel f) R := by
  induction fuel generalizing  R with
  | zero => exact sim_fail
  | succ n ih =>
    unfold Boxnet_repair.alternate
    repeat' (first
      | with_reducible (first
        | apply sim_bind | apply sim_pure | apply sim_fail | apply sim_ite
        | apply sim_assert | apply sim_nonNull | apply sim_inRange
        | apply sim_nbOf | apply sim_posOf | apply sim_xOf | apply sim_yOf
        | apply sim_rayendRef | apply sim_getBoxes | apply sim_queue1Nonempty
        | apply sim_dirOf | apply sim_beamOf | apply sim_getJ | apply sim_getBox
        | apply sim_setNb | apply sim_setPos | apply sim_setDir | apply sim_setBeam
        | apply sim_modJ | apply sim_pushQ | apply sim_popQ | apply sim_logCall
        | apply sim_clearQueues | apply sim_setBoxes
        | apply ih | apply sim_repair_drain hφ
        | intro _)
      | exact Iff.rfl | rfl | exact h _ | assumption
      | (simp only [Box.mapC, hφ.1.lt_iff_lt, hφ.1.le_iff_le, hφ.2.lt_iff_lt, hφ.2.le_iff_le,
          hφ.1.injective.eq_iff, hφ.2.injective.eq_iff, gt_iff_lt, ge_iff_le]; done)
      | (simp only [Box.mapC, hφ.1.lt_iff_lt, hφ.1.le_iff_le, hφ.2.lt_iff_lt, hφ.2.le_iff_le,
          hφ.1.injective.eq_iff, hφ.2.injective.eq_iff, gt_iff_lt, ge_iff_le]; exact h _)
      | split | dsimp only | simp only [Box.mapC])

theorem sim_repair_enqueue {φ : Cmap} (hφ : φ.mono) (box tdir : Nat)
    {R : Unit → Unit → Prop} (h : R () ()) : Sim φ (Boxnet_repair.enqueue box tdir) (Boxnet_repair.enqueue box tdir) R := by
  unfold Boxnet_repair.enqueue
  repeat' (first
    | with_reducible (first
      | apply sim_bind | apply sim_pure | apply sim_fail | apply sim_ite
      | apply sim_assert | apply sim_nonNull | apply sim_inRange
      | apply sim_nbOf | apply sim_posOf | apply sim_xOf | apply sim_yOf
      | apply sim_rayendRef | apply sim_getBoxes | apply sim_queue1Nonempty
      | apply sim_dirOf | apply sim_beamOf | apply sim_getJ | apply sim_getBox
      | apply sim_setNb | apply sim_setPos | apply sim_setDir | apply sim_setBeam
      | apply sim_modJ | apply sim_pushQ | apply sim_popQ | apply sim_logCall
      | apply sim_clearQueues | apply sim_setBoxes
      | apply sim_RepairQueue_append hφ
      | intro _)
    | exact Iff.rfl | rfl | exact h _ | assumption
    | (simp only [Box.mapC, hφ.1.lt_iff_lt, hφ.1.le_iff_le, hφ.2.lt_iff_lt, hφ.2.le_iff_le,
        hφ.1.injective.eq_iff, hφ.2.injective.eq_iff, gt_iff_lt, ge_iff_le]; done)
    | (simp only [Box.mapC, hφ.1.lt_iff_lt, hφ.1.le_iff_le, hφ.2.lt_iff_lt, hφ.2.le_iff_le,
        hφ.1.injective.eq_iff, hφ.2.injective.eq_iff, gt_iff_lt, ge_iff_le]; exact h _)
    | split | dsimp only | simp only [Box.mapC])

theorem sim_callback {φ : Cmap} (hφ : φ.mono) (box append : Nat)
    {R : Unit → Unit → Prop} (h : R () ()) : Sim φ (callback box append) (callback box append) R := by
  unfold callback
  repeat' (first
    | with_reducible (first
      | apply sim_bind | apply sim_pure | apply sim_fail | apply sim_ite
      | apply sim_assert | apply sim_nonNull | apply sim_inRange
      | apply sim_nbOf | apply sim_posOf | apply sim_xOf | apply sim_yOf
      | apply sim_rayendRef | apply sim_getBoxes | apply sim_queue1Nonempty
      | apply sim_dirOf | apply sim_beamOf | apply sim_getJ | apply sim_getBox
      | apply sim_setNb | apply sim_setPos | apply sim_setDir | apply sim_setBeam
      | apply sim_modJ | apply sim_pushQ | apply sim_popQ | apply sim_logCall
      | apply sim_clearQueues | apply sim_setBoxes
      | intro _)
    | exact Iff.rfl | rfl | exact h _ | assumption
    | (simp only [Box.mapC, hφ.1.lt_iff_lt, hφ.1.le_iff_le, hφ.2.lt_iff_lt, hφ.2.le_iff_le,
        hφ.1.injective.eq_iff, hφ.2.injective.eq_iff, gt_iff_lt, ge_iff_le]; done)
    | (simp only [Box.mapC, hφ.1.lt_iff_lt, hφ.1.le_iff_le, hφ.2.lt_iff_lt, hφ.2.le_iff_le,
        hφ.1.injective.eq_iff, hφ.2.injective.eq_iff, gt_iff_lt, ge_iff_le]; exact h _)
    | split | dsimp only | simp only [Box.mapC])

theorem sim_queue_append {φ : Cmap} (hφ : φ.mono) (box : Nat) (append : Option Nat) (queue : List Nat)
    {R : List Nat → List Nat → Prop} (h : ∀ a, R a a) : Sim φ (queue_append box append queue) (queue_append box append queue) R := by
  unfold queue_append
  repeat' (first
    | with_reducible (first
      | apply sim_bind | apply sim_pure | apply sim_fail | apply sim_ite
      | apply sim_assert | apply sim_nonNull | apply sim_inRange
      | apply sim_nbOf | apply sim_posOf | apply sim_xOf | apply sim_yOf
      | apply sim_rayendRef | apply sim_getBoxes | apply sim_queue1Nonempty
      | apply sim_dirOf | apply sim_beamOf | apply sim_getJ | apply sim_getBox
      | apply sim_setNb | apply sim_setPos | apply sim_setDir | apply sim_setBeam
      | apply sim_modJ | apply sim_pushQ | apply sim_popQ | apply sim_logCall
      | apply sim_clearQueues | apply sim_setBoxes
      | apply sim_callback hφ | apply sim_modBox
      | intro _)
    | exact Iff.rfl | rfl | exact h _ | assumption
    | (simp only [Box.mapC, hφ.1.lt_iff_lt, hφ.1.le_iff_le, hφ.2.lt_iff_lt, hφ.2.le_iff_le,
        hφ.1.injective.eq_iff, hφ.2.injective.eq_iff, gt_iff_lt, ge_iff_le]; done)
    | (simp only [Box.mapC, hφ.1.lt_iff_lt, hφ.1.le_iff_le, hφ.2.lt_iff_lt, hφ.2.le_iff_le,
        hφ.1.injective.eq_iff, hφ.2.injective.eq_iff, gt_iff_lt, ge_iff_le]; exact h _)
    | split | dsimp only | simp only [Box.mapC])

theorem sim_up {φ : Cmap} (hφ : φ.mono) (fuel : Nat) (box skip : Nat) (next : Option JRef) (queue : List Nat)
    {R : List Nat → List Nat → Prop} (h : ∀ a, R a a) : Sim φ (boxcollisions.up fuel box skip next queue) (boxcollisions.up fuel box skip next queue) R := by
  induction fuel generalizing next queue R with
  | zero => exact sim_fail
  | succ n ih =>
    unfold boxcollisions.up
    repeat' (first
      | with_reducible (first
        | apply sim_bind | apply sim_pure | apply sim_fail | apply sim_ite
        | apply sim_assert | apply sim_nonNull | apply sim_inRange
        | apply sim_nbOf | apply sim_posOf | apply sim_xOf | apply sim_yOf
        | apply sim_rayendRef | apply sim_getBoxes | apply sim_queue1Nonempty
        | apply sim_dirOf | apply sim_beamOf | apply sim_getJ | apply sim_getBox
        | apply sim_setNb | apply sim_setPos | apply sim_setDir | apply sim_setBeam
        | apply sim_modJ | apply sim_pushQ | apply sim_popQ | apply sim_logCall
        | apply sim_clearQueues | apply sim_setBoxes
        | apply ih | apply sim_queue_append hφ
        | intro _)
      | exact Iff.rfl | rfl | exact h _ | assumption
      | (simp only [Box.mapC, hφ.1.lt_iff_lt, hφ.1.le_iff_le, hφ.2.lt_iff_lt, hφ.2.le_iff_le,
          hφ.1.injective.eq_iff, hφ.2.injective.eq_iff, gt_iff_lt, ge_iff_le]; done)
      | (simp only [Box.mapC, hφ.1.lt_iff_lt, hφ.1.le_iff_le, hφ.2.lt_iff_lt, hφ.2.le_iff_le,
          hφ.1.injective.eq_iff, hφ.2.injective.eq_iff, gt_iff_lt, ge_iff_le]; exact h _)
      | split | dsimp only | simp only [Box.mapC])

theorem sim_left {φ : Cmap} (hφ : φ.mono) (fuel : Nat) (box : Nat) (root : Option JRef) (queue : List Nat)
    {R : List Nat → List Nat → Prop} (h : ∀ a, R a a) : Sim φ (boxcollisions.left fuel box root queue) (boxcollisions.left fuel box root queue) R := by
  induction fuel generalizing root queue R with
  | zero => exact sim_fail
  | succ n ih =>
    unfold boxcollisions.left
    repeat' (first
      | with_reducible (first
        | apply sim_bind | apply sim_pure | apply sim_fail | apply sim_ite
        | apply sim_assert | apply sim_nonNull | apply sim_inRange
        | apply sim_nbOf | apply sim_posOf | apply sim_xOf | apply sim_yOf
        | apply sim_rayendRef | apply sim_getBoxes | apply sim_queue1Nonempty
        | apply sim_dirOf | apply sim_beamOf | apply sim_getJ | apply sim_getBox
        | apply sim_setNb | apply sim_setPos | apply sim_setDir | apply sim_setBeam
        | apply sim_modJ | apply sim_pushQ | apply sim_popQ | apply sim_logCall
        | apply sim_clearQueues | apply sim_setBoxes
        | apply ih | apply sim_up hφ
        | intro _)
      | exact Iff.rfl | rfl | exact h _ | assumption
      | (simp only [Box.mapC, hφ.1.lt_iff_lt, hφ.1.le_iff_le, hφ.2.lt_iff_lt, hφ.2.le_iff_le,
          hφ.1.injective.eq_iff, hφ.2.injective.eq_iff, gt_iff_lt, ge_iff_le]; done)
      | (simp only [Box.mapC, hφ.1.lt_iff_lt, hφ.1.le_iff_le, hφ.2.lt_iff_lt, hφ.2.le_iff_le,
          hφ.1.injective.eq_iff, hφ.2.injective.eq_iff, gt_iff_lt, ge_iff_le]; exact h _)
      | split | dsimp only | simp only [Box.mapC])

theorem sim_right {φ : Cmap} (hφ : φ.mono) (fuel : Nat) (box : Nat) (root : Option JRef) (queue : List Nat)
    {R : List Nat → List Nat → Prop} (h : ∀ a, R a a) : Sim φ (boxcollisions.right fuel box root queue) (boxcollisions.right fuel box root queue) R := by
  induction fuel generalizing root queue R with
  | zero => exact sim_fail
  | succ n ih =>
    unfold boxcollisions.right
    repeat' (first
      | with_reducible (first
        | apply sim_bind | apply sim_pure | apply sim_fail | apply sim_ite
        | apply sim_assert | apply sim_nonNull | apply sim_inRange
        | apply sim_nbOf | apply sim_posOf | apply sim_xOf | apply sim_yOf
        | apply sim_rayendRef | apply sim_getBoxes | apply sim_queue1Nonempty
        | apply sim_dirOf | apply sim_beamOf | apply sim_getJ | apply sim_getBox
        | apply sim_setNb | apply sim_setPos | apply sim_setDir | apply sim_setBeam
        | apply sim_modJ | apply sim_pushQ | apply sim_popQ | apply sim_logCall
        | apply sim_clearQueues | apply sim_setBoxes
        | apply ih | apply sim_up hφ
        | intro _)
      | exact Iff.rfl | rfl | exact h _ | assumption
      | (simp only [Box.mapC, hφ.1.lt_iff_lt, hφ.1.le_iff_le, hφ.2.lt_iff_lt, hφ.2.le_iff_le,
          hφ.1.injective.eq_iff, hφ.2.injective.eq_iff, gt_iff_lt, ge_iff_le]; done)
      | (simp only [Box.mapC, hφ.1.lt_iff_lt, hφ.1.le_iff_le, hφ.2.lt_iff_lt, hφ.2.le_iff_le,
          hφ.1.injective.eq_iff, hφ.2.injective.eq_iff, gt_iff_lt, ge_iff_le]; exact h _)
      | split | dsimp only | simp only [Box.mapC])

theorem sim_work {φ : Cmap} (hφ : φ.mono) (fuel : Nat) (f box : Nat) (queue : List Nat)
    {R : Unit → Unit → Prop} (h : R () ()) : Sim φ (boxcollisions.work fuel f box queue) (boxcollisions.work fuel f box queue) R := by
  induction fuel generalizing queue R with
  | zero => exact sim_fail
  | succ n ih =>
    unfold boxcollisions.work
    repeat' (first
      | with_reducible (first
        | apply sim_bind | apply sim_pure | apply sim_fail | apply sim_ite
        | apply sim_assert | apply sim_nonNull | apply sim_inRange
        | apply sim_nbOf | apply sim_posOf | apply sim_xOf | apply sim_yOf
        | apply sim_rayendRef | apply sim_getBoxes | apply sim_queue1Nonempty
        | apply sim_dirOf | apply sim_beamOf | apply sim_getJ | apply sim_getBox
        | apply sim_setNb | apply sim_setPos | apply sim_setDir | apply sim_setBeam
        | apply sim_modJ | apply sim_pushQ | apply sim_popQ | apply sim_logCall
        | apply sim_clearQueues | apply sim_setBoxes
        | apply ih | apply sim_left hφ | apply sim_right hφ
        | intro _)
      | exact Iff.rfl | rfl | exact h _ | assumption
      | (simp only [Box.mapC, hφ.1.lt_iff_lt, hφ.1.le_iff_le, hφ.2.lt_iff_lt, hφ.2.le_iff_le,
          hφ.1.injective.eq_iff, hφ.2.injective.eq_iff, gt_iff_lt, ge_iff_le]; done)
      | (simp only [Box.mapC, hφ.1.lt_iff_lt, hφ.1.le_iff_le, hφ.2.lt_iff_lt, hφ.2.le_iff_le,
          hφ.1.injective.eq_iff, hφ.2.injective.eq_iff, gt_iff_lt, ge_iff_le]; exact h _)
      | split | dsimp only | simp only [Box.mapC])

theorem sim_collide_prepare {φ : Cmap} (hφ : φ.mono) (fuel : Nat) (f box : Nat) (next : Option JRef)
    {R : Unit → Unit → Prop} (h : R () ()) : Sim φ (Boxnet_collide.prepare fuel f box next) (Boxnet_collide.prepare fuel f box next) R := by
  induction fuel generalizing next R with
  | zero => exact sim_fail
  | succ n ih =>
    unfold Boxnet_collide.prepare
    repeat' (first
      | with_reducible (first
        | apply sim_bind | apply sim_pure | apply sim_fail | apply sim_ite
        | apply sim_assert | apply sim_nonNull | apply sim_inRange
        | apply sim_nbOf | apply sim_posOf | apply sim_xOf | apply sim_yOf
        | apply sim_rayendRef | apply sim_getBoxes | apply sim_queue1Nonempty
        | apply sim_dirOf | apply sim_beamOf | apply sim_getJ | apply sim_getBox
        | apply sim_setNb | apply sim_setPos | apply sim_setDir | apply sim_setBeam
        | apply sim_modJ | apply sim_pushQ | apply sim_popQ | apply sim_logCall
        | apply sim_clearQueues | apply sim_setBoxes
        | apply ih | apply sim_Junction_flip hφ
        | intro _)
      | exact Iff.rfl | rfl | exact h _ | assumption
      | (simp only [Box.mapC, hφ.1.lt_iff_lt, hφ.1.le_iff_le, hφ.2.lt_iff_lt, hφ.2.le_iff_le,
          hφ.1.injective.eq_iff, hφ.2.injective.eq_iff, gt_iff_lt, ge_iff_le]; done)
      | (simp only [Box.mapC, hφ.1.lt_iff_lt, hφ.1.le_iff_le, hφ.2.lt_iff_lt, hφ.2.le_iff_le,
          hφ.1.injective.eq_iff, hφ.2.injective.eq_iff, gt_iff_lt, ge_iff_le]; exact h _)
      | split | dsimp only | simp only [Box.mapC])

theorem sim_Boxnet_repair {φ : Cmap} (hφ : φ.mono) (fuel : Nat) {R : Unit → Unit → Prop}
    (h : R () ()) : Sim φ (Boxnet_repair fuel) (Boxnet_repair fuel) R := by
  unfold Boxnet_repair
  refine sim_bind (sim_clearQueues ?_)
  refine sim_bind (sim_getBoxes (fun bs => ?_))
  refine sim_forEach bs (fun box _ => ?_) h
  refine sim_bind (sim_forEach _ (fun d _ => sim_repair_enqueue hφ box d trivial) ?_)
  exact sim_repair_alternate hφ fuel fuel trivial

theorem sim_Boxnet_collide {φ : Cmap} (hφ : φ.mono) (fuel : Nat) {R : Unit → Unit → Prop}
    (h : R () ()) : Sim φ (Boxnet_collide fuel) (Boxnet_collide fuel) R := by
  unfold Boxnet_collide
  refine sim_bind (sim_Boxnet_repair hφ fuel ?_)
  refine sim_bind (sim_getBoxes (fun bs => ?_))
  refine sim_bind (sim_forEach bs (fun box _ => ?_) ?_)
  · refine sim_bind (sim_modBox (fun b => rfl) ?_)
    refine sim_bind (sim_nbOf (fun nx => ?_))
    exact sim_collide_prepare hφ fuel fuel box nx trivial
  · refine sim_bind (sim_getBoxes (fun bs2 => ?_))
    refine sim_forEach bs2 (fun box _ => ?_) h
    unfold boxcollisions
    exact sim_work hφ fuel fuel box [box] trivial

theorem mapC_alloc (φ : Cmap) (s : St) (x y right top : ℚ) (usrdata : Nat) :
    (s.mapC φ).alloc (φ.fx x) (φ.fy y) (φ.fx right) (φ.fy top) usrdata =
      (s.alloc x y right top usrdata).mapC φ := by
  unfold St.alloc St.mapC
  simp only [List.length_map, List.map_append, List.map_cons, List.map_nil, Option.map]
  rfl

theorem sim_Boxnet_addbox {φ : Cmap} (hφ : φ.mono) (fuel : Nat) (x y right top : ℚ)
    (near : Option Nat) (usrdata : Nat) (hv : right ≥ x ∧ top ≥ y)
    {R : Nat → Nat → Prop} (h : ∀ a, R a a) :
    Sim φ (Boxnet_addbox fuel x y right top near usrdata)
      (Boxnet_addbox fuel (φ.fx x) (φ.fy y) (φ.fx right) (φ.fy top) near usrdata) R := by
  rw [sim_iff]
  intro s
  have hv2 : φ.fx right ≥ φ.fx x ∧ φ.fy top ≥ φ.fy y :=
    ⟨hφ.1.monotone hv.1, hφ.2.monotone hv.2⟩
  rw [addbox_alloc fuel x y right top near usrdata s hv,
    addbox_alloc fuel _ _ _ _ near usrdata (s.mapC φ) hv2, mapC_alloc]
  have hl : (s.mapC φ).heap.length = s.heap.length := by
    unfold St.mapC
    simp only [List.length_map]
  have hn : addboxNear (s.mapC φ) near = addboxNear s near := rfl
  rw [hl, hn]
  have key : Sim φ (do
        (match addboxNear s near with
         | some nr => do
           let _ ← Junction_insert fuel (jncRef s.heap.length) (jncRef nr)
           pure ()
         | none => forEach [0, 1, 2, 3] (fun d => setNb (jncRef s.heap.length) d none))
        setBoxes ((← getBoxes) ++ [s.heap.length])
        pure s.heap.length : M Nat) (do
        (match addboxNear s near with
         | some nr => do
           let _ ← Junction_insert fuel (jncRef s.heap.length) (jncRef nr)
           pure ()
         | none => forEach [0, 1, 2, 3] (fun d => setNb (jncRef s.heap.length) d none))
        setBoxes ((← getBoxes) ++ [s.heap.length])
        pure s.heap.length : M Nat) R := by
    refine sim_bind ?_
    cases addboxNear s near with
    | none =>
      simp only
      refine sim_forEach _ (fun d _ => sim_setNb trivial) ?_
      refine sim_bind (sim_getBoxes (fun bs => sim_bind (sim_setBoxes ?_)))
      exact sim_pure (h _)
    | some nr =>
      simp only
      refine sim_bind (sim_Junction_insert hφ fuel _ _ (fun _ => sim_pure ?_))
      refine sim_bind (sim_getBoxes (fun bs => sim_bind (sim_setBoxes ?_)))
      exact sim_pure (h _)
  exact (sim_iff _ _ _).1 key _

theorem sim_scenarioS5 {φ : Cmap} (hφ : φ.mono) (fuel : Nat) (x y r t : ℚ)
    (hv : r ≥ x ∧ t ≥ y) :
    Sim φ (scenarioS5 fuel x y r t) (scenarioS5 fuel (φ.fx x) (φ.fy y) (φ.fx r) (φ.fy t))
      (fun _ _ => True) := by
  unfold scenarioS5
  refine sim_bind (sim_Boxnet_addbox hφ fuel x y r t none 1 hv (fun _ => ?_))
  refine sim_bind (sim_Boxnet_addbox hφ fuel x y r t none 2 hv (fun _ => ?_))
  exact sim_Boxnet_collide hφ fuel trivial

/-- Transport of a run across a change of coordinates: the run in the new coordinates
returns when the original run does, with the same callback log. -/
theorem sim_calls {φ : Cmap} {m m2 : M Unit} (h : Sim φ m m2 (fun _ _ => True)) (s t : St)
    (hm : m s = .ok () t) :
    (m2 (s.mapC φ)).err? = none ∧ (m2 (s.mapC φ)).state.calls = t.calls := by
  have := (sim_iff _ _ _).1 h s
  rw [hm] at this
  cases h2 : m2 (s.mapC φ) with
  | ok u t2 =>
    rw [h2] at this
    simp only at this
    rw [this.1]
    exact ⟨rfl, rfl⟩
  | err e t2 =>
    rw [h2] at this
    exact this.elim

theorem affine_mono (x w y h : ℚ) (hw : 0 < w) (hh : 0 < h) : (Cmap.affine x w y h).mono := by
  constructor
  · intro a b hab
    show x + a * w < x + b * w
    have := mul_lt_mul_of_pos_right hab hw
    linarith
  · intro a b hab
    show y + a * h < y + b * h
    have := mul_lt_mul_of_pos_right hab hh
    linarith

/-- The four tie patterns of scenario S5 in canonical coordinates: the run returns and
the callback log is the single invocation for the boxes 0 and 1. -/
theorem scenarioS5_canonical (cr ct : ℚ) (hr : cr = 0 ∨ cr = 1) (ht : ct = 0 ∨ ct = 1) :
    ∃ s, scenarioS5 100 0 0 cr ct Boxnet_new = .ok () s ∧ s.calls = [⟨0, 1, 1, 2⟩] := by
  rcases hr with hr | hr <;> rcases ht with ht | ht <;> subst hr <;> subst ht
  · exact ⟨(scenarioS5 100 0 0 0 0 Boxnet_new).state, by decide!, by decide!⟩
  · exact ⟨(scenarioS5 100 0 0 0 1 Boxnet_new).state, by decide!, by decide!⟩
  · exact ⟨(scenarioS5 100 0 0 1 0 Boxnet_new).state, by decide!, by decide!⟩
  · exact ⟨(scenarioS5 100 0 0 1 1 Boxnet_new).state, by decide!, by decide!⟩

/-- C12 (scenario S5, ties): for every `x <= r` and `y <= t`, adding two boxes with the
identical coordinates `(x, y, r, t)` to a fresh net with `near` absent (handles 0 and
1, user data 1 and 2) and calling `Boxnet_collide` returns, and the callback log holds
exactly one invocation, for the two distinct boxes 0 and 1. -/
theorem C12_identical_boxes (x y r t : ℚ) (hx : x ≤ r) (hy : y ≤ t) :
    (scenarioS5 100 x y r t Boxnet_new).err? = none ∧
    (scenarioS5 100 x y r t Boxnet_new).state.calls = [⟨0, 1, 1, 2⟩] := by
  obtain ⟨cr, w, hcr, hw, hrw⟩ : ∃ cr w : ℚ, (cr = 0 ∨ cr = 1) ∧ 0 < w ∧ x + cr * w = r := by
    rcases lt_or_eq_of_le hx with h | h
    · exact ⟨1, r - x, Or.inr rfl, by linarith, by ring⟩
    · exact ⟨0, 1, Or.inl rfl, by norm_num, by rw [← h]; ring⟩
  obtain ⟨ct, h, hct, hh, hth⟩ : ∃ ct h : ℚ, (ct = 0 ∨ ct = 1) ∧ 0 < h ∧ y + ct * h = t := by
    rcases lt_or_eq_of_le hy with h | h
    · exact ⟨1, t - y, Or.inr rfl, by linarith, by ring⟩
    · exact ⟨0, 1, Or.inl rfl, by norm_num, by rw [← h]; ring⟩
  obtain ⟨s, hs, hcalls⟩ := scenarioS5_canonical cr ct hcr hct
  have hv : cr ≥ 0 ∧ ct ≥ 0 := by
    constructor
    · rcases hcr with e | e <;> subst e <;> norm_num
    · rcases hct with e | e <;> subst e <;> norm_num
  have hsim := sim_scenarioS5 (affine_mono x w y h hw hh) 100 0 0 cr ct hv
  have key := sim_calls hsim Boxnet_new s hs
  have e1 : (Cmap.affine x w y h).fx 0 = x := by
    show x + 0 * w = x
    ring
  have e2 : (Cmap.affine x w y h).fy 0 = y := by
    show y + 0 * h = y
    ring
  have e3 : (Cmap.affine x w y h).fx cr = r := hrw
  have e4 : (Cmap.affine x w y h).fy ct = t := hth
  rw [e1, e2, e3, e4] at key
  rw [hcalls] at key
  exact key

/-- Witness for C12: two boxes at (3, -2, 5, 7). -/
theorem C12_identical_boxes_witness :
    (scenarioS5 100 3 (-2) 5 7 Boxnet_new).err? = none ∧
    (scenarioS5 100 3 (-2) 5 7 Boxnet_new).state.calls = [⟨0, 1, 1, 2⟩] :=
  C12_identical_boxes 3 (-2) 5 7 (by norm_num) (by norm_num)

/-! ## Tidy nets -/

theorem tri_getBox {I : St → Prop} {p : Nat} {Q : Box → Prop} (h : ∀ a, Q a) :
    Tri I (getBox p) Q :=
  tri_keeps (keeps_getBox _) h

theorem stable_tidy : Stable Tidy := by
  constructor
  · intro s r j hs hj
    exact ((tidy_iff s).1 hs r j hj).1
  · intro s r j j2 hs hj he hb
    rw [tidy_iff] at hs ⊢
    intro r2 j3 hj3
    rw [junction?_updJ s r r2 j2 j hj] at hj3
    split at hj3
    · cases hj3
      exact ⟨hb, by rw [he]; exact (hs r j hj).2⟩
    · exact hs r2 j3 hj3

/-- An invariant of the heap alone is kept by a computation that keeps the heap. -/
theorem tri_tidy_heap {α : Type} {m : M α} {Q : α → Prop}
    (hk : ∀ s, (m s).state.heap = s.heap) (h : ∀ a, Q a) : Tri Tidy m Q := by
  rw [tri_iff]
  intro s hs
  refine ⟨?_, fun a _ _ => h a⟩
  unfold Tidy at hs ⊢
  rw [hk s]
  exact hs

theorem tri_logCall_tidy {c : Call} {Q : Unit → Prop} (h : Q ()) : Tri Tidy (logCall c) Q :=
  tri_tidy_heap (fun _ => rfl) (fun _ => h)

theorem tri_setBoxes_tidy {bs : List Nat} {Q : Unit → Prop} (h : Q ()) :
    Tri Tidy (setBoxes bs) Q :=
  tri_tidy_heap (fun _ => rfl) (fun _ => h)

theorem tidy_set {s : St} {p : Nat} {ob : Option Box} (hs : Tidy s)
    (hb : ∀ b, ob = some b → ∀ j ∈ b.junctions, j.bounded ∧ j.enqueued = 0) :
    Tidy { s with heap := s.heap.set p ob } := by
  unfold Tidy at hs ⊢
  intro ob2 hob2 b hb2 j hj
  rcases List.mem_or_eq_of_mem_set hob2 with h1 | h1
  · exact hs ob2 h1 b hb2 j hj
  · subst h1
    exact hb b hb2 j hj

theorem tri_modBox_tidy {p : Nat} {f : Box → Box} {Q : Unit → Prop}
    (hf : ∀ b, (f b).jnc = b.jnc ∧ (f b).rayend = b.rayend) (h : Q ()) :
    Tri Tidy (modBox p f) Q := by
  rw [tri_iff]
  intro s hs
  refine ⟨?_, fun _ _ _ => h⟩
  unfold modBox
  rw [bind_eq]
  unfold getBox
  cases hp : s.heap[p]? with
  | none => exact hs
  | some ob =>
    cases ob with
    | none => exact hs
    | some b =>
      simp only [setBox, hp, Res.state]
      refine tidy_set hs (fun b2 hb2 j hj => ?_)
      cases hb2
      have hmem : some b ∈ s.heap := List.mem_iff_getElem?.2 ⟨_, hp⟩
      refine hs (some b) hmem b rfl j ?_
      unfold Box.junctions at hj ⊢
      rw [(hf b).1, (hf b).2] at hj
      exact hj

theorem tri_freeBox_tidy {p : Nat} {Q : Unit → Prop} (h : Q ()) : Tri Tidy (freeBox p) Q := by
  rw [tri_iff]
  intro s hs
  refine ⟨?_, fun _ _ _ => h⟩
  unfold freeBox
  cases hp : s.heap[p]? with
  | none => exact hs
  | some ob =>
    cases ob with
    | none => exact hs
    | some b =>
      simp only [Res.state]
      exact tidy_set hs (fun b2 hb2 => by cases hb2)

theorem tri_Box_new_tidy {Q : Nat → Prop} (h : ∀ a, Q a) : Tri Tidy Box_new Q := by
  rw [tri_iff]
  intro s hs
  refine ⟨?_, fun a _ _ => h a⟩
  unfold Box_new
  simp only [Res.state]
  unfold Tidy at hs ⊢
  intro ob hob b hb j hj
  rw [List.mem_append] at hob
  rcases hob with h1 | h1
  · exact hs ob h1 b hb j hj
  · rw [List.mem_singleton] at h1
    subst h1
    cases hb
    simp only [Box.junctions, List.mem_cons, List.mem_singleton, List.not_mem_nil,
      or_false] at hj
    rcases hj with e | e | e | e | e <;> subst e <;>
      simp [Box_new.rayend, Junction.blank, Junction.bounded]

theorem tri_modBox_marked {p : Nat} {v : Option Nat} {Q : Unit → Prop} (h : Q ()) :
    Tri Tidy (modBox p (fun b => { b with marked := v })) Q :=
  tri_modBox_tidy (fun _ => ⟨rfl, rfl⟩) h

/-! ## Stable invariants: insertion and deletion -/

theorem tri_insert {I : St → Prop} (hI : Stable I) (jnc cur : JRef) (curdir cwccw : Nat) (next : Option JRef)
    {Q : Unit → Prop} (hc : curdir < 8) (h : Q ()) : Tri I (Junction_insert.insert jnc cur curdir cwccw next) Q := by
  unfold Junction_insert.insert
  repeat' (first | with_reducible (first
      | apply tri_bind | apply tri_pure | apply tri_fail | apply tri_ite
      | apply tri_assert | apply tri_nonNull | apply tri_inRange
      | apply tri_nbOf | apply tri_posOf | apply tri_xOf | apply tri_yOf
      | apply tri_rayendRef | apply tri_getBoxes | apply tri_queue1Nonempty
      | apply tri_dirOf hI | apply tri_beamOf hI | apply tri_getJ hI
      | apply tri_setNb hI | apply tri_setPos hI | apply tri_setDir hI | apply tri_setBeam hI
      | apply tri_append hq
      | intro _) | assumption | exact h _ | split | dsimp only | omega | exact xor_two_lt ‹_›)

theorem tri_insert_loop {I : St → Prop} (hI : Stable I) (fuel : Nat) (jnc cur : JRef) (curdir cwccw inserted : Nat)
    {Q : Nat → Prop} (hc : curdir < 8) (h : ∀ a, Q a) : Tri I (Junction_insert.loop fuel jnc cur curdir cwccw inserted) Q := by
  induction fuel generalizing cur curdir inserted Q with
  | zero => exact tri_fail
  | succ n ih =>
    unfold Junction_insert.loop
    repeat' (first | with_reducible (first
        | apply tri_bind | apply tri_pure | apply tri_fail | apply tri_ite
        | apply tri_assert | apply tri_nonNull | apply tri_inRange
        | apply tri_nbOf | apply tri_posOf | apply tri_xOf | apply tri_yOf
        | apply tri_rayendRef | apply tri_getBoxes | apply tri_queue1Nonempty
        | apply tri_dirOf hI | apply tri_beamOf hI | apply tri_getJ hI
        | apply tri_setNb hI | apply tri_setPos hI | apply tri_setDir hI | apply tri_setBeam hI
        | apply tri_append hq
        | apply ih | apply tri_insert hI
        | intro _) | assumption | exact h _ | split | dsimp only | omega | exact xor_two_lt ‹_›)

theorem tri_Junction_insert {I : St → Prop} (hI : Stable I) (fuel : Nat) (jnc start : JRef)
    {Q : Nat → Prop} (h : ∀ a, Q a) : Tri I (Junction_insert fuel jnc start) Q := by
  unfold Junction_insert
  repeat' (first | with_reducible (first
      | apply tri_bind | apply tri_pure | apply tri_fail | apply tri_ite
      | apply tri_assert | apply tri_nonNull | apply tri_inRange
      | apply tri_nbOf | apply tri_posOf | apply tri_xOf | apply tri_yOf
      | apply tri_rayendRef | apply tri_getBoxes | apply tri_queue1Nonempty
      | apply tri_dirOf hI | apply tri_beamOf hI | apply tri_getJ hI
      | apply tri_setNb hI | apply tri_setPos hI | apply tri_setDir hI | apply tri_setBeam hI
      | apply tri_append hq
      | apply tri_insert_loop hI
      | intro _) | assumption | exact h _ | split | dsimp only | omega | exact xor_two_lt ‹_›)

theorem tri_Box_free_unlink {I : St → Prop} (hI : Stable I) (fuel box d : Nat)
    {Q : Unit → Prop} (h : Q ()) : Tri I (Box_free.unlink fuel box d) Q := by
  unfold Box_free.unlink
  repeat' (first | with_reducible (first
      | apply tri_bind | apply tri_pure | apply tri_fail | apply tri_ite
      | apply tri_assert | apply tri_nonNull | apply tri_inRange
      | apply tri_nbOf | apply tri_posOf | apply tri_xOf | apply tri_yOf
      | apply tri_rayendRef | apply tri_getBoxes | apply tri_queue1Nonempty
      | apply tri_dirOf hI | apply tri_beamOf hI | apply tri_getJ hI
      | apply tri_setNb hI | apply tri_setPos hI | apply tri_setDir hI | apply tri_setBeam hI
      | apply tri_append hq
      | apply tri_Junction_flip hI appends_none
      | intro _) | assumption | exact h _ | split | dsimp only | omega | exact xor_two_lt ‹_›)

theorem tri_Box_free_drop {I : St → Prop} (hI : Stable I) (box d : Nat)
    {Q : Unit → Prop} (h : Q ()) : Tri I (Box_free.drop box d) Q := by
  unfold Box_free.drop
  repeat' (first | with_reducible (first
      | apply tri_bind | apply tri_pure | apply tri_fail | apply tri_ite
      | apply tri_assert | apply tri_nonNull | apply tri_inRange
      | apply tri_nbOf | apply tri_posOf | apply tri_xOf | apply tri_yOf
      | apply tri_rayendRef | apply tri_getBoxes | apply tri_queue1Nonempty
      | apply tri_dirOf hI | apply tri_beamOf hI | apply tri_getJ hI
      | apply tri_setNb hI | apply tri_setPos hI | apply tri_setDir hI | apply tri_setBeam hI
      | apply tri_append hq
      | apply tri_detach hI
      | intro _) | assumption | exact h _ | split | dsimp only | omega | exact xor_two_lt ‹_›)

theorem tri_collide_prepare {I : St → Prop} (hI : Stable I) (fuel : Nat) (f box : Nat) (next : Option JRef)
    {Q : Unit → Prop} (h : Q ()) : Tri I (Boxnet_collide.prepare fuel f box next) Q := by
  induction fuel generalizing next Q with
  | zero => exact tri_fail
  | succ n ih =>
    unfold Boxnet_collide.prepare
    repeat' (first | with_reducible (first
        | apply tri_bind | apply tri_pure | apply tri_fail | apply tri_ite
        | apply tri_assert | apply tri_nonNull | apply tri_inRange
        | apply tri_nbOf | apply tri_posOf | apply tri_xOf | apply tri_yOf
        | apply tri_rayendRef | apply tri_getBoxes | apply tri_queue1Nonempty
        | apply tri_dirOf hI | apply tri_beamOf hI | apply tri_getJ hI
        | apply tri_setNb hI | apply tri_setPos hI | apply tri_setDir hI | apply tri_setBeam hI
        | apply tri_append hq
        | apply ih | apply tri_Junction_flip hI appends_none | apply tri_getBox
        | intro _) | assumption | exact h _ | split | dsimp only | omega | exact xor_two_lt ‹_›)

/-! ## API-built nets are tidy -/

theorem tidy_callback (box append : Nat)
    {Q : Unit → Prop} (h : Q ()) : Tri Tidy (callback box append) Q := by
  have hI := stable_tidy
  unfold callback
  repeat' (first | with_reducible (first
      | apply tri_bind | apply tri_pure | apply tri_fail | apply tri_ite
      | apply tri_assert | apply tri_nonNull | apply tri_inRange
      | apply tri_nbOf | apply tri_posOf | apply tri_xOf | apply tri_yOf
      | apply tri_rayendRef | apply tri_getBoxes | apply tri_queue1Nonempty
      | apply tri_dirOf hI | apply tri_beamOf hI | apply tri_getJ hI
      | apply tri_setNb hI | apply tri_setPos hI | apply tri_setDir hI | apply tri_setBeam hI
      | apply tri_append hq
      | apply tri_getBox | apply tri_modBox_marked | apply tri_logCall_tidy | apply tri_setBoxes_tidy
      | intro _) | assumption | exact h _ | split | dsimp only | omega | exact xor_two_lt ‹_›)

theorem tidy_queue_append (box : Nat) (append : Option Nat) (queue : List Nat)
    {Q : List Nat → Prop} (h : ∀ a, Q a) : Tri Tidy (queue_append box append queue) Q := by
  have hI := stable_tidy
  unfold queue_append
  repeat' (first | with_reducible (first
      | apply tri_bind | apply tri_pure | apply tri_fail | apply tri_ite
      | apply tri_assert | apply tri_nonNull | apply tri_inRange
      | apply tri_nbOf | apply tri_posOf | apply tri_xOf | apply tri_yOf
      | apply tri_rayendRef | apply tri_getBoxes | apply tri_queue1Nonempty
      | apply tri_dirOf hI | apply tri_beamOf hI | apply tri_getJ hI
      | apply tri_setNb hI | apply tri_setPos hI | apply tri_setDir hI | apply tri_setBeam hI
      | apply tri_append hq
      | apply tri_getBox | apply tri_modBox_marked | apply tri_logCall_tidy | apply tri_setBoxes_tidy | apply tidy_callback
      | intro _) | assumption | exact h _ | split | dsimp only | omega | exact xor_two_lt ‹_›)

theorem tidy_up (fuel : Nat) (box skip : Nat) (next : Option JRef) (queue : List Nat)
    {Q : List Nat → Prop} (h : ∀ a, Q a) : Tri Tidy (boxcollisions.up fuel box skip next queue) Q := by
  have hI := stable_tidy
  induction fuel generalizing next queue Q with
  | zero => exact tri_fail
  | succ n ih =>
    unfold boxcollisions.up
    repeat' (first | with_reducible (first
        | apply tri_bind | apply tri_pure | apply tri_fail | apply tri_ite
        | apply tri_assert | apply tri_nonNull | apply tri_inRange
        | apply tri_nbOf | apply tri_posOf | apply tri_xOf | apply tri_yOf
        | apply tri_rayendRef | apply tri_getBoxes | apply tri_queue1Nonempty
        | apply tri_dirOf hI | apply tri_beamOf hI | apply tri_getJ hI
        | apply tri_setNb hI | apply tri_setPos hI | apply tri_setDir hI | apply tri_setBeam hI
        | apply tri_append hq
        | apply ih | apply tri_getBox | apply tri_modBox_marked | apply tri_logCall_tidy | apply tri_setBoxes_tidy | apply tidy_queue_append
        | intro _) | assumption | exact h _ | split | dsimp only | omega | exact xor_two_lt ‹_›)

theorem tidy_left (fuel : Nat) (box : Nat) (root : Option JRef) (queue : List Nat)
    {Q : List Nat → Prop} (h : ∀ a, Q a) : Tri Tidy (boxcollisions.left fuel box root queue) Q := by
  have hI := stable_tidy
  induction fuel generalizing root queue Q with
  | zero => exact tri_fail
  | succ n ih =>
    unfold boxcollisions.left
    repeat' (first | with_reducible (first
        | apply tri_bind | apply tri_pure | apply tri_fail | apply tri_ite
        | apply tri_assert | apply tri_nonNull | apply tri_inRange
        | apply tri_nbOf | apply tri_posOf | apply tri_xOf | apply tri_yOf
        | apply tri_rayendRef | apply tri_getBoxes | apply tri_queue1Nonempty
        | apply tri_dirOf hI | apply tri_beamOf hI | apply tri_getJ hI
        | apply tri_setNb hI | apply tri_setPos hI | apply tri_setDir hI | apply tri_setBeam hI
        | apply tri_append hq
        | apply ih | apply tri_getBox | apply tri_modBox_marked | apply tri_logCall_tidy | apply tri_setBoxes_tidy | apply tidy_up
        | intro _) | assumption | exact h _ | split | dsimp only | omega | exact xor_two_lt ‹_›)

theorem tidy_right (fuel : Nat) (box : Nat) (root : Option JRef) (queue : List Nat)
    {Q : List Nat → Prop} (h : ∀ a, Q a) : Tri Tidy (boxcollisions.right fuel box root queue) Q := by
  have hI := stable_tidy
  induction fuel generalizing root queue Q with
  | zero => exact tri_fail
  | succ n ih =>
    unfold boxcollisions.right
    repeat' (first | with_reducible (first
        | apply tri_bind | apply tri_pure | apply tri_fail | apply tri_ite
        | apply tri_assert | apply tri_nonNull | apply tri_inRange
        | apply tri_nbOf | apply tri_posOf | apply tri_xOf | apply tri_yOf
        | apply tri_rayendRef | apply tri_getBoxes | apply tri_queue1Nonempty
        | apply tri_dirOf hI | apply tri_beamOf hI | apply tri_getJ hI
        | apply tri_setNb hI | apply tri_setPos hI | apply tri_setDir hI | apply tri_setBeam hI
        | apply tri_append hq
        | apply ih | apply tri_getBox | apply tri_modBox_marked | apply tri_logCall_tidy | apply tri_setBoxes_tidy | apply tidy_up
        | intro _) | assumption | exact h _ | split | dsimp only | omega | exact xor_two_lt ‹_›)

theorem tidy_work (fuel : Nat) (f box : Nat) (queue : List Nat)
    {Q : Unit → Prop} (h : Q ()) : Tri Tidy (boxcollisions.work fuel f box queue) Q := by
  have hI := stable_tidy
  induction fuel generalizing queue Q with
  | zero => exact tri_fail
  | succ n ih =>
    unfold boxcollisions.work
    repeat' (first | with_reducible (first
        | apply tri_bind | apply tri_pure | apply tri_fail | apply tri_ite
        | apply tri_assert | apply tri_nonNull | apply tri_inRange
        | apply tri_nbOf | apply tri_posOf | apply tri_xOf | apply tri_yOf
        | apply tri_rayendRef | apply tri_getBoxes | apply tri_queue1Nonempty
        | apply tri_dirOf hI | apply tri_beamOf hI | apply tri_getJ hI
        | apply tri_setNb hI | apply tri_setPos hI | apply tri_setDir hI | apply tri_setBeam hI
        | apply tri_append hq
        | apply ih | apply tri_getBox | apply tri_modBox_marked | apply tri_logCall_tidy | apply tri_setBoxes_tidy | apply tidy_left | apply tidy_right
        | intro _) | assumption | exact h _ | split | dsimp only | omega | exact xor_two_lt ‹_›)

theorem tidy_search (usrdata : Nat) (bs : List Nat) (n : Nat) {Q : Option Nat → Prop}
    (h : ∀ a, Q a) : Tri Tidy (Boxnet_delbox_byusrdata.search usrdata bs n) Q := by
  induction bs generalizing n with
  | nil => exact tri_pure (h _)
  | cons p ps ih =>
    unfold Boxnet_delbox_byusrdata.search
    refine tri_bind (tri_getBox (fun b => ?_))
    exact tri_ite (tri_pure (h _)) (ih _)

theorem tidy_Box_free (fuel box : Nat) {Q : Unit → Prop} (h : Q ()) :
    Tri Tidy (Box_free fuel box) Q := by
  unfold Box_free
  refine tri_bind (tri_forEach _ (fun d _ => tri_Box_free_unlink stable_tidy fuel box d trivial) ?_)
  refine tri_bind (tri_forEach _ (fun d _ => tri_Box_free_drop stable_tidy box d trivial) ?_)
  exact tri_freeBox_tidy h

theorem tidy_Boxnet_delbox (fuel box : Nat) {Q : Unit → Prop} (h : Q ()) :
    Tri Tidy (Boxnet_delbox fuel box) Q := by
  unfold Boxnet_delbox
  refine tri_bind (tri_getBoxes (fun bs => ?_))
  split
  · refine tri_bind (tidy_Box_free fuel box ?_)
    exact tri_bind (tri_getBoxes (fun _ => tri_setBoxes_tidy h))
  · exact tri_assert h

theorem tidy_Boxnet_delbox_byusrdata (fuel usrdata : Nat) {Q : Unit → Prop} (h : Q ()) :
    Tri Tidy (Boxnet_delbox_byusrdata fuel usrdata) Q := by
  unfold Boxnet_delbox_byusrdata
  refine tri_bind (tri_getBoxes (fun bs => ?_))
  refine tri_bind (tidy_search usrdata bs 0 (fun o => ?_))
  split
  · refine tri_bind (tri_inRange (fun p => ?_))
    refine tri_bind (tidy_Box_free fuel p ?_)
    exact tri_bind (tri_getBoxes (fun _ => tri_setBoxes_tidy h))
  · exact tri_assert h

theorem tidy_Boxnet_addbox (fuel : Nat) (x y right top : ℚ) (near : Option Nat)
    (usrdata : Nat) {Q : Nat → Prop} (h : ∀ a, Q a) :
    Tri Tidy (Boxnet_addbox fuel x y right top near usrdata) Q := by
  unfold Boxnet_addbox
  refine tri_bind (tri_Box_new_tidy (fun new => ?_))
  refine tri_bind (tri_modBox_tidy (fun _ => ⟨rfl, rfl⟩) ?_)
  refine tri_bind (tri_assert ?_)
  refine tri_bind (tri_modBox_tidy (fun _ => ⟨rfl, rfl⟩) ?_)
  refine tri_bind (tri_modBox_tidy (fun _ => ⟨rfl, rfl⟩) ?_)
  refine tri_bind (tri_getBoxes (fun bs => ?_))
  refine tri_bind ?_
  split
  · refine tri_bind (tri_Junction_insert stable_tidy fuel _ _ (fun _ => tri_pure ?_))
    refine tri_bind (tri_getBoxes (fun _ => tri_bind (tri_setBoxes_tidy ?_)))
    exact tri_pure (h _)
  · refine tri_forEach _ (fun d hd => tri_setNb stable_tidy trivial) ?_
    refine tri_bind (tri_getBoxes (fun _ => tri_bind (tri_setBoxes_tidy ?_)))
    exact tri_pure (h _)

/-- Partial correctness for an invariant: if the computation returns from a state
satisfying `I`, the state it returns in satisfies `I`. -/
theorem tri_ok {α : Type} {I : St → Prop} {m : M α} {Q : α → Prop} (h : Tri I m Q)
    {s t : St} {a : α} (hs : I s) (hm : m s = .ok a t) : I t := by
  have := ((tri_iff _ _).1 h s hs).1
  rw [hm] at this
  exact this

theorem tidy_Boxnet_repair (fuel : Nat) {s t : St} (hs : Tidy s)
    (hm : Boxnet_repair fuel s = .ok () t) : Tidy t := by
  have h1 : Enq [] (Boxnet_repair fuel s).state := by
    rw [Boxnet_repair_eq]
    exact ((tri_iff _ _).1 (tri_repair_boxes fuel s.boxes (Q := fun _ => True) trivial) _
      (enq_of_tidy s hs)).1
  have hq : t.queue1 = [] ∧ t.queue2 = [] := by
    rw [Boxnet_repair_eq] at hm
    exact repair_boxes_post fuel s.boxes _ t ⟨rfl, rfl⟩ hm
  rw [hm] at h1
  simp only [Res.state] at h1
  rw [tidy_iff]
  intro r j hj
  refine ⟨h1.1 r j hj, ?_⟩
  apply eq_zero_of_bits _ (h1.1 r j hj).2.2
  intro u hu
  cases hb : j.enqueued.testBit u with
  | false => rfl
  | true =>
    have := (h1.2.2.1 r j u hj hu).1 hb
    simp only [St.pending, hq.1, hq.2, List.append_nil, List.not_mem_nil] at this

theorem tidy_Boxnet_collide (fuel : Nat) {s t : St} (hs : Tidy s)
    (hm : Boxnet_collide fuel s = .ok () t) : Tidy t := by
  unfold Boxnet_collide at hm
  rw [bind_eq] at hm
  cases hr : Boxnet_repair fuel s with
  | err e s1 => rw [hr] at hm; cases hm
  | ok u s1 =>
    rw [hr] at hm
    simp only at hm
    have h1 := tidy_Boxnet_repair fuel hs hr
    have key : Tri Tidy (do
        forEach (← getBoxes) (fun box => do
          modBox box (fun b => { b with marked := none })
          Boxnet_collide.prepare fuel fuel box (← nbOf (jncRef box) 3))
        forEach (← getBoxes) (fun box => boxcollisions fuel box)) (fun _ => True) := by
      refine tri_bind (tri_getBoxes (fun bs => ?_))
      refine tri_bind (tri_forEach bs (fun box _ => ?_) ?_)
      · refine tri_bind (tri_modBox_marked ?_)
        refine tri_bind (tri_nbOf (fun nx => ?_))
        exact tri_collide_prepare stable_tidy fuel fuel box nx trivial
      · refine tri_bind (tri_getBoxes (fun bs2 => ?_))
        refine tri_forEach bs2 (fun box _ => ?_) trivial
        unfold boxcollisions
        exact tidy_work fuel fuel box [box] trivial
    exact tri_ok key h1 hm

/-- Every net built by calls of the public API that all returned (and coordinate edits
through box handles) is tidy: all `dir` and `beamdir` bytes are below 8 and every
`enqueued` mask is 0 between the calls. -/
theorem tidy_of_api (fuel : Nat) (ops : List Op) (s t : St) (hs : Tidy s)
    (h : runOps fuel ops s = .ok () t) : Tidy t := by
  unfold runOps at h
  induction ops generalizing s with
  | nil =>
    cases h
    exact hs
  | cons o os ih =>
    unfold forEach at h
    rw [bind_eq] at h
    cases ho : Op.run fuel o s with
    | err e s1 => rw [ho] at h; cases h
    | ok u s1 =>
      rw [ho] at h
      refine ih s1 ?_ h
      cases o with
      | addbox x y right top near usrdata =>
        have key : Tri Tidy (Op.run fuel (.addbox x y right top near usrdata))
            (fun _ => True) := by
          unfold Op.run
          exact tri_bind (tidy_Boxnet_addbox fuel x y right top near usrdata
            (fun _ => tri_pure trivial))
        exact tri_ok key hs ho
      | delbox box => exact tri_ok (tidy_Boxnet_delbox fuel box (Q := fun _ => True) trivial) hs ho
      | delbox_byusrdata usrdata =>
        exact tri_ok (tidy_Boxnet_delbox_byusrdata fuel usrdata (Q := fun _ => True) trivial)
          hs ho
      | collide => exact tidy_Boxnet_collide fuel hs ho
      | edit box x y right top =>
        have key : Tri Tidy (Op.run fuel (.edit box x y right top)) (fun _ => True) := by
          unfold Op.run
          exact tri_modBox_tidy (fun _ => ⟨rfl, rfl⟩) trivial
        exact tri_ok key hs ho

theorem tidy_Boxnet_new : Tidy Boxnet_new := by
  intro ob hob
  cases hob

/-! ## The rays of scenario S1 -/

/-- The assertions of the ray loop of `validate` hold in the net of scenario S1, and
again after A has been moved and `Boxnet_collide` has run a second time. -/
theorem validate_rays_scenarios :
    validate.rays 100 netS1 = .ok () netS1 ∧
    (scenarioS2 100 >>= fun _ => validate.rays 100) Boxnet_new =
      .ok () (scenarioS2 100 Boxnet_new).state := by
  decide!

/-- In the net of scenario S1 the ray of A to the right (direction 3) first meets the
upper ray-end of C, a T-junction of `dir` 0 and `beamdir` 3, and ends at `&A.rayend[1]`,
whose `dir` is 1; the junction `&A.rayend[3]` is detached (`dir` 5). -/
theorem ray_of_A_in_S1 :
    nbOf (jncRef 0) 3 netS1 = .ok (some ⟨2, 0⟩) netS1 ∧
    dirOf ⟨2, 0⟩ netS1 = .ok 0 netS1 ∧ beamOf ⟨2, 0⟩ netS1 = .ok 3 netS1 ∧
    nbOf ⟨2, 0⟩ 3 netS1 = .ok (some ⟨0, 1⟩) netS1 ∧
    dirOf ⟨0, 1⟩ netS1 = .ok 1 netS1 ∧ nbOf ⟨0, 1⟩ 3 netS1 = .ok none netS1 ∧
    dirOf ⟨0, 3⟩ netS1 = .ok 5 netS1 := by
  decide!
/-! ## `needsflip` across a link -/

/-- A computation that keeps the whole state returns in the state it started from. -/
theorem state_of_keeps {α : Type} {m : M α} (hk : Keeps (fun s : St => s) m) (s : St) :
    (m s).state = s :=
  (keeps_iff (π := fun s : St => s) m).1 hk s

/-- The coordinate that `needsflip` compares along direction `d` is read without
changing the state. -/
theorem keeps_coord (d : Nat) (r : JRef) :
    Keeps (fun s : St => s) (if (d + 1) % 2 ≠ 0 then yOf r else xOf r) := by
  split
  · exact keeps_yOf _
  · exact keeps_xOf _

/-- The value of `needsflip j d` in terms of the two coordinates it reads: it returns
exactly when both can be read. -/
theorem needsflip_val? (s : St) (j n : JRef) (d : Nat)
    (hnb : (nbOf j d s).val? = some (some n)) :
    (needsflip j d s).val? =
      (((if (d + 1) % 2 ≠ 0 then yOf n else xOf n) s).val?.bind fun cn =>
        ((if (d + 1) % 2 ≠ 0 then yOf j else xOf j) s).val?.bind fun cj =>
          some (if cn = cj then false
            else decide ((if cn < cj then 1 else 0) ≠ ((d + 1) % 4) / 2))) := by
  have hnb1 := ok_of_val? (keeps_nbOf j d) hnb
  have hN := state_of_keeps (keeps_coord d n) s
  have hJ := state_of_keeps (keeps_coord d j) s
  unfold Boxnet.needsflip
  rw [bind_eq, hnb1]
  simp only
  rw [bind_eq]
  simp only [nonNull, pure_eq]
  by_cases hp : (d + 1) % 2 ≠ 0
  · rw [if_pos hp] at hN hJ ⊢
    simp only [if_pos hp]
    rw [bind_eq]
    cases h1 : yOf n s with
    | err e t => rfl
    | ok cn t =>
      rw [h1] at hN
      have ht : s = t := hN.symm
      subst ht
      simp only
      rw [bind_eq]
      cases h2 : yOf j s with
      | err e t => rfl
      | ok cj t =>
        rw [h2] at hJ
        have ht : s = t := hJ.symm
        subst ht
        by_cases hc : cn = cj
        · simp [pure_eq, Res.val?, hc]
        · simp [pure_eq, Res.val?, hc]
  · rw [if_neg hp] at hN hJ ⊢
    simp only [if_neg hp]
    rw [bind_eq]
    cases h1 : xOf n s with
    | err e t => rfl
    | ok cn t =>
      rw [h1] at hN
      have ht : s = t := hN.symm
      subst ht
      simp only
      rw [bind_eq]
      cases h2 : xOf j s with
      | err e t => rfl
      | ok cj t =>
        rw [h2] at hJ
        have ht : s = t := hJ.symm
        subst ht
        by_cases hc : cn = cj
        · simp [pure_eq, Res.val?, hc]
        · simp [pure_eq, Res.val?, hc]

/-- The C `needsflip` only reads. -/
theorem keeps_needsflip_all {X : Type} (π : St → X) (jnc : JRef) (d : Nat) :
    Keeps π (needsflip jnc d) := by
  unfold Boxnet.needsflip
  repeat' (first
    | with_reducible (first
      | apply keeps_pure | apply keeps_fail | apply keeps_nonNull
      | apply keeps_nbOf | apply keeps_xOf | apply keeps_yOf
      | apply keeps_ite | apply keeps_bind | intro _)
    | split | dsimp only)

/-- A run of `needsflip` that returns leaves the state as it was. -/
theorem needsflip_ok_of_val? (s : St) (j : JRef) (d : Nat) (v : Bool)
    (h : (needsflip j d s).val? = some v) : needsflip j d s = .ok v s :=
  ok_of_val? (keeps_needsflip_all _ j d) h

/-- The comparison of `needsflip` gives the same answer from both ends of a link. -/
theorem needsflip_cmp_symm (d : Nat) (hd : d < 4) (ca cb : ℚ) :
    (if cb = ca then false
      else decide ((if cb < ca then 1 else 0) ≠ ((d + 1) % 4) / 2)) =
    (if ca = cb then false
      else decide ((if ca < cb then 1 else 0) ≠ (((d ^^^ 2) + 1) % 4) / 2)) := by
  by_cases hc : ca = cb
  · subst hc
    simp
  · have hc2 : ¬ cb = ca := fun h => hc h.symm
    rw [if_neg hc, if_neg hc2]
    rcases lt_or_gt_of_ne hc with hlt | hgt
    · have h2 : ¬ cb < ca := not_lt.2 (le_of_lt hlt)
      interval_cases d <;> simp [hlt, h2]
    · have h2 : ¬ ca < cb := not_lt.2 (le_of_lt hgt)
      interval_cases d <;> simp [hgt, h2]

/-- C27: for two junctions `a`, `b` and a direction `d < 4` with `a.nb[d] == b` and
`b.nb[d xor 2] == a`, `needsflip(a, d)` and `needsflip(b, d xor 2)` give the same
answer: one returns exactly when the other does, with the same value, and whenever the
compared coordinate of both junctions can be read (the y of `pos[1]` when `d` is even,
the x of `pos[0]` when `d` is odd) both calls return that common value and leave the
state unchanged. -/
theorem C27_needsflip_symmetric (s : St) (a b : JRef) (d : Nat) (hd : d < 4)
    (hab : (nbOf a d s).val? = some (some b))
    (hba : (nbOf b (d ^^^ 2) s).val? = some (some a)) :
    (needsflip a d s).val? = (needsflip b (d ^^^ 2) s).val? ∧
    ∀ ca cb : ℚ, ((if d % 2 = 0 then yOf a else xOf a) s).val? = some ca →
      ((if d % 2 = 0 then yOf b else xOf b) s).val? = some cb →
      ∃ v : Bool, needsflip a d s = .ok v s ∧ needsflip b (d ^^^ 2) s = .ok v s := by
  have e1 : ∀ r : JRef, (if (d + 1) % 2 ≠ 0 then yOf r else xOf r) =
      (if d % 2 = 0 then yOf r else xOf r) := by
    intro r
    interval_cases d <;> rfl
  have e2 : ∀ r : JRef, (if ((d ^^^ 2) + 1) % 2 ≠ 0 then yOf r else xOf r) =
      (if d % 2 = 0 then yOf r else xOf r) := by
    intro r
    interval_cases d <;> rfl
  have k1 := needsflip_val? s a b d hab
  have k2 := needsflip_val? s b a (d ^^^ 2) hba
  rw [e1, e1] at k1
  rw [e2, e2] at k2
  have key : (needsflip a d s).val? = (needsflip b (d ^^^ 2) s).val? := by
    rw [k1, k2]
    cases hA : ((if d % 2 = 0 then yOf a else xOf a) s).val? with
    | none =>
      cases hB : ((if d % 2 = 0 then yOf b else xOf b) s).val? <;> rfl
    | some ca =>
      cases hB : ((if d % 2 = 0 then yOf b else xOf b) s).val? with
      | none => rfl
      | some cb =>
        simp only [Option.bind]
        rw [needsflip_cmp_symm d hd ca cb]
  refine ⟨key, fun ca cb hA hB => ?_⟩
  have hv : (needsflip a d s).val? = some (if cb = ca then false
      else decide ((if cb < ca then 1 else 0) ≠ ((d + 1) % 4) / 2)) := by
    rw [k1, hA, hB]
    rfl
  exact ⟨_, needsflip_ok_of_val? s a d _ hv,
    needsflip_ok_of_val? s b (d ^^^ 2) _ (key ▸ hv)⟩

/-- Witness for C27 in the net of scenario S1 with A moved to (-1.5, -1.5, 1.5, 1.5): the
center of A and the upper ray-end of C are linked in directions 3 and 1, and the link
needs a flip seen from either end. -/
theorem C27_needsflip_symmetric_witness :
    (needsflip (jncRef 0) 3 netMoved).val? = (needsflip ⟨2, 0⟩ (3 ^^^ 2) netMoved).val? ∧
    ∃ v : Bool, needsflip (jncRef 0) 3 netMoved = .ok v netMoved ∧
      needsflip ⟨2, 0⟩ (3 ^^^ 2) netMoved = .ok v netMoved :=
  have h := C27_needsflip_symmetric netMoved (jncRef 0) ⟨2, 0⟩ 3 (by decide)
    (by decide!) (by decide!)
  ⟨h.1, h.2 (-1.5) (-5) (by decide!) (by decide!)⟩
/-! ## Reads in a known state -/

theorem bind_ok {α β : Type} {m : M α} {f : α → M β} {s t : St} {b : β}
    (h : (m >>= f) s = .ok b t) : ∃ a s1, m s = .ok a s1 ∧ f a s1 = .ok b t := by
  rw [bind_eq] at h
  cases hm : m s with
  | err e s1 => rw [hm] at h; cases h
  | ok a s1 =>
    rw [hm] at h
    exact ⟨a, s1, rfl, h⟩



theorem getBox_some {s : St} {p : Nat} {b : Box} (h : s.box? p = some b) :
    getBox p s = .ok b s := by
  rw [box?_eq] at h
  unfold getBox
  cases hh : s.heap[p]? with
  | none => rw [hh] at h; cases h
  | some ob =>
    cases ob with
    | none => rw [hh] at h; cases h
    | some b0 =>
      rw [hh] at h
      cases h
      rfl

theorem dirOf_some {s : St} {r : JRef} {j : Junction} (h : s.junction? r = some j) :
    dirOf r s = .ok j.dir s := by
  unfold dirOf
  rw [bind_eq, getJ_some h]
  rfl

theorem beamOf_some {s : St} {r : JRef} {j : Junction} (h : s.junction? r = some j) :
    beamOf r s = .ok j.beamdir s := by
  unfold beamOf
  rw [bind_eq, getJ_some h]
  rfl

theorem nbOf_some {s : St} {r : JRef} {j : Junction} (h : s.junction? r = some j)
    {d : Nat} {v : Option JRef} (hd : j.nb.get d = some v) : nbOf r d s = .ok v s := by
  unfold nbOf
  rw [bind_eq, getJ_some h]
  simp only [hd]
  rfl

theorem xOf_some {s : St} {r : JRef} {j : Junction} {p : Nat} {b : Box}
    (h : s.junction? r = some j) (hp : j.pos0 = some p) (hb : s.box? p = some b) :
    xOf r s = .ok b.posx s := by
  unfold xOf posOf
  rw [bind_eq, bind_eq, getJ_some h]
  simp only [if_true, pure_eq, hp]
  rw [bind_eq]
  simp only [nonNull]
  rw [bind_eq, getBox_some hb]
  rfl

theorem yOf_some {s : St} {r : JRef} {j : Junction} {p : Nat} {b : Box}
    (h : s.junction? r = some j) (hp : j.pos1 = some p) (hb : s.box? p = some b) :
    yOf r s = .ok b.posy s := by
  unfold yOf posOf
  rw [bind_eq, bind_eq, getJ_some h]
  simp only [if_true, pure_eq, hp, one_ne_zero, if_false]
  rw [bind_eq]
  simp only [nonNull]
  rw [bind_eq, getBox_some hb]
  rfl

/-- A run that keeps a projection and returns has not changed the projection. -/
theorem keeps_ok {X α : Type} {π : St → X} {m : M α} (hk : Keeps π m) {s t : St} {a : α}
    (h : m s = .ok a t) : π t = π s := by
  have := (keeps_iff m).1 hk s
  rw [h] at this
  exact this


/-- A read-only run that returns has not changed the state. -/
theorem ok_same {α : Type} {m : M α} (hk : Keeps (fun s : St => s) m) {s t : St} {a : α}
    (h : m s = .ok a t) : t = s :=
  keeps_ok hk h

theorem bind_ok_keeps {α β : Type} {m : M α} {f : α → M β} (hk : Keeps (fun s : St => s) m)
    {s t : St} {b : β} (h : (m >>= f) s = .ok b t) : ∃ a, m s = .ok a s ∧ f a s = .ok b t := by
  rw [bind_eq] at h
  cases hm : m s with
  | err e s1 => rw [hm] at h; cases h
  | ok a s1 =>
    rw [hm] at h
    have e := ok_same hk hm
    subst e
    exact ⟨a, rfl, h⟩

theorem assert_bind_ok {β : Type} {c : Bool} {f : Unit → M β} {s t : St} {b : β}
    (h : (assert c >>= f) s = .ok b t) : c = true ∧ f () s = .ok b t := by
  obtain ⟨a, h1, h2⟩ := bind_ok_keeps (keeps_assert c) h
  unfold assert at h1
  cases c with
  | false => simp at h1
  | true => exact ⟨rfl, h2⟩

theorem beamOf_ok {r : JRef} {s t : St} {b : Nat} (h : beamOf r s = .ok b t) :
    ∃ j, s.junction? r = some j ∧ j.beamdir = b := by
  unfold beamOf at h
  obtain ⟨j, s1, h1, h2⟩ := bind_ok h
  rw [pure_eq] at h2
  cases h2
  exact ⟨j, (getJ_ok h1).1, rfl⟩

theorem dirOf_ok {r : JRef} {s t : St} {b : Nat} (h : dirOf r s = .ok b t) :
    ∃ j, s.junction? r = some j ∧ j.dir = b := by
  unfold dirOf at h
  obtain ⟨j, s1, h1, h2⟩ := bind_ok h
  rw [pure_eq] at h2
  cases h2
  exact ⟨j, (getJ_ok h1).1, rfl⟩
/-! ## Inversion of returning runs -/

theorem assert_ok {c : Bool} {s t : St} {a : Unit} (h : assert c s = .ok a t) :
    c = true ∧ t = s := by
  unfold assert at h
  cases c with
  | false => simp at h
  | true =>
    simp only [if_true] at h
    cases h
    exact ⟨rfl, rfl⟩

theorem nonNull_ok {α : Type} {o : Option α} {s t : St} {a : α} (h : nonNull o s = .ok a t) :
    o = some a ∧ t = s := by
  unfold nonNull at h
  cases o with
  | none => cases h
  | some b =>
    simp only at h
    cases h
    exact ⟨rfl, rfl⟩

theorem Quad.get_set_same {α : Type} (q : Quad α) (i : Nat) (v : α) (h : i < 4) :
    (q.set i v).get i = some v := by
  interval_cases i <;> rfl

theorem Quad.get_set_ne {α : Type} (q : Quad α) (i k : Nat) (v : α) (h : i ≠ k) :
    (q.set i v).get k = q.get k := by
  rcases (by omega : k < 4 ∨ 4 ≤ k) with hk | hk
  · rcases (by omega : i < 4 ∨ 4 ≤ i) with hi | hi
    · interval_cases i <;> interval_cases k <;> first | rfl | exact absurd rfl h
    · have e : q.set i v = q := by
        unfold Quad.set
        split <;> first | omega | rfl
      rw [e]
  · have e : ∀ q2 : Quad α, q2.get k = none := by
      intro q2
      unfold Quad.get
      split <;> first | omega | rfl
    rw [e, e]

theorem xor_two_ne (d : Nat) : d ^^^ 2 ≠ d := by
  intro h
  have := congrArg (fun x => x.testBit 1) h
  have e : Nat.testBit 2 1 = true := by decide
  simp only [Nat.testBit_xor, e] at this
  cases hb : d.testBit 1 <;> rw [hb] at this <;> cases this

theorem xor_two_lt_four {d : Nat} (h : d < 4) : d ^^^ 2 < 4 := by
  interval_cases d <;> decide

/-- A returning `setNb` has written the link, and nothing else of the junction graph. -/
theorem setNb_ok {r : JRef} {d : Nat} {v : Option JRef} {s t : St} {a : Unit}
    (h : setNb r d v s = .ok a t) :
    d < 4 ∧ ∃ j, s.junction? r = some j ∧ t = s.updJ r { j with nb := j.nb.set d v } := by
  unfold setNb at h
  by_cases hd : d < 4
  · rw [if_pos hd] at h
    refine ⟨hd, ?_⟩
    cases hj : s.junction? r with
    | none =>
      obtain ⟨e, he⟩ := modJ_none (f := fun j => { j with nb := j.nb.set d v }) hj
      rw [he] at h
      cases h
    | some j =>
      rw [modJ_some hj] at h
      cases h
      exact ⟨j, rfl, rfl⟩
  · rw [if_neg hd] at h
    cases h
/-! ## The `beamdir` of an inserted T-junction -/

/-- An update of one junction that leaves a field `g` of that junction alone leaves the
field alone at every junction. -/
theorem keeps_modJ_field {X : Type} (g : Junction → X) (r : JRef) (f : Junction → Junction)
    (hf : ∀ j, g (f j) = g j) :
    Keeps (fun s : St => fun r2 : JRef => (s.junction? r2).map g) (modJ r f) := by
  rw [keeps_iff]
  intro s
  rw [modJ_eq]
  cases hj : s.junction? r with
  | none =>
    simp only
    split <;> rfl
  | some j =>
    simp only [Res.state]
    funext r2
    rw [junction?_updJ s r r2 (f j) j hj]
    by_cases h : r2 = r
    · subst h
      simp [hj, hf]
    · simp [h]

theorem keeps_setNb_field {X : Type} (g : Junction → X) (r : JRef) (d : Nat) (v : Option JRef)
    (hg : ∀ (j : Junction) (q : Quad (Option JRef)), g { j with nb := q } = g j) :
    Keeps (fun s : St => fun r2 : JRef => (s.junction? r2).map g) (setNb r d v) := by
  unfold setNb
  split
  · exact keeps_modJ_field g r _ (fun j => hg j _)
  · exact keeps_fail _

theorem keeps_setPos_field {X : Type} (g : Junction → X) (r : JRef) (i : Nat) (v : Option Nat)
    (h0 : ∀ (j : Junction) (q : Option Nat), g { j with pos0 := q } = g j)
    (h1 : ∀ (j : Junction) (q : Option Nat), g { j with pos1 := q } = g j) :
    Keeps (fun s : St => fun r2 : JRef => (s.junction? r2).map g) (setPos r i v) := by
  unfold setPos
  split
  · exact keeps_modJ_field g r _ (fun j => h0 j _)
  · split
    · exact keeps_modJ_field g r _ (fun j => h1 j _)
    · exact keeps_fail _
/-- C21, amended: whenever the nested procedure `insert()` of `Junction_insert` returns,
at a step with current junction `cur` (not the new slot itself) and walking direction
`curdir`, the T-junction it has created in the slot `rayend[(curdir + cwccw) % 4]` of the
new box has that number as `dir`, and its `beamdir` is `curdir` when `cur` is a center
junction (`cur.dir == 4`), `curdir xor 2` when `cur` is a T-junction with
`cur.dir == curdir`, and `cur.beamdir` otherwise. -/
theorem C21_inserted_beamdir (jnc cur : JRef) (curdir cwccw : Nat) (next : Option JRef)
    (s t : St) (p : Nat) (jc : Junction)
    (hp : (posOf jnc 0 s).val? = some (some p))
    (hc : s.junction? cur = some jc)
    (hne : cur ≠ ⟨p, (curdir + cwccw) % 4⟩)
    (h : Junction_insert.insert jnc cur curdir cwccw next s = .ok () t) :
    ∃ j, t.junction? ⟨p, (curdir + cwccw) % 4⟩ = some j ∧
      j.dir = (curdir + cwccw) % 4 ∧
      j.beamdir = if jc.dir = 4 then curdir
        else if curdir = jc.dir then curdir ^^^ 2 else jc.beamdir := by
  have hg1 : ∀ (j : Junction) (q : Quad (Option JRef)),
      (fun j : Junction => (j.dir, j.beamdir)) { j with nb := q } =
        (fun j : Junction => (j.dir, j.beamdir)) j := fun _ _ => rfl
  have hg2 : ∀ (j : Junction) (q : Option Nat),
      (fun j : Junction => (j.dir, j.beamdir)) { j with pos0 := q } =
        (fun j : Junction => (j.dir, j.beamdir)) j := fun _ _ => rfl
  have hg3 : ∀ (j : Junction) (q : Option Nat),
      (fun j : Junction => (j.dir, j.beamdir)) { j with pos1 := q } =
        (fun j : Junction => (j.dir, j.beamdir)) j := fun _ _ => rfl
  -- the tail of the procedure writes `pos` and `nb` fields only
  have tail : ∀ (m : M Unit) (u : St) (j : Junction),
      Keeps (fun s : St => fun r2 : JRef =>
        (s.junction? r2).map (fun j : Junction => (j.dir, j.beamdir))) m →
      u.junction? ⟨p, (curdir + cwccw) % 4⟩ = some j → m u = .ok () t →
      ∃ j2, t.junction? ⟨p, (curdir + cwccw) % 4⟩ = some j2 ∧ j2.dir = j.dir ∧
        j2.beamdir = j.beamdir := by
    intro m u j hk hu hm
    have e := congrFun (keeps_ok hk hm) ⟨p, (curdir + cwccw) % 4⟩
    simp only [hu, Option.map] at e
    cases ht : t.junction? ⟨p, (curdir + cwccw) % 4⟩ with
    | none => rw [ht] at e; cases e
    | some j2 =>
      rw [ht] at e
      simp only [Option.some.injEq, Prod.mk.injEq] at e
      exact ⟨j2, rfl, e.1, e.2⟩
  unfold Junction_insert.insert at h
  have hp1 := ok_of_val? (keeps_posOf jnc 0) hp
  rw [bind_eq, hp1] at h
  simp only at h
  have hr : rayendRef (some p) ((curdir + cwccw) % 4) s = .ok ⟨p, (curdir + cwccw) % 4⟩ s := by
    unfold rayendRef
    rw [bind_eq]
    simp [nonNull, pure_eq, Nat.mod_lt]
  rw [bind_eq, hr] at h
  simp only at h
  rw [bind_eq] at h
  unfold setDir at h
  cases hj0 : s.junction? ⟨p, (curdir + cwccw) % 4⟩ with
  | none =>
    obtain ⟨e, he⟩ := modJ_none (f := fun j => { j with dir := (curdir + cwccw) % 4 }) hj0
    rw [he] at h
    cases h
  | some j0 =>
    rw [modJ_some hj0] at h
    simp only at h
    have hc1 : (s.updJ ⟨p, (curdir + cwccw) % 4⟩
        { j0 with dir := (curdir + cwccw) % 4 }).junction? cur = some jc := by
      rw [junction?_updJ s _ cur _ j0 hj0, if_neg hne, hc]
    have hn1 : (s.updJ ⟨p, (curdir + cwccw) % 4⟩
        { j0 with dir := (curdir + cwccw) % 4 }).junction? ⟨p, (curdir + cwccw) % 4⟩ =
        some { j0 with dir := (curdir + cwccw) % 4 } := by
      rw [junction?_updJ s _ _ _ j0 hj0, if_pos rfl]
    obtain ⟨s1, hs1⟩ : ∃ s1, s1 = s.updJ ⟨p, (curdir + cwccw) % 4⟩
        { j0 with dir := (curdir + cwccw) % 4 } := ⟨_, rfl⟩
    rw [← hs1] at h hc1 hn1
    have hd : dirOf cur s1 = .ok jc.dir s1 := by
      unfold dirOf
      rw [bind_eq, getJ_some hc1]
      rfl
    have hb : beamOf cur s1 = .ok jc.beamdir s1 := by
      unfold beamOf
      rw [bind_eq, getJ_some hc1]
      rfl
    have hset : ∀ v : Nat, setBeam ⟨p, (curdir + cwccw) % 4⟩ v s1 =
        .ok () (s1.updJ ⟨p, (curdir + cwccw) % 4⟩
          { j0 with dir := (curdir + cwccw) % 4, beamdir := v }) := by
      intro v
      unfold setBeam
      rw [modJ_some hn1]
    have hn2 : ∀ v : Nat, (s1.updJ ⟨p, (curdir + cwccw) % 4⟩
          { j0 with dir := (curdir + cwccw) % 4, beamdir := v }).junction?
          ⟨p, (curdir + cwccw) % 4⟩ =
        some { j0 with dir := (curdir + cwccw) % 4, beamdir := v } := by
      intro v
      rw [junction?_updJ s1 _ _ _ _ hn1, if_pos rfl]
    rw [bind_eq, hd] at h
    simp only at h
    rw [bind_eq] at h
    by_cases h4 : jc.dir = 4
    · rw [if_pos h4, hset] at h
      simp only at h
      refine Exists.imp ?_ (tail _ _ _ ?_ (hn2 curdir) h)
      · rintro j2 ⟨e1, e2, e3⟩
        exact ⟨e1, e2, by rw [e3, if_pos h4]⟩
      · repeat' (first
          | with_reducible (first
            | apply keeps_pure | apply keeps_fail | apply keeps_posOf
            | exact keeps_setNb_field _ _ _ _ hg1
            | exact keeps_setPos_field _ _ _ _ hg2 hg3
            | apply keeps_ite | apply keeps_bind | intro _)
          | split | dsimp only)
    · rw [if_neg h4] at h ⊢
      by_cases h5 : curdir = jc.dir
      · rw [if_pos h5, hset] at h
        simp only at h
        refine Exists.imp ?_ (tail _ _ _ ?_ (hn2 (curdir ^^^ 2)) h)
        · rintro j2 ⟨e1, e2, e3⟩
          exact ⟨e1, e2, by rw [e3, if_pos h5]⟩
        · repeat' (first
          | with_reducible (first
            | apply keeps_pure | apply keeps_fail | apply keeps_posOf
            | exact keeps_setNb_field _ _ _ _ hg1
            | exact keeps_setPos_field _ _ _ _ hg2 hg3
            | apply keeps_ite | apply keeps_bind | intro _)
          | split | dsimp only)
      · rw [if_neg h5, bind_eq, hb] at h
        simp only at h
        rw [hset] at h
        simp only at h
        refine Exists.imp ?_ (tail _ _ _ ?_ (hn2 jc.beamdir) h)
        · rintro j2 ⟨e1, e2, e3⟩
          exact ⟨e1, e2, by rw [e3, if_neg h5]⟩
        · repeat' (first
          | with_reducible (first
            | apply keeps_pure | apply keeps_fail | apply keeps_posOf
            | exact keeps_setNb_field _ _ _ _ hg1
            | exact keeps_setPos_field _ _ _ _ hg2 hg3
            | apply keeps_ite | apply keeps_bind | intro _)
          | split | dsimp only)
/-- Witness for C21 (amended): the second T-junction created when a third box is inserted
next to the first box of a two-box net. The current junction is the ray-end
`rayend[1]` of the second box, a T-junction with `dir == 1` and `beamdir == 0`; the
walking direction is 1, so the new T-junction `rayend[2]` of the new box gets
`beamdir == 1 xor 2 == 3`. -/
theorem C21_inserted_beamdir_witness :
    ∃ j, (Junction_insert.insert (jncRef 2) ⟨1, 1⟩ 1 1 (some (jncRef 1))
        netInsert2).state.junction? ⟨2, (1 + 1) % 4⟩ = some j ∧
      j.dir = (1 + 1) % 4 ∧ j.beamdir = 3 :=
  C21_inserted_beamdir (jncRef 2) ⟨1, 1⟩ 1 1 (some (jncRef 1)) netInsert2 _ 2
    { nb := ⟨none, some (jncRef 1), some ⟨2, 1⟩, none⟩, pos0 := some 0,
      pos1 := some 1, dir := 1, beamdir := 0, enqueued := 0 }
    (by decide!) (by decide!) (by decide) (by decide!)

/-- C21 as stated fails in both of its cases. When the second box of a net is inserted,
the first step has the center junction of the first box as `cur` (`dir == 4`) and
`curdir == 0`, and the T-junction created gets `beamdir == 0`, which is `curdir`, not
`curdir xor 2 == 2`. When a third box is inserted into a net of two, the second step of
the clockwise sweep has a T-junction with `dir == 1` and `beamdir == 0` as `cur` and
`curdir == 1`, and the T-junction created gets `beamdir == 3`, which is `curdir xor 2`,
not `cur.beamdir == 0`. -/
theorem C21_counterexample :
    ((netInsert.junction? (jncRef 0)).map (fun j => j.dir) = some 4 ∧
      (nbOf (jncRef 0) 0 netInsert).val? = some none ∧
      ((Junction_insert.insert (jncRef 1) (jncRef 0) 0 1 none netInsert).state.junction?
        ⟨1, 1⟩).map (fun j => (j.dir, j.beamdir)) = some (1, 0)) ∧
    ((netInsert2.junction? ⟨1, 1⟩).map (fun j => (j.dir, j.beamdir)) = some (1, 0) ∧
      (nbOf ⟨1, 1⟩ 1 netInsert2).val? = some (some (jncRef 1)) ∧
      ((Junction_insert.insert (jncRef 2) ⟨1, 1⟩ 1 1 (some (jncRef 1))
        netInsert2).state.junction? ⟨2, 2⟩).map (fun j => (j.dir, j.beamdir)) =
        some (2, 3)) := by
  decide!
/-! ## The collision walk changes marks and the log only -/

theorem keeps_modBox_unmarked (p : Nat) (f : Box → Box)
    (hf : ∀ b, (f b).unmarked = b.unmarked) : Keeps St.unmarked (modBox p f) := by
  rw [keeps_iff]
  intro s
  unfold Boxnet.modBox
  rw [bind_eq]
  cases h : s.heap[p]? with
  | none => simp [Boxnet.getBox, h, Res.state]
  | some ob =>
    cases ob with
    | none => simp [Boxnet.getBox, h, Res.state]
    | some b =>
      simp only [Boxnet.getBox, h]
      unfold setBox
      rw [h]
      simp only [Res.state, St.unmarked]
      exact map_set_same _ _ _ (some b) _ h (by simp [hf])

theorem keeps_logCall_unmarked (c : Call) : Keeps St.unmarked (logCall c) := by
  rw [keeps_iff]
  intro s
  rfl

theorem keeps_callback_unmarked (box ap : Nat) : Keeps St.unmarked (callback box ap) := by
  unfold callback
  exact keeps_bind (keeps_getBox _) (fun _ => keeps_bind (keeps_getBox _)
    (fun _ => keeps_logCall_unmarked _))

theorem keeps_queue_append_unmarked (box : Nat) (append : Option Nat) (queue : List Nat) :
    Keeps St.unmarked (queue_append box append queue) := by
  unfold queue_append
  repeat' (first
    | with_reducible (first
      | apply keeps_pure | apply keeps_fail | apply keeps_assert | apply keeps_nonNull
      | apply keeps_getBox | apply keeps_callback_unmarked
      | apply keeps_ite | apply keeps_bind | intro _)
    | exact keeps_modBox_unmarked _ _ (fun _ => rfl)
    | split | dsimp only)

theorem keeps_up_unmarked (fuel box skip : Nat) (next : Option JRef) (queue : List Nat) :
    Keeps St.unmarked (boxcollisions.up fuel box skip next queue) := by
  induction fuel generalizing next queue with
  | zero => exact keeps_fail _
  | succ n ih =>
    unfold boxcollisions.up
    repeat' (first
      | with_reducible (first
        | apply ih
        | apply keeps_pure | apply keeps_fail | apply keeps_nonNull
        | apply keeps_getBox | apply keeps_queue_append_unmarked
        | apply keeps_dirOf | apply keeps_nbOf | apply keeps_posOf | apply keeps_yOf
        | apply keeps_ite | apply keeps_bind | intro _)
      | split | dsimp only)

theorem box?_unmarked (s : St) (p : Nat) :
    (s.box? p).map Box.unmarked = (s.unmarked[p]?).join := by
  unfold St.box? St.unmarked
  rw [List.getElem?_map]
  cases s.heap[p]? with
  | none => rfl
  | some ob => cases ob <;> rfl

theorem junction?_unmarked {s t : St} (h : t.unmarked = s.unmarked) (r : JRef) :
    t.junction? r = s.junction? r := by
  have e := box?_unmarked t r.box
  rw [h, ← box?_unmarked s r.box] at e
  unfold St.junction?
  cases hs : s.box? r.box with
  | none =>
    rw [hs] at e
    cases ht : t.box? r.box with
    | none => rfl
    | some b => rw [ht] at e; cases e
  | some b =>
    rw [hs] at e
    cases ht : t.box? r.box with
    | none => rw [ht] at e; cases e
    | some b2 =>
      rw [ht] at e
      simp only [Option.map, Option.some.injEq] at e
      simp only [Option.bind]
      have e1 : b2.jnc = b.jnc := by
        have : b2.unmarked.jnc = b.unmarked.jnc := congrArg Box.jnc e
        exact this
      have e2 : b2.rayend = b.rayend := by
        have : b2.unmarked.rayend = b.unmarked.rayend := congrArg Box.rayend e
        exact this
      unfold Box.getJ
      rw [e1, e2]
/-! ## The left scan of `boxcollisions` -/

/-- C25, amended: one round of the left scan of `boxcollisions` for box `b` at a station
`root` whose junction, x-anchor and box can be read. The scan returns the work list
unchanged when `root` is null; it processes the station (the walk up from
`root.nb[0]`, skipped when `root.dir == 2`) and moves on to `root.nb[1]` exactly when
`root.dir != 3` and `root.pos[0].posx > b.posx`; otherwise it stops, returning the work
list and the state unchanged. In particular a station whose x-anchor equals `b.posx` is
not processed by the left scan. -/
theorem C25_left_scan_bound (fuel box : Nat) (rt : JRef) (queue : List Nat) (s : St)
    (j : Junction) (p : Nat) (bp b : Box)
    (hj : s.junction? rt = some j) (hp : j.pos0 = some p) (hbp : s.box? p = some bp)
    (hb : s.box? box = some b) :
    boxcollisions.left (fuel + 1) box none queue s = .ok queue s ∧
    ((j.dir ≠ 3 ∧ bp.posx > b.posx) →
      boxcollisions.left (fuel + 1) box (some rt) queue s =
        ((if j.dir ≠ 2 then boxcollisions.up fuel box 3 j.nb.e0 queue else pure queue) >>=
          fun queue1 => boxcollisions.left fuel box j.nb.e1 queue1) s) ∧
    (¬ (j.dir ≠ 3 ∧ bp.posx > b.posx) →
      boxcollisions.left (fuel + 1) box (some rt) queue s = .ok queue s) ∧
    (bp.posx = b.posx → boxcollisions.left (fuel + 1) box (some rt) queue s = .ok queue s) := by
  have stop : ¬ (j.dir ≠ 3 ∧ bp.posx > b.posx) →
      boxcollisions.left (fuel + 1) box (some rt) queue s = .ok queue s := by
    intro hn
    unfold boxcollisions.left
    simp only
    rw [bind_eq, dirOf_some hj]
    simp only
    by_cases h3 : j.dir = 3
    · rw [if_pos h3]
      rfl
    · rw [if_neg h3, bind_eq, xOf_some hj hp hbp]
      simp only
      rw [bind_eq, getBox_some hb]
      simp only
      have hx : ¬ bp.posx > b.posx := fun hx => hn ⟨h3, hx⟩
      rw [if_neg hx]
      rfl
  refine ⟨rfl, ?_, stop, fun he => stop (fun h => ?_)⟩
  · rintro ⟨h3, hx⟩
    have hnb1 : ∀ t : St, t.unmarked = s.unmarked → nbOf rt 1 t = .ok j.nb.e1 t := by
      intro t ht
      exact nbOf_some ((junction?_unmarked ht rt).trans hj) rfl
    conv_lhs =>
      unfold boxcollisions.left
      simp only
      rw [bind_eq, dirOf_some hj]
      simp only
      rw [if_neg h3, bind_eq, xOf_some hj hp hbp]
      simp only
      rw [bind_eq, getBox_some hb]
      simp only
      rw [if_pos hx, bind_eq, dirOf_some hj]
      simp only
    by_cases h2 : j.dir ≠ 2
    · rw [if_pos h2, if_pos h2]
      conv_lhs =>
        rw [bind_eq, nbOf_some hj (rfl : j.nb.get 0 = some j.nb.e0)]
        simp only
        rw [bind_eq]
      conv_rhs => rw [bind_eq]
      have hk := (keeps_iff _).1 (keeps_up_unmarked fuel box 3 j.nb.e0 queue) s
      cases hu : boxcollisions.up fuel box 3 j.nb.e0 queue s with
      | err e t => rfl
      | ok q1 t =>
        rw [hu] at hk
        simp only
        rw [bind_eq, hnb1 t hk]
    · rw [if_neg h2, if_neg h2]
      conv_lhs =>
        rw [bind_eq]
        simp only [pure_eq]
        rw [bind_eq, hnb1 s rfl]
      conv_rhs =>
        rw [bind_eq]
        simp only [pure_eq]
  · rw [he] at h
    exact lt_irrefl _ h.2
/-- Witness for C25 (amended) in the net of scenario S1: the left scan for box A started
at the center junction of A itself, whose x-anchor is `A.posx`, stops at once. -/
theorem C25_left_scan_bound_witness :
    (netS1.junction? (jncRef 0)).isSome = true ∧
    boxcollisions.left (99 + 1) 0 (some (jncRef 0)) [] netS1 = .ok [] netS1 := by
  have h1 : (netS1.junction? (jncRef 0)).isSome = true := by decide!
  have h2 : (netS1.box? 0).isSome = true := by decide!
  have h3 : (netS1.junction? (jncRef 0)).map (fun j => j.pos0) = some (some 0) := by decide!
  obtain ⟨j, hj⟩ := Option.isSome_iff_exists.1 h1
  obtain ⟨b, hb⟩ := Option.isSome_iff_exists.1 h2
  rw [hj] at h3
  have hp : j.pos0 = some 0 := by
    simpa using h3
  exact ⟨h1, (C25_left_scan_bound 99 0 (jncRef 0) [] netS1 j 0 b b hj hp hb hb).2.2.2 rfl⟩

/-- C25 as stated fails: in the net of scenario S1 the left scan for box A starts at the
center junction of A, which is non-null, has `dir == 4` and has the x-anchor
`A.posx == -5.5`, so the stated condition `root.pos[0].posx >= b.posx` holds; yet the
scan returns at once with the work list and the state unchanged, although the walk up
from `root.nb[0]` would have appended box C. -/
theorem C25_counterexample :
    (dirOf (jncRef 0) netS1).val? = some 4 ∧
    (xOf (jncRef 0) netS1).val? = some (-5.5) ∧
    (netS1.box? 0).map (fun b => b.posx) = some (-5.5) ∧
    boxcollisions.left 100 0 (some (jncRef 0)) [] netS1 = .ok [] netS1 ∧
    (nbOf (jncRef 0) 0 netS1).val? = some (some ⟨0, 2⟩) ∧
    (boxcollisions.up 99 0 3 (some ⟨0, 2⟩) [] netS1).val? = some [2] := by
  decide!
/-- When `reconnect_linear(start, next, d)` returns, `next` precedes `start` along `d`:
`start.nb[d xor 2]` is `next` and `next.nb[d]` is `start`. -/
theorem reconnect_linear_links {start next : JRef} {d : Nat} {s t : St} {a : Unit}
    (h : reconnect_linear start next d s = .ok a t) :
    d < 4 ∧ ∃ ja jb, t.junction? start = some ja ∧ ja.nb.get (d ^^^ 2) = some (some next) ∧
      t.junction? next = some jb ∧ jb.nb.get d = some (some start) := by
  unfold reconnect_linear at h
  obtain ⟨_, _, _, h⟩ := bind_ok h
  obtain ⟨_, _, _, h⟩ := bind_ok h
  obtain ⟨_, _, _, h⟩ := bind_ok h
  obtain ⟨_, _, _, h⟩ := bind_ok h
  obtain ⟨_, _, _, h⟩ := bind_ok h
  obtain ⟨_, _, _, h⟩ := bind_ok h
  obtain ⟨_, _, _, h⟩ := bind_ok h
  obtain ⟨_, _, _, h⟩ := bind_ok h
  obtain ⟨_, s9, h8, h⟩ := bind_ok h
  obtain ⟨hd2, j, hj, e9⟩ := setNb_ok h8
  obtain ⟨hd, j2, hj2, et⟩ := setNb_ok h
  refine ⟨hd, ?_⟩
  have hs9 : s9.junction? start = some { j with nb := j.nb.set (d ^^^ 2) (some next) } := by
    rw [e9, junction?_updJ _ _ _ _ _ hj, if_pos rfl]
  have hne : d ≠ d ^^^ 2 := fun e => xor_two_ne d e.symm
  have hnext : t.junction? next = some { j2 with nb := j2.nb.set d (some start) } := by
    rw [et, junction?_updJ _ _ _ _ _ hj2, if_pos rfl]
  by_cases hsn : start = next
  · subst hsn
    rw [hs9] at hj2
    cases hj2
    refine ⟨_, _, hnext, ?_, hnext, Quad.get_set_same _ _ _ hd⟩
    simp only
    rw [Quad.get_set_ne _ _ _ _ hne, Quad.get_set_same _ _ _ hd2]
  · have hstart : t.junction? start =
        some { j with nb := j.nb.set (d ^^^ 2) (some next) } := by
      rw [et, junction?_updJ _ _ _ _ _ hj2, if_neg hsn, hs9]
    exact ⟨_, _, hstart, Quad.get_set_same _ _ _ hd2, hnext, Quad.get_set_same _ _ _ hd⟩
/-! ## Fields of the junctions that the queue and the re-linking leave alone -/

theorem keeps_pushQ_field {X : Type} (g : Junction → X) (q : QId) (c : Connection) :
    Keeps (fun s : St => fun r2 : JRef => (s.junction? r2).map g) (pushQ q c) := by
  rw [keeps_iff]
  intro s
  cases q <;> rfl

theorem keeps_RepairQueue_append_field {X : Type} (g : Junction → X) (jnc : JRef) (tdir : Nat)
    (q : QId) (hg : ∀ (j : Junction) (e : Nat), g { j with enqueued := e } = g j) :
    Keeps (fun s : St => fun r2 : JRef => (s.junction? r2).map g)
      (RepairQueue_append jnc tdir q) := by
  unfold RepairQueue_append
  refine keeps_bind (keeps_getJ _) (fun j => ?_)
  split
  · exact keeps_bind (keeps_pushQ_field g _ _) (fun _ => keeps_modJ_field g _ _ (fun j => hg j _))
  · exact keeps_pure _

theorem keeps_reconnect_linear_field {X : Type} (g : Junction → X) (start next : JRef) (d : Nat)
    (hg : ∀ (j : Junction) (q : Quad (Option JRef)), g { j with nb := q } = g j) :
    Keeps (fun s : St => fun r2 : JRef => (s.junction? r2).map g)
      (reconnect_linear start next d) := by
  unfold reconnect_linear
  repeat' (first
    | with_reducible (first
      | apply keeps_pure | apply keeps_nbOf
      | exact keeps_setNb_field _ _ _ _ hg
      | apply keeps_bind | intro _)
    | split | dsimp only)
/-- What a returning `Junction_slide_T(jnc, q)` that passes its guard has done: with
`next` the neighbour along the beam, or the junction that `Junction_flip` has put in
its place when the two beams differed, the two junctions are re-linked in swapped
order, and from the state after the flip on only neighbour links and queue masks were
written. -/
theorem slide_T_relink {fuel : Nat} {jnc : JRef} {q : QId} {s t : St} {jj jn : Junction}
    {n : JRef} (hj : s.junction? jnc = some jj) (hn : jj.nb.get jj.beamdir = some (some n))
    (hjn : s.junction? n = some jn) (hg1 : jn.dir ≠ jj.dir) (hg2 : jn.beamdir ≠ jj.dir ^^^ 2)
    (h : Junction_slide_T fuel jnc q s = .ok () t) :
    needsflip jnc jj.beamdir s = .ok true s ∧
    ∃ n2 s1 j1,
      ((jj.beamdir = jn.beamdir ∧ n2 = n ∧ s1 = s) ∨
        (jj.beamdir ≠ jn.beamdir ∧ Junction_flip fuel n (some q) s = .ok n2 s1)) ∧
      s1.junction? jnc = some j1 ∧
      (∀ r, (t.junction? r).map Junction.anchor = (s1.junction? r).map Junction.anchor) ∧
      t.frame = s1.frame ∧
      ∃ jt nt, t.junction? jnc = some jt ∧ jt.nb.get (j1.beamdir ^^^ 2) = some (some n2) ∧
        t.junction? n2 = some nt ∧ nt.nb.get j1.beamdir = some (some jnc) := by
  unfold Junction_slide_T at h
  rw [bind_eq, dirOf_some hj] at h
  simp only at h
  have h1 := (assert_bind_ok h).2
  rw [bind_eq, beamOf_some hj] at h1
  simp only at h1
  obtain ⟨v, hv, h2⟩ := bind_ok_keeps (keeps_needsflip_all _ _ _) h1
  obtain ⟨ev, h3⟩ := assert_bind_ok h2
  rw [ev] at hv
  refine ⟨hv, ?_⟩
  clear h h1 h2
  rw [bind_eq, beamOf_some hj] at h3
  simp only at h3
  rw [bind_eq, nbOf_some hj hn] at h3
  simp only at h3
  rw [bind_eq] at h3
  simp only [nonNull] at h3
  rw [bind_eq, dirOf_some hjn] at h3
  simp only at h3
  rw [bind_eq, dirOf_some hj] at h3
  simp only at h3
  rw [bind_eq, beamOf_some hjn] at h3
  simp only at h3
  rw [bind_eq, dirOf_some hj] at h3
  simp only at h3
  have hguard : (decide (jn.dir = jj.dir) || decide (jn.beamdir = jj.dir ^^^ 2)) = false := by
    simp [hg1, hg2]
  rw [hguard] at h3
  simp only [Bool.false_eq_true, if_false] at h3
  rw [bind_eq, beamOf_some hj] at h3
  simp only at h3
  rw [bind_eq, beamOf_some hjn] at h3
  simp only at h3
  -- the tail, from the state after the optional flip
  have tail : ∀ (n2 : JRef) (s1 : St),
      (do
        let __do_lift ← beamOf jnc
        let __do_lift_5 ← beamOf n2
        assert (decide (__do_lift = __do_lift_5))
        let __do_lift ← dirOf jnc
        let __do_lift_6 ← dirOf n2
        assert (decide (__do_lift = __do_lift_6 ^^^ 2))
        let __do_lift ← beamOf jnc
        reconnect_linear jnc n2 __do_lift
        let __do_lift ← beamOf jnc
        RepairQueue_append jnc __do_lift q
        let __do_lift ← beamOf jnc
        let __do_lift ← nbOf n2 (__do_lift ^^^ 2)
        match __do_lift with
          | some n => do
            let __do_lift ← beamOf jnc
            RepairQueue_append n __do_lift q
          | none => pure () : M Unit) s1 = .ok () t →
      ∃ j1, s1.junction? jnc = some j1 ∧
        (∀ r, (t.junction? r).map Junction.anchor = (s1.junction? r).map Junction.anchor) ∧
        t.frame = s1.frame ∧
        ∃ jt nt, t.junction? jnc = some jt ∧ jt.nb.get (j1.beamdir ^^^ 2) = some (some n2) ∧
          t.junction? n2 = some nt ∧ nt.nb.get j1.beamdir = some (some jnc) := by
    intro n2 s1 ht
    obtain ⟨b1, hb1, h4⟩ := bind_ok_keeps (keeps_beamOf _) ht
    obtain ⟨j1, hj1, eb1⟩ := beamOf_ok hb1
    subst eb1
    refine ⟨j1, hj1, ?_⟩
    obtain ⟨_, _, h5⟩ := bind_ok_keeps (keeps_beamOf _) h4
    have h6 := (assert_bind_ok h5).2
    obtain ⟨_, _, h7⟩ := bind_ok_keeps (keeps_dirOf _) h6
    obtain ⟨_, _, h8⟩ := bind_ok_keeps (keeps_dirOf _) h7
    have h9 := (assert_bind_ok h8).2
    rw [bind_eq, hb1] at h9
    simp only at h9
    obtain ⟨_, s2, hr, h10⟩ := bind_ok h9
    obtain ⟨_, ja, jb, l1, l2, l3, l4⟩ := reconnect_linear_links hr
    have a1 := keeps_ok (keeps_reconnect_linear_field Junction.anchor jnc n2 j1.beamdir
      (fun _ _ => rfl)) hr
    have f1 := keeps_ok (keeps_reconnect_linear jnc n2 j1.beamdir) hr
    have key : ∀ (m : M Unit),
        Keeps (fun s : St => fun r2 : JRef =>
          (s.junction? r2).map (fun j : Junction => (j.nb, j.anchor))) m →
        Keeps St.frame m → m s2 = .ok () t →
        (∀ r, (t.junction? r).map (fun j : Junction => (j.nb, j.anchor)) =
          (s2.junction? r).map (fun j : Junction => (j.nb, j.anchor))) ∧
        t.frame = s2.frame :=
      fun m k1 k2 hm => ⟨fun r => congrFun (keeps_ok k1 hm) r, keeps_ok k2 hm⟩
    have hq : ∀ (j : Junction) (e : Nat),
        (fun j : Junction => (j.nb, j.anchor)) { j with enqueued := e } =
          (fun j : Junction => (j.nb, j.anchor)) j := fun _ _ => rfl
    obtain ⟨e1, e2⟩ := key _
      (by
        repeat' (first
          | with_reducible (first
            | apply keeps_pure | apply keeps_beamOf | apply keeps_nbOf
            | exact keeps_RepairQueue_append_field _ _ _ _ hq
            | apply keeps_bind | intro _)
          | split | dsimp only))
      (by
        repeat' (first
          | with_reducible (first
            | apply keeps_pure | apply keeps_beamOf | apply keeps_nbOf
            | apply keeps_RepairQueue_append
            | apply keeps_bind | intro _)
          | split | dsimp only))
      h10
    have field : ∀ (r : JRef) (j0 : Junction), s2.junction? r = some j0 →
        ∃ j, t.junction? r = some j ∧ j.nb = j0.nb ∧ j.anchor = j0.anchor := by
      intro r j0 h0
      have e := e1 r
      rw [h0] at e
      cases hjt : t.junction? r with
      | none => rw [hjt] at e; cases e
      | some j =>
        rw [hjt] at e
        simp only [Option.map, Option.some.injEq, Prod.mk.injEq] at e
        exact ⟨j, rfl, e.1, e.2⟩
    refine ⟨fun r => ?_, e2.trans f1, ?_⟩
    · have e := congrArg (Option.map (fun x : Quad (Option JRef) × (Option Nat × Option Nat × Nat × Nat) => x.2))
        (e1 r)
      simp only [Option.map_map] at e
      exact e.trans (congrFun a1 r)
    · obtain ⟨jt, t1, t2, _⟩ := field jnc ja l1
      obtain ⟨nt, t3, t4, _⟩ := field n2 jb l3
      exact ⟨jt, nt, t1, by rw [t2]; exact l2, t3, by rw [t4]; exact l4⟩
  by_cases hb : jj.beamdir ≠ jn.beamdir
  · rw [if_pos hb] at h3
    obtain ⟨n2, s1, hf, h4⟩ := bind_ok h3
    obtain ⟨j1, r1, r2, r3, r4⟩ := tail n2 s1 h4
    exact ⟨n2, s1, j1, Or.inr ⟨hb, hf⟩, r1, r2, r3, r4⟩
  · rw [if_neg hb] at h3
    rw [bind_eq] at h3
    simp only [pure_eq] at h3
    obtain ⟨j1, r1, r2, r3, r4⟩ := tail n s h3
    exact ⟨n, s, j1, Or.inl ⟨not_not.1 hb, rfl, rfl⟩, r1, r2, r3, r4⟩
/-- A returning `Junction_slide_T(jnc, q)` whose guard holds has changed nothing. -/
theorem slide_T_guard {fuel : Nat} {jnc : JRef} {q : QId} {s t : St} {jj jn : Junction}
    {n : JRef} (hj : s.junction? jnc = some jj) (hn : jj.nb.get jj.beamdir = some (some n))
    (hjn : s.junction? n = some jn) (hg : jn.dir = jj.dir ∨ jn.beamdir = jj.dir ^^^ 2)
    (h : Junction_slide_T fuel jnc q s = .ok () t) : t = s := by
  unfold Junction_slide_T at h
  rw [bind_eq, dirOf_some hj] at h
  simp only at h
  have h1 := (assert_bind_ok h).2
  rw [bind_eq, beamOf_some hj] at h1
  simp only at h1
  obtain ⟨v, hv, h2⟩ := bind_ok_keeps (keeps_needsflip_all _ _ _) h1
  obtain ⟨ev, h3⟩ := assert_bind_ok h2
  clear h h1 h2
  rw [bind_eq, beamOf_some hj] at h3
  simp only at h3
  rw [bind_eq, nbOf_some hj hn] at h3
  simp only at h3
  rw [bind_eq] at h3
  simp only [nonNull] at h3
  rw [bind_eq, dirOf_some hjn] at h3
  simp only at h3
  rw [bind_eq, dirOf_some hj] at h3
  simp only at h3
  rw [bind_eq, beamOf_some hjn] at h3
  simp only at h3
  rw [bind_eq, dirOf_some hj] at h3
  simp only at h3
  have hguard : (decide (jn.dir = jj.dir) || decide (jn.beamdir = jj.dir ^^^ 2)) = true := by
    rcases hg with e | e
    · simp [e]
    · simp [e]
  rw [hguard] at h3
  simp only [if_true, pure_eq] at h3
  cases h3
  rfl

/-- C23, amended: let `j` be a junction whose neighbour `n = j.nb[j.beamdir]` is non-null
and let `Junction_slide_T(j, q)` return (it asserts `j.dir < 4` and
`needsflip(j, j.beamdir)`). When `n.dir == j.dir` or `n.beamdir == j.dir xor 2` the
call returns early and changes nothing. Otherwise the two junctions have exchanged
position along the ray: with `n2` equal to `n` when the two beams agree, and to the
junction returned by `Junction_flip(n, q)` when they differ, in the final state
`j.nb[j.beamdir xor 2]` is `n2` and `n2.nb[j.beamdir]` is `j`. -/
theorem C23_slide_T_swaps (fuel : Nat) (jnc : JRef) (q : QId) (s t : St)
    (jj jn : Junction) (n : JRef)
    (hj : s.junction? jnc = some jj) (hn : jj.nb.get jj.beamdir = some (some n))
    (hjn : s.junction? n = some jn)
    (h : Junction_slide_T fuel jnc q s = .ok () t) :
    jj.dir < 4 ∧ needsflip jnc jj.beamdir s = .ok true s ∧
    ((jn.dir = jj.dir ∨ jn.beamdir = jj.dir ^^^ 2) → t = s) ∧
    (¬ (jn.dir = jj.dir ∨ jn.beamdir = jj.dir ^^^ 2) →
      ∃ n2 jt nt,
        ((jj.beamdir = jn.beamdir ∧ n2 = n) ∨
          (jj.beamdir ≠ jn.beamdir ∧ (Junction_flip fuel n (some q) s).val? = some n2)) ∧
        t.junction? jnc = some jt ∧ jt.nb.get (jt.beamdir ^^^ 2) = some (some n2) ∧
        t.junction? n2 = some nt ∧ nt.nb.get jt.beamdir = some (some jnc)) := by
  have hdir : jj.dir < 4 := by
    have h0 := h
    unfold Junction_slide_T at h0
    rw [bind_eq, dirOf_some hj] at h0
    simp only at h0
    exact of_decide_eq_true (assert_bind_ok h0).1
  by_cases hg : jn.dir = jj.dir ∨ jn.beamdir = jj.dir ^^^ 2
  · have e := slide_T_guard hj hn hjn hg h
    refine ⟨hdir, ?_, fun _ => e, fun hng => absurd hg hng⟩
    have h0 := h
    unfold Junction_slide_T at h0
    rw [bind_eq, dirOf_some hj] at h0
    simp only at h0
    have h1 := (assert_bind_ok h0).2
    rw [bind_eq, beamOf_some hj] at h1
    simp only at h1
    obtain ⟨v, hv, h2⟩ := bind_ok_keeps (keeps_needsflip_all _ _ _) h1
    obtain ⟨ev, _⟩ := assert_bind_ok h2
    rw [ev] at hv
    exact hv
  · have hg1 : jn.dir ≠ jj.dir := fun e => hg (Or.inl e)
    have hg2 : jn.beamdir ≠ jj.dir ^^^ 2 := fun e => hg (Or.inr e)
    obtain ⟨hv, n2, s1, j1, hcase, hj1, hanch, _, jt, nt, t1, t2, t3, t4⟩ :=
      slide_T_relink hj hn hjn hg1 hg2 h
    refine ⟨hdir, hv, fun e => absurd e hg, fun _ => ?_⟩
    have hb : jt.beamdir = j1.beamdir := by
      have e := hanch jnc
      rw [t1, hj1] at e
      simp only [Option.map, Option.some.injEq, Junction.anchor, Prod.mk.injEq] at e
      exact e.2.2.2
    refine ⟨n2, jt, nt, ?_, t1, by rw [hb]; exact t2, t3, by rw [hb]; exact t4⟩
    rcases hcase with ⟨e1, e2, _⟩ | ⟨e1, e2⟩
    · exact Or.inl ⟨e1, e2⟩
    · exact Or.inr ⟨e1, by rw [e2]; rfl⟩

/-- Witness for C23 (amended): in a net of three boxes, the ray-end `rayend[3]` of the
first box (`dir == 3`, `beamdir == 0`) and its neighbour `rayend[1]` of the third box
are out of order; `Junction_slide_T` returns and re-links them in swapped order. -/
theorem C23_slide_T_swaps_witness :
    Junction_slide_T 100 ⟨0, 3⟩ .q2 netSwap =
      .ok () (Junction_slide_T 100 ⟨0, 3⟩ .q2 netSwap).state ∧
    ∃ jt nt, (Junction_slide_T 100 ⟨0, 3⟩ .q2 netSwap).state.junction? ⟨0, 3⟩ = some jt ∧
      jt.nb.get (jt.beamdir ^^^ 2) = some (some ⟨2, 1⟩) ∧
      (Junction_slide_T 100 ⟨0, 3⟩ .q2 netSwap).state.junction? ⟨2, 1⟩ = some nt ∧
      nt.nb.get jt.beamdir = some (some ⟨0, 3⟩) := by
  have h : Junction_slide_T 100 ⟨0, 3⟩ .q2 netSwap =
      .ok () (Junction_slide_T 100 ⟨0, 3⟩ .q2 netSwap).state := by decide!
  have h1 : (netSwap.junction? ⟨0, 3⟩).isSome = true := by decide!
  have h2 : (netSwap.junction? ⟨2, 1⟩).isSome = true := by decide!
  obtain ⟨jj, hj⟩ := Option.isSome_iff_exists.1 h1
  obtain ⟨jn, hjn⟩ := Option.isSome_iff_exists.1 h2
  have h3 : (netSwap.junction? ⟨0, 3⟩).map (fun j => (j.nb.get j.beamdir, j.dir, j.beamdir)) =
      some (some (some ⟨2, 1⟩), 3, 0) := by decide!
  have h4 : (netSwap.junction? ⟨2, 1⟩).map (fun j => (j.dir, j.beamdir)) = some (1, 0) := by
    decide!
  rw [hj] at h3
  rw [hjn] at h4
  simp only [Option.map, Option.some.injEq, Prod.mk.injEq] at h3 h4
  obtain ⟨a1, a2, a3⟩ := h3
  obtain ⟨b1, b2⟩ := h4
  have key := (C23_slide_T_swaps 100 ⟨0, 3⟩ .q2 netSwap _ jj jn ⟨2, 1⟩ hj a1 hjn h).2.2.2
    (by rw [a2, b1, b2]; decide)
  obtain ⟨n2, jt, nt, hc, t1, t2, t3, t4⟩ := key
  have en : n2 = ⟨2, 1⟩ := by
    rcases hc with ⟨_, e⟩ | ⟨e, _⟩
    · exact e
    · exact absurd (by rw [a3, b2]) e
  subst en
  exact ⟨h, jt, nt, t1, t2, t3, t4⟩

/-- C23 as stated fails: in the net of three boxes added at (7, 3, 9, 6), (10, 0, 11, 2)
and (3, 10, 6, 11), the ray-end `rayend[0]` of the third box is a live T-junction
(`dir == 0`, `beamdir == 1`) whose neighbour along the beam, `rayend[0]` of the second
box, is non-null, and `needsflip` is true for the link; but the neighbour has the same
`dir`, so `Junction_slide_T` returns early and leaves the net as it was: the neighbour
of the junction in direction `1 xor 2 == 3` is still the center junction of the first
box, and the neighbour of `rayend[0]` of the second box in direction 1 is still null. -/
theorem C23_counterexample :
    (netGuard.junction? ⟨2, 0⟩).map (fun j => (j.dir, j.beamdir, j.nb.get 1, j.nb.get 3)) =
      some (0, 1, some (some ⟨1, 0⟩), some (some (jncRef 0))) ∧
    (netGuard.junction? ⟨1, 0⟩).map (fun j => (j.dir, j.beamdir, j.nb.get 1)) =
      some (0, 1, some none) ∧
    needsflip ⟨2, 0⟩ 1 netGuard = .ok true netGuard ∧
    Junction_slide_T 100 ⟨2, 0⟩ .q2 netGuard = .ok () netGuard := by
  decide!
/-! ## The coordinates that `needsflip` compares -/

theorem getBox_none {s : St} {p : Nat} (h : s.box? p = none) : getBox p s = .err .freed s := by
  rw [box?_eq] at h
  unfold getBox
  cases hh : s.heap[p]? with
  | none => rfl
  | some ob =>
    cases ob with
    | none => rfl
    | some b0 => rw [hh] at h; cases h

theorem xOf_val? (s : St) (r : JRef) :
    (xOf r s).val? = (s.junction? r).bind fun j => j.pos0.bind fun p =>
      (geoAt s.geo p).map Geo.posx := by
  cases hj : s.junction? r with
  | none =>
    obtain ⟨e, he⟩ := getJ_none hj
    unfold xOf posOf
    rw [bind_eq, bind_eq, he]
    rfl
  | some j =>
    show (xOf r s).val? = j.pos0.bind fun p => (geoAt s.geo p).map Geo.posx
    cases hp : j.pos0 with
    | none =>
      unfold xOf posOf
      rw [bind_eq, bind_eq, getJ_some hj]
      simp only [if_true, pure_eq, hp]
      rfl
    | some p =>
      show (xOf r s).val? = (geoAt s.geo p).map Geo.posx
      rw [geoAt_geo]
      cases hb : s.box? p with
      | none =>
        unfold xOf posOf
        rw [bind_eq, bind_eq, getJ_some hj]
        simp only [if_true, pure_eq, hp]
        rw [bind_eq]
        simp only [nonNull]
        rw [bind_eq, getBox_none hb]
        rfl
      | some b =>
        rw [xOf_some hj hp hb]
        rfl

theorem yOf_val? (s : St) (r : JRef) :
    (yOf r s).val? = (s.junction? r).bind fun j => j.pos1.bind fun p =>
      (geoAt s.geo p).map Geo.posy := by
  cases hj : s.junction? r with
  | none =>
    obtain ⟨e, he⟩ := getJ_none hj
    unfold yOf posOf
    rw [bind_eq, bind_eq, he]
    rfl
  | some j =>
    show (yOf r s).val? = j.pos1.bind fun p => (geoAt s.geo p).map Geo.posy
    cases hp : j.pos1 with
    | none =>
      unfold yOf posOf
      rw [bind_eq, bind_eq, getJ_some hj]
      simp only [if_true, pure_eq, hp, one_ne_zero, if_false]
      rfl
    | some p =>
      show (yOf r s).val? = (geoAt s.geo p).map Geo.posy
      rw [geoAt_geo]
      cases hb : s.box? p with
      | none =>
        unfold yOf posOf
        rw [bind_eq, bind_eq, getJ_some hj]
        simp only [if_true, pure_eq, hp, one_ne_zero, if_false]
        rw [bind_eq]
        simp only [nonNull]
        rw [bind_eq, getBox_none hb]
        rfl
      | some b =>
        rw [yOf_some hj hp hb]
        rfl

/-- The coordinate that `needsflip` reads at a junction depends on the anchors of the
junction and on the box coordinates only. -/
theorem coord_congr {s t : St} (d : Nat) (r : JRef)
    (ha : (t.junction? r).map Junction.anchor = (s.junction? r).map Junction.anchor)
    (hg : t.geo = s.geo) :
    ((if (d + 1) % 2 ≠ 0 then yOf r else xOf r) t).val? =
      ((if (d + 1) % 2 ≠ 0 then yOf r else xOf r) s).val? := by
  have hpos : (t.junction? r).map (fun j => (j.pos0, j.pos1)) =
      (s.junction? r).map (fun j => (j.pos0, j.pos1)) := by
    have e := congrArg (Option.map (fun x : Option Nat × Option Nat × Nat × Nat => (x.1, x.2.1))) ha
    simp only [Option.map_map] at e
    exact e
  have key : ∀ (f : Option Nat × Option Nat → Option ℚ),
      ((t.junction? r).bind fun j => f (j.pos0, j.pos1)) =
        ((s.junction? r).bind fun j => f (j.pos0, j.pos1)) := by
    intro f
    cases h1 : t.junction? r with
    | none =>
      rw [h1] at hpos
      cases h2 : s.junction? r with
      | none => rfl
      | some j2 => rw [h2] at hpos; cases hpos
    | some j1 =>
      rw [h1] at hpos
      cases h2 : s.junction? r with
      | none => rw [h2] at hpos; cases hpos
      | some j2 =>
        rw [h2] at hpos
        simp only [Option.map, Option.some.injEq] at hpos
        simp only [Option.bind, hpos]
  by_cases hp : (d + 1) % 2 ≠ 0
  · rw [if_pos hp, yOf_val?, yOf_val?, hg]
    exact key (fun x => x.2.bind fun p => (geoAt s.geo p).map Geo.posy)
  · rw [if_neg hp, xOf_val?, xOf_val?, hg]
    exact key (fun x => x.1.bind fun p => (geoAt s.geo p).map Geo.posx)
theorem Quad.get_some_lt {α : Type} {q : Quad α} {i : Nat} {v : α} (h : q.get i = some v) :
    i < 4 := by
  unfold Quad.get at h
  split at h <;> first | omega | cases h

/-- The comparison of `needsflip` is asymmetric: when it holds for a pair of
coordinates, it fails for the swapped pair. -/
theorem needsflip_cmp_asymm (d : Nat) (cn cj : ℚ)
    (h : (if cn = cj then false
      else decide ((if cn < cj then 1 else 0) ≠ ((d + 1) % 4) / 2)) = true) :
    (if cj = cn then false
      else decide ((if cj < cn then 1 else 0) ≠ ((d + 1) % 4) / 2)) = false := by
  by_cases hc : cn = cj
  · rw [if_pos hc] at h
    cases h
  · have hc2 : ¬ cj = cn := fun e => hc e.symm
    rw [if_neg hc] at h
    rw [if_neg hc2]
    rcases lt_or_gt_of_ne hc with hlt | hgt
    · have h2 : ¬ cj < cn := not_lt.2 (le_of_lt hlt)
      rw [if_pos hlt] at h
      rw [if_neg h2]
      have := of_decide_eq_true h
      rw [decide_eq_false_iff_not]
      omega
    · have h2 : ¬ cn < cj := not_lt.2 (le_of_lt hgt)
      rw [if_neg h2] at h
      rw [if_pos hgt]
      have := of_decide_eq_true h
      rw [decide_eq_false_iff_not]
      omega

/-- C24, amended: a rewrite does not always lower the number of violating links. What
the linear re-link of `Junction_slide_T` guarantees is local. Let `j` be a junction
whose neighbour `n = j.nb[j.beamdir]` is non-null, with `n.dir != j.dir`,
`n.beamdir != j.dir xor 2` and `n.beamdir == j.beamdir` (no early return, no flip).
When `Junction_slide_T(j, q)` returns, the link it was called on was violating before
(`needsflip(j, j.beamdir)` was true) and is resolved after: `n.nb[j.beamdir]` is `j`,
`j.nb[j.beamdir xor 2]` is `n`, and `needsflip` returns false for this link from both
ends. -/
theorem C24_relink_resolves_link (fuel : Nat) (jnc : JRef) (q : QId) (s t : St)
    (jj jn : Junction) (n : JRef)
    (hj : s.junction? jnc = some jj) (hn : jj.nb.get jj.beamdir = some (some n))
    (hjn : s.junction? n = some jn) (hg1 : jn.dir ≠ jj.dir) (hg2 : jn.beamdir ≠ jj.dir ^^^ 2)
    (hb : jj.beamdir = jn.beamdir)
    (h : Junction_slide_T fuel jnc q s = .ok () t) :
    needsflip jnc jj.beamdir s = .ok true s ∧
    (nbOf n jj.beamdir t).val? = some (some jnc) ∧
    (nbOf jnc (jj.beamdir ^^^ 2) t).val? = some (some n) ∧
    needsflip n jj.beamdir t = .ok false t ∧
    needsflip jnc (jj.beamdir ^^^ 2) t = .ok false t := by
  obtain ⟨hv, n2, s1, j1, hcase, hj1, hanch, hfr, jt, nt, t1, t2, t3, t4⟩ :=
    slide_T_relink hj hn hjn hg1 hg2 h
  rcases hcase with ⟨_, e2, e3⟩ | ⟨e1, _⟩
  swap
  · exact absurd hb e1
  subst e2 e3
  rw [hj] at hj1
  cases hj1
  have hd : jj.beamdir < 4 := Quad.get_some_lt hn
  have hgeo : t.geo = s1.geo := congrArg Prod.fst hfr
  have l1 : (nbOf n2 jj.beamdir t).val? = some (some jnc) := by
    rw [nbOf_some t3 t4]
    rfl
  have l2 : (nbOf jnc (jj.beamdir ^^^ 2) t).val? = some (some n2) := by
    rw [nbOf_some t1 t2]
    rfl
  have l0 : (nbOf jnc jj.beamdir s1).val? = some (some n2) := by
    rw [nbOf_some hj hn]
    rfl
  have k0 := needsflip_val? s1 jnc n2 jj.beamdir l0
  rw [hv] at k0
  have k1 := needsflip_val? t n2 jnc jj.beamdir l1
  have k2 := needsflip_val? t jnc n2 (jj.beamdir ^^^ 2) l2
  have ax : ∀ r : JRef, (if ((jj.beamdir ^^^ 2) + 1) % 2 ≠ 0 then yOf r else xOf r) =
      (if (jj.beamdir + 1) % 2 ≠ 0 then yOf r else xOf r) := by
    intro r
    have := hd
    interval_cases jj.beamdir <;> rfl
  rw [ax, ax] at k2
  rw [coord_congr jj.beamdir jnc (hanch jnc) hgeo, coord_congr jj.beamdir n2 (hanch n2) hgeo]
    at k1 k2
  cases hcn : ((if (jj.beamdir + 1) % 2 ≠ 0 then yOf n2 else xOf n2) s1).val? with
  | none =>
    rw [hcn] at k0
    cases k0
  | some cn =>
    rw [hcn] at k0 k1 k2
    cases hcj : ((if (jj.beamdir + 1) % 2 ≠ 0 then yOf jnc else xOf jnc) s1).val? with
    | none =>
      rw [hcj] at k0
      cases k0
    | some cj =>
      rw [hcj] at k0 k1 k2
      simp only [Res.val?, Option.bind, Option.some.injEq] at k0
      simp only [Option.bind] at k1 k2
      have c1 := needsflip_cmp_asymm jj.beamdir cn cj k0.symm
      rw [c1] at k1
      rw [← needsflip_cmp_symm jj.beamdir hd cn cj, c1] at k2
      exact ⟨hv, l1, l2, needsflip_ok_of_val? _ _ _ _ k1, needsflip_ok_of_val? _ _ _ _ k2⟩

/-- Witness for C24 (amended): the linear re-link of `rayend[3]` of the first box and
`rayend[1]` of the third box in the net of the three boxes (10, 11, 13, 12),
(7, 4, 8, 6) and (0, 7, 3, 10). -/
theorem C24_relink_resolves_link_witness :
    needsflip ⟨0, 3⟩ 0 netSwap = .ok true netSwap ∧
    needsflip ⟨2, 1⟩ 0 (Junction_slide_T 100 ⟨0, 3⟩ .q2 netSwap).state =
      .ok false (Junction_slide_T 100 ⟨0, 3⟩ .q2 netSwap).state ∧
    needsflip ⟨0, 3⟩ (0 ^^^ 2) (Junction_slide_T 100 ⟨0, 3⟩ .q2 netSwap).state =
      .ok false (Junction_slide_T 100 ⟨0, 3⟩ .q2 netSwap).state := by
  have h : Junction_slide_T 100 ⟨0, 3⟩ .q2 netSwap =
      .ok () (Junction_slide_T 100 ⟨0, 3⟩ .q2 netSwap).state := by decide!
  have h1 : (netSwap.junction? ⟨0, 3⟩).isSome = true := by decide!
  have h2 : (netSwap.junction? ⟨2, 1⟩).isSome = true := by decide!
  obtain ⟨jj, hj⟩ := Option.isSome_iff_exists.1 h1
  obtain ⟨jn, hjn⟩ := Option.isSome_iff_exists.1 h2
  have h3 : (netSwap.junction? ⟨0, 3⟩).map (fun j => (j.nb.get j.beamdir, j.dir, j.beamdir)) =
      some (some (some ⟨2, 1⟩), 3, 0) := by decide!
  have h4 : (netSwap.junction? ⟨2, 1⟩).map (fun j => (j.dir, j.beamdir)) = some (1, 0) := by
    decide!
  rw [hj] at h3
  rw [hjn] at h4
  simp only [Option.map, Option.some.injEq, Prod.mk.injEq] at h3 h4
  obtain ⟨a1, a2, a3⟩ := h3
  obtain ⟨b1, b2⟩ := h4
  have key := C24_relink_resolves_link 100 ⟨0, 3⟩ .q2 netSwap _ jj jn ⟨2, 1⟩ hj a1 hjn
    (by rw [a2, b1]; decide) (by rw [a2, b2]; decide) (by rw [a3, b2]) h
  rw [a3] at key
  exact ⟨key.1, key.2.2.2.1, key.2.2.2.2⟩
/-- C24 as stated fails: in the repair of three boxes in general position, the round of
the first box changes nothing, and the fourth work item of the round of the second box
is the center junction of that box with direction 1. It is dispatched to
`Junction_slide` (`dir == 4`, neighbour non-null, `needsflip` true), which returns, and
the number of violating links is 8 before the rewrite and 10 after it. -/
theorem C24_counterexample :
    (do forEach [0, 1, 2, 3] (Boxnet_repair.enqueue 0)
        Boxnet_repair.alternate 100 100) netThree = .ok () netThree ∧
    (popQ .q1 netThreeWork).val? = some (some ⟨jncRef 1, 1⟩) ∧
    (dirOf (jncRef 1) (popQ .q1 netThreeWork).state).val? = some 4 ∧
    (needsflip (jncRef 1) 1 (popQ .q1 netThreeWork).state).val? = some true ∧
    (solve_conn 100 (jncRef 1) 1 .q2 (popQ .q1 netThreeWork).state).err? = none ∧
    (popQ .q1 netThreeWork).state.violations.length = 8 ∧
    (solve_conn 100 (jncRef 1) 1 .q2 (popQ .q1 netThreeWork).state).state.violations.length
      = 10 := by
  decide!
/-! ## The marks of the collision walk -/

theorem walk_iff {α : Type} (b : Nat) (m : M α) (Q : List Nat → α → Prop) :
    Walk b m Q ↔ ∀ s a t, m s = .ok a t → ∃ acc, Accepts b acc s t ∧ Q acc a := by
  unfold Walk; rfl

theorem accepts_refl (b : Nat) (s : St) : Accepts b [] s s := by
  refine ⟨List.nodup_nil, List.not_mem_nil _, fun p hp => absurd hp (List.not_mem_nil _),
    fun p => ?_, [], rfl, fun c hc => absurd hc (List.not_mem_nil _), List.nodup_nil⟩
  cases s.box? p <;> simp

theorem accepts_trans {b : Nat} {a1 a2 : List Nat} {s t u : St}
    (h1 : Accepts b a1 s t) (h2 : Accepts b a2 t u) : Accepts b (a1 ++ a2) s u := by
  obtain ⟨n1, nb1, f1, p1, new1, c1, d1, e1⟩ := h1
  obtain ⟨n2, nb2, f2, p2, new2, c2, d2, e2⟩ := h2
  have disj : ∀ p, p ∈ a1 → p ∈ a2 → False := by
    intro p hp1 hp2
    obtain ⟨box, hb, hm⟩ := f2 p hp2
    rw [p1 p] at hb
    cases hs : s.box? p with
    | none => rw [hs] at hb; cases hb
    | some b0 =>
      rw [hs] at hb
      simp only [Option.map, if_pos hp1, Option.some.injEq] at hb
      rw [← hb] at hm
      exact hm rfl
  refine ⟨List.Nodup.append n1 n2 (fun p hp1 hp2 => disj p hp1 hp2), ?_, ?_, ?_, ?_⟩
  · intro h
    rcases List.mem_append.1 h with h | h
    · exact nb1 h
    · exact nb2 h
  · intro p hp
    rcases List.mem_append.1 hp with h | h
    · exact f1 p h
    · obtain ⟨box, hb, hm⟩ := f2 p h
      rw [p1 p] at hb
      cases hs : s.box? p with
      | none => rw [hs] at hb; cases hb
      | some b0 =>
        rw [hs] at hb
        have hn : p ∉ a1 := fun h1 => disj p h1 h
        simp only [Option.map, if_neg hn, Option.some.injEq] at hb
        exact ⟨b0, rfl, by rw [hb]; exact hm⟩
  · intro p
    rw [p2 p, p1 p]
    cases hs : s.box? p with
    | none => rfl
    | some b0 =>
      simp only [Option.map, Option.some.injEq]
      by_cases h1 : p ∈ a1
      · have h2 : p ∉ a2 := fun h2 => disj p h1 h2
        simp [h1, h2]
      · by_cases h2 : p ∈ a2
        · simp [h1, h2]
        · simp [h1, h2]
  · refine ⟨new2 ++ new1, by rw [c2, c1, List.append_assoc], ?_, ?_⟩
    · intro c hc
      rcases List.mem_append.1 hc with h | h
      · exact ⟨(d2 c h).1, List.mem_append.2 (Or.inr (d2 c h).2)⟩
      · exact ⟨(d1 c h).1, List.mem_append.2 (Or.inl (d1 c h).2)⟩
    · rw [List.map_append]
      refine List.Nodup.append e2 e1 ?_
      intro p hp2 hp1
      obtain ⟨c, hc, rfl⟩ := List.mem_map.1 hp2
      obtain ⟨c', hc', e⟩ := List.mem_map.1 hp1
      exact disj c.other (e ▸ (d1 c' hc').2) (d2 c hc).2

theorem walk_pure {α : Type} {b : Nat} {a : α} {Q : List Nat → α → Prop} (h : Q [] a) :
    Walk b (pure a : M α) Q := by
  rw [walk_iff]
  intro s a1 t hat
  rw [pure_eq] at hat
  cases hat
  exact ⟨[], accepts_refl b s, h⟩

theorem walk_fail {α : Type} {b : Nat} {e : Err} {Q : List Nat → α → Prop} :
    Walk b (fail e : M α) Q := by
  rw [walk_iff]
  intro s a1 t hat
  cases hat

theorem walk_keeps {α : Type} {b : Nat} {m : M α} {Q : List Nat → α → Prop}
    (hk : Keeps (fun s : St => s) m) (h : ∀ a, Q [] a) : Walk b m Q := by
  rw [walk_iff]
  intro s a t hat
  have e := ok_same hk hat
  subst e
  exact ⟨[], accepts_refl b _, h a⟩

theorem walk_bind {α β : Type} {b : Nat} {m : M α} {f : α → M β} {Q : List Nat → β → Prop}
    (h : Walk b m (fun a1 a => Walk b (f a) (fun a2 c => Q (a1 ++ a2) c))) :
    Walk b (m >>= f) Q := by
  rw [walk_iff] at h ⊢
  intro s c u hc
  obtain ⟨a, t, h1, h2⟩ := bind_ok hc
  obtain ⟨a1, r1, hq⟩ := h s a t h1
  obtain ⟨a2, r2, hq2⟩ := (walk_iff _ _ _).1 hq t c u h2
  exact ⟨a1 ++ a2, accepts_trans r1 r2, hq2⟩

theorem walk_ite {α : Type} {b : Nat} {c : Prop} [Decidable c] {x y : M α}
    {Q : List Nat → α → Prop} (hx : c → Walk b x Q) (hy : ¬ c → Walk b y Q) :
    Walk b (if c then x else y) Q := by
  split
  · exact hx ‹_›
  · exact hy ‹_›
theorem getBox_ok {p : Nat} {s t : St} {b : Box} (h : getBox p s = .ok b t) :
    s.box? p = some b ∧ t = s := by
  rw [box?_eq]
  unfold getBox at h
  cases hh : s.heap[p]? with
  | none => rw [hh] at h; cases h
  | some ob =>
    cases ob with
    | none => rw [hh] at h; cases h
    | some b0 =>
      rw [hh] at h
      cases h
      exact ⟨rfl, rfl⟩

theorem modBox_ok {p : Nat} {f : Box → Box} {s t : St} {a : Unit}
    (h : modBox p f s = .ok a t) :
    ∃ b0, s.box? p = some b0 ∧
      (∀ p2, t.box? p2 = if p2 = p then some (f b0) else s.box? p2) ∧ t.calls = s.calls := by
  unfold modBox at h
  obtain ⟨b0, s1, h1, h2⟩ := bind_ok h
  obtain ⟨hb, e⟩ := getBox_ok h1
  subst e
  refine ⟨b0, hb, ?_⟩
  rw [box?_eq] at hb
  unfold setBox at h2
  cases hh : s1.heap[p]? with
  | none => rw [hh] at hb; cases hb
  | some ob =>
    cases ob with
    | none => rw [hh] at hb; cases hb
    | some b1 =>
      rw [hh] at h2
      cases h2
      refine ⟨fun p2 => ?_, rfl⟩
      have hlt : p < s1.heap.length := by
        by_contra hc
        rw [List.getElem?_eq_none (by omega)] at hh
        cases hh
      unfold St.box?
      simp only [List.getElem?_set]
      by_cases e : p2 = p
      · subst e
        simp [hlt]
      · have e2 : ¬ p = p2 := fun x => e x.symm
        simp [e, e2]

theorem callback_ok {box ap : Nat} {s t : St} {a : Unit} (h : callback box ap s = .ok a t) :
    (∀ p, t.box? p = s.box? p) ∧ ∃ c : Call, c.box = box ∧ c.other = ap ∧
      t.calls = c :: s.calls := by
  unfold callback at h
  obtain ⟨b, _, h1⟩ := bind_ok_keeps (keeps_getBox _) h
  obtain ⟨a1, _, h2⟩ := bind_ok_keeps (keeps_getBox _) h1
  unfold logCall at h2
  cases h2
  exact ⟨fun _ => rfl, _, rfl, rfl, rfl⟩

/-- The nested procedure `queue_append` accepts a box at most once: a box that carries
the mark of `box` is skipped, any other box gets the mark, is pushed on the work list and
is reported at most once. -/
theorem walk_queue_append (box : Nat) (append : Option Nat) (queue : List Nat)
    {Q : List Nat → List Nat → Prop} (hq : ∀ acc, Q acc (acc.reverse ++ queue)) :
    Walk box (queue_append box append queue) Q := by
  rw [walk_iff]
  intro s q t h
  unfold queue_append at h
  obtain ⟨ap, s1, h1, h2⟩ := bind_ok h
  obtain ⟨_, e⟩ := nonNull_ok h1
  rw [e] at h2
  clear h h1 e
  obtain ⟨a0, ha0, h3⟩ := bind_ok_keeps (keeps_getBox _) h2
  have hs0 := (getBox_ok ha0).1
  by_cases hm : a0.marked = some box
  · rw [if_pos hm, pure_eq] at h3
    cases h3
    exact ⟨[], accepts_refl _ _, hq []⟩
  · rw [if_neg hm] at h3
    obtain ⟨_, s2, hmod, h4⟩ := bind_ok h3
    obtain ⟨b0, hb0, hp, hc⟩ := modBox_ok hmod
    rw [hs0] at hb0
    cases hb0
    obtain ⟨_, _, h5⟩ := bind_ok_keeps (keeps_getBox _) h4
    obtain ⟨_, _, h6⟩ := bind_ok_keeps (keeps_getBox _) h5
    have h7 := (assert_bind_ok h6).2
    obtain ⟨_, _, h8⟩ := bind_ok_keeps (keeps_getBox _) h7
    obtain ⟨_, _, h9⟩ := bind_ok_keeps (keeps_getBox _) h8
    have h10 := (assert_bind_ok h9).2
    obtain ⟨hne, h11⟩ := assert_bind_ok h10
    have hne : box ≠ ap := of_decide_eq_true hne
    obtain ⟨a, _, h12⟩ := bind_ok_keeps (keeps_getBox _) h11
    obtain ⟨b, _, h13⟩ := bind_ok_keeps (keeps_getBox _) h12
    obtain ⟨_, s3, h14, h15⟩ := bind_ok h13
    rw [pure_eq] at h15
    cases h15
    have hpt : ∀ p, s2.box? p = (s.box? p).map (fun bx =>
        if p ∈ [ap] then { bx with marked := some box } else bx) := by
      intro p1
      rw [hp p1]
      by_cases e : p1 = ap
      · rw [e, hs0]
        simp
      · cases s.box? p1 <;> simp [e]
    have base : ∀ new : List Call, (∀ c ∈ new, c.box = box ∧ c.other ∈ [ap]) →
        (new.map Call.other).Nodup → (∀ p, t.box? p = s2.box? p) →
        t.calls = new ++ s.calls → Accepts box [ap] s t := by
      intro new hn1 hn2 hbx hcl
      refine ⟨List.nodup_singleton _, ?_, ?_, fun p => by rw [hbx p, hpt p],
        new, hcl, hn1, hn2⟩
      · simp only [List.mem_singleton]
        exact hne
      · intro p1 hp1
        simp only [List.mem_singleton] at hp1
        rw [hp1]
        exact ⟨a0, hs0, hm⟩
    refine ⟨[ap], ?_, hq [ap]⟩
    split at h14
    · obtain ⟨hbx, c, c1, c2, c3⟩ := callback_ok h14
      refine base [c] ?_ ?_ hbx (by rw [c3, hc]; rfl)
      · intro c' hc'
        simp only [List.mem_singleton] at hc'
        rw [hc']
        exact ⟨c1, by simp [c2]⟩
      · simp
    · rw [pure_eq] at h14
      cases h14
      exact base [] (fun c hc' => absurd hc' (List.not_mem_nil _)) List.nodup_nil
        (fun _ => rfl) (by rw [hc]; rfl)

theorem walk_up (fuel box skip : Nat) (next : Option JRef) (queue : List Nat)
    {Q : List Nat → List Nat → Prop} (hq : ∀ acc, Q acc (acc.reverse ++ queue)) :
    Walk box (boxcollisions.up fuel box skip next queue) Q := by
  induction fuel generalizing next queue Q with
  | zero => exact walk_fail
  | succ n ih =>
    unfold boxcollisions.up
    cases next with
    | none => exact walk_pure (hq [])
    | some nx =>
      refine walk_bind (walk_keeps (keeps_yOf _) (fun y => ?_))
      refine walk_bind (walk_keeps (keeps_getBox _) (fun bx => ?_))
      refine walk_ite (fun _ => ?_) (fun _ => walk_pure (hq []))
      refine walk_bind (walk_keeps (keeps_dirOf _) (fun d => ?_))
      refine walk_ite (fun _ => ?_) (fun _ => ?_)
      · refine walk_bind (walk_keeps (keeps_posOf _ _) (fun p => ?_))
        exact walk_queue_append _ _ _ hq
      · refine walk_bind (walk_keeps (keeps_nbOf _ _) (fun p => ?_))
        exact ih _ _ hq

theorem walk_left (fuel box : Nat) (root : Option JRef) (queue : List Nat)
    {Q : List Nat → List Nat → Prop} (hq : ∀ acc, Q acc (acc.reverse ++ queue)) :
    Walk box (boxcollisions.left fuel box root queue) Q := by
  induction fuel generalizing root queue Q with
  | zero => exact walk_fail
  | succ n ih =>
    unfold boxcollisions.left
    cases root with
    | none => exact walk_pure (hq [])
    | some rt =>
      have rest : ∀ acc1 : List Nat,
          Walk box (nbOf rt 1 >>= fun n1 =>
            boxcollisions.left n box n1 (acc1.reverse ++ queue))
            (fun a2 c => Q (acc1 ++ a2) c) := by
        intro acc1
        refine walk_bind (walk_keeps (keeps_nbOf _ _) (fun n1 => ?_))
        refine ih _ _ (fun acc2 => ?_)
        have := hq (acc1 ++ acc2)
        rw [List.reverse_append, List.append_assoc] at this
        exact this
      refine walk_bind (walk_keeps (keeps_dirOf _) (fun d => ?_))
      refine walk_ite (fun _ => walk_pure (hq [])) (fun _ => ?_)
      refine walk_bind (walk_keeps (keeps_xOf _) (fun x => ?_))
      refine walk_bind (walk_keeps (keeps_getBox _) (fun bx => ?_))
      refine walk_ite (fun _ => ?_) (fun _ => walk_pure (hq []))
      refine walk_bind (walk_keeps (keeps_dirOf _) (fun d2 => ?_))
      refine walk_ite (fun _ => ?_) (fun _ => ?_)
      · refine walk_bind (walk_keeps (keeps_nbOf _ _) (fun n0 => ?_))
        refine walk_bind (walk_up _ _ _ _ _ (fun acc1 => ?_))
        exact rest acc1
      · refine walk_bind (walk_pure ?_)
        exact rest []

theorem walk_right (fuel box : Nat) (root : Option JRef) (queue : List Nat)
    {Q : List Nat → List Nat → Prop} (hq : ∀ acc, Q acc (acc.reverse ++ queue)) :
    Walk box (boxcollisions.right fuel box root queue) Q := by
  induction fuel generalizing root queue Q with
  | zero => exact walk_fail
  | succ n ih =>
    unfold boxcollisions.right
    cases root with
    | none => exact walk_pure (hq [])
    | some rt =>
      have rest : ∀ acc1 : List Nat,
          Walk box (nbOf rt 3 >>= fun n1 =>
            boxcollisions.right n box n1 (acc1.reverse ++ queue))
            (fun a2 c => Q (acc1 ++ a2) c) := by
        intro acc1
        refine walk_bind (walk_keeps (keeps_nbOf _ _) (fun n1 => ?_))
        refine ih _ _ (fun acc2 => ?_)
        have := hq (acc1 ++ acc2)
        rw [List.reverse_append, List.append_assoc] at this
        exact this
      refine walk_bind (walk_keeps (keeps_dirOf _) (fun d => ?_))
      refine walk_ite (fun _ => walk_pure (hq [])) (fun _ => ?_)
      refine walk_bind (walk_keeps (keeps_xOf _) (fun x => ?_))
      refine walk_bind (walk_keeps (keeps_getBox _) (fun bx => ?_))
      refine walk_ite (fun _ => ?_) (fun _ => walk_pure (hq []))
      refine walk_bind (walk_keeps (keeps_dirOf _) (fun d2 => ?_))
      refine walk_ite (fun _ => ?_) (fun _ => ?_)
      · refine walk_bind (walk_keeps (keeps_nbOf _ _) (fun n0 => ?_))
        refine walk_bind (walk_up _ _ _ _ _ (fun acc1 => ?_))
        exact rest acc1
      · refine walk_bind (walk_pure ?_)
        exact rest []

theorem walk_work (fuel f box : Nat) (queue : List Nat) :
    Walk box (boxcollisions.work fuel f box queue) (fun _ _ => True) := by
  induction fuel generalizing queue with
  | zero => exact walk_fail
  | succ n ih =>
    unfold boxcollisions.work
    cases queue with
    | nil => exact walk_pure trivial
    | cons top rest =>
      refine walk_bind (walk_left _ _ _ _ (fun acc1 => ?_))
      refine walk_bind (walk_right _ _ _ _ (fun acc2 => ?_))
      have := ih (acc2.reverse ++ (acc1.reverse ++ rest))
      rw [walk_iff] at this ⊢
      intro s a t hat
      obtain ⟨acc, h1, _⟩ := this s a t hat
      exact ⟨acc, h1, trivial⟩
theorem mem_allocated {s : St} {p : Nat} {b : Box} (h : s.box? p = some b) :
    p ∈ s.allocated := by
  unfold St.allocated
  rw [List.mem_filter]
  refine ⟨?_, by rw [h]; rfl⟩
  rw [List.mem_range]
  by_contra hc
  unfold St.box? at h
  rw [List.getElem?_eq_none (by omega)] at h
  cases h

/-- A returning `boxcollisions` has read the center junction of its box. -/
theorem boxcollisions_reads {fuel box : Nat} {s t : St} {a : Unit}
    (h : boxcollisions fuel box s = .ok a t) : ∃ b, s.box? box = some b := by
  unfold boxcollisions at h
  cases fuel with
  | zero => cases h
  | succ n =>
    unfold boxcollisions.work at h
    simp only at h
    obtain ⟨_, _, h1, _⟩ := bind_ok h
    unfold boxcollisions.left at h1
    simp only at h1
    obtain ⟨d, s1, h2, _⟩ := bind_ok h1
    obtain ⟨j, hj, _⟩ := dirOf_ok h2
    unfold St.junction? at hj
    cases hb : s.box? (jncRef box).box with
    | none => rw [hb] at hj; cases hj
    | some b => exact ⟨b, hb⟩

/-- C26: let `boxcollisions(b)` be started in a state where no box carries the mark `b`,
and let it return. Then the boxes accepted by `queue_append` form a list `acc` of
pairwise distinct boxes, all different from `b`: exactly these boxes carry the mark `b`
afterwards and nothing else of any box has changed; the callback was invoked only with first
argument `b` and with an accepted box other than `b` as second argument, at most once
for each; and the number of accepted boxes, which are the boxes pushed on the work
list, is at most the number of allocated boxes minus one. -/
theorem C26_marked_bounds_walk (fuel b : Nat) (s t : St)
    (hpre : ∀ p box, s.box? p = some box → box.marked ≠ some b)
    (h : boxcollisions fuel b s = .ok () t) :
    ∃ acc : List Nat, acc.Nodup ∧ b ∉ acc ∧
      (∀ p, t.box? p =
        (s.box? p).map (fun box => if p ∈ acc then { box with marked := some b } else box)) ∧
      (∃ new, t.calls = new ++ s.calls ∧
        (∀ c ∈ new, c.box = b ∧ c.other ≠ b ∧ c.other ∈ acc) ∧
        (new.map Call.other).Nodup ∧ new.length ≤ acc.length) ∧
      (∀ p box, t.box? p = some box → (box.marked = some b ↔ p ∈ acc)) ∧
      acc.length + 1 ≤ s.allocated.length := by
  obtain ⟨b0, hb0⟩ := boxcollisions_reads h
  unfold boxcollisions at h
  obtain ⟨acc, ⟨n1, nb, f1, p1, new, c1, d1, e1⟩, _⟩ :=
    (walk_iff _ _ _).1 (walk_work fuel fuel b [b]) s () t h
  refine ⟨acc, n1, nb, p1, ⟨new, c1, ?_, e1, ?_⟩, ?_, ?_⟩
  · intro c hc
    refine ⟨(d1 c hc).1, ?_, (d1 c hc).2⟩
    intro e
    exact nb (e ▸ (d1 c hc).2)
  · have hsub : new.map Call.other ⊆ acc := by
      intro p hp
      obtain ⟨c, hc, rfl⟩ := List.mem_map.1 hp
      exact (d1 c hc).2
    have := (List.Nodup.subperm e1 hsub).length_le
    rw [List.length_map] at this
    exact this
  · intro p box hbox
    rw [p1 p] at hbox
    cases hs : s.box? p with
    | none => rw [hs] at hbox; cases hbox
    | some b1 =>
      rw [hs] at hbox
      simp only [Option.map, Option.some.injEq] at hbox
      by_cases hm : p ∈ acc
      · rw [if_pos hm] at hbox
        rw [← hbox]
        exact ⟨fun _ => hm, fun _ => rfl⟩
      · rw [if_neg hm] at hbox
        rw [← hbox]
        exact ⟨fun e => absurd e (hpre p b1 hs), fun e => absurd e hm⟩
  · have hnd : (b :: acc).Nodup := List.nodup_cons.2 ⟨nb, n1⟩
    have hsub : (b :: acc) ⊆ s.allocated := by
      intro p hp
      rcases List.mem_cons.1 hp with e | e
      · rw [e]
        exact mem_allocated hb0
      · obtain ⟨bx, hbx, _⟩ := f1 p e
        exact mem_allocated hbx
    have := (List.Nodup.subperm hnd hsub).length_le
    rw [List.length_cons] at this
    exact this
/-- Witness for C26 in the net of scenario S1, where no box carries the mark of box A:
the walk from A returns. -/
theorem C26_marked_bounds_walk_witness :
    boxcollisions 100 0 netS1 = .ok () (boxcollisions 100 0 netS1).state ∧
    ∃ acc : List Nat, acc.Nodup ∧ 0 ∉ acc ∧
      (∀ p box, (boxcollisions 100 0 netS1).state.box? p = some box →
        (box.marked = some 0 ↔ p ∈ acc)) ∧
      acc.length + 1 ≤ netS1.allocated.length := by
  have h : boxcollisions 100 0 netS1 = .ok () (boxcollisions 100 0 netS1).state := by decide!
  have hpre : ∀ p box, netS1.box? p = some box → box.marked ≠ some 0 := by
    intro p box hb
    have hm := mem_allocated hb
    have ha : netS1.allocated = [0, 1, 2] := by decide!
    have e0 : (netS1.box? 0).map (fun b => b.marked) = some none := by decide!
    have e1 : (netS1.box? 1).map (fun b => b.marked) = some none := by decide!
    have e2 : (netS1.box? 2).map (fun b => b.marked) = some (some 1) := by decide!
    rw [ha] at hm
    simp only [List.mem_cons, List.mem_singleton, List.not_mem_nil, or_false] at hm
    rcases hm with e | e | e
    · rw [e] at hb
      rw [hb] at e0
      simp only [Option.map, Option.some.injEq] at e0
      rw [e0]
      exact fun x => by cases x
    · rw [e] at hb
      rw [hb] at e1
      simp only [Option.map, Option.some.injEq] at e1
      rw [e1]
      exact fun x => by cases x
    · rw [e] at hb
      rw [hb] at e2
      simp only [Option.map, Option.some.injEq] at e2
      rw [e2]
      exact fun x => by cases x
  obtain ⟨acc, k1, k2, _, _, k5, k6⟩ := C26_marked_bounds_walk 100 0 netS1 _ hpre h
  exact ⟨h, acc, k1, k2, k5, k6⟩
/-! ## The net without the queue masks -/

theorem Box.getJ_core (b : Box) (slot : Nat) :
    b.core.getJ slot = (b.getJ slot).map Junction.core := by
  unfold Box.getJ Box.core
  by_cases h4 : slot = 4
  · simp [h4]
  · simp only [h4, if_false]
    unfold Quad.get
    split <;> rfl

theorem Box.setJ_core (b : Box) (slot : Nat) (j j2 : Junction) (h : b.getJ slot = some j)
    (hc : j2.core = j.core) : (b.setJ slot j2).core = b.core := by
  unfold Box.getJ at h
  unfold Box.setJ Box.core
  by_cases h4 : slot = 4
  · simp only [h4, if_true] at h ⊢
    cases h
    simp only [hc]
  · simp only [h4, if_false] at h ⊢
    unfold Quad.get at h
    unfold Quad.set
    split at h
    · cases h; simp only [hc]
    · cases h; simp only [hc]
    · cases h; simp only [hc]
    · cases h; simp only [hc]
    · cases h

theorem keeps_core_modJ (r : JRef) (f : Junction → Junction)
    (hf : ∀ j, (f j).core = j.core) : Keeps St.core (modJ r f) := by
  rw [keeps_iff]
  intro s
  unfold Boxnet.modJ
  rw [bind_eq]
  cases h : s.heap[r.box]? with
  | none => simp [Boxnet.getBox, h, Res.state]
  | some ob =>
    cases ob with
    | none => simp [Boxnet.getBox, h, Res.state]
    | some b =>
      simp only [Boxnet.getBox, h]
      rw [bind_eq]
      cases hj : b.getJ r.slot with
      | none => simp [Boxnet.inRange, Res.state]
      | some j =>
        simp only [Boxnet.inRange]
        unfold setBox
        rw [h]
        simp only [Res.state, St.core]
        exact map_set_same _ _ _ (some b) _ h (by simp [Box.setJ_core b r.slot j (f j) hj (hf j)])

theorem keeps_core_pushQ (q : QId) (c : Connection) : Keeps St.core (pushQ q c) := by
  rw [keeps_iff]
  intro s
  cases q <;> rfl

theorem keeps_core_popQ (q : QId) : Keeps St.core (popQ q) := by
  rw [keeps_iff]
  intro s
  unfold popQ
  cases q with
  | q1 => cases h : s.queue1 <;> simp [h, Res.state, St.core]
  | q2 => cases h : s.queue2 <;> simp [h, Res.state, St.core]

theorem keeps_core_RepairQueue_append (jnc : JRef) (tdir : Nat) (q : QId) :
    Keeps St.core (RepairQueue_append jnc tdir q) := by
  unfold RepairQueue_append
  refine keeps_bind (keeps_getJ _) (fun j => ?_)
  split
  · exact keeps_bind (keeps_core_pushQ _ _) (fun _ => keeps_core_modJ _ _ (fun _ => rfl))
  · exact keeps_pure _

theorem keeps_core_guard (jnc : JRef) (tdir : Nat) :
    Keeps St.core (solve_conn.guard jnc tdir) := by
  unfold solve_conn.guard
  refine keeps_bind (keeps_getJ _) (fun _ => keeps_bind (keeps_assert _) (fun _ => ?_))
  refine keeps_bind (keeps_core_modJ _ _ (fun _ => rfl)) (fun _ => ?_)
  exact keeps_bind (keeps_getJ _) (fun _ => keeps_assert _)

theorem junction?_core {u s : St} (h : u.core = s.core) (r : JRef) :
    (u.junction? r).map Junction.core = (s.junction? r).map Junction.core := by
  have e : (u.heap[r.box]?).map (Option.map Box.core) =
      (s.heap[r.box]?).map (Option.map Box.core) := by
    have := congrArg (fun l : List (Option Box) => l[r.box]?) h
    simp only [St.core, List.getElem?_map] at this
    exact this
  rw [junction?_eq, junction?_eq]
  cases hu : u.heap[r.box]? with
  | none =>
    rw [hu] at e
    cases hs : s.heap[r.box]? with
    | none => rfl
    | some ob => rw [hs] at e; cases e
  | some ou =>
    rw [hu] at e
    cases hs : s.heap[r.box]? with
    | none => rw [hs] at e; cases e
    | some os =>
      rw [hs] at e
      simp only [Option.map, Option.some.injEq] at e
      cases ou with
      | none =>
        cases os with
        | none => rfl
        | some bs => simp at e
      | some bu =>
        cases os with
        | none => simp at e
        | some bs =>
          simp only [Option.some.injEq] at e
          simp only
          rw [← Box.getJ_core, ← Box.getJ_core, e]

theorem geo_core {u s : St} (h : u.core = s.core) : u.geo = s.geo := by
  have e : ∀ t : St, t.geo = t.core.map (Option.map Box.geo) := by
    intro t
    unfold St.geo St.core
    rw [List.map_map]
    apply List.map_congr_left
    intro ob _
    cases ob <;> rfl
  rw [e u, e s, h]

theorem Junction.core_eq_self {j : Junction} (h : j.enqueued = 0) : j.core = j := by
  unfold Junction.core
  cases j
  simp only at h
  subst h
  rfl

theorem core_of_tidy {s : St} (h : Tidy s) : s.core = s.heap := by
  unfold St.core
  conv_rhs => rw [← List.map_id s.heap]
  apply List.map_congr_left
  intro ob hob
  cases ob with
  | none => rfl
  | some b =>
    have hb := h (some b) hob b rfl
    have e : ∀ j ∈ b.junctions, j.core = j := fun j hj => Junction.core_eq_self (hb j hj).2
    unfold Box.junctions at e
    simp only [List.mem_cons, List.mem_singleton, List.not_mem_nil, or_false] at e
    simp only [Option.map, id, Option.some.injEq]
    unfold Box.core
    rw [e b.jnc (Or.inl rfl), e b.rayend.e0 (Or.inr (Or.inl rfl)),
      e b.rayend.e1 (Or.inr (Or.inr (Or.inl rfl))),
      e b.rayend.e2 (Or.inr (Or.inr (Or.inr (Or.inl rfl)))),
      e b.rayend.e3 (Or.inr (Or.inr (Or.inr (Or.inr rfl))))]
/-- A junction read in a net that agrees with `s` up to queue masks. -/
theorem junction_of_core {u s : St} (h : u.core = s.core) {r : JRef} {j : Junction}
    (hj : s.junction? r = some j) : ∃ j2, u.junction? r = some j2 ∧ j2.core = j.core := by
  have e := junction?_core h r
  rw [hj] at e
  cases hu : u.junction? r with
  | none => rw [hu] at e; cases e
  | some j2 =>
    rw [hu] at e
    simp only [Option.map, Option.some.injEq] at e
    exact ⟨j2, rfl, e⟩

theorem core_fields {j2 j : Junction} (h : j2.core = j.core) :
    j2.nb = j.nb ∧ j2.dir = j.dir ∧ j2.beamdir = j.beamdir ∧ j2.anchor = j.anchor := by
  have e1 : j2.core.nb = j.core.nb := congrArg Junction.nb h
  have e2 : j2.core.dir = j.core.dir := congrArg Junction.dir h
  have e3 : j2.core.beamdir = j.core.beamdir := congrArg Junction.beamdir h
  have e4 : j2.core.anchor = j.core.anchor := congrArg Junction.anchor h
  exact ⟨e1, e2, e3, e4⟩

theorem anchor_of_core {u s : St} (h : u.core = s.core) (r : JRef) :
    (u.junction? r).map Junction.anchor = (s.junction? r).map Junction.anchor := by
  have e := congrArg (Option.map Junction.anchor) (junction?_core h r)
  simp only [Option.map_map] at e
  exact e

/-- The answer of `needsflip` for a non-null link does not depend on the queue masks. -/
theorem needsflip_core {u s : St} (h : u.core = s.core) {r n : JRef} {d : Nat} {j : Junction}
    (hj : s.junction? r = some j) (hn : j.nb.get d = some (some n)) :
    (needsflip r d u).val? = (needsflip r d s).val? := by
  obtain ⟨j2, hj2, ec⟩ := junction_of_core h hj
  have enb : j2.nb = j.nb := (core_fields ec).1
  have l1 : (nbOf r d s).val? = some (some n) := by
    rw [nbOf_some hj hn]
    rfl
  have l2 : (nbOf r d u).val? = some (some n) := by
    rw [nbOf_some hj2 (by rw [enb]; exact hn)]
    rfl
  rw [needsflip_val? u r n d l2, needsflip_val? s r n d l1,
    coord_congr d n (anchor_of_core h n) (geo_core h),
    coord_congr d r (anchor_of_core h r) (geo_core h)]

/-- A quiet work item is dispatched to nothing in every net that agrees with `s` up to
queue masks. -/
theorem dispatch_quiet {u s : St} (h : u.core = s.core) {c : Connection} (hq : Quiet s c)
    (f : Nat) (q : QId) : solve_conn.dispatch f c.jnc c.tdir q u = .ok () u := by
  obtain ⟨j, hj, hcase⟩ := hq
  obtain ⟨j2, hj2, ec⟩ := junction_of_core h hj
  have edir : j2.dir = j.dir := (core_fields ec).2.1
  have enb : j2.nb = j.nb := (core_fields ec).1
  unfold solve_conn.dispatch
  rw [bind_eq, dirOf_some hj2]
  simp only
  by_cases h5 : j2.dir = 5
  · rw [if_pos h5]
    rfl
  · rw [if_neg h5]
    rcases hcase with e | ⟨v, hv, hcase2⟩
    · exact absurd (edir.trans e) h5
    · rw [bind_eq, nbOf_some hj2 (by rw [enb]; exact hv)]
      simp only
      cases v with
      | none => rfl
      | some n =>
        rcases hcase2 with e | e
        · cases e
        · have e2 := (needsflip_core h hj hv).trans e
          simp only
          rw [bind_eq, needsflip_ok_of_val? _ _ _ _ e2]
          rfl
/-! ## Repair of a consistent net -/

theorem Quad.get_of_lt {α : Type} (q : Quad α) {i : Nat} (h : i < 4) : ∃ v, q.get i = some v := by
  interval_cases i <;> exact ⟨_, rfl⟩

/-- Appending to the first queue returns when the junction can be read, and pushes at
most the pair it was called with. -/
theorem append_run {u : St} {r : JRef} {j : Junction} (t : Nat)
    (hj : u.junction? r = some j) :
    ∃ u2, RepairQueue_append r t .q1 u = .ok () u2 ∧
      (u2.queue1 = u.queue1 ∨ u2.queue1 = ⟨r, t⟩ :: u.queue1) := by
  unfold RepairQueue_append
  rw [bind_eq, getJ_some hj]
  simp only
  by_cases hbit : (j.enqueued &&& (1 <<< t)) = 0
  · rw [if_pos hbit, bind_eq]
    simp only [pushQ]
    have hj1 : St.junction? { u with queue1 := ⟨r, t⟩ :: u.queue1 } r = some j := hj
    rw [modJ_some hj1]
    exact ⟨_, rfl, Or.inr (updJ_queues _ _ _).1⟩
  · rw [if_neg hbit]
    exact ⟨u, rfl, Or.inl rfl⟩

theorem repairing_append {s u : St} (hI : Repairing s u) {r : JRef} {j : Junction} {t : Nat}
    (hj : s.junction? r = some j) (ht : t < 8) (hq : Quiet s ⟨r, t⟩) :
    ∃ u2, RepairQueue_append r t .q1 u = .ok () u2 ∧ Repairing s u2 ∧
      u2.queue1.length ≤ u.queue1.length + 1 := by
  obtain ⟨h1, h2, h3, h4, h5⟩ := hI
  obtain ⟨j2, hj2, _⟩ := junction_of_core h1 hj
  obtain ⟨u2, hrun, hqueue⟩ := append_run t hj2
  refine ⟨u2, hrun, ⟨?_, ?_, ?_, ?_, ?_⟩, ?_⟩
  · exact (keeps_ok (keeps_core_RepairQueue_append r t .q1) hrun).trans h1
  · exact (keeps_ok (keeps_RepairQueue_append r t .q1) hrun).trans h2
  · exact tri_ok (tri_RepairQueue_append (Q := fun _ => True) ht trivial) h3 hrun
  · exact (keeps_ok (keeps_queue2_append r t) hrun).trans h4
  · intro c hc
    rcases hqueue with e | e
    · rw [e] at hc
      exact h5 c hc
    · rw [e] at hc
      rcases List.mem_cons.1 hc with e2 | e2
      · rw [e2]
        exact hq
      · exact h5 c e2
  · rcases hqueue with e | e
    · rw [e]
      omega
    · rw [e, List.length_cons]

theorem quiet_of_link {s : St} {r : JRef} {j : Junction} {d : Nat}
    (hj : s.junction? r = some j) (hd : d < 4)
    (h : ∀ n, j.nb.get d = some (some n) → (needsflip r d s).val? = some false) :
    Quiet s ⟨r, d⟩ := by
  obtain ⟨v, hv⟩ := Quad.get_of_lt j.nb hd
  refine ⟨j, hj, Or.inr ⟨v, hv, ?_⟩⟩
  cases v with
  | none => exact Or.inl rfl
  | some n => exact Or.inr (h n hv)

theorem repairing_enqueue {s u : St} (hC : Consistent s) (hI : Repairing s u) {box d : Nat}
    (hb : box ∈ s.boxes) (hd : d < 4) :
    ∃ u2, Boxnet_repair.enqueue box d u = .ok () u2 ∧ Repairing s u2 ∧
      u2.queue1.length ≤ u.queue1.length + 2 := by
  obtain ⟨⟨jc, hjc, hcq⟩, hray⟩ := hC box hb
  obtain ⟨jr, hjr, hrq⟩ := hray d hd
  obtain ⟨u1, hrun1, hI1, hl1⟩ := repairing_append hI hjc (by omega)
    (quiet_of_link hjc hd (hcq d hd))
  obtain ⟨jr2, hjr2, ec⟩ := junction_of_core hI1.1 hjr
  obtain ⟨_, edir, ebeam, _⟩ := core_fields ec
  unfold Boxnet_repair.enqueue
  rw [bind_eq, hrun1]
  simp only
  rw [bind_eq, dirOf_some hjr2]
  simp only
  by_cases h5 : jr2.dir ≠ 5
  · rw [if_pos h5, bind_eq, beamOf_some hjr2]
    simp only
    have h5' : jr.dir ≠ 5 := by rw [← edir]; exact h5
    obtain ⟨hb4, hq⟩ := hrq h5'
    obtain ⟨u2, hrun2, hI2, hl2⟩ := repairing_append (t := jr.beamdir) hI1 hjr (by omega)
      (quiet_of_link hjr hb4 hq)
    rw [ebeam]
    exact ⟨u2, hrun2, hI2, by omega⟩
  · rw [if_neg h5]
    exact ⟨u1, rfl, hI1, by omega⟩

theorem repairing_enqueue_all {s u : St} (hC : Consistent s) (hI : Repairing s u) {box : Nat}
    (hb : box ∈ s.boxes) :
    ∃ u2, forEach [0, 1, 2, 3] (Boxnet_repair.enqueue box) u = .ok () u2 ∧ Repairing s u2 ∧
      u2.queue1.length ≤ u.queue1.length + 8 := by
  obtain ⟨u1, r1, i1, l1⟩ := repairing_enqueue hC hI hb (by omega : 0 < 4)
  obtain ⟨u2, r2, i2, l2⟩ := repairing_enqueue hC i1 hb (by omega : 1 < 4)
  obtain ⟨u3, r3, i3, l3⟩ := repairing_enqueue hC i2 hb (by omega : 2 < 4)
  obtain ⟨u4, r4, i4, l4⟩ := repairing_enqueue hC i3 hb (by omega : 3 < 4)
  refine ⟨u4, ?_, i4, by omega⟩
  unfold forEach
  rw [bind_eq, r1]
  simp only
  unfold forEach
  rw [bind_eq, r2]
  simp only
  unfold forEach
  rw [bind_eq, r3]
  simp only
  unfold forEach
  rw [bind_eq, r4]
  simp only
  unfold forEach
  rfl
theorem keeps_frame_guard (jnc : JRef) (tdir : Nat) :
    Keeps St.frame (solve_conn.guard jnc tdir) := by
  unfold solve_conn.guard
  refine keeps_bind (keeps_getJ _) (fun _ => keeps_bind (keeps_assert _) (fun _ => ?_))
  refine keeps_bind (keeps_modJ _ _) (fun _ => ?_)
  exact keeps_bind (keeps_getJ _) (fun _ => keeps_assert _)

theorem keeps_queues_modJ (r : JRef) (f : Junction → Junction) :
    Keeps (fun s : St => (s.queue1, s.queue2)) (modJ r f) := by
  rw [keeps_iff]
  intro s
  rw [modJ_eq]
  cases s.junction? r with
  | none =>
    simp only
    split <;> rfl
  | some j =>
    simp only [Res.state]
    rw [(updJ_queues s r (f j)).1, (updJ_queues s r (f j)).2]

theorem keeps_queues_guard (jnc : JRef) (tdir : Nat) :
    Keeps (fun s : St => (s.queue1, s.queue2)) (solve_conn.guard jnc tdir) := by
  unfold solve_conn.guard
  refine keeps_bind (keeps_getJ _) (fun _ => keeps_bind (keeps_assert _) (fun _ => ?_))
  refine keeps_bind (keeps_queues_modJ _ _) (fun _ => ?_)
  exact keeps_bind (keeps_getJ _) (fun _ => keeps_assert _)

/-- Draining the first queue of quiet work items returns with the queue empty and makes
no rewrite, when the fuel exceeds the length of the queue. -/
theorem repairing_drain {s : St} (fuel f : Nat) {u : St} (hI : Repairing s u)
    (hl : u.queue1.length < fuel) :
    ∃ u2, Boxnet_repair.drain fuel f .q1 u = .ok () u2 ∧ Repairing s u2 ∧ u2.queue1 = [] := by
  induction fuel generalizing u with
  | zero => omega
  | succ n ih =>
    unfold Boxnet_repair.drain
    rw [bind_eq]
    cases hq : u.queue1 with
    | nil =>
      have hp : popQ .q1 u = .ok none u := by
        unfold popQ
        simp only [hq]
      rw [hp]
      exact ⟨u, rfl, hI, hq⟩
    | cons c cs =>
      have hp : popQ .q1 u = .ok (some c) { u with queue1 := cs } := by
        unfold popQ
        simp only [hq]
      rw [hp]
      simp only
      obtain ⟨h1, h2, h3, h4, h5⟩ := hI
      obtain ⟨t2, hg, ht2⟩ := guard_ok h3 hp
      have hcq : Quiet s c := h5 c (by rw [hq]; exact List.mem_cons_self _ _)
      have hcore : t2.core = s.core :=
        (keeps_ok (keeps_core_guard c.jnc c.tdir) hg).trans h1
      have hframe : t2.frame = s.frame :=
        (keeps_ok (keeps_frame_guard c.jnc c.tdir) hg).trans h2
      have hqs := keeps_ok (keeps_queues_guard c.jnc c.tdir) hg
      simp only [Prod.mk.injEq] at hqs
      have hI2 : Repairing s t2 := by
        refine ⟨hcore, hframe, ht2, hqs.2.trans h4, fun c2 hc2 => ?_⟩
        rw [hqs.1] at hc2
        exact h5 c2 (by rw [hq]; exact List.mem_cons_of_mem _ hc2)
      have hsc : solve_conn f c.jnc c.tdir QId.q1.other { u with queue1 := cs } = .ok () t2 := by
        rw [solve_conn_eq, bind_eq, hg]
        exact dispatch_quiet hcore hcq f _
      rw [bind_eq, hsc]
      simp only
      refine ih hI2 ?_
      rw [hqs.1]
      rw [hq, List.length_cons] at hl
      show cs.length < n
      omega

theorem repairing_drain2 {s : St} (fuel f : Nat) {u : St} (hI : Repairing s u)
    (hl : 0 < fuel) : Boxnet_repair.drain fuel f .q2 u = .ok () u := by
  cases fuel with
  | zero => omega
  | succ n =>
    unfold Boxnet_repair.drain
    rw [bind_eq]
    have hp : popQ .q2 u = .ok none u := by
      unfold popQ
      simp only [hI.2.2.2.1]
    rw [hp]
    rfl

theorem alternate_empty (fuel f : Nat) {u : St} (hq : u.queue1 = []) (hl : 0 < fuel) :
    Boxnet_repair.alternate fuel f u = .ok () u := by
  cases fuel with
  | zero => omega
  | succ n =>
    unfold Boxnet_repair.alternate
    rw [bind_eq]
    simp only [queue1Nonempty, hq, List.isEmpty_nil, Bool.not_true, Bool.false_eq_true,
      if_false]
    rfl

theorem repairing_alternate {s : St} (fuel f : Nat) {u : St} (hI : Repairing s u)
    (hl : u.queue1.length < f) (hf : 2 ≤ fuel) :
    ∃ u2, Boxnet_repair.alternate fuel f u = .ok () u2 ∧ Repairing s u2 ∧ u2.queue1 = [] := by
  cases fuel with
  | zero => omega
  | succ n =>
    cases hq : u.queue1 with
    | nil => exact ⟨u, alternate_empty _ _ hq (by omega), hI, hq⟩
    | cons c cs =>
      obtain ⟨u1, r1, i1, q1⟩ := repairing_drain f f hI hl
      have r2 := repairing_drain2 f f i1 (by omega)
      refine ⟨u1, ?_, i1, q1⟩
      unfold Boxnet_repair.alternate
      rw [bind_eq]
      simp only [queue1Nonempty, hq, List.isEmpty_cons, Bool.not_false, if_true]
      rw [bind_eq, r1]
      simp only
      rw [bind_eq, r2]
      simp only
      exact alternate_empty _ _ q1 (by omega)

theorem repairing_boxes {s : St} (hC : Consistent s) (fuel : Nat) (hf : 9 ≤ fuel)
    (bs : List Nat) (hbs : ∀ b ∈ bs, b ∈ s.boxes) {u : St} (hI : Repairing s u)
    (hq : u.queue1 = []) :
    ∃ u2, forEach bs (fun box => do
        forEach [0, 1, 2, 3] (Boxnet_repair.enqueue box)
        Boxnet_repair.alternate fuel fuel) u = .ok () u2 ∧ Repairing s u2 ∧ u2.queue1 = [] := by
  induction bs generalizing u with
  | nil => exact ⟨u, rfl, hI, hq⟩
  | cons b bs ih =>
    obtain ⟨u1, r1, i1, l1⟩ := repairing_enqueue_all hC hI (hbs b (List.mem_cons_self _ _))
    rw [hq, List.length_nil] at l1
    obtain ⟨u2, r2, i2, q2⟩ := repairing_alternate fuel fuel i1 (by omega) (by omega)
    obtain ⟨u3, r3, i3, q3⟩ := ih (fun x hx => hbs x (List.mem_cons_of_mem _ hx)) i2 q2
    refine ⟨u3, ?_, i3, q3⟩
    unfold forEach
    rw [bind_eq]
    simp only
    rw [bind_eq, r1]
    simp only
    rw [r2]
    exact r3

/-- C29: in a consistent net whose junctions all have `enqueued == 0` (and `dir`,
`beamdir` below 8), `Boxnet_repair` returns when its loops are given at least 9 units of
fuel, and the state it returns is the state it started from with both queues reset:
the neighbour links, anchors, `dir`, `beamdir` and `enqueued` of every junction, the
box coordinates, the container and the callback log are unchanged. -/
theorem C29_repair_of_consistent_net (fuel : Nat) (s : St) (hs : Tidy s) (hC : Consistent s)
    (hf : 9 ≤ fuel) :
    Boxnet_repair fuel s = .ok () { s with queue1 := [], queue2 := [] } := by
  have hI : Repairing s { s with queue1 := [], queue2 := [] } :=
    ⟨rfl, rfl, enq_of_tidy s hs, rfl, fun c hc => absurd hc (List.not_mem_nil _)⟩
  obtain ⟨t, hrun, ⟨h1, h2, _, h4, _⟩, hq⟩ :=
    repairing_boxes hC fuel hf s.boxes (fun _ h => h) hI rfl
  have hrun2 : Boxnet_repair fuel s = .ok () t := by
    rw [Boxnet_repair_eq]
    exact hrun
  have ht := tidy_Boxnet_repair fuel hs hrun2
  have hheap : t.heap = s.heap := by
    rw [← core_of_tidy ht, ← core_of_tidy hs]
    exact h1
  have hb : t.boxes = s.boxes := congrArg (fun x => x.2.1) h2
  have hc : t.calls = s.calls := congrArg (fun x => x.2.2) h2
  rw [hrun2]
  congr 1
  cases t
  simp only at hheap hb hc hq h4
  subst hheap hb hc hq h4
  rfl
theorem consistent_of_check {s : St} (h : s.consistent = true) : Consistent s := by
  unfold St.consistent at h
  rw [List.all_eq_true] at h
  intro box hb
  have hbox := h box hb
  rw [Bool.and_eq_true] at hbox
  obtain ⟨h1, h2⟩ := hbox
  refine ⟨?_, ?_⟩
  · cases hj : s.junction? (jncRef box) with
    | none => rw [hj] at h1; cases h1
    | some j =>
      rw [hj] at h1
      simp only at h1
      rw [List.all_eq_true] at h1
      refine ⟨j, rfl, fun d hd n hn => ?_⟩
      have := h1 d (by
        simp only [List.mem_cons, List.mem_singleton, List.not_mem_nil, or_false]
        omega)
      rw [hn] at this
      exact of_decide_eq_true this
  · intro k hk
    rw [List.all_eq_true] at h2
    have := h2 k (by
      simp only [List.mem_cons, List.mem_singleton, List.not_mem_nil, or_false]
      omega)
    cases hj : s.junction? ⟨box, k⟩ with
    | none => rw [hj] at this; cases this
    | some j =>
      rw [hj] at this
      simp only at this
      refine ⟨j, rfl, fun h5 => ?_⟩
      rw [Bool.or_eq_true] at this
      rcases this with e | e
      · exact absurd (of_decide_eq_true e) h5
      · rw [Bool.and_eq_true] at e
        refine ⟨of_decide_eq_true e.1, fun n hn => ?_⟩
        have e2 := e.2
        rw [hn] at e2
        exact of_decide_eq_true e2

/-- Witness for C29: the net of scenario S1 after its `Boxnet_collide` is consistent,
and repairing it again changes nothing. -/
theorem C29_repair_of_consistent_net_witness :
    Tidy netS1 ∧ Consistent netS1 ∧
    Boxnet_repair 100 netS1 = .ok () { netS1 with queue1 := [], queue2 := [] } :=
  ⟨by decide!, consistent_of_check (by decide!),
    C29_repair_of_consistent_net 100 netS1 (by decide!) (consistent_of_check (by decide!))
      (by decide)⟩

/-! ## The sides of the inserted center junction -/

theorem linked_updJ_ne (s : St) (r c : JRef) (j j0 : Junction) (d : Nat)
    (h : s.junction? r = some j0) (hne : c ≠ r) :
    (s.updJ r j).linked c d = s.linked c d := by
  unfold St.linked
  rw [junction?_updJ s r c j j0 h, if_neg hne]

theorem linked_updJ_set (s : St) (r c : JRef) (j0 : Junction) (e d : Nat) (y : JRef)
    (h : s.junction? r = some j0) (hl : s.linked c d = true) :
    (s.updJ r { j0 with nb := j0.nb.set e (some y) }).linked c d = true := by
  by_cases hc : c = r
  · subst hc
    unfold St.linked at hl ⊢
    rw [junction?_updJ s c c _ j0 h, if_pos rfl]
    rw [h] at hl
    simp only at hl ⊢
    by_cases hed : e = d
    · subst hed
      have he : e < 4 := by
        cases hg : j0.nb.get e with
        | none => rw [hg] at hl; cases hl
        | some v => exact Quad.get_some_lt hg
      rw [Quad.get_set_same _ _ _ he]
    · rw [Quad.get_set_ne _ _ _ _ hed]
      exact hl
  · rw [linked_updJ_ne s r c _ j0 d h hc]
    exact hl

theorem tri_modJ_other {c : JRef} {d : Nat} {r : JRef} {f : Junction → Junction}
    {Q : Unit → Prop} (hne : c ≠ r) (h : Q ()) :
    Tri (fun s => s.linked c d = true) (modJ r f) Q := by
  rw [tri_iff]
  intro s hs
  cases hj : s.junction? r with
  | none =>
    obtain ⟨e, he⟩ := modJ_none (f := f) hj
    rw [he]
    exact ⟨hs, fun a t hat => by cases hat⟩
  | some j =>
    rw [modJ_some hj]
    refine ⟨?_, fun _ _ _ => h⟩
    show (s.updJ r (f j)).linked c d = true
    rw [linked_updJ_ne s r c _ j d hj hne]
    exact hs

theorem tri_setNb_some {c : JRef} {d : Nat} {r : JRef} {e : Nat} {y : JRef}
    {Q : Unit → Prop} (h : Q ()) :
    Tri (fun s => s.linked c d = true) (setNb r e (some y)) Q := by
  unfold setNb
  refine tri_ite ?_ tri_fail
  rw [tri_iff]
  intro s hs
  cases hj : s.junction? r with
  | none =>
    obtain ⟨e2, he⟩ := modJ_none (f := fun j => { j with nb := j.nb.set e (some y) }) hj
    rw [he]
    exact ⟨hs, fun a t hat => by cases hat⟩
  | some j =>
    rw [modJ_some hj]
    exact ⟨linked_updJ_set s r c j e d y hj hs, fun _ _ _ => h⟩

theorem tri_setNb_other {c : JRef} {d : Nat} {r : JRef} {e : Nat} {v : Option JRef}
    {Q : Unit → Prop} (hne : c ≠ r) (h : Q ()) :
    Tri (fun s => s.linked c d = true) (setNb r e v) Q := by
  unfold setNb
  exact tri_ite (tri_modJ_other hne h) tri_fail

theorem tri_setDir_other {c : JRef} {d : Nat} {r : JRef} {v : Nat}
    {Q : Unit → Prop} (hne : c ≠ r) (h : Q ()) :
    Tri (fun s => s.linked c d = true) (setDir r v) Q := by
  unfold setDir
  exact tri_modJ_other hne h

theorem tri_setBeam_other {c : JRef} {d : Nat} {r : JRef} {v : Nat}
    {Q : Unit → Prop} (hne : c ≠ r) (h : Q ()) :
    Tri (fun s => s.linked c d = true) (setBeam r v) Q := by
  unfold setBeam
  exact tri_modJ_other hne h

theorem tri_setPos_other {c : JRef} {d : Nat} {r : JRef} {i : Nat} {v : Option Nat}
    {Q : Unit → Prop} (hne : c ≠ r) (h : Q ()) :
    Tri (fun s => s.linked c d = true) (setPos r i v) Q := by
  unfold setPos
  exact tri_ite (tri_modJ_other hne h) (tri_ite (tri_modJ_other hne h) tri_fail)

theorem rayendRef_ok {p : Option Nat} {k : Nat} {s t : St} {a : JRef}
    (h : rayendRef p k s = .ok a t) : k < 4 ∧ ∃ b, p = some b ∧ a = ⟨b, k⟩ ∧ t = s := by
  unfold rayendRef at h
  obtain ⟨b, s1, h1, h2⟩ := bind_ok h
  obtain ⟨e1, e2⟩ := nonNull_ok h1
  subst e2
  by_cases hk : k < 4
  · rw [if_pos hk, pure_eq] at h2
    cases h2
    exact ⟨hk, b, e1, rfl, rfl⟩
  · rw [if_neg hk] at h2
    cases h2

theorem tri_rayendRef_slot {I : St → Prop} {p : Option Nat} {k : Nat} {Q : JRef → Prop}
    (h : ∀ a : JRef, a.slot < 4 → Q a) : Tri I (rayendRef p k) Q := by
  rw [tri_iff]
  intro s hs
  have hk := (keeps_iff (π := fun s : St => s) _).1 (keeps_rayendRef p k) s
  simp only at hk
  rw [hk]
  refine ⟨hs, fun a t hat => ?_⟩
  obtain ⟨h4, b, _, e, _⟩ := rayendRef_ok hat
  subst e
  exact h _ h4

theorem tri_dirOf_any {I : St → Prop} {r : JRef} {Q : Nat → Prop} (h : ∀ a, Q a) :
    Tri I (dirOf r) Q :=
  tri_keeps (keeps_dirOf _) h

theorem tri_beamOf_any {I : St → Prop} {r : JRef} {Q : Nat → Prop} (h : ∀ a, Q a) :
    Tri I (beamOf r) Q :=
  tri_keeps (keeps_beamOf _) h

/-- The procedure `insert()` never unlinks a side of the center junction that is being
inserted. -/
theorem tri_insert_linked (box d : Nat) (cur : JRef) (c cw : Nat) (next : Option JRef) :
    Tri (fun s => s.linked (jncRef box) d = true)
      (Junction_insert.insert (jncRef box) cur c cw next) (fun _ => True) := by
  unfold Junction_insert.insert
  refine tri_bind (tri_posOf (fun p => ?_))
  refine tri_bind (tri_rayendRef_slot (fun newjnc hs => ?_))
  have hne : jncRef box ≠ newjnc := by
    intro e
    rw [← e] at hs
    simp [jncRef] at hs
  repeat' (first | with_reducible (first
      | apply tri_bind | apply tri_pure | apply tri_fail | apply tri_ite
      | apply tri_posOf | apply tri_dirOf_any | apply tri_beamOf_any
      | apply tri_setNb_some | apply tri_setNb_other hne | apply tri_setDir_other hne
      | apply tri_setBeam_other hne | apply tri_setPos_other hne
      | intro _) | trivial | split | dsimp only)

theorem ends_bind {α β : Type} {m : M α} {f : α → M β} {P : St → Prop}
    (h : ∀ a s b t, f a s = .ok b t → P t) : ∀ s b t, (m >>= f) s = .ok b t → P t := by
  intro s b t hb
  obtain ⟨a, s1, _, h2⟩ := bind_ok hb
  exact h a s1 b t h2

/-- A returning `insert()` has linked the side `(curdir + cwccw + 2) % 4` of the center
junction. -/
theorem insert_links (jnc cur : JRef) (c cw : Nat) (next : Option JRef) :
    ∀ s b t, Junction_insert.insert jnc cur c cw next s = .ok b t →
      t.linked jnc ((c + cw + 2) % 4) = true := by
  unfold Junction_insert.insert
  repeat' (first | with_reducible (apply ends_bind) | intro _)
  rename_i s b t h
  obtain ⟨hd, j, hj, rfl⟩ := setNb_ok h
  unfold St.linked
  rw [junction?_updJ s jnc jnc _ j hj, if_pos rfl]
  simp only
  rw [Quad.get_set_same _ _ _ hd]

/-- A returning sweep of `Junction_insert` keeps every linked side of the center
junction linked, and its insertions link the sides `(curdir + cwccw * (m + 1) + 2) % 4`,
`m` counting the insertions of the sweep. -/
theorem insert_loop_links (box cw : Nat) : ∀ (fuel : Nat) (cur : JRef) (c k : Nat)
    (s t : St) (v : Nat),
    Junction_insert.loop fuel (jncRef box) cur c cw k s = .ok v t →
    k ≤ v ∧ (∀ d, s.linked (jncRef box) d = true → t.linked (jncRef box) d = true) ∧
    (∀ m, m < v - k → t.linked (jncRef box) ((c + cw * (m + 1) + 2) % 4) = true) := by
  intro fuel
  induction fuel with
  | zero =>
    intro cur c k s t v h
    cases h
  | succ n ih =>
    intro cur c k s t v h
    unfold Junction_insert.loop at h
    by_cases hk : k = 4
    · rw [if_pos hk, pure_eq] at h
      cases h
      exact ⟨le_refl _, fun d hd => hd, fun m hm => absurd hm (by omega)⟩
    · rw [if_neg hk] at h
      obtain ⟨next, h1, h2⟩ := bind_ok_keeps (keeps_nbOf _ _) h
      cases next with
      | none =>
        simp only at h2
        obtain ⟨u, s1, hi, hp⟩ := bind_ok h2
        rw [pure_eq] at hp
        cases hp
        refine ⟨by omega, fun d hd => ?_, fun m hm => ?_⟩
        · have := ((tri_iff _ _).1 (tri_insert_linked box d cur c cw none) s hd).1
          rw [hi] at this
          exact this
        · have hm0 : m = 0 := by omega
          subst hm0
          have := insert_links (jncRef box) cur c cw none s u _ hi
          simpa using this
      | some nx =>
        simp only at h2
        obtain ⟨ndir, h3, h4⟩ := bind_ok_keeps (keeps_dirOf _) h2
        by_cases ht : (c + cw + 2) % 4 ≠ ndir
        · rw [if_pos ht] at h4
          obtain ⟨u, s1, hi, hl⟩ := bind_ok h4
          obtain ⟨a1, a2, a3⟩ := ih nx ((c + cw) % 4) (k + 1) s1 t v hl
          have hmono : ∀ d, s.linked (jncRef box) d = true → s1.linked (jncRef box) d = true := by
            intro d hd
            have := ((tri_iff _ _).1 (tri_insert_linked box d cur c cw (some nx)) s hd).1
            rw [hi] at this
            exact this
          refine ⟨by omega, fun d hd => a2 d (hmono d hd), fun m hm => ?_⟩
          cases m with
          | zero =>
            have := insert_links (jncRef box) cur c cw (some nx) s u _ hi
            have := a2 _ this
            simpa using this
          | succ m =>
            have := a3 m (by omega)
            have e : ((c + cw) % 4 + cw * (m + 1) + 2) % 4 = (c + cw * (m + 1 + 1) + 2) % 4 := by
              have : cw * (m + 1 + 1) = cw * (m + 1) + cw := by ring
              rw [this]
              omega
            rw [e] at this
            exact this
        · rw [if_neg ht] at h4
          exact ih nx c k s t v h4

/-- Counting the sides linked by the two sweeps: the first sweep, started in direction
`i`, links the sides `(i + m + 3) % 4`, the second the sides `(i + 3 * m + 2) % 4`; with
`v <= 4` insertions in all these are `v` different sides. -/
theorem sides_count (L : Nat → Bool) (i v1 v : Nat) (h0 : 1 ≤ v1) (h1 : v1 ≤ v) (h4 : v ≤ 4)
    (h5 : v1 < 4 → v1 + 1 ≤ v)
    (hs1 : ∀ m, m < v1 → L ((i + 1 * (m + 1) + 2) % 4) = true)
    (hs2 : ∀ m, m < v - v1 → L (((i + 1) % 4 + 3 * (m + 1) + 2) % 4) = true) :
    v ≤ (if L 0 then 1 else 0) + (if L 1 then 1 else 0) + (if L 2 then 1 else 0) +
      (if L 3 then 1 else 0) ∧
    L ((i + 2) % 4) = true ∧ L ((i + 3) % 4) = true := by
  have e1 : ∀ m, (i + 1 * (m + 1) + 2) % 4 = (i % 4 + m + 3) % 4 := by intro m; omega
  have e2 : ∀ m, ((i + 1) % 4 + 3 * (m + 1) + 2) % 4 = (i % 4 + 3 * m + 2) % 4 := by
    intro m; omega
  have e3 : (i + 2) % 4 = (i % 4 + 2) % 4 := by omega
  have e4 : (i + 3) % 4 = (i % 4 + 3) % 4 := by omega
  simp only [e1, e2] at hs1 hs2
  rw [e3, e4]
  have ha : i % 4 < 4 := Nat.mod_lt _ (by decide)
  have hv1 : v1 ≤ 4 := by omega
  generalize i % 4 = a at ha hs1 hs2
  have p0 := hs1 0
  have p1 := hs1 1
  have p2 := hs1 2
  have p3 := hs1 3
  have q0 := hs2 0
  have q1 := hs2 1
  have q2 := hs2 2
  clear hs1 hs2 e1 e2 e3 e4
  interval_cases a <;> interval_cases v1 <;> interval_cases v <;>
    simp at p0 p1 p2 p3 q0 q1 q2 h5 ⊢ <;> (try simp [*]) <;> (try (split_ifs <;> omega))

theorem four_sides (a b c d : Bool)
    (h : 4 ≤ (if a then 1 else 0) + (if b then 1 else 0) + (if c then 1 else 0) +
      (if d then 1 else 0)) : a = true ∧ b = true ∧ c = true ∧ d = true := by
  cases a <;> cases b <;> cases c <;> cases d <;> simp at h ⊢

/-- C20, amended: whenever `Junction_insert(jnc, start)` returns for a center junction
`jnc = &box->jnc`, its counter `inserted` is 2, 3 or 4 and at least `inserted` of the
four sides `jnc.nb[0..3]` are non-null: among them the sides `(initdir + 2) % 4` and
`(initdir + 3) % 4`, where `initdir` is 0 for a center junction `start` and `start->dir`
otherwise, and all four when the counter is 4.  Each of the two sweeps inserts at least
one T-junction and stops at the first null neighbour it meets, so `jnc` is linked on at
least two sides and four links are not guaranteed. -/
theorem C20_inserted_links_sides (fuel box : Nat) (start : JRef) (s t : St) (v : Nat)
    (h : Junction_insert fuel (jncRef box) start s = .ok v t) :
    2 ≤ v ∧ v ≤ 4 ∧ v ≤ t.linkedSides (jncRef box) ∧
    (v = 4 → ∀ d, d < 4 → t.linked (jncRef box) d = true) ∧
    ∃ js, s.junction? start = some js ∧
      t.linked (jncRef box) (((if js.dir = 4 then 0 else js.dir) + 2) % 4) = true ∧
      t.linked (jncRef box) (((if js.dir = 4 then 0 else js.dir) + 3) % 4) = true := by
  unfold Boxnet.Junction_insert at h
  obtain ⟨x, _, h⟩ := bind_ok_keeps (keeps_dirOf _) h
  obtain ⟨_, h⟩ := assert_bind_ok h
  obtain ⟨p0, _, h⟩ := bind_ok_keeps (keeps_posOf _ _) h
  obtain ⟨p1, _, h⟩ := bind_ok_keeps (keeps_posOf _ _) h
  obtain ⟨_, h⟩ := assert_bind_ok h
  obtain ⟨sdir, hsd, h⟩ := bind_ok_keeps (keeps_dirOf _) h
  obtain ⟨js, hjs, hdir⟩ := dirOf_ok hsd
  obtain ⟨_, h⟩ := assert_bind_ok h
  obtain ⟨_, s1, _, h⟩ := bind_ok h
  obtain ⟨_, s2, _, h⟩ := bind_ok h
  obtain ⟨_, s3, _, h⟩ := bind_ok h
  obtain ⟨_, s4, _, h⟩ := bind_ok h
  obtain ⟨v1, s5, hl1, hl2⟩ := bind_ok h
  obtain ⟨_, _, b1⟩ := insert_loop_links box 1 fuel start _ 0 s4 s5 v1 hl1
  obtain ⟨c0, c1, c2⟩ := insert_loop_links box 3 fuel start _ v1 s5 t v hl2
  obtain ⟨d1, d2, _⟩ := (ret_iff _ _).1
    (insert_loop_counter fuel (jncRef box) start (if sdir = 4 then 0 else sdir) 1 0 (by omega))
    s4 v1 s5 hl1
  obtain ⟨f1, f2, f3⟩ := (ret_iff _ _).1
    (insert_loop_counter fuel (jncRef box) start (((if sdir = 4 then 0 else sdir) + 1) % 4) 3 v1
      d1) s5 v t hl2
  have hv1 : 1 ≤ v1 := d2 (by omega)
  have hcount := sides_count (fun d => t.linked (jncRef box) d)
    (if sdir = 4 then 0 else sdir) v1 v hv1 c0 f1 f2
    (fun m hm => c1 _ (b1 m (by omega))) (fun m hm => c2 m hm)
  have hv : 2 ≤ v := by
    by_cases h5 : v1 < 4
    · have := f2 h5; omega
    · have := f3 (by omega); omega
  refine ⟨hv, f1, hcount.1, fun h4 d hd => ?_, js, hjs, ?_⟩
  · have hc := hcount.1
    simp only at hc
    rw [h4] at hc
    obtain ⟨g0, g1, g2, g3⟩ := four_sides _ _ _ _ hc
    interval_cases d
    · exact g0
    · exact g1
    · exact g2
    · exact g3
  · rw [hdir]
    exact hcount.2

/-- Witness for C20 (amended): the center junction of a second box inserted next to the
center junction of the only box of a net. -/
theorem C20_inserted_links_sides_witness :
    Junction_insert 100 (jncRef 1) (jncRef 0) netInsert =
      .ok 2 (Junction_insert 100 (jncRef 1) (jncRef 0) netInsert).state ∧
    2 ≤ 2 ∧ 2 ≤ 4 ∧
    2 ≤ (Junction_insert 100 (jncRef 1) (jncRef 0) netInsert).state.linkedSides (jncRef 1) ∧
    (2 = 4 → ∀ d, d < 4 →
      (Junction_insert 100 (jncRef 1) (jncRef 0) netInsert).state.linked (jncRef 1) d = true) ∧
    ∃ js, netInsert.junction? (jncRef 0) = some js ∧
      (Junction_insert 100 (jncRef 1) (jncRef 0) netInsert).state.linked (jncRef 1)
        (((if js.dir = 4 then 0 else js.dir) + 2) % 4) = true ∧
      (Junction_insert 100 (jncRef 1) (jncRef 0) netInsert).state.linked (jncRef 1)
        (((if js.dir = 4 then 0 else js.dir) + 3) % 4) = true := by
  have h : Junction_insert 100 (jncRef 1) (jncRef 0) netInsert =
      .ok 2 (Junction_insert 100 (jncRef 1) (jncRef 0) netInsert).state := by decide!
  exact ⟨h, C20_inserted_links_sides 100 1 (jncRef 0) netInsert _ 2 h⟩

/-! ## Layouts -/

theorem along_xor (L : Layout) {d : Nat} (hd : d < 4) (r : JRef) :
    L.along (d ^^^ 2) r = - L.along d r := by
  interval_cases d <;> simp [Layout.along]

theorem along_place_same (L : Layout) (r : JRef) {d : Nat} (hd : d < 4) (a : ℚ) :
    (L.place r d a).along d r = a := by
  interval_cases d <;> simp [Layout.along, Layout.place]

theorem along_place_other (L : Layout) (r x : JRef) (d e : Nat) (a : ℚ) (h : x ≠ r) :
    (L.place r d a).along e x = L.along e x := by
  unfold Layout.place Layout.along
  split <;> split <;> simp [h]

theorem along_place_perp (L : Layout) (r x : JRef) {d e : Nat} (hd : d < 4) (he : e < 4)
    (h : e % 2 ≠ d % 2) (a : ℚ) : (L.place r d a).along e x = L.along e x := by
  interval_cases d <;> interval_cases e <;> first | (exact absurd rfl h) | rfl

/-! ## Rewriting the junctions of a state -/

theorem updJ_length (s : St) (r : JRef) (j : Junction) :
    (s.updJ r j).heap.length = s.heap.length := by
  unfold St.updJ
  split
  · split
    · simp
    · rfl
  · rfl

theorem maps_refl (s : St) : Maps (fun _ j => j) s s := by
  refine ⟨rfl, fun r => ?_⟩
  cases s.junction? r <;> rfl

theorem maps_trans {f g : JRef → Junction → Junction} {s t u : St}
    (h1 : Maps f s t) (h2 : Maps g t u) : Maps (fun r j => g r (f r j)) s u := by
  refine ⟨h2.1.trans h1.1, fun r => ?_⟩
  rw [h2.2 r, h1.2 r]
  cases s.junction? r <;> rfl

theorem maps_updJ {s : St} {r : JRef} {j : Junction} (g : Junction → Junction)
    (h : s.junction? r = some j) : Maps (upd r g) s (s.updJ r (g j)) := by
  refine ⟨updJ_length _ _ _, fun r2 => ?_⟩
  rw [junction?_updJ s r r2 _ j h]
  unfold upd
  by_cases e : r2 = r
  · subst e
    rw [if_pos rfl, h]
    simp
  · rw [if_neg e]
    cases s.junction? r2 with
    | none => rfl
    | some j2 => simp [e]

theorem refs_of_length {s t : St} (h : t.heap.length = s.heap.length) : t.refs = s.refs := by
  unfold St.refs
  rw [h]

theorem mem_refs {s : St} {r : JRef} {j : Junction} (h : s.junction? r = some j) :
    r ∈ s.refs := by
  rw [junction?_eq] at h
  unfold St.refs
  simp only [List.mem_flatMap, List.mem_range, List.mem_map]
  cases hb : s.heap[r.box]? with
  | none => rw [hb] at h; cases h
  | some ob =>
    have hlt : r.box < s.heap.length := by
      by_contra hn
      rw [List.getElem?_eq_none (by omega)] at hb
      cases hb
    cases ob with
    | none => rw [hb] at h; cases h
    | some b =>
      rw [hb] at h
      simp only at h
      refine ⟨r.box, hlt, r.slot, ?_, rfl⟩
      unfold Box.getJ at h
      by_cases h4 : r.slot = 4
      · omega
      · rw [if_neg h4] at h
        have := Quad.get_some_lt h
        omega

/-! ## Runs that return -/

theorem runs_pure {α : Type} {s : St} {a : α} {Q : α → St → Prop} (h : Q a s) :
    Runs s (pure a : M α) Q := ⟨a, s, rfl, h⟩

theorem runs_bind {α β : Type} {s : St} {m : M α} {f : α → M β} {Q : β → St → Prop}
    (h : Runs s m (fun a s1 => Runs s1 (f a) Q)) : Runs s (m >>= f) Q := by
  obtain ⟨a, s1, h1, b, t, h2, h3⟩ := h
  refine ⟨b, t, ?_, h3⟩
  rw [bind_eq, h1]
  exact h2

theorem runs_assert {s : St} {c : Bool} {Q : Unit → St → Prop} (hc : c = true)
    (h : Q () s) : Runs s (assert c) Q := by
  subst hc
  exact ⟨(), s, rfl, h⟩

theorem runs_dirOf {s : St} {r : JRef} {j : Junction} {Q : Nat → St → Prop}
    (hj : s.junction? r = some j) (h : Q j.dir s) : Runs s (dirOf r) Q :=
  ⟨j.dir, s, dirOf_some hj, h⟩

theorem runs_beamOf {s : St} {r : JRef} {j : Junction} {Q : Nat → St → Prop}
    (hj : s.junction? r = some j) (h : Q j.beamdir s) : Runs s (beamOf r) Q :=
  ⟨j.beamdir, s, beamOf_some hj, h⟩

theorem runs_nbOf {s : St} {r : JRef} {j : Junction} {d : Nat} {v : Option JRef}
    {Q : Option JRef → St → Prop} (hj : s.junction? r = some j) (hd : j.nb.get d = some v)
    (h : Q v s) : Runs s (nbOf r d) Q :=
  ⟨v, s, nbOf_some hj hd, h⟩

theorem posOf_zero {s : St} {r : JRef} {j : Junction} (hj : s.junction? r = some j) :
    posOf r 0 s = .ok j.pos0 s := by
  unfold posOf
  rw [bind_eq, getJ_some hj]
  rfl

theorem posOf_one {s : St} {r : JRef} {j : Junction} (hj : s.junction? r = some j) :
    posOf r 1 s = .ok j.pos1 s := by
  unfold posOf
  rw [bind_eq, getJ_some hj]
  rfl

theorem runs_posOf_zero {s : St} {r : JRef} {j : Junction} {Q : Option Nat → St → Prop}
    (hj : s.junction? r = some j) (h : Q j.pos0 s) : Runs s (posOf r 0) Q :=
  ⟨j.pos0, s, posOf_zero hj, h⟩

theorem runs_posOf_one {s : St} {r : JRef} {j : Junction} {Q : Option Nat → St → Prop}
    (hj : s.junction? r = some j) (h : Q j.pos1 s) : Runs s (posOf r 1) Q :=
  ⟨j.pos1, s, posOf_one hj, h⟩

theorem runs_rayendRef {s : St} {b k : Nat} {Q : JRef → St → Prop} (hk : k < 4)
    (h : Q ⟨b, k⟩ s) : Runs s (rayendRef (some b) k) Q := by
  refine ⟨⟨b, k⟩, s, ?_, h⟩
  unfold rayendRef
  rw [bind_eq]
  simp only [nonNull, if_pos hk]
  rfl

theorem runs_modJ {s : St} {r : JRef} {j : Junction} {g : Junction → Junction}
    {Q : Unit → St → Prop} (hj : s.junction? r = some j)
    (h : ∀ t, Maps (upd r g) s t → Q () t) : Runs s (modJ r g) Q :=
  ⟨(), s.updJ r (g j), modJ_some hj, h _ (maps_updJ g hj)⟩

theorem runs_setNb {s : St} {r : JRef} {j : Junction} {d : Nat} {v : Option JRef}
    {Q : Unit → St → Prop} (hd : d < 4) (hj : s.junction? r = some j)
    (h : ∀ t, Maps (upd r (Junction.link d v)) s t → Q () t) : Runs s (setNb r d v) Q := by
  unfold setNb
  rw [if_pos hd]
  exact runs_modJ hj h

theorem runs_setDir {s : St} {r : JRef} {j : Junction} {v : Nat}
    {Q : Unit → St → Prop} (hj : s.junction? r = some j)
    (h : ∀ t, Maps (upd r (fun j => { j with dir := v })) s t → Q () t) :
    Runs s (setDir r v) Q := by
  unfold setDir
  exact runs_modJ hj h

theorem runs_setBeam {s : St} {r : JRef} {j : Junction} {v : Nat}
    {Q : Unit → St → Prop} (hj : s.junction? r = some j)
    (h : ∀ t, Maps (upd r (fun j => { j with beamdir := v })) s t → Q () t) :
    Runs s (setBeam r v) Q := by
  unfold setBeam
  exact runs_modJ hj h

theorem runs_mono {α : Type} {s : St} {m : M α} {Q Q2 : α → St → Prop} (h : Runs s m Q)
    (hq : ∀ a t, Q a t → Q2 a t) : Runs s m Q2 := by
  obtain ⟨a, t, h1, h2⟩ := h
  exact ⟨a, t, h1, hq a t h2⟩

theorem maps_some {f : JRef → Junction → Junction} {s t : St} {r : JRef} {j : Junction}
    (h : Maps f s t) (hj : s.junction? r = some j) : t.junction? r = some (f r j) := by
  rw [h.2 r, hj]
  rfl

theorem maps_upd_ne {r0 : JRef} {g : Junction → Junction} {s t : St} {r : JRef}
    (h : Maps (upd r0 g) s t) (hne : r ≠ r0) : t.junction? r = s.junction? r := by
  rw [h.2 r]
  cases s.junction? r with
  | none => rfl
  | some j => simp [upd, hne]

theorem maps_upd_same {r0 : JRef} {g : Junction → Junction} {s t : St} {j : Junction}
    (h : Maps (upd r0 g) s t) (hj : s.junction? r0 = some j) :
    t.junction? r0 = some (g j) := by
  rw [h.2 r0, hj]
  simp [upd]

theorem runs_insert_beam {s : St} {new cur : JRef} {jn jc : Junction} (cdir c : Nat)
    (hn : s.junction? new = some jn) (hc : s.junction? cur = some jc) :
    Runs s (if cdir = 4 then setBeam new c
        else if c = cdir then setBeam new (c ^^^ 2)
        else do setBeam new (← beamOf cur))
      (fun _ t => ∃ v, Maps (upd new (fun j => { j with beamdir := v })) s t) := by
  split
  · exact runs_setBeam hn (fun t ht => ⟨_, ht⟩)
  · split
    · exact runs_setBeam hn (fun t ht => ⟨_, ht⟩)
    · exact runs_bind (runs_beamOf hc (runs_setBeam hn (fun t ht => ⟨_, ht⟩)))

theorem runs_insert_pos {s : St} {new cur : JRef} {jn jc : Junction} (c : Nat)
    (hn : s.junction? new = some jn) (hc : s.junction? cur = some jc) :
    Runs s (if c % 2 = 0 then do setPos new 0 (← posOf cur 0)
        else do setPos new 1 (← posOf cur 1))
      (fun _ t => ∃ g : Junction → Junction, (∀ j, (g j).dir = j.dir) ∧
        Maps (upd new g) s t) := by
  split
  · refine runs_bind (runs_posOf_zero hc ?_)
    unfold setPos
    rw [if_pos rfl]
    exact runs_modJ hn (fun t ht => ⟨fun j => { j with pos0 := jc.pos0 }, fun _ => rfl, ht⟩)
  · refine runs_bind (runs_posOf_one hc ?_)
    unfold setPos
    rw [if_neg (by decide), if_pos rfl]
    exact runs_modJ hn (fun t ht => ⟨fun j => { j with pos1 := jc.pos1 }, fun _ => rfl, ht⟩)

theorem runs_insert_back {s : St} {new : JRef} (next : Option JRef) {d : Nat} (hd : d < 4)
    (hx : ∀ nx, next = some nx → ∃ jx, s.junction? nx = some jx) :
    Runs s (match next with
        | some nx => setNb nx d (some new)
        | none => pure ())
      (fun _ t => Maps (fun r j => if some r = next then Junction.link d (some new) j else j)
        s t) := by
  cases next with
  | none =>
    refine runs_pure ⟨rfl, fun r => ?_⟩
    cases s.junction? r <;> simp
  | some nx =>
    obtain ⟨jx, hjx⟩ := hx nx rfl
    refine runs_setNb hd hjx (fun t ht => ⟨ht.1, fun r => ?_⟩)
    rw [ht.2 r]
    cases s.junction? r with
    | none => rfl
    | some j => simp [upd]

theorem maps_exists {f : JRef → Junction → Junction} {s t : St} {r : JRef}
    (h : Maps f s t) (hj : ∃ j, s.junction? r = some j) : ∃ j, t.junction? r = some j := by
  obtain ⟨j, hj⟩ := hj
  exact ⟨_, maps_some h hj⟩

theorem turn_ne (c cw : Nat) (hc : c < 4) (hcw : cw = 1 ∨ cw = 3) :
    (c + cw) % 4 ≠ c ∧ (c + cw) % 4 ≠ c ^^^ 2 ∧ c ≠ c ^^^ 2 ∧
    (c + cw + 2) % 4 ≠ c ∧ (c + cw + 2) % 4 ≠ c ^^^ 2 ∧
    ((c + cw) % 4) ^^^ 2 = (c + cw + 2) % 4 := by
  rcases hcw with h | h <;> subst h <;> interval_cases c <;> decide

/-- From a state in which the junctions involved exist, `insert()` returns, and it has
spliced the new T-junction into the link from `cur` to `next`. -/
theorem insert_runs (next : Option JRef) {s : St} {jnc cur : JRef} {c cw p : Nat}
    {jj jn jc : Junction} (hc4 : c < 4) (hcw : cw = 1 ∨ cw = 3)
    (hjj : s.junction? jnc = some jj) (hp : jj.pos0 = some p)
    (hn : s.junction? ⟨p, (c + cw) % 4⟩ = some jn)
    (hc : s.junction? cur = some jc)
    (hx : ∀ nx, next = some nx → ∃ jx, s.junction? nx = some jx)
    (e1 : jnc ≠ ⟨p, (c + cw) % 4⟩) (e2 : cur ≠ ⟨p, (c + cw) % 4⟩)
    (e3 : ∀ nx, next = some nx → nx ≠ ⟨p, (c + cw) % 4⟩) :
    Runs s (Junction_insert.insert jnc cur c cw next)
      (fun _ t => Spliced s t jnc cur c ((c + cw) % 4) ((c + cw + 2) % 4) next
        ⟨p, (c + cw) % 4⟩) := by
  have ht4 : (c + cw) % 4 < 4 := Nat.mod_lt _ (by decide)
  have hs4 : (c + cw + 2) % 4 < 4 := Nat.mod_lt _ (by decide)
  have hx4 : c ^^^ 2 < 4 := xor_two_lt_four hc4
  obtain ⟨t1, t2, t3, _, _, _⟩ := turn_ne c cw hc4 hcw
  unfold Junction_insert.insert
  refine runs_bind (runs_posOf_zero hjj ?_)
  beta_reduce
  rw [hp]
  refine runs_bind (runs_rayendRef ht4 ?_)
  beta_reduce
  generalize (c + cw) % 4 = tdir at *
  generalize (c + cw + 2) % 4 = side at *
  generalize hnew : (⟨p, tdir⟩ : JRef) = new at *
  refine runs_bind (runs_setDir hn (fun s1 m1 => ?_))
  have n1 := maps_upd_same m1 hn
  have c1 : s1.junction? cur = some jc := (maps_upd_ne m1 e2).trans hc
  refine runs_bind (runs_dirOf c1 ?_)
  refine runs_bind (runs_mono (runs_insert_beam jc.dir c n1 c1) (fun _ s2 ⟨v, m2⟩ => ?_))
  have n2 := maps_upd_same m2 n1
  have c2 : s2.junction? cur = some jc := (maps_upd_ne m2 e2).trans c1
  refine runs_bind (runs_mono (runs_insert_pos c n2 c2) (fun _ s3 ⟨g, hg, m3⟩ => ?_))
  have n3 := maps_upd_same m3 n2
  have c3 : s3.junction? cur = some jc := (maps_upd_ne m3 e2).trans c2
  refine runs_bind (runs_setNb hx4 n3 (fun s4 m4 => ?_))
  have n4 := maps_upd_same m4 n3
  have c4 : s4.junction? cur = some jc := (maps_upd_ne m4 e2).trans c3
  refine runs_bind (runs_setNb hc4 c4 (fun s5 m5 => ?_))
  have n5 := (maps_upd_ne m5 (Ne.symm e2)).trans n4
  refine runs_bind (runs_setNb hc4 n5 (fun s6 m6 => ?_))
  have n6 := maps_upd_same m6 n5
  have x6 : ∀ nx, next = some nx → ∃ jx, s6.junction? nx = some jx := fun nx hnx =>
    maps_exists m6 (maps_exists m5 (maps_exists m4 (maps_exists m3 (maps_exists m2
      (maps_exists m1 (hx nx hnx))))))
  refine runs_bind (runs_mono (runs_insert_back next hx4 x6) (fun _ s7 m7 => ?_))
  have n67 : s7.junction? new = s6.junction? new := by
    rw [m7.2 new]
    have : ¬ (some new = next) := fun e => e3 new e.symm rfl
    simp only [if_neg this]
    cases s6.junction? new <;> rfl
  have n7 := n67.trans n6
  refine runs_bind (runs_setNb ht4 n7 (fun s8 m8 => ?_))
  have n8 := maps_upd_same m8 n7
  have j8 : ∃ j8, s8.junction? jnc = some j8 :=
    maps_exists m8 (maps_exists m7 (maps_exists m6 (maps_exists m5 (maps_exists m4
      (maps_exists m3 (maps_exists m2 (maps_exists m1 ⟨_, hjj⟩)))))))
  obtain ⟨j8, hj8⟩ := j8
  refine runs_setNb hs4 hj8 (fun s9 m9 => ?_)
  refine ⟨?_, fun r hr => ?_, _, (maps_upd_ne m9 (Ne.symm e1)).trans n8, ?_, ?_, ?_, ?_⟩
  · rw [m9.1, m8.1, m7.1, m6.1, m5.1, m4.1, m3.1, m2.1, m1.1]
  · rw [m9.2 r, maps_upd_ne m8 hr, m7.2 r, maps_upd_ne m6 hr, m5.2 r, maps_upd_ne m4 hr,
      maps_upd_ne m3 hr, maps_upd_ne m2 hr, maps_upd_ne m1 hr]
    cases s.junction? r <;> rfl
  · show (g _).dir = tdir
    rw [hg]
  · show ((((g _).nb.set (c ^^^ 2) (some cur)).set c next).set tdir (some jnc)).get (c ^^^ 2) = _
    rw [Quad.get_set_ne _ _ _ _ t2, Quad.get_set_ne _ _ _ _ t3, Quad.get_set_same _ _ _ hx4]
  · show ((((g _).nb.set (c ^^^ 2) (some cur)).set c next).set tdir (some jnc)).get c = _
    rw [Quad.get_set_ne _ _ _ _ t1, Quad.get_set_same _ _ _ hc4]
  · show ((((g _).nb.set (c ^^^ 2) (some cur)).set c next).set tdir (some jnc)).get tdir = _
    rw [Quad.get_set_same _ _ _ ht4]

theorem Quad.get_set {α : Type} (q : Quad α) (i k : Nat) (v : α) (h : i < 4) :
    (q.set i v).get k = if i = k then some v else q.get k := by
  by_cases e : i = k
  · subst e
    rw [if_pos rfl, Quad.get_set_same _ _ _ h]
  · rw [if_neg e, Quad.get_set_ne _ _ _ _ e]

/-- What a splice leaves of a junction other than the new one: its `dir`, its anchor
`pos[0]`, and every link except the three that now lead to the new junction. -/
theorem spliced_other {s t : St} {jnc cur : JRef} {c tdir side : Nat} {next : Option JRef}
    {new : JRef} (h : Spliced s t jnc cur c tdir side next new) (hc : c < 4)
    (hs : side < 4) {r : JRef} {j : Junction} (hr : r ≠ new) (hj : s.junction? r = some j) :
    ∃ j2, t.junction? r = some j2 ∧ j2.dir = j.dir ∧ j2.pos0 = j.pos0 ∧
      ∀ d, d < 4 → j2.nb.get d =
        if (r = cur ∧ d = c) ∨ (some r = next ∧ d = c ^^^ 2) ∨ (r = jnc ∧ d = side)
        then some (some new) else j.nb.get d := by
  have hx : c ^^^ 2 < 4 := xor_two_lt_four hc
  rw [h.2.1 r hr, hj]
  refine ⟨_, rfl, ?_, ?_, ?_⟩
  · unfold upd Junction.link
    split_ifs <;> rfl
  · unfold upd Junction.link
    split_ifs <;> rfl
  · intro d hd
    generalize c ^^^ 2 = c2 at hx ⊢
    unfold upd Junction.link
    split_ifs <;> simp only [Quad.get_set _ _ _ _ hc, Quad.get_set _ _ _ _ hs,
      Quad.get_set _ _ _ _ hx] <;> (try split_ifs) <;>
      first | rfl | (exfalso; omega) | (exfalso; simp_all; done) | (exfalso; simp_all; omega) |
        (exfalso; tauto)

theorem spliced_none {s t : St} {jnc cur : JRef} {c tdir side : Nat} {next : Option JRef}
    {new : JRef} (h : Spliced s t jnc cur c tdir side next new) {r : JRef} (hr : r ≠ new)
    (hj : s.junction? r = none) : t.junction? r = none := by
  rw [h.2.1 r hr, hj]
  rfl

theorem spliced_live {s t : St} {jnc cur : JRef} {c tdir side : Nat} {next : Option JRef}
    {new : JRef} (h : Spliced s t jnc cur c tdir side next new) (hc : c < 4)
    (hs : side < 4) (ht : tdir ≤ 4) {r : JRef} (hl : s.live r) : t.live r := by
  by_cases hr : r = new
  · subst hr
    obtain ⟨j, hj, hd, _⟩ := h.2.2
    exact ⟨j, hj, by omega⟩
  · obtain ⟨j, hj, hd⟩ := hl
    obtain ⟨j2, h1, h2, _⟩ := spliced_other h hc hs hr hj
    exact ⟨j2, h1, by omega⟩

theorem four_dirs {c tdir d : Nat} (hc : c < 4) (ht : tdir < 4) (hp : tdir % 2 ≠ c % 2)
    (hd : d < 4) : d = c ∨ d = c ^^^ 2 ∨ d = tdir ∨ d = tdir ^^^ 2 := by
  interval_cases c <;> interval_cases tdir <;> interval_cases d <;> simp at hp ⊢

theorem xor_xor_two {d : Nat} (hd : d < 4) : (d ^^^ 2) ^^^ 2 = d := by
  interval_cases d <;> rfl

/-- A splice into a net that respects a layout gives a net that respects a layout: the
new T-junction is placed between `cur` and `next` and beside the center junction. -/
theorem lay_spliced {s t : St} {L : Layout} {jnc cur : JRef} {c tdir side : Nat}
    {next : Option JRef} {new : JRef} {jc jn : Junction}
    (hL : Lay s L) (h : Spliced s t jnc cur c tdir side next new)
    (hc : c < 4) (ht : tdir < 4) (hp : tdir % 2 ≠ c % 2) (hside : tdir ^^^ 2 = side)
    (hjc : s.junction? cur = some jc) (hcl : jc.dir ≤ 4) (hcr : jc.dir ≠ c ^^^ 2)
    (hnx : jc.nb.get c = some next)
    (hjn : s.junction? new = some jn) (hdead : 4 < jn.dir)
    (hjj : s.live jnc) :
    ∃ L2, Lay t L2 := by
  have hs : side < 4 := hside ▸ xor_two_lt_four ht
  have hx : c ^^^ 2 < 4 := xor_two_lt_four hc
  have hne : ∀ r, s.live r → r ≠ new := by
    intro r hr e
    obtain ⟨j, hj, hd⟩ := hr
    rw [e, hjn] at hj
    cases hj
    omega
  have hcur : s.live cur := ⟨jc, hjc, hcl⟩
  have hnext : ∀ nx, next = some nx → s.live nx ∧ L.along c cur < L.along c nx := by
    intro nx e
    rw [e] at hnx
    exact hL cur jc c nx hjc hcl hc hcr hnx
  obtain ⟨A, hA1, hA2⟩ : ∃ A : ℚ, L.along c cur < A ∧
      ∀ nx, next = some nx → A < L.along c nx := by
    cases hn : next with
    | none => exact ⟨L.along c cur + 1, by linarith, fun nx e => by cases e⟩
    | some nx =>
      have := (hnext nx hn).2
      exact ⟨(L.along c cur + L.along c nx) / 2, by linarith,
        fun nx2 e => by cases e; linarith⟩
  obtain ⟨B, hB⟩ : ∃ B : ℚ, B < L.along tdir jnc := ⟨L.along tdir jnc - 1, by linarith⟩
  have a_other : ∀ e x, x ≠ new →
      ((L.place new c A).place new tdir B).along e x = L.along e x := by
    intro e x hx
    rw [along_place_other _ _ _ _ _ _ hx, along_place_other _ _ _ _ _ _ hx]
  have a_c : ((L.place new c A).place new tdir B).along c new = A := by
    rw [along_place_perp _ _ _ ht hc (Ne.symm hp), along_place_same _ _ hc]
  have a_t : ((L.place new c A).place new tdir B).along tdir new = B := by
    rw [along_place_same _ _ ht]
  refine ⟨(L.place new c A).place new tdir B, ?_⟩
  generalize (L.place new c A).place new tdir B = L2 at a_other a_c a_t
  have a_c2 : L2.along (c ^^^ 2) new = - A := by rw [along_xor _ hc, a_c]
  have a_t2 : L2.along (tdir ^^^ 2) new = - B := by rw [along_xor _ ht, a_t]
  intro r j2 d y hj2 hl hd hreal hnb
  by_cases hr : r = new
  · subst hr
    obtain ⟨jn2, hjn2, hdir, hb1, hb2, hb3⟩ := h.2.2
    rw [hjn2] at hj2
    cases hj2
    rcases four_dirs hc ht hp hd with e | e | e | e
    · subst e
      rw [hb2] at hnb
      have hy : next = some y := by
        cases hnb
        rfl
      obtain ⟨ly, hlt⟩ := hnext y hy
      refine ⟨spliced_live h hc hs (by omega) ly, ?_⟩
      rw [a_c, a_other _ _ (hne y ly)]
      exact hA2 y hy
    · subst e
      rw [hb1] at hnb
      cases hnb
      refine ⟨spliced_live h hc hs (by omega) hcur, ?_⟩
      rw [a_c2, a_other _ _ (hne _ hcur), along_xor _ hc]
      linarith
    · subst e
      rw [hb3] at hnb
      cases hnb
      refine ⟨spliced_live h hc hs (by omega) hjj, ?_⟩
      rw [a_t, a_other _ _ (hne _ hjj)]
      exact hB
    · exfalso
      apply hreal
      rw [hdir, e, xor_xor_two ht]
  · cases hj : s.junction? r with
    | none =>
      rw [spliced_none h hr hj] at hj2
      cases hj2
    | some j =>
      obtain ⟨j3, h1, h2, _, h4⟩ := spliced_other h hc hs hr hj
      rw [h1] at hj2
      cases hj2
      rw [h2] at hl hreal
      have hnew : t.live new := by
        obtain ⟨jn2, hjn2, hdir, _⟩ := h.2.2
        exact ⟨jn2, hjn2, by omega⟩
      rw [h4 d hd] at hnb
      by_cases s1 : r = cur ∧ d = c
      · rw [if_pos (Or.inl s1)] at hnb
        cases hnb
        obtain ⟨rfl, rfl⟩ := s1
        refine ⟨hnew, ?_⟩
        rw [a_c, a_other _ _ hr]
        exact hA1
      · by_cases s2 : some r = next ∧ d = c ^^^ 2
        · rw [if_pos (Or.inr (Or.inl s2))] at hnb
          cases hnb
          obtain ⟨e1, rfl⟩ := s2
          refine ⟨hnew, ?_⟩
          rw [a_c2, a_other _ _ hr, along_xor _ hc]
          have := hA2 r e1.symm
          linarith
        · by_cases s3 : r = jnc ∧ d = side
          · rw [if_pos (Or.inr (Or.inr s3))] at hnb
            cases hnb
            obtain ⟨rfl, rfl⟩ := s3
            refine ⟨hnew, ?_⟩
            rw [← hside, a_t2, a_other _ _ hr, along_xor _ ht]
            linarith
          · rw [if_neg (by tauto)] at hnb
            obtain ⟨ly, hlt⟩ := hL r j d y hj hl hd hreal hnb
            refine ⟨spliced_live h hc hs (by omega) ly, ?_⟩
            rw [a_other _ _ hr, a_other _ _ (hne y ly)]
            exact hlt

theorem kept_refl (s : St) : Kept s s := ⟨rfl, fun _ j hj _ => ⟨j, hj, rfl, rfl⟩⟩

theorem kept_trans {s t u : St} (h1 : Kept s t) (h2 : Kept t u) : Kept s u := by
  refine ⟨h2.1.trans h1.1, fun r j hj hd => ?_⟩
  obtain ⟨j2, a1, a2, a3⟩ := h1.2 r j hj hd
  obtain ⟨j3, b1, b2, b3⟩ := h2.2 r j2 a1 (by omega)
  exact ⟨j3, b1, b2.trans a2, b3.trans a3⟩

theorem kept_spliced {s t : St} {jnc cur : JRef} {c tdir side : Nat} {next : Option JRef}
    {new : JRef} {jn : Junction} (h : Spliced s t jnc cur c tdir side next new) (hc : c < 4)
    (hs : side < 4) (hjn : s.junction? new = some jn) (hdead : 4 < jn.dir) : Kept s t := by
  refine ⟨h.1, fun r j hj hd => ?_⟩
  have hr : r ≠ new := by
    intro e
    rw [e, hjn] at hj
    cases hj
    omega
  obtain ⟨j2, a1, a2, a3, _⟩ := spliced_other h hc hs hr hj
  exact ⟨j2, a1, a2, a3⟩

theorem ahead_le (s : St) (L : Layout) (d : Nat) (r : JRef) : s.ahead L d r ≤ s.refs.length :=
  List.length_filter_le _ _

theorem ahead_lt (s : St) (L : Layout) (d : Nat) {r y : JRef} {jy : Junction}
    (hy : s.junction? y = some jy) (h : L.along d r < L.along d y) :
    s.ahead L d y < s.ahead L d r := by
  unfold St.ahead
  have e : s.refs.filter (fun x => decide (L.along d y < L.along d x)) =
      (s.refs.filter (fun x => decide (L.along d r < L.along d x))).filter
        (fun x => decide (L.along d y < L.along d x)) := by
    rw [List.filter_filter]
    congr 1
    funext x
    by_cases hx : L.along d y < L.along d x
    · have : L.along d r < L.along d x := lt_trans h hx
      simp [hx, this]
    · simp [hx]
  rw [e]
  apply List.length_filter_lt_length_iff_exists.2
  refine ⟨y, ?_, ?_⟩
  · rw [List.mem_filter]
    exact ⟨mem_refs hy, by simp [h]⟩
  · simp

theorem turn_step (c cw m : Nat) (hcw : cw = 1 ∨ cw = 3) :
    ((c + cw) % 4 + cw * m) % 4 = (c + cw * (m + 1)) % 4 := by
  rcases hcw with h | h <;> subst h <;> omega

theorem turn_fresh (c cw m : Nat) (hcw : cw = 1 ∨ cw = 3) (h1 : 2 ≤ m) (h2 : m ≤ 4) :
    (c + cw * m) % 4 ≠ (c + cw) % 4 := by
  rcases hcw with h | h <;> subst h <;> omega

theorem loop_done (n : Nat) (jnc cur : JRef) (c cw : Nat) (s : St) :
    Junction_insert.loop (n + 1) jnc cur c cw 4 s = .ok 4 s := by
  unfold Junction_insert.loop
  rfl

theorem loop_last (n : Nat) {jnc cur : JRef} {c cw k : Nat} {s s1 : St} {jc : Junction}
    {u : Unit} (hk : k ≠ 4) (hjc : s.junction? cur = some jc) (hnx : jc.nb.get c = some none)
    (hi : Junction_insert.insert jnc cur c cw none s = .ok u s1) :
    Junction_insert.loop (n + 1) jnc cur c cw k s = .ok (k + 1) s1 := by
  unfold Junction_insert.loop
  rw [if_neg hk, bind_eq, nbOf_some hjc hnx]
  simp only
  rw [bind_eq, hi]
  rfl

theorem loop_turn (n : Nat) {jnc cur nx : JRef} {c cw k : Nat} {s s1 : St}
    {jc jx : Junction} {u : Unit} (hk : k ≠ 4) (hjc : s.junction? cur = some jc)
    (hnx : jc.nb.get c = some (some nx)) (hjx : s.junction? nx = some jx)
    (ht : (c + cw + 2) % 4 ≠ jx.dir)
    (hi : Junction_insert.insert jnc cur c cw (some nx) s = .ok u s1) :
    Junction_insert.loop (n + 1) jnc cur c cw k s =
      Junction_insert.loop n jnc nx ((c + cw) % 4) cw (k + 1) s1 := by
  conv_lhs => unfold Junction_insert.loop
  rw [if_neg hk, bind_eq, nbOf_some hjc hnx]
  simp only
  rw [bind_eq, dirOf_some hjx]
  simp only
  rw [if_pos ht, bind_eq, hi]

theorem loop_skip (n : Nat) {jnc cur nx : JRef} {c cw k : Nat} {s : St}
    {jc jx : Junction} (hk : k ≠ 4) (hjc : s.junction? cur = some jc)
    (hnx : jc.nb.get c = some (some nx)) (hjx : s.junction? nx = some jx)
    (ht : (c + cw + 2) % 4 = jx.dir) :
    Junction_insert.loop (n + 1) jnc cur c cw k s =
      Junction_insert.loop n jnc nx c cw k s := by
  conv_lhs => unfold Junction_insert.loop
  rw [if_neg hk, bind_eq, nbOf_some hjc hnx]
  simp only
  rw [bind_eq, dirOf_some hjx]
  simp only
  rw [if_neg (fun h => h ht)]

theorem fuel_turn (k N a a2 n : Nat) (hk : k < 4) (hf : (4 - k) * (N + 1) + a + 1 ≤ n + 1)
    (ha : a2 ≤ N) : (4 - (k + 1)) * (N + 1) + a2 + 1 ≤ n := by
  interval_cases k <;> simp at hf ⊢ <;> omega

/-- One insertion of a sweep: in a net that respects a layout, with the slot
`(c + cw) % 4` of the new box detached, `insert()` returns; nothing is allocated or
freed, the junctions in use keep their `dir`, the other detached slots stay detached, and
the net still respects a layout. -/
theorem insert_step {p cw : Nat} (hcw : cw = 1 ∨ cw = 3) {s : St} {L : Layout} {cur : JRef}
    {c : Nat} {jj jc jn : Junction} {next : Option JRef} (hL : Lay s L) (hc : c < 4)
    (hjj : s.junction? (jncRef p) = some jj) (hjd : jj.dir = 4) (hjp : jj.pos0 = some p)
    (hjc : s.junction? cur = some jc) (hcl : jc.dir ≤ 4) (hcr : jc.dir ≠ c ^^^ 2)
    (hnx : jc.nb.get c = some next)
    (hjn : s.junction? ⟨p, (c + cw) % 4⟩ = some jn) (hjnd : 4 < jn.dir) :
    ∃ u s1, Junction_insert.insert (jncRef p) cur c cw next s = .ok u s1 ∧ Kept s s1 ∧
      (∃ L2, Lay s1 L2) ∧
      ∀ q jq, s.junction? ⟨p, q⟩ = some jq → 4 < jq.dir → q ≠ (c + cw) % 4 →
        ∃ jq2, s1.junction? ⟨p, q⟩ = some jq2 ∧ 4 < jq2.dir := by
  obtain ⟨t1, t2, t3, t4, t5, t6⟩ := turn_ne c cw hc hcw
  have ht4 : (c + cw) % 4 < 4 := Nat.mod_lt _ (by decide)
  have hs4 : (c + cw + 2) % 4 < 4 := Nat.mod_lt _ (by decide)
  have hperp : ((c + cw) % 4) % 2 ≠ c % 2 := by
    rcases hcw with h | h <;> subst h <;> omega
  have hne : ∀ r, s.live r → r ≠ ⟨p, (c + cw) % 4⟩ := by
    intro r hr e
    obtain ⟨j, hj, hd⟩ := hr
    rw [e, hjn] at hj
    cases hj
    omega
  have hjl : s.live (jncRef p) := ⟨jj, hjj, by omega⟩
  have hcl2 : s.live cur := ⟨jc, hjc, hcl⟩
  have hnext : ∀ nx, next = some nx → s.live nx := by
    intro nx e
    rw [e] at hnx
    exact (hL cur jc c nx hjc hcl hc hcr hnx).1
  obtain ⟨u, s1, hi, hsp⟩ := insert_runs next hc hcw hjj hjp hjn hjc
    (fun nx e => by
      obtain ⟨jx, hjx, _⟩ := hnext nx e
      exact ⟨jx, hjx⟩)
    (hne _ hjl) (hne _ hcl2) (fun nx e => hne _ (hnext nx e))
  refine ⟨u, s1, hi, kept_spliced hsp hc hs4 hjn hjnd,
    lay_spliced hL hsp hc ht4 hperp t6 hjc hcl hcr hnx hjn hjnd hjl, ?_⟩
  intro q jq hq hd hne2
  have : (⟨p, q⟩ : JRef) ≠ ⟨p, (c + cw) % 4⟩ := by
    intro e
    cases e
    exact hne2 rfl
  obtain ⟨j2, a1, a2, _⟩ := spliced_other hsp hc hs4 this hq
  exact ⟨j2, a1, by omega⟩

/-- One sweep of `Junction_insert` returns when it is started in a net that respects a
layout, at a junction in use that it does not leave through its ended side, with the
ray-end slots that it may still use detached, and with enough fuel: every step either
inserts (at most four times in all) or moves strictly ahead in the layout. -/
theorem insert_loop_runs (p cw : Nat) (hcw : cw = 1 ∨ cw = 3) :
    ∀ (fuel : Nat) (s : St) (L : Layout) (cur : JRef) (c k : Nat),
    Lay s L → c < 4 → k ≤ 4 →
    (∃ jj, s.junction? (jncRef p) = some jj ∧ jj.dir = 4 ∧ jj.pos0 = some p) →
    (∃ jc, s.junction? cur = some jc ∧ jc.dir ≤ 4 ∧ jc.dir ≠ c ^^^ 2) →
    (∀ m, 1 ≤ m → m ≤ 4 - k →
      ∃ jn, s.junction? ⟨p, (c + cw * m) % 4⟩ = some jn ∧ 4 < jn.dir) →
    (4 - k) * (s.refs.length + 1) + s.ahead L c cur + 1 ≤ fuel →
    ∃ v t, Junction_insert.loop fuel (jncRef p) cur c cw k s = .ok v t ∧
      Kept s t ∧ k ≤ v ∧ v ≤ 4 ∧ (∃ L2, Lay t L2) ∧
      ∀ q jn, s.junction? ⟨p, q⟩ = some jn → 4 < jn.dir →
        (∀ m, 1 ≤ m → m ≤ v - k → q ≠ (c + cw * m) % 4) →
        ∃ jn2, t.junction? ⟨p, q⟩ = some jn2 ∧ 4 < jn2.dir := by
  intro fuel
  induction fuel with
  | zero =>
    intro s L cur c k _ _ _ _ _ _ hf
    exact absurd hf (by omega)
  | succ n ih =>
    intro s L cur c k hL hc hk hjnc hcur hdead hf
    by_cases hk4 : k = 4
    · subst hk4
      exact ⟨4, s, loop_done n _ _ _ _ _, kept_refl s, le_refl _, le_refl _, ⟨L, hL⟩,
        fun q jn hq hd _ => ⟨jn, hq, hd⟩⟩
    · obtain ⟨jj, hjj, hjd, hjp⟩ := hjnc
      obtain ⟨jc, hjc, hcl, hcr⟩ := hcur
      obtain ⟨next, hnx⟩ := Quad.get_of_lt jc.nb hc
      obtain ⟨jn, hjn, hjnd⟩ := hdead 1 (le_refl _) (by omega)
      rw [Nat.mul_one] at hjn
      have hm1 : ∀ (v : Nat) (q : Nat), k + 1 ≤ v →
          (∀ m, 1 ≤ m → m ≤ v - k → q ≠ (c + cw * m) % 4) → q ≠ (c + cw) % 4 := by
        intro v q hv hm
        have := hm 1 (le_refl _) (by omega)
        rwa [Nat.mul_one] at this
      cases next with
      | none =>
        obtain ⟨u, s1, hi, hk1, hL1, hd1⟩ :=
          insert_step hcw hL hc hjj hjd hjp hjc hcl hcr hnx hjn hjnd
        refine ⟨k + 1, s1, loop_last n hk4 hjc hnx hi, hk1, by omega, by omega, hL1,
          fun q jq hq hd hm => ?_⟩
        exact hd1 q jq hq hd (hm1 (k + 1) q (le_refl _) hm)
      | some nx =>
        obtain ⟨⟨jx, hjx, hxl⟩, hlt⟩ := hL cur jc c nx hjc hcl hc hcr hnx
        by_cases ht : (c + cw + 2) % 4 = jx.dir
        · rw [loop_skip n hk4 hjc hnx hjx ht]
          have hfuel : (4 - k) * (s.refs.length + 1) + s.ahead L c nx + 1 ≤ n := by
            have := ahead_lt s L c hjx hlt
            omega
          exact ih s L nx c k hL hc hk ⟨jj, hjj, hjd, hjp⟩
            ⟨jx, hjx, hxl, by rw [← ht]; exact (turn_ne c cw hc hcw).2.2.2.2.1⟩ hdead hfuel
        · obtain ⟨u, s1, hi, hk1, ⟨L2, hL2⟩, hd1⟩ :=
            insert_step hcw hL hc hjj hjd hjp hjc hcl hcr hnx hjn hjnd
          rw [loop_turn n hk4 hjc hnx hjx ht hi]
          obtain ⟨jx2, hx1, hx2, _⟩ := hk1.2 nx jx hjx hxl
          obtain ⟨jj2, hj1, hj2, hj3⟩ := hk1.2 _ jj hjj (by omega)
          have hfuel : (4 - (k + 1)) * (s1.refs.length + 1) + s1.ahead L2 ((c + cw) % 4) nx + 1
              ≤ n := by
            rw [refs_of_length hk1.1]
            refine fuel_turn k _ _ _ n (by omega) hf ?_
            rw [← refs_of_length hk1.1]
            exact ahead_le s1 L2 _ nx
          have hreal : jx2.dir ≠ ((c + cw) % 4) ^^^ 2 := by
            rw [hx2, (turn_ne c cw hc hcw).2.2.2.2.2]
            exact fun e => ht e.symm
          have hdead2 : ∀ m, 1 ≤ m → m ≤ 4 - (k + 1) →
              ∃ jn, s1.junction? ⟨p, ((c + cw) % 4 + cw * m) % 4⟩ = some jn ∧ 4 < jn.dir := by
            intro m hm1 hm2
            rw [turn_step c cw m hcw]
            obtain ⟨jq, hq, hqd⟩ := hdead (m + 1) (by omega) (by omega)
            exact hd1 _ jq hq hqd (turn_fresh c cw (m + 1) hcw (by omega) (by omega))
          obtain ⟨v, t, hl, a1, a2, a3, a4, a5⟩ := ih s1 L2 nx ((c + cw) % 4) (k + 1) hL2
            (Nat.mod_lt _ (by decide)) (by omega) ⟨jj2, hj1, by omega, by rw [hj3, hjp]⟩
            ⟨jx2, hx1, by omega, hreal⟩ hdead2 hfuel
          refine ⟨v, t, hl, kept_trans hk1 a1, by omega, a3, a4, fun q jq hq hd hm => ?_⟩
          obtain ⟨jq2, b1, b2⟩ := hd1 q jq hq hd (hm1 v q a2 hm)
          exact a5 q jq2 b1 b2 (fun m hm1 hm2 => by
            rw [turn_step c cw m hcw]
            exact hm (m + 1) (by omega) (by omega))

theorem kept_of_maps {f : JRef → Junction → Junction} {s t : St} (h : Maps f s t)
    (hf : ∀ r j, (f r j).dir = j.dir ∧ (f r j).pos0 = j.pos0) : Kept s t :=
  ⟨h.1, fun r j hj _ => ⟨f r j, maps_some h hj, (hf r j).1, (hf r j).2⟩⟩

theorem kept_live {s t : St} (h : Kept s t) {r : JRef} (hl : s.live r) : t.live r := by
  obtain ⟨j, hj, hd⟩ := hl
  obtain ⟨j2, a1, a2, _⟩ := h.2 r j hj hd
  exact ⟨j2, a1, by omega⟩

theorem fuel_sweep (v N a fuel : Nat) (ha : a ≤ N) (hf : 5 * (N + 1) ≤ fuel) :
    (4 - v) * (N + 1) + a + 1 ≤ fuel := by
  have : (4 - v) * (N + 1) ≤ 4 * (N + 1) := Nat.mul_le_mul_right _ (by omega)
  omega

theorem sweep_fresh (i v1 m m2 : Nat) (h1 : 1 ≤ m) (h2 : m ≤ 4 - v1) (h3 : 1 ≤ m2)
    (h4 : m2 ≤ v1 - 0) : ((i + 1) % 4 + 3 * m) % 4 ≠ (i + 1 * m2) % 4 := by
  omega

/-- The routine `Junction_insert` returns when the center junction of a box whose four ray-ends are
detached is inserted next to a junction in use of a net that respects a layout, with
fuel `5 * (n + 1)` for `n` junction pointers into the heap; the net it leaves respects a
layout again, and the junctions in use have kept their `dir`. -/
theorem Junction_insert_runs (fuel p : Nat) (start : JRef) (s : St) (L : Layout)
    {jj js : Junction}
    (hjj : s.junction? (jncRef p) = some jj) (hjd : jj.dir = 4) (hp0 : jj.pos0 = some p)
    (hp1 : jj.pos1 = some p)
    (hdead : ∀ q, q < 4 → ∃ jn, s.junction? ⟨p, q⟩ = some jn ∧ 4 < jn.dir)
    (hL : ∀ r j d y, r ≠ jncRef p → s.junction? r = some j → j.dir ≤ 4 → d < 4 →
      j.dir ≠ d ^^^ 2 → j.nb.get d = some (some y) →
      s.live y ∧ L.along d r < L.along d y)
    (hjs : s.junction? start = some js) (hsd : js.dir ≤ 4)
    (hf : 5 * (s.refs.length + 1) ≤ fuel) :
    ∃ v t, Junction_insert fuel (jncRef p) start s = .ok v t ∧ Kept s t ∧ ∃ L2, Lay t L2 := by
  show Runs s (Junction_insert fuel (jncRef p) start) (fun _ t => Kept s t ∧ ∃ L2, Lay t L2)
  unfold Boxnet.Junction_insert
  refine runs_bind (runs_dirOf hjj ?_)
  refine runs_bind (runs_assert (by simp [hjd]) ?_)
  refine runs_bind (runs_posOf_zero hjj ?_)
  refine runs_bind (runs_posOf_one hjj ?_)
  refine runs_bind (runs_assert (by simp [hp0, hp1]) ?_)
  refine runs_bind (runs_dirOf hjs ?_)
  refine runs_bind (runs_assert (by simp [hsd]) ?_)
  refine runs_bind (runs_setNb (by decide) hjj (fun s1 m1 => ?_))
  refine runs_bind (runs_setNb (by decide) (maps_upd_same m1 hjj) (fun s2 m2 => ?_))
  refine runs_bind (runs_setNb (by decide) (maps_upd_same m2 (maps_upd_same m1 hjj))
    (fun s3 m3 => ?_))
  refine runs_bind (runs_setNb (by decide)
    (maps_upd_same m3 (maps_upd_same m2 (maps_upd_same m1 hjj))) (fun s4 m4 => ?_))
  have hj4 := maps_upd_same m4 (maps_upd_same m3 (maps_upd_same m2 (maps_upd_same m1 hjj)))
  have hk4 : Kept s s4 := by
    refine kept_trans (kept_trans (kept_trans (kept_of_maps m1 ?_) (kept_of_maps m2 ?_))
      (kept_of_maps m3 ?_)) (kept_of_maps m4 ?_) <;>
    · intro r j
      unfold upd Junction.link
      split_ifs <;> exact ⟨rfl, rfl⟩
  have hne4 : ∀ r, r ≠ jncRef p → s4.junction? r = s.junction? r := fun r hr => by
    rw [maps_upd_ne m4 hr, maps_upd_ne m3 hr, maps_upd_ne m2 hr, maps_upd_ne m1 hr]
  have hL4 : Lay s4 L := by
    intro r j d y hj hl hd hreal hnb
    by_cases hr : r = jncRef p
    · rw [hr, hj4] at hj
      cases hj
      exfalso
      interval_cases d <;> simp [Junction.link, Quad.get, Quad.set] at hnb
    · rw [hne4 r hr] at hj
      obtain ⟨ly, hlt⟩ := hL r j d y hr hj hl hd hreal hnb
      exact ⟨kept_live hk4 ly, hlt⟩
  have hdead4 : ∀ q, q < 4 → ∃ jn, s4.junction? ⟨p, q⟩ = some jn ∧ 4 < jn.dir := by
    intro q hq
    rw [hne4 _ (by intro e; cases e; omega)]
    exact hdead q hq
  have hi4 : (if js.dir = 4 then 0 else js.dir) < 4 := by
    split <;> omega
  have hr1 : js.dir ≠ (if js.dir = 4 then 0 else js.dir) ^^^ 2 := by
    by_cases h4 : js.dir = 4
    · rw [if_pos h4, h4]
      decide
    · rw [if_neg h4]
      exact (xor_two_ne _).symm
  have hr2 : js.dir ≠ (((if js.dir = 4 then 0 else js.dir) + 1) % 4) ^^^ 2 := by
    rw [(turn_ne _ 1 hi4 (Or.inl rfl)).2.2.2.2.2]
    by_cases h4 : js.dir = 4
    · rw [if_pos h4, h4]
      decide
    · rw [if_neg h4]
      omega
  obtain ⟨js4, hs4a, hs4b, _⟩ := hk4.2 start js hjs hsd
  obtain ⟨v1, s5, hl1, k5, _, hv1, ⟨L5, hL5⟩, d5⟩ := insert_loop_runs p 1 (Or.inl rfl) fuel s4 L
    start (if js.dir = 4 then 0 else js.dir) 0 hL4 hi4 (by omega)
    ⟨_, hj4, hjd, hp0⟩ ⟨js4, hs4a, by omega, by rw [hs4b]; exact hr1⟩
    (fun m _ _ => hdead4 _ (Nat.mod_lt _ (by decide)))
    (fuel_sweep 0 _ _ fuel (ahead_le _ _ _ _) (by rw [refs_of_length hk4.1]; exact hf))
  refine runs_bind ⟨v1, s5, hl1, ?_⟩
  obtain ⟨jj5, hj5, hj5d, hj5p⟩ := k5.2 _ _ hj4 (by simp [Junction.link, hjd])
  obtain ⟨js5, hs5a, hs5b, _⟩ := k5.2 start js4 hs4a (by omega)
  obtain ⟨v, t, hl2, kt, _, _, hLt, _⟩ := insert_loop_runs p 3 (Or.inr rfl) fuel s5 L5
    start (((if js.dir = 4 then 0 else js.dir) + 1) % 4) v1 hL5 (Nat.mod_lt _ (by decide)) hv1
    ⟨jj5, hj5, by rw [hj5d]; exact hjd, by rw [hj5p]; exact hp0⟩
    ⟨js5, hs5a, by omega, by rw [hs5b, hs4b]; exact hr2⟩
    (fun m hm1 hm2 => by
      obtain ⟨jn, hjn, hjnd⟩ := hdead4 ((((if js.dir = 4 then 0 else js.dir) + 1) % 4 + 3 * m) % 4)
        (Nat.mod_lt _ (by decide))
      exact d5 _ jn hjn hjnd (fun m2 h3 h4 => sweep_fresh _ v1 m m2 hm1 hm2 h3 h4))
    (fuel_sweep v1 _ _ fuel (ahead_le _ _ _ _)
      (by rw [refs_of_length k5.1, refs_of_length hk4.1]; exact hf))
  exact ⟨v, t, hl2, kept_trans hk4 (kept_trans k5 kt), hLt⟩

/-! ## `Boxnet_addbox` on a net that respects a layout -/

theorem junction?_lt {s : St} {r : JRef} {j : Junction} (h : s.junction? r = some j) :
    r.box < s.heap.length := by
  rw [junction?_eq] at h
  by_contra hn
  rw [List.getElem?_eq_none (by omega)] at h
  cases h

theorem junction?_alloc_lt (s : St) (x y right top : ℚ) (usrdata : Nat) {r : JRef}
    (h : r.box < s.heap.length) :
    (s.alloc x y right top usrdata).junction? r = s.junction? r := by
  rw [junction?_eq, junction?_eq]
  unfold St.alloc
  simp only
  rw [List.getElem?_append_left h]

theorem junction?_alloc_new (s : St) (x y right top : ℚ) (usrdata : Nat) (k : Nat) :
    (s.alloc x y right top usrdata).junction? ⟨s.heap.length, k⟩ =
      (freshBox s.heap.length x y right top usrdata).getJ k := by
  rw [junction?_eq]
  unfold St.alloc
  simp

theorem junction?_alloc_le (s : St) (x y right top : ℚ) (usrdata : Nat) {r : JRef}
    {j : Junction} (h : (s.alloc x y right top usrdata).junction? r = some j) :
    r.box ≤ s.heap.length := by
  have := junction?_lt h
  unfold St.alloc at this
  simp at this
  omega

theorem refs_length (s : St) : s.refs.length = 5 * s.heap.length := by
  unfold St.refs
  generalize s.heap.length = n
  induction n with
  | zero => rfl
  | succ n ih =>
    rw [List.range_succ, List.flatMap_append, List.length_append, ih]
    simp
    omega

theorem lay_of_check {s : St} {L : Layout} (h : s.layCheck L = true) : Lay s L := by
  intro r j d y hj hl hd hreal hnb
  unfold St.layCheck at h
  rw [List.all_eq_true] at h
  have h1 := h r (mem_refs hj)
  rw [hj] at h1
  simp only [Bool.or_eq_true, decide_eq_true_eq, List.all_eq_true, List.mem_range] at h1
  rcases h1 with h1 | h1
  · omega
  · rcases h1 d hd with h2 | h2
    · exact absurd h2 hreal
    · rw [hnb] at h2
      simp only at h2
      cases hy : s.junction? y with
      | none =>
        rw [hy] at h2
        cases h2
      | some jy =>
        rw [hy] at h2
        simp only [Bool.and_eq_true, decide_eq_true_eq] at h2
        exact ⟨⟨jy, hy, h2.1⟩, h2.2⟩

/-- The state in which `Boxnet_addbox` returns once `Junction_insert` has returned. -/
theorem addbox_state (fuel : Nat) (x y right top : ℚ) (near : Option Nat) (usrdata : Nat)
    (s : St) (hv : right ≥ x ∧ top ≥ y) (nr : Nat) (hnr : addboxNear s near = some nr)
    {v : Nat} {t1 : St}
    (hr : Junction_insert fuel (jncRef s.heap.length) (jncRef nr)
      (s.alloc x y right top usrdata) = .ok v t1) :
    Boxnet_addbox fuel x y right top near usrdata s =
      .ok s.heap.length { t1 with boxes := t1.boxes ++ [s.heap.length] } := by
  rw [addbox_alloc fuel x y right top near usrdata s hv, hnr]
  simp only
  rw [bind_eq, bind_eq, hr]
  simp only [pure_eq]
  rw [bind_eq]
  simp only [getBoxes]
  rw [bind_eq]
  simp only [setBoxes, pure_eq]

/-- The fresh cell of `Boxnet_addbox` and a net that respects a layout: the insertion of
the new center junction next to the center junction of a contained box returns, and the
net with the new box is again a net of this kind. -/
theorem addbox_net (fuel : Nat) (x y right top : ℚ) (usrdata : Nat) (s : St) (nr : Nat)
    (hN : Net s) (hnr : nr ∈ s.boxes) (hf : 25 * s.heap.length + 30 ≤ fuel) :
    ∃ v t1, Junction_insert fuel (jncRef s.heap.length) (jncRef nr)
        (s.alloc x y right top usrdata) = .ok v t1 ∧
      ∀ bs, (∀ q ∈ bs, q ∈ s.boxes ∨ q = s.heap.length) → Net { t1 with boxes := bs } := by
  obtain ⟨⟨L, hL⟩, hB⟩ := hN
  obtain ⟨js, hjs, hjsd⟩ := hB nr hnr
  have hnew : (s.alloc x y right top usrdata).junction? (jncRef s.heap.length) =
      some (freshBox s.heap.length x y right top usrdata).jnc :=
    junction?_alloc_new s x y right top usrdata 4
  have hold : ∀ r j, s.junction? r = some j →
      (s.alloc x y right top usrdata).junction? r = some j := fun r j hj => by
    rw [junction?_alloc_lt s x y right top usrdata (junction?_lt hj)]
    exact hj
  obtain ⟨v, t1, hr, hk, L2, hL2⟩ := Junction_insert_runs fuel s.heap.length (jncRef nr)
    (s.alloc x y right top usrdata) L hnew rfl rfl rfl
    (fun q hq => by
      rw [junction?_alloc_new]
      interval_cases q <;> exact ⟨_, rfl, by simp [freshBox, Box_new.rayend, Junction.blank]⟩)
    (fun r j d z hr hj hl hd hreal hnb => by
      rcases Nat.lt_or_ge r.box s.heap.length with hlt | hge
      · rw [junction?_alloc_lt s x y right top usrdata hlt] at hj
        obtain ⟨⟨jy, hjy, hyd⟩, hlt2⟩ := hL r j d z hj hl hd hreal hnb
        exact ⟨⟨jy, hold z jy hjy, hyd⟩, hlt2⟩
      · exfalso
        have hle := junction?_alloc_le s x y right top usrdata hj
        have hb : r.box = s.heap.length := by omega
        obtain ⟨b, k⟩ := r
        simp only at hb
        subst hb
        rw [junction?_alloc_new] at hj
        have hk4 : k ≠ 4 := fun e => hr (by rw [e]; rfl)
        unfold Box.getJ at hj
        rw [if_neg hk4] at hj
        have hk := Quad.get_some_lt hj
        unfold freshBox Quad.get Box_new.rayend at hj
        interval_cases k <;> simp at hj <;> rw [← hj] at hl <;> simp at hl)
    (hold _ js hjs) (by omega)
    (by
      rw [refs_length]
      unfold St.alloc
      simp
      omega)
  refine ⟨v, t1, hr, fun bs hbs => ⟨⟨L2, hL2⟩, fun q hq => ?_⟩⟩
  rcases hbs q hq with h1 | h1
  · obtain ⟨j, hj, hjd⟩ := hB q h1
    obtain ⟨j2, a1, a2, _⟩ := hk.2 _ j (hold _ j hj) (by omega)
    exact ⟨j2, a1, by omega⟩
  · subst h1
    obtain ⟨j2, a1, a2, _⟩ := hk.2 _ _ hnew (Nat.le_refl 4)
    exact ⟨j2, a1, by rw [a2]; rfl⟩

/-- A coordinate edit through a box handle leaves the junctions alone: the net stays a
net that respects its layout. -/
theorem net_edit (p : Nat) (x y right top : ℚ) (s t : St) (hN : Net s)
    (h : modBox p (fun b => { b with posx := x, posy := y, right := right, top := top }) s =
      .ok () t) : Net t := by
  obtain ⟨b0, hb, hbox, _⟩ := modBox_ok h
  have hb2 : t.boxes = s.boxes := by
    unfold modBox at h
    obtain ⟨b, s1, h1, h2⟩ := bind_ok h
    obtain ⟨_, e⟩ := getBox_ok h1
    subst e
    unfold setBox at h2
    split at h2
    · cases h2
      rfl
    · cases h2
  have hj : ∀ r, t.junction? r = s.junction? r := by
    intro r
    unfold St.junction?
    rw [hbox r.box]
    by_cases e : r.box = p
    · rw [if_pos e, e, hb]
      rfl
    · rw [if_neg e]
  obtain ⟨⟨L, hL⟩, hB⟩ := hN
  refine ⟨⟨L, fun r j d z h1 hl hd hreal hnb => ?_⟩, fun q hq => ?_⟩
  · rw [hj r] at h1
    obtain ⟨⟨jy, hjy, hyd⟩, hlt⟩ := hL r j d z h1 hl hd hreal hnb
    exact ⟨⟨jy, (hj z).trans hjy, hyd⟩, hlt⟩
  · rw [hb2] at hq
    obtain ⟨j, h1, h2⟩ := hB q hq
    exact ⟨j, (hj _).trans h1, h2⟩

/-! ## Symmetric links whose chains end can be laid out -/

theorem run_mono (s : St) (d : Nat) : ∀ (n : Nat) (r : JRef) (k : Nat),
    s.run d n r = some k → s.run d (n + 1) r = some k := by
  intro n
  induction n with
  | zero =>
    intro r k h
    cases h
  | succ n ih =>
    intro r k h
    unfold St.run at h ⊢
    cases hs : s.step d r with
    | none =>
      rw [hs] at h
      exact h
    | some y =>
      rw [hs] at h
      simp only at h ⊢
      cases hr : s.run d n y with
      | none =>
        rw [hr] at h
        cases h
      | some k2 =>
        rw [hr] at h
        rw [ih y k2 hr]
        exact h

theorem run_step (s : St) (d n : Nat) {r y : JRef} {k : Nat} (hs : s.step d r = some y)
    (h : s.run d (n + 1) r = some k) : ∃ k2, k = k2 + 1 ∧ s.run d (n + 1) y = some k2 := by
  unfold St.run at h
  rw [hs] at h
  simp only at h
  cases hr : s.run d n y with
  | none =>
    rw [hr] at h
    cases h
  | some k2 =>
    rw [hr] at h
    cases h
    exact ⟨k2, rfl, run_mono s d n y k2 hr⟩

theorem chains_along (s : St) {d : Nat} (hd : d < 4) (r : JRef) :
    s.chains.along d r =
      (((s.run (d ^^^ 2) (s.refs.length + 1) r).getD 0 : Nat) : ℚ) -
        (((s.run d (s.refs.length + 1) r).getD 0 : Nat) : ℚ) := by
  interval_cases d <;> simp [St.chains, Layout.along]

theorem step_some {s : St} {d : Nat} {r y : JRef} (h : s.step d r = some y) :
    ∃ j, s.junction? r = some j ∧ j.dir ≤ 4 := by
  unfold St.step at h
  cases hj : s.junction? r with
  | none =>
    rw [hj] at h
    cases h
  | some j =>
    rw [hj] at h
    simp only at h
    split at h
    · exact ⟨j, rfl, by tauto⟩
    · cases h

/-- A net whose links are symmetric and whose chains of links end respects a layout: the
one that places every junction by the lengths of the chains that leave it. -/
theorem net_of_links {s : St} (h : s.linksCheck = true) : Net s := by
  unfold St.linksCheck at h
  rw [Bool.and_eq_true, List.all_eq_true, List.all_eq_true] at h
  obtain ⟨h1, h2⟩ := h
  have key : ∀ r j d, s.junction? r = some j → d < 4 →
      (∀ y, s.step d r = some y → s.step (d ^^^ 2) y = some r) ∧
      ∃ k, s.run d (s.refs.length + 1) r = some k := by
    intro r j d hj hd
    have := h1 r (mem_refs hj)
    rw [List.all_eq_true] at this
    have := this d (List.mem_range.2 hd)
    rw [Bool.and_eq_true] at this
    refine ⟨fun y hy => ?_, ?_⟩
    · have a := this.1
      rw [hy] at a
      simpa using a
    · exact Option.isSome_iff_exists.1 this.2
  refine ⟨⟨s.chains, ?_⟩, fun p hp => ?_⟩
  · intro r j d y hj hl hd hreal hnb
    have hd2 : d ^^^ 2 < 4 := xor_two_lt_four hd
    have hs : s.step d r = some y := by
      unfold St.step
      rw [hj]
      simp only
      rw [if_pos ⟨hl, hreal⟩, hnb]
      rfl
    obtain ⟨hb, a, ha⟩ := key r j d hj hd
    have hback := hb y hs
    obtain ⟨jy, hjy, hyl⟩ := step_some hback
    obtain ⟨_, b, hb2⟩ := key y jy (d ^^^ 2) hjy hd2
    obtain ⟨a2, ea, ha2⟩ := run_step s d _ hs ha
    obtain ⟨b2, eb, hb3⟩ := run_step s (d ^^^ 2) _ hback hb2
    refine ⟨⟨jy, hjy, hyl⟩, ?_⟩
    rw [chains_along s hd, chains_along s hd, ha, ha2, hb2, hb3, ea, eb]
    simp only [Option.getD_some]
    push_cast
    linarith
  · have := h2 p hp
    cases hj : s.junction? (jncRef p) with
    | none =>
      rw [hj] at this
      cases this
    | some j =>
      rw [hj] at this
      exact ⟨j, rfl, by simpa using this⟩

theorem net_of_check {s : St} {L : Layout} (h : s.netCheck L = true) : Net s := by
  unfold St.netCheck at h
  rw [Bool.and_eq_true, List.all_eq_true] at h
  refine ⟨⟨L, lay_of_check h.1⟩, fun p hp => ?_⟩
  have := h.2 p hp
  cases hj : s.junction? (jncRef p) with
  | none =>
    rw [hj] at this
    cases this
  | some j =>
    rw [hj] at this
    exact ⟨j, rfl, by simpa using this⟩

theorem net_new : Net Boxnet_new :=
  ⟨⟨⟨fun _ => 0, fun _ => 0⟩, fun r j d y hj => by
    rw [junction?_eq] at hj
    simp [Boxnet_new] at hj⟩, fun p hp => by simp [Boxnet_new] at hp⟩

/-- The first box of a net: the state that `Boxnet_addbox` returns for an empty
container is a net that respects the layout of the net before. -/
theorem net_first (x y right top : ℚ) (usrdata : Nat) (s : St) (hN : Net s)
    (he : s.boxes = []) :
    Net { s with heap := s.heap ++ [some (freshBox s.heap.length x y right top usrdata)],
                 boxes := s.boxes ++ [s.heap.length] } := by
  obtain ⟨⟨L, hL⟩, _⟩ := hN
  have hold : ∀ r j, s.junction? r = some j →
      (s.alloc x y right top usrdata).junction? r = some j := fun r j hj => by
    rw [junction?_alloc_lt s x y right top usrdata (junction?_lt hj)]
    exact hj
  refine ⟨⟨L, ?_⟩, fun q hq => ?_⟩
  · intro r j d z hj hl hd hreal hnb
    change (s.alloc x y right top usrdata).junction? r = some j at hj
    rcases Nat.lt_or_ge r.box s.heap.length with hlt | hge
    · rw [junction?_alloc_lt s x y right top usrdata hlt] at hj
      obtain ⟨⟨jy, hjy, hyd⟩, hlt2⟩ := hL r j d z hj hl hd hreal hnb
      exact ⟨⟨jy, hold z jy hjy, hyd⟩, hlt2⟩
    · exfalso
      have hle := junction?_alloc_le s x y right top usrdata hj
      have hb : r.box = s.heap.length := by omega
      obtain ⟨b, k⟩ := r
      simp only at hb
      subst hb
      rw [junction?_alloc_new] at hj
      unfold Box.getJ at hj
      by_cases hk4 : k = 4
      · rw [if_pos hk4] at hj
        cases hj
        interval_cases d <;> simp [freshBox, Junction.blank, Quad.get] at hnb
      · rw [if_neg hk4] at hj
        have hk := Quad.get_some_lt hj
        unfold freshBox Quad.get Box_new.rayend at hj
        interval_cases k <;> simp at hj <;> rw [← hj] at hl <;> simp at hl
  · rw [he] at hq
    simp only [List.nil_append, List.mem_singleton] at hq
    subst hq
    exact ⟨_, junction?_alloc_new s x y right top usrdata 4, rfl⟩

/-- C7 (`Boxnet_addbox`).  With `p` the address of the new cell:
(1) if `right < x` or `top < y` the call fails on its assertion and the container is
unchanged;
(2) if `right >= x`, `top >= y`, the net is empty and `near` is absent, the call returns
`p` and the state is the old one with the container `[p]` and the new cell holding the
box with the given coordinates and user data, center junction of `dir` 4 anchored at
the box itself (`pos[0] = pos[1] = p`) with all four neighbours null, and all four
ray-ends of `dir` 5; the state is a net again;
(3) if `right >= x`, `top >= y`, the state is a net (its links respect a layout and its
contained boxes have center junctions), the starting box (`near`, or the first contained
box) is a contained box and the fuel is at least `25 * n + 30` for a heap of `n` cells,
the call returns: it returns `p`, the container is the old one with `p` appended at the
end, the box at `p` has the given coordinates and user data and a center junction of
`dir` 4 with `pos[0] = pos[1] = p`, and the state is a net again;
(4) in every state with `right >= x`, `top >= y` and a starting box, the call returns
exactly when `Junction_insert` returns, with the results of (3) except the last, and if
`Junction_insert` fails the call fails in the same way with the container unchanged. -/
theorem C7_addbox_net (fuel : Nat) (x y right top : ℚ) (near : Option Nat) (usrdata : Nat)
    (s : St) :
    (¬ (right ≥ x ∧ top ≥ y) →
      (Boxnet_addbox fuel x y right top near usrdata s).err? = some .assertion ∧
      (Boxnet_addbox fuel x y right top near usrdata s).state.boxes = s.boxes) ∧
    (right ≥ x ∧ top ≥ y → s.boxes = [] → near = none →
      Boxnet_addbox fuel x y right top near usrdata s =
        .ok s.heap.length
          { s with heap := s.heap ++ [some (freshBox s.heap.length x y right top usrdata)],
                   boxes := s.boxes ++ [s.heap.length] } ∧
      (freshBox s.heap.length x y right top usrdata).jnc.nb = ⟨none, none, none, none⟩ ∧
      (freshBox s.heap.length x y right top usrdata).jnc.dir = 4 ∧
      (freshBox s.heap.length x y right top usrdata).jnc.pos0 = some s.heap.length ∧
      (freshBox s.heap.length x y right top usrdata).jnc.pos1 = some s.heap.length ∧
      (∀ k j, (freshBox s.heap.length x y right top usrdata).rayend.get k = some j →
        j.dir = 5) ∧
      (Net s →
        Net { s with heap := s.heap ++ [some (freshBox s.heap.length x y right top usrdata)],
                     boxes := s.boxes ++ [s.heap.length] })) ∧
    (right ≥ x ∧ top ≥ y → ∀ nr, addboxNear s near = some nr → nr ∈ s.boxes → Net s →
      25 * s.heap.length + 30 ≤ fuel →
      ∃ t b, Boxnet_addbox fuel x y right top near usrdata s = .ok s.heap.length t ∧
        t.boxes = s.boxes ++ [s.heap.length] ∧ t.box? s.heap.length = some b ∧
        b.posx = x ∧ b.posy = y ∧ b.right = right ∧ b.top = top ∧ b.usrdata = usrdata ∧
        b.jnc.dir = 4 ∧ b.jnc.pos0 = some s.heap.length ∧
        b.jnc.pos1 = some s.heap.length ∧ Net t) ∧
    (right ≥ x ∧ top ≥ y → ∀ nr, addboxNear s near = some nr →
      ((Junction_insert fuel (jncRef s.heap.length) (jncRef nr)
          (s.alloc x y right top usrdata)).err? = none →
        ∃ t b, Boxnet_addbox fuel x y right top near usrdata s = .ok s.heap.length t ∧
          t.boxes = s.boxes ++ [s.heap.length] ∧ t.box? s.heap.length = some b ∧
          b.posx = x ∧ b.posy = y ∧ b.right = right ∧ b.top = top ∧ b.usrdata = usrdata ∧
          b.jnc.dir = 4 ∧ b.jnc.pos0 = some s.heap.length ∧
          b.jnc.pos1 = some s.heap.length) ∧
      (∀ e, (Junction_insert fuel (jncRef s.heap.length) (jncRef nr)
          (s.alloc x y right top usrdata)).err? = some e →
        (Boxnet_addbox fuel x y right top near usrdata s).err? = some e ∧
        (Boxnet_addbox fuel x y right top near usrdata s).state.boxes = s.boxes)) := by
  refine ⟨fun hv => addbox_assert fuel x y right top near usrdata s hv, ?_, ?_, ?_⟩
  · intro hv he hn
    subst hn
    refine ⟨?_, rfl, rfl, rfl, rfl, ?_, fun hN => net_first x y right top usrdata s hN he⟩
    · rw [addbox_singleton fuel x y right top usrdata s hv he, he]
      rfl
    · intro k j hk
      unfold freshBox Quad.get at hk
      simp only at hk
      split at hk
      all_goals first
        | (cases hk; unfold Box_new.rayend; split <;> rfl)
        | (cases hk)
  · intro hv nr hnr hmem hN hf
    obtain ⟨v, t1, hr, hnet⟩ := addbox_net fuel x y right top usrdata s nr hN hmem hf
    have hok : (Junction_insert fuel (jncRef s.heap.length) (jncRef nr)
        (s.alloc x y right top usrdata)).err? = none := by
      rw [hr]
      rfl
    obtain ⟨t, b, h1, h2, h3⟩ :=
      (addbox_linked fuel x y right top near usrdata s hv nr hnr).1 hok
    refine ⟨t, b, h1, h2, h3.1, h3.2.1, h3.2.2.1, h3.2.2.2.1, h3.2.2.2.2.1, h3.2.2.2.2.2.1,
      h3.2.2.2.2.2.2.1, h3.2.2.2.2.2.2.2.1, h3.2.2.2.2.2.2.2.2, ?_⟩
    rw [addbox_state fuel x y right top near usrdata s hv nr hnr hr] at h1
    cases h1
    refine hnet _ (fun q hq => ?_)
    simp only at h2
    rw [h2] at hq
    simpa using hq
  · intro hv nr hnr
    exact addbox_linked fuel x y right top near usrdata s hv nr hnr

/-- Witness for C7: an invalid box, the first box of a fresh net, a fourth box added to
the repaired net of scenario S1 (which respects the layout given by its coordinates), a
fourth box added near the unrepaired third box of `netSwap` (whose links are symmetric
and end), and a second box added to the net of one box. -/
theorem C7_addbox_net_witness :
    (¬ ((0 : ℚ) ≥ 1 ∧ (1 : ℚ) ≥ 0) ∧
      (Boxnet_addbox 100 1 0 0 1 none 7 Boxnet_new).err? = some .assertion ∧
      (Boxnet_addbox 100 1 0 0 1 none 7 Boxnet_new).state.boxes = Boxnet_new.boxes) ∧
    (((1 : ℚ) ≥ 0 ∧ (1 : ℚ) ≥ 0) ∧ Boxnet_new.boxes = [] ∧ Net Boxnet_new ∧
      Boxnet_addbox 100 0 0 1 1 none 7 Boxnet_new =
        .ok Boxnet_new.heap.length
          { Boxnet_new with
            heap := Boxnet_new.heap ++ [some (freshBox Boxnet_new.heap.length 0 0 1 1 7)],
            boxes := Boxnet_new.boxes ++ [Boxnet_new.heap.length] } ∧
      Net { Boxnet_new with
            heap := Boxnet_new.heap ++ [some (freshBox Boxnet_new.heap.length 0 0 1 1 7)],
            boxes := Boxnet_new.boxes ++ [Boxnet_new.heap.length] }) ∧
    (((6 : ℚ) ≥ 4 ∧ (6 : ℚ) ≥ 4) ∧ addboxNear netS1 none = some 0 ∧ 0 ∈ netS1.boxes ∧
      Net netS1 ∧ 25 * netS1.heap.length + 30 ≤ 200 ∧
      ∃ t b, Boxnet_addbox 200 4 4 6 6 none 9 netS1 = .ok netS1.heap.length t ∧
        t.boxes = netS1.boxes ++ [netS1.heap.length] ∧
        t.box? netS1.heap.length = some b ∧
        b.posx = 4 ∧ b.posy = 4 ∧ b.right = 6 ∧ b.top = 6 ∧ b.usrdata = 9 ∧
        b.jnc.dir = 4 ∧ b.jnc.pos0 = some netS1.heap.length ∧
        b.jnc.pos1 = some netS1.heap.length ∧ Net t) ∧
    (((6 : ℚ) ≥ 4 ∧ (6 : ℚ) ≥ 4) ∧ addboxNear netSwap (some 2) = some 2 ∧
      2 ∈ netSwap.boxes ∧ Net netSwap ∧ 25 * netSwap.heap.length + 30 ≤ 200 ∧
      ∃ t b, Boxnet_addbox 200 4 4 6 6 (some 2) 9 netSwap = .ok netSwap.heap.length t ∧
        t.boxes = netSwap.boxes ++ [netSwap.heap.length] ∧
        t.box? netSwap.heap.length = some b ∧
        b.posx = 4 ∧ b.posy = 4 ∧ b.right = 6 ∧ b.top = 6 ∧ b.usrdata = 9 ∧
        b.jnc.dir = 4 ∧ b.jnc.pos0 = some netSwap.heap.length ∧
        b.jnc.pos1 = some netSwap.heap.length ∧ Net t) ∧
    (((3 : ℚ) ≥ 2 ∧ (3 : ℚ) ≥ 2) ∧ addboxNear netOne none = some 0 ∧
      (Junction_insert 100 (jncRef netOne.heap.length) (jncRef 0)
        (netOne.alloc 2 2 3 3 8)).err? = none ∧
      ∃ t b, Boxnet_addbox 100 2 2 3 3 none 8 netOne = .ok netOne.heap.length t ∧
        t.boxes = netOne.boxes ++ [netOne.heap.length] ∧
        t.box? netOne.heap.length = some b ∧
        b.posx = 2 ∧ b.posy = 2 ∧ b.right = 3 ∧ b.top = 3 ∧ b.usrdata = 8 ∧
        b.jnc.dir = 4 ∧ b.jnc.pos0 = some netOne.heap.length ∧
        b.jnc.pos1 = some netOne.heap.length) := by
  have hbad : ¬ ((0 : ℚ) ≥ 1 ∧ (1 : ℚ) ≥ 0) := by norm_num
  have hok1 : (1 : ℚ) ≥ 0 ∧ (1 : ℚ) ≥ 0 := by norm_num
  have hok2 : (3 : ℚ) ≥ 2 ∧ (3 : ℚ) ≥ 2 := by norm_num
  have hok3 : (6 : ℚ) ≥ 4 ∧ (6 : ℚ) ≥ 4 := by norm_num
  have hnear : addboxNear netOne none = some 0 := by decide!
  have hins : (Junction_insert 100 (jncRef netOne.heap.length) (jncRef 0)
      (netOne.alloc 2 2 3 3 8)).err? = none := by decide!
  have hnear3 : addboxNear netS1 none = some 0 := by decide!
  have hmem3 : 0 ∈ netS1.boxes := by decide!
  have hnet3 : Net netS1 := net_of_check (L := netS1.coords) (by decide!)
  have hfuel3 : 25 * netS1.heap.length + 30 ≤ 200 := by decide!
  have hnear4 : addboxNear netSwap (some 2) = some 2 := by decide!
  have hmem4 : 2 ∈ netSwap.boxes := by decide!
  have hnet4 : Net netSwap := net_of_links (by decide!)
  have hfuel4 : 25 * netSwap.heap.length + 30 ≤ 200 := by decide!
  exact ⟨⟨hbad, (C7_addbox_net 100 1 0 0 1 none 7 Boxnet_new).1 hbad⟩,
    ⟨hok1, rfl, net_new, ((C7_addbox_net 100 0 0 1 1 none 7 Boxnet_new).2.1 hok1 rfl rfl).1,
      ((C7_addbox_net 100 0 0 1 1 none 7 Boxnet_new).2.1 hok1 rfl rfl).2.2.2.2.2.2 net_new⟩,
    ⟨hok3, hnear3, hmem3, hnet3, hfuel3,
      (C7_addbox_net 200 4 4 6 6 none 9 netS1).2.2.1 hok3 0 hnear3 hmem3 hnet3 hfuel3⟩,
    ⟨hok3, hnear4, hmem4, hnet4, hfuel4,
      (C7_addbox_net 200 4 4 6 6 (some 2) 9 netSwap).2.2.1 hok3 2 hnear4 hmem4 hnet4 hfuel4⟩,
    ⟨hok2, hnear, hins, ((C7_addbox_net 100 2 2 3 3 none 8 netOne).2.2.2 hok2 0 hnear).1 hins⟩⟩

end Boxnet
